import Mathlib

/-!
# Substra chaincode: the tuple lifecycle

A shallow embedding of `chaincode/ledger.go`, `chaincode/traintuple.go`,
`chaincode/data.go`, `chaincode/compute_plan.go`, `chaincode/algo.go`,
`chaincode/algo_composite.go` and `chaincode/input_composite.go`, with the
properties of the creation of traintuples, of the status propagation engine, of
compute plans and of the catalog proved about it.

The code of the ledger handle is not among these files. The handle `LedgerDB`
threads the writes of a transaction, as the tests of the repository need; the
section `Committed` translates the child propagation again for a ledger whose
reads see the committed state only. The errors with which the host answers
`db.CreateIndex` and `db.AddTupleEvent` are modelled where the creation of a
traintuple returns them (`Traintuple.Save`, `createTraintupleInternal`).

Conventions of the embedding.

* A Go function `f(db *LedgerDB, ...) (T, error)` becomes a function returning
  `Except Error T × LedgerDB`: the ledger handle as it stands when the function
  returns, also when it returns an error (the host drops the writes of a failed
  transaction only afterwards).
* A method with a pointer receiver that assigns to its receiver returns the
  receiver as it stands on return.
* Error messages are not modelled; an `Error` is its kind and the key it carries.
* Maps are association lists, the latest entry of a key first; `float32`
  performances are left out.
-/

namespace Chaincode

/-! ## Assets (`ledger.go`) -/

/-- AssetType is used to check the type of an asset (`ledger.go`). -/
inductive AssetType
  | ObjectiveType
  | DataManagerType
  | DataSampleType
  | AlgoType
  | CompositeAlgoType
  | AggregateAlgoType
  | TraintupleType
  | CompositeTraintupleType
  | AggregatetupleType
  | TesttupleType
  | ComputePlanType
  deriving DecidableEq, Repr

open AssetType

/-- Modelled from the spec: the status constants (Status ∈ {waiting, todo, doing,
done, failed, aborted}); their declaration is not among the sources. -/
abbrev StatusWaiting : String := "waiting"
/-- Modelled from the spec: status constant `todo`. -/
abbrev StatusTodo : String := "todo"
/-- Modelled from the spec: status constant `doing`. -/
abbrev StatusDoing : String := "doing"
/-- Modelled from the spec: status constant `done`. -/
abbrev StatusDone : String := "done"
/-- Modelled from the spec: status constant `failed`. -/
abbrev StatusFailed : String := "failed"
/-- Modelled from the spec: status constant `aborted`. -/
abbrev StatusAborted : String := "aborted"

/-- Modelled from the spec: one permission channel, public or a closed list of
worker identifiers (§4.1); `permissions.go` is not among the sources. -/
structure Permission where
  Public : Bool
  AuthorizedIDs : List String
  deriving DecidableEq, Repr

/-- Modelled from the spec: the two independent channels of an asset (§4.1). -/
structure Permissions where
  Process : Permission
  Download : Permission
  deriving DecidableEq, Repr

/-- ChecksumAddress stores a checksum and a storage address. -/
structure ChecksumAddress where
  Checksum : String
  StorageAddress : String
  deriving DecidableEq, Repr

/-- KeyChecksum (`ledger.go`). -/
structure KeyChecksum where
  Key : String
  Checksum : String
  deriving DecidableEq, Repr

/-- KeyChecksumAddress (`ledger.go`). -/
structure KeyChecksumAddress where
  Key : String
  Checksum : String
  StorageAddress : String
  deriving DecidableEq, Repr

/-- ChecksumAddressName (`ledger.go`). -/
structure ChecksumAddressName where
  Checksum : String
  StorageAddress : String
  Name : String
  deriving DecidableEq, Repr

/-- Dataset stores a data manager key and the associated data samples. -/
structure Dataset where
  DataManagerKey : String
  DataSampleKeys : List String
  Metadata : List (String × String)
  Worker : String
  deriving DecidableEq, Repr

/-- TtDataset: the dataset of a testtuple (the `float32` perf is left out). -/
structure TtDataset where
  Key : String
  Worker : String
  DataSampleKeys : List String
  OpenerChecksum : String
  deriving DecidableEq, Repr

/-- Objective (`ledger.go`). -/
structure Objective where
  Key : String
  Name : String
  AssetType : AssetType
  Description : ChecksumAddress
  Metrics : ChecksumAddressName
  Owner : String
  TestDataset : Option Dataset
  Permissions : Permissions
  Metadata : List (String × String)
  deriving DecidableEq, Repr

/-- DataManager (`ledger.go`). -/
structure DataManager where
  Key : String
  Name : String
  AssetType : AssetType
  Opener : ChecksumAddress
  Type' : String
  Description : ChecksumAddress
  Owner : String
  ObjectiveKey : String
  Permissions : Permissions
  Metadata : List (String × String)
  deriving DecidableEq, Repr

/-- DataSample (`ledger.go`). -/
structure DataSample where
  AssetType : AssetType
  DataManagerKeys : List String
  Owner : String
  TestOnly : Bool
  deriving DecidableEq, Repr

/-- Algo (`ledger.go`); CompositeAlgo and AggregateAlgo embed it and differ by
their `AssetType`. -/
structure Algo where
  Key : String
  Name : String
  AssetType : AssetType
  Checksum : String
  StorageAddress : String
  Description : ChecksumAddress
  Owner : String
  Permissions : Permissions
  Metadata : List (String × String)
  deriving DecidableEq, Repr

/-- GenericTuple holds the fields common to Traintuple, CompositeTraintuple and
Aggregatetuple (`ledger.go`). -/
structure GenericTuple where
  AssetType : AssetType
  AlgoKey : String
  ComputePlanKey : String
  Creator : String
  Log : String
  Metadata : List (String × String)
  Rank : Int
  Status : String
  Tag : String
  deriving DecidableEq, Repr

/-- Traintuple (`ledger.go`). -/
structure Traintuple where
  Key : String
  AssetType : AssetType
  AlgoKey : String
  ComputePlanKey : String
  Creator : String
  Log : String
  Metadata : List (String × String)
  Rank : Int
  Status : String
  Tag : String
  Dataset : Dataset
  InModelKeys : List String
  OutModel : Option KeyChecksumAddress
  Permissions : Permissions
  deriving DecidableEq, Repr

/-- CompositeTraintupleOutModel (`ledger.go`). -/
structure CompositeTraintupleOutModel where
  OutModel : Option KeyChecksumAddress
  Permissions : Permissions
  deriving DecidableEq, Repr

/-- CompositeTraintupleOutHeadModel (`ledger.go`). -/
structure CompositeTraintupleOutHeadModel where
  OutModel : Option KeyChecksum
  Permissions : Permissions
  deriving DecidableEq, Repr

/-- CompositeTraintuple (`ledger.go`). -/
structure CompositeTraintuple where
  Key : String
  AssetType : AssetType
  AlgoKey : String
  ComputePlanKey : String
  Creator : String
  Log : String
  Metadata : List (String × String)
  Rank : Int
  Status : String
  Tag : String
  Dataset : Dataset
  InHeadModel : String
  InTrunkModel : String
  OutHeadModel : CompositeTraintupleOutHeadModel
  OutTrunkModel : CompositeTraintupleOutModel
  deriving DecidableEq, Repr

/-- Aggregatetuple (`ledger.go`). -/
structure Aggregatetuple where
  Key : String
  AssetType : AssetType
  AlgoKey : String
  ComputePlanKey : String
  Creator : String
  Log : String
  Metadata : List (String × String)
  Rank : Int
  Status : String
  Tag : String
  InModelKeys : List String
  OutModel : Option KeyChecksumAddress
  Permissions : Permissions
  Worker : String
  deriving DecidableEq, Repr

/-- Testtuple (`ledger.go`). -/
structure Testtuple where
  Key : String
  AlgoKey : String
  AssetType : AssetType
  Certified : Bool
  ComputePlanKey : String
  Creator : String
  Dataset : TtDataset
  Log : String
  Metadata : List (String × String)
  TraintupleKey : String
  ObjectiveKey : String
  Permissions : Permissions
  Rank : Int
  Status : String
  Tag : String
  deriving DecidableEq, Repr

/-- ComputePlanState: the plan status, kept under its own key (`ledger.go`). -/
structure ComputePlanState where
  Status : String
  deriving DecidableEq, Repr

/-- ComputePlanWorkerState: state of one (plan, worker) pair (`ledger.go`). -/
structure ComputePlanWorkerState where
  IntermediaryModelsInUse : List String
  DoneCount : Nat
  TupleCount : Nat
  deriving DecidableEq, Repr

/-- TrainTask: one tuple of a compute plan (`ledger.go`). -/
structure TrainTask where
  Depth : Int
  Key : String
  deriving DecidableEq, Repr

/-- ComputePlan (`ledger.go`). The `State` field is excluded from the stored
record in the source and lives under `StateKey`. -/
structure ComputePlan where
  Key : String
  AggregatetupleKeys : List String
  AssetType : AssetType
  CleanModels : Bool
  CompositeTraintupleKeys : List String
  IDToTrainTask : List (String × TrainTask)
  Metadata : List (String × String)
  StateKey : String
  Tag : String
  TesttupleKeys : List String
  TraintupleKeys : List String
  Workers : List String
  deriving DecidableEq, Repr

/-- What the ledger stores under a key: one of the records of `ledger.go`. -/
inductive Asset
  | objective (o : Objective)
  | dataManager (d : DataManager)
  | dataSample (d : DataSample)
  | algo (a : Algo)
  | traintuple (t : Traintuple)
  | compositeTraintuple (t : CompositeTraintuple)
  | aggregatetuple (t : Aggregatetuple)
  | testtuple (t : Testtuple)
  | computePlan (c : ComputePlan)
  | computePlanState (s : ComputePlanState)
  | computePlanWorkerState (s : ComputePlanWorkerState)
  deriving DecidableEq, Repr

/-! ## Errors (`chaincode/errors`, not among the sources) -/

/-- Modelled from the spec: the error kinds (§6, §7); `Generic` stands for a
plain Go error (`fmt.Errorf`, `errors.E`, `strconv`). -/
inductive ErrorKind
  | BadRequest
  | NotFound
  | Conflict
  | Forbidden
  | Internal
  | Generic
  deriving DecidableEq, Repr

/-- Modelled from the spec: a structured error `{kind, message, key?}`; the
message is left out. -/
structure Error where
  kind : ErrorKind
  key : Option String
  deriving DecidableEq, Repr

namespace errors

/-- Modelled from the spec: `errors.BadRequest(...)`, also when it wraps a cause. -/
def BadRequest : Error := ⟨ErrorKind.BadRequest, none⟩
/-- Modelled from the spec: `errors.NotFound(...)`. -/
def NotFound : Error := ⟨ErrorKind.NotFound, none⟩
/-- Modelled from the spec: `errors.Conflict(...)`. -/
def Conflict : Error := ⟨ErrorKind.Conflict, none⟩
/-- Modelled from the spec: `errors.Forbidden(...)`. -/
def Forbidden : Error := ⟨ErrorKind.Forbidden, none⟩
/-- Modelled from the spec: `errors.Internal(...)`. -/
def Internal : Error := ⟨ErrorKind.Internal, none⟩
/-- Modelled from the spec: `errors.E(...)` and other plain Go errors. -/
def E : Error := ⟨ErrorKind.Generic, none⟩

end errors

/-- Modelled from the spec: `.WithKey(key)`, the key a conflict carries. -/
def Error.WithKey (e : Error) (key : String) : Error := { e with key := some key }

/-! ## The ledger (`ledger_db.go`, not among the sources) -/

/-- One composite key of a secondary index: the index name and its attributes,
the last attribute being the primary key the entry points at. -/
structure IndexEntry where
  index : String
  attributes : List String
  deriving DecidableEq, Repr

/-- One write handed to the host by the transaction. -/
inductive Write
  | PutState (key : String) (value : Asset)
  | PutIndex (entry : IndexEntry)
  | DelIndex (entry : IndexEntry)
  deriving DecidableEq, Repr

/-- Modelled from the spec: the ledger abstraction (§2, component 1), a
transactional key→record store with composite secondary indices, the
transaction-creator identity and the outgoing list of tuple events.
`state` and `indexes` are the ledger as the running transaction sees it through
its handle: a read returns the last record written under the key, and an index
query sees the entries created before it. The tests of the repository require
it (`TestRecursiveLogFailed` creates a child and then a grandchild of that child
through one handle, `TestCreateComputePlan` creates two dependent tuples and
lists them through the index with the same handle); the host itself only
serves committed state (§5), the handle threads the writes of the transaction.
The child propagation is translated a second time on the ledger of §5, whose
reads do not see the writes of the transaction (section `Committed`).
`writes` logs every write of the transaction in order.
`refusedIndex` and `refusedEvent` are the host: the error, if any, with which
it answers the write of a composite key and the emission of a tuple event (§7,
internal errors); a host that refuses nothing is the default. -/
structure LedgerDB where
  txCreator : String
  state : String → Option Asset
  indexes : List IndexEntry
  tuplesEvent : List String
  writes : List Write
  refusedIndex : IndexEntry → Option Error := fun _ => none
  refusedEvent : String → Option Error := fun _ => none

namespace LedgerDB

/-- Modelled from the spec: `db.Get`, the record stored under a key. -/
def Get (db : LedgerDB) (key : String) : Option Asset := db.state key

/-- Modelled from the spec: `db.KeyExists`. -/
def KeyExists (db : LedgerDB) (key : String) : Bool := (db.state key).isSome

/-- Modelled from the spec: `db.Put`, store a record, replacing any record
already under the key. A later read through the handle sees the record; on the
ledger of §5 it does not (`Committed.Put`). -/
def Put (db : LedgerDB) (key : String) (object : Asset) : LedgerDB :=
  { db with
    state := fun k => if k = key then some object else db.state k
    writes := db.writes ++ [Write.PutState key object] }

/-- Modelled from the spec: `db.Add`, store a record under a fresh key; a
conflict carrying the key when the key exists. -/
def Add (db : LedgerDB) (key : String) (object : Asset) : Option Error × LedgerDB :=
  if db.KeyExists key then (some (errors.Conflict.WithKey key), db)
  else (none, db.Put key object)

/-- Modelled from the spec: `db.CreateIndex`, write one composite key. Writing a
composite key that is already there leaves the index as it is. -/
def CreateIndex (db : LedgerDB) (index : String) (attributes : List String) : LedgerDB :=
  { db with
    indexes := if IndexEntry.mk index attributes ∈ db.indexes then db.indexes
               else db.indexes ++ [IndexEntry.mk index attributes]
    writes := db.writes ++ [Write.PutIndex ⟨index, attributes⟩] }

/-- Modelled from the spec: `db.DeleteIndex`, delete one composite key. -/
def DeleteIndex (db : LedgerDB) (index : String) (attributes : List String) : LedgerDB :=
  { db with
    indexes := db.indexes.filter (fun e => decide (e ≠ IndexEntry.mk index attributes))
    writes := db.writes ++ [Write.DelIndex ⟨index, attributes⟩] }

/-- Modelled from the spec: `db.UpdateIndex`, rewrite an index entry from its
old attributes to its new ones. -/
def UpdateIndex (db : LedgerDB) (index : String) (oldAttributes newAttributes : List String) :
    LedgerDB :=
  (db.DeleteIndex index oldAttributes).CreateIndex index newAttributes

/-- Modelled from the spec: `db.GetIndexKeys`, the primary keys (last attribute)
of the entries of an index whose attributes start with the given ones. -/
def GetIndexKeys (db : LedgerDB) (index : String) (attributes : List String) : List String :=
  (db.indexes.filter (fun e => decide (e.index = index) && attributes.isPrefixOf e.attributes)).filterMap
    (fun e => e.attributes.getLast?)

/-- Modelled from the spec: `db.AddTupleEvent`, append the tuple key to the
outgoing-event list of the transaction (§4.3, step 6). -/
def AddTupleEvent (db : LedgerDB) (tupleKey : String) : LedgerDB :=
  { db with tuplesEvent := db.tuplesEvent ++ [tupleKey] }

/-- Modelled from the spec: `db.CreateIndex` with its error return: the error of
the host when it refuses the composite key, and nothing written; the key
written otherwise. -/
def TryCreateIndex (db : LedgerDB) (index : String) (attributes : List String) :
    Option Error × LedgerDB :=
  match db.refusedIndex ⟨index, attributes⟩ with
  | some err => (some err, db)
  | none => (none, db.CreateIndex index attributes)

/-- Modelled from the spec: `db.AddTupleEvent` with its error return: the error
of the host when it refuses the event, and nothing appended; the event appended
otherwise. -/
def TryAddTupleEvent (db : LedgerDB) (tupleKey : String) : Option Error × LedgerDB :=
  match db.refusedEvent tupleKey with
  | some err => (some err, db)
  | none => (none, db.AddTupleEvent tupleKey)

end LedgerDB

/-- Modelled from the spec: `GetTxCreator`, the identity of the transaction
creator, provided by the host. -/
def GetTxCreator (db : LedgerDB) : String := db.txCreator

/-- The common fields of whatever record is stored, as decoding the stored
document into a `GenericTuple` yields them: a field the record does not have
keeps its zero value. -/
def Asset.toGenericTuple : Asset → GenericTuple
  | .traintuple t =>
      ⟨t.AssetType, t.AlgoKey, t.ComputePlanKey, t.Creator, t.Log, t.Metadata, t.Rank, t.Status, t.Tag⟩
  | .compositeTraintuple t =>
      ⟨t.AssetType, t.AlgoKey, t.ComputePlanKey, t.Creator, t.Log, t.Metadata, t.Rank, t.Status, t.Tag⟩
  | .aggregatetuple t =>
      ⟨t.AssetType, t.AlgoKey, t.ComputePlanKey, t.Creator, t.Log, t.Metadata, t.Rank, t.Status, t.Tag⟩
  | .testtuple t =>
      ⟨t.AssetType, "", t.ComputePlanKey, t.Creator, t.Log, t.Metadata, t.Rank, t.Status, t.Tag⟩
  | .objective o => ⟨o.AssetType, "", "", "", "", o.Metadata, 0, "", ""⟩
  | .dataManager d => ⟨d.AssetType, "", "", "", "", d.Metadata, 0, "", ""⟩
  | .dataSample d => ⟨d.AssetType, "", "", "", "", [], 0, "", ""⟩
  | .algo a => ⟨a.AssetType, "", "", "", "", a.Metadata, 0, "", ""⟩
  | .computePlan c => ⟨c.AssetType, "", "", "", "", c.Metadata, 0, "", c.Tag⟩
  | .computePlanState s => ⟨ObjectiveType, "", "", "", "", [], 0, s.Status, ""⟩
  | .computePlanWorkerState _ => ⟨ObjectiveType, "", "", "", "", [], 0, "", ""⟩

namespace LedgerDB

/-- Modelled from the spec: `db.GetGenericTuple`, the generic-tuple read that
returns the asset type and status of the record under a key (§4.3, §9). -/
def GetGenericTuple (db : LedgerDB) (key : String) : Except Error GenericTuple :=
  match db.Get key with
  | some a => .ok a.toGenericTuple
  | none => .error errors.NotFound

/-- Modelled from the spec: `db.GetTraintuple`, the traintuple under a key;
not found when the key is absent or holds another kind of record. -/
def GetTraintuple (db : LedgerDB) (key : String) : Except Error Traintuple :=
  match db.Get key with
  | some (.traintuple t) => if t.AssetType = TraintupleType then .ok t else .error errors.NotFound
  | _ => .error errors.NotFound

/-- Modelled from the spec: `db.GetCompositeTraintuple`. -/
def GetCompositeTraintuple (db : LedgerDB) (key : String) : Except Error CompositeTraintuple :=
  match db.Get key with
  | some (.compositeTraintuple t) =>
      if t.AssetType = CompositeTraintupleType then .ok t else .error errors.NotFound
  | _ => .error errors.NotFound

/-- Modelled from the spec: `db.GetAggregatetuple`. -/
def GetAggregatetuple (db : LedgerDB) (key : String) : Except Error Aggregatetuple :=
  match db.Get key with
  | some (.aggregatetuple t) =>
      if t.AssetType = AggregatetupleType then .ok t else .error errors.NotFound
  | _ => .error errors.NotFound

/-- Modelled from the spec: `db.GetTesttuple`. -/
def GetTesttuple (db : LedgerDB) (key : String) : Except Error Testtuple :=
  match db.Get key with
  | some (.testtuple t) => if t.AssetType = TesttupleType then .ok t else .error errors.NotFound
  | _ => .error errors.NotFound

/-- Modelled from the spec: `db.GetAlgo`. -/
def GetAlgo (db : LedgerDB) (key : String) : Except Error Algo :=
  match db.Get key with
  | some (.algo a) => if a.AssetType = AlgoType then .ok a else .error errors.NotFound
  | _ => .error errors.NotFound

/-- Modelled from the spec: `db.GetDataManager`. -/
def GetDataManager (db : LedgerDB) (key : String) : Except Error DataManager :=
  match db.Get key with
  | some (.dataManager d) => if d.AssetType = DataManagerType then .ok d else .error errors.NotFound
  | _ => .error errors.NotFound

/-- Modelled from the spec: `db.GetDataSample`. -/
def GetDataSample (db : LedgerDB) (key : String) : Except Error DataSample :=
  match db.Get key with
  | some (.dataSample d) => if d.AssetType = DataSampleType then .ok d else .error errors.NotFound
  | _ => .error errors.NotFound

end LedgerDB

/-! ## Small helpers (`utils.go`, not among the sources) -/

/-- Modelled from the spec: `stringInSlice`, membership of a string in a slice. -/
def stringInSlice (a : String) (list : List String) : Bool := list.contains a

/-- Modelled from the spec: `typeInSlice`, membership of an asset type in a slice. -/
def typeInSlice (a : AssetType) (list : List AssetType) : Bool := list.contains a

/-- Modelled from the spec: `determineStatusFromInModels` (§4.3, step 2): aborted
if any parent status is failed or aborted, else todo if all parents are done (or
there is no parent), else waiting. -/
def determineStatusFromInModels (statuses : List String) : String :=
  if statuses.any (fun s => decide (s = StatusFailed) || decide (s = StatusAborted)) then
    StatusAborted
  else if statuses.all (fun s => decide (s = StatusDone)) then StatusTodo
  else StatusWaiting

/-! ## Traintuples (`traintuple.go`) -/

/-- The loop of `SetFromParents`: read each parent, check its type, collect its
status and its key. -/
def SetFromParents.loop (db : LedgerDB) :
    List String → List String → List String → Except Error (List String × List String)
  | [], parentStatuses, inModelKeys => .ok (parentStatuses, inModelKeys)
  | parentTraintupleKey :: rest, parentStatuses, inModelKeys =>
    match db.GetGenericTuple parentTraintupleKey with
    | .error _ => .error errors.BadRequest
    | .ok tuple =>
      if !typeInSlice tuple.AssetType [TraintupleType, CompositeTraintupleType, AggregatetupleType]
      then .error errors.Internal
      else SetFromParents.loop db rest (parentStatuses ++ [tuple.Status])
        (inModelKeys ++ [parentTraintupleKey])

/-- SetFromParents sets the status of the traintuple depending on its parents,
and sets its InModelKeys. -/
def Traintuple.SetFromParents (traintuple : Traintuple) (db : LedgerDB) (inModels : List String) :
    Except Error Traintuple :=
  match SetFromParents.loop db inModels [] traintuple.InModelKeys with
  | .error e => .error e
  | .ok (parentStatuses, inModelKeys) =>
    .ok { traintuple with
          Status := determineStatusFromInModels parentStatuses
          InModelKeys := inModelKeys }

/-- IsReady checks if the inModels of a traintuple have been trained, except the
newDoneTraintupleKey (since the transaction is not committed). -/
def IsReady (db : LedgerDB) : List String → String → Except Error Bool
  | [], _ => .ok true
  | key :: rest, newDoneTraintupleKey =>
    if key = newDoneTraintupleKey then IsReady db rest newDoneTraintupleKey
    else
      match db.GetGenericTuple key with
      | .error err => .error err
      | .ok tuple =>
        if tuple.Status ≠ StatusDone then .ok false
        else IsReady db rest newDoneTraintupleKey

/-- Method isReady of a traintuple. -/
def Traintuple.isReady (traintuple : Traintuple) (db : LedgerDB) (newDoneTraintupleKey : String) :
    Except Error Bool :=
  IsReady db traintuple.InModelKeys newDoneTraintupleKey

/-! ## Status transitions and the compute plan aggregate (not among the sources) -/

/-- Modelled from the spec: `checkUpdateTuple`, the state machine of §4.4:
waiting → todo | failed | aborted, todo → doing | aborted, doing → done | failed;
every transition from done, failed or aborted is rejected. The caller identity
is checked by `validateTupleOwner` in the log operations. -/
def checkUpdateTuple (_db : LedgerDB) (_worker : String) (oldStatus newStatus : String) :
    Option Error :=
  if (oldStatus = StatusWaiting ∧
        (newStatus = StatusTodo ∨ newStatus = StatusFailed ∨ newStatus = StatusAborted))
      ∨ (oldStatus = StatusTodo ∧ (newStatus = StatusDoing ∨ newStatus = StatusAborted))
      ∨ (oldStatus = StatusDoing ∧ (newStatus = StatusDone ∨ newStatus = StatusFailed))
  then none
  else some errors.BadRequest

/-- Modelled from the spec: `validateTupleOwner`, a lifecycle log issued by a
principal that is not the worker of the tuple is forbidden (§4.4, §7). -/
def validateTupleOwner (db : LedgerDB) (worker : String) : Option Error :=
  if GetTxCreator db ≠ worker then some errors.Forbidden else none

/-- Modelled from the spec: the key under which the state of a (plan, worker)
pair is stored; the spec does not fix its layout. -/
def computePlanWorkerStateKey (computePlanKey worker : String) : String :=
  computePlanKey ++ "~" ++ worker ++ "~state"

namespace LedgerDB

/-- Modelled from the spec: `db.GetComputePlan`. -/
def GetComputePlan (db : LedgerDB) (key : String) : Except Error ComputePlan :=
  match db.Get key with
  | some (.computePlan c) => if c.AssetType = ComputePlanType then .ok c else .error errors.NotFound
  | _ => .error errors.NotFound

/-- Modelled from the spec: the plan status kept under the state key of a plan. -/
def GetComputePlanState (db : LedgerDB) (stateKey : String) : Except Error ComputePlanState :=
  match db.Get stateKey with
  | some (.computePlanState s) => .ok s
  | _ => .error errors.NotFound

/-- Modelled from the spec: the state of a (plan, worker) pair. -/
def GetComputePlanWorkerState (db : LedgerDB) (computePlanKey worker : String) :
    Except Error ComputePlanWorkerState :=
  match db.Get (computePlanWorkerStateKey computePlanKey worker) with
  | some (.computePlanWorkerState s) => .ok s
  | _ => .error errors.NotFound

/-- Modelled from the spec: the worker states of a plan that can be read. -/
def workerStates (db : LedgerDB) (computePlanKey : String) (workers : List String) :
    List ComputePlanWorkerState :=
  workers.filterMap (fun w =>
    match db.GetComputePlanWorkerState computePlanKey w with
    | .ok s => some s
    | .error _ => none)

end LedgerDB

/-- Modelled from the spec: the derived plan status of §4.6, recomputed when one
tuple of the plan takes a status: failed if any task is failed; else canceled if
the plan was aborted; else done if Σ done_count = Σ tuple_count and all counts
are positive; else doing if a task has progressed past waiting; else todo if a
task is todo; else waiting. -/
def derivePlanStatus (current tupleStatus : String) (states : List ComputePlanWorkerState) :
    String :=
  if current = "failed" ∨ tupleStatus = StatusFailed then "failed"
  else if current = "canceled" ∨ tupleStatus = StatusAborted then "canceled"
  else if (states.map (·.DoneCount)).sum = (states.map (·.TupleCount)).sum
      ∧ states ≠ [] ∧ states.all (fun s => decide (0 < s.TupleCount)) then "done"
  else if current = "doing" ∨ tupleStatus = StatusDoing ∨ tupleStatus = StatusDone then "doing"
  else if current = "todo" ∨ tupleStatus = StatusTodo then "todo"
  else "waiting"

/-- Modelled from the spec: `UpdateComputePlanState` (§4.4, §4.6). Nothing to do
for a tuple outside any plan; otherwise the done counter of the worker grows when
the tuple is done, and the plan status is derived again and stored under the
state key when it changed. -/
def UpdateComputePlanState (db : LedgerDB) (computePlanKey tupleStatus _tupleKey worker : String) :
    Option Error × LedgerDB :=
  if computePlanKey = "" then (none, db)
  else
    match db.GetComputePlan computePlanKey with
    | .error err => (some err, db)
    | .ok cp =>
      match db.GetComputePlanState cp.StateKey with
      | .error err => (some err, db)
      | .ok state =>
        match db.GetComputePlanWorkerState computePlanKey worker with
        | .error err => (some err, db)
        | .ok wState =>
          let db :=
            if tupleStatus = StatusDone then
              db.Put (computePlanWorkerStateKey computePlanKey worker)
                (.computePlanWorkerState { wState with DoneCount := wState.DoneCount + 1 })
            else db
          let status := derivePlanStatus state.Status tupleStatus
            (db.workerStates computePlanKey cp.Workers)
          if status = state.Status then (none, db)
          else (none, db.Put cp.StateKey (.computePlanState { state with Status := status }))

/-- Modelled from the spec: `TryAddIntermediaryModel` (§4.6): inside a plan, the
out-model of a tuple that has training children is recorded among the
intermediary models in use of its worker. -/
def TryAddIntermediaryModel (db : LedgerDB) (ComputePlanKey worker tupleKey modelKey : String) :
    Option Error × LedgerDB :=
  if ComputePlanKey = "" then (none, db)
  else if db.GetIndexKeys "tuple~inModel~key" ["tuple", tupleKey] = [] then (none, db)
  else
    match db.GetComputePlan ComputePlanKey with
    | .error err => (some err, db)
    | .ok _ =>
      match db.GetComputePlanWorkerState ComputePlanKey worker with
      | .error err => (some err, db)
      | .ok wState =>
        (none, db.Put (computePlanWorkerStateKey ComputePlanKey worker)
          (.computePlanWorkerState
            { wState with IntermediaryModelsInUse := wState.IntermediaryModelsInUse ++ [modelKey] }))

/-- Modelled from the spec: `createModelIndex`, the index from an out-model key
to the tuple that produced it (§4.7). -/
def createModelIndex (db : LedgerDB) (modelKey tupleKey : String) : LedgerDB :=
  db.CreateIndex "tuple~modelKey~key" ["tuple", modelKey, tupleKey]

/-- Modelled from the spec: `computePlan.AddTuple` for a traintuple (§4.3, step
3): the key joins the plan, the tuple counter of the worker grows (the worker
and its state are created when new) and the plan status is derived again. -/
def ComputePlan.AddTuple (cp : ComputePlan) (db : LedgerDB) (tupleType : Chaincode.AssetType)
    (key status worker : String) : Option Error × ComputePlan × LedgerDB :=
  let cp :=
    match tupleType with
    | TraintupleType => { cp with TraintupleKeys := cp.TraintupleKeys ++ [key] }
    | CompositeTraintupleType =>
        { cp with CompositeTraintupleKeys := cp.CompositeTraintupleKeys ++ [key] }
    | AggregatetupleType => { cp with AggregatetupleKeys := cp.AggregatetupleKeys ++ [key] }
    | _ => cp
  match db.GetComputePlanState cp.StateKey with
  | .error err => (some err, cp, db)
  | .ok state =>
    let wState : ComputePlanWorkerState :=
      match db.GetComputePlanWorkerState cp.Key worker with
      | .ok s => s
      | .error _ => ⟨[], 0, 0⟩
    let cp := if worker ∈ cp.Workers then cp else { cp with Workers := cp.Workers ++ [worker] }
    let db := db.Put (computePlanWorkerStateKey cp.Key worker)
      (.computePlanWorkerState { wState with TupleCount := wState.TupleCount + 1 })
    let newStatus := derivePlanStatus state.Status status (db.workerStates cp.Key cp.Workers)
    if newStatus = state.Status then (none, cp, db)
    else (none, cp, db.Put cp.StateKey (.computePlanState { state with Status := newStatus }))

/-- Modelled from the spec: `computePlan.Save`, store the plan record. -/
def ComputePlan.Save (cp : ComputePlan) (db : LedgerDB) (key : String) : LedgerDB :=
  db.Put key (.computePlan cp)

/-! ## Permissions (`permissions.go`, not among the sources) -/

/-- Modelled from the spec: `CanProcess` (§4.1), true when the principal is the
owner, or is in the process authorized set, or process is public. -/
def Permissions.CanProcess (priv : Permissions) (owner node : String) : Bool :=
  priv.Process.Public || decide (owner = node) || priv.Process.AuthorizedIDs.contains node

/-- Modelled from the spec: the merge of one channel (§4.1): public iff both are
public, else the intersection of the authorized sets, a public side not
narrowing the other. -/
def mergePermission (x y : Permission) : Permission :=
  if x.Public && y.Public then ⟨true, []⟩
  else if x.Public then ⟨false, y.AuthorizedIDs⟩
  else if y.Public then ⟨false, x.AuthorizedIDs⟩
  else ⟨false, x.AuthorizedIDs.filter (fun i => y.AuthorizedIDs.contains i)⟩

/-- Modelled from the spec: `MergePermissions` (§4.1). -/
def MergePermissions (x y : Permissions) : Permissions :=
  ⟨mergePermission x.Process y.Process, mergePermission x.Download y.Download⟩

/-! ## Committing a status (`traintuple.go`) -/

/-- validateNewStatus verifies that the new status is consistent with the tuple
current status. -/
def Traintuple.validateNewStatus (traintuple : Traintuple) (db : LedgerDB) (status : String) :
    Option Error :=
  checkUpdateTuple db traintuple.Dataset.Worker traintuple.Status status

/-- commitStatusUpdate updates the traintuple status in the ledger. -/
def Traintuple.commitStatusUpdate (traintuple : Traintuple) (db : LedgerDB)
    (traintupleKey newStatus : String) : Option Error × Traintuple × LedgerDB :=
  if traintuple.Status = newStatus then (none, traintuple, db)
  -- do not update if previous status is already Done, Failed, Todo, Doing
  else if StatusAborted = newStatus ∧ traintuple.Status ≠ StatusWaiting then
    (none, traintuple, db)
  else
    match traintuple.validateNewStatus db newStatus with
    | some _ => (some errors.Internal, traintuple, db)
    | none =>
      let oldStatus := traintuple.Status
      let traintuple := { traintuple with Status := newStatus }
      let db := db.Put traintupleKey (.traintuple traintuple)
      -- update associated composite keys
      let indexName := "traintuple~worker~status~key"
      let oldAttributes := ["traintuple", traintuple.Dataset.Worker, oldStatus, traintupleKey]
      let newAttributes :=
        ["traintuple", traintuple.Dataset.Worker, traintuple.Status, traintupleKey]
      let db := db.UpdateIndex indexName oldAttributes newAttributes
      match UpdateComputePlanState db traintuple.ComputePlanKey newStatus traintupleKey
          traintuple.Dataset.Worker with
      | (some err, db) => (some err, traintuple, db)
      | (none, db) => (none, traintuple, db)

/-- Modelled from the spec: `commitStatusUpdate` of a composite traintuple; the
rules of §4.4 are identical for all three training tuple types. -/
def CompositeTraintuple.commitStatusUpdate (traintuple : CompositeTraintuple) (db : LedgerDB)
    (traintupleKey newStatus : String) : Option Error × CompositeTraintuple × LedgerDB :=
  if traintuple.Status = newStatus then (none, traintuple, db)
  else if StatusAborted = newStatus ∧ traintuple.Status ≠ StatusWaiting then
    (none, traintuple, db)
  else
    match checkUpdateTuple db traintuple.Dataset.Worker traintuple.Status newStatus with
    | some _ => (some errors.Internal, traintuple, db)
    | none =>
      let oldStatus := traintuple.Status
      let traintuple := { traintuple with Status := newStatus }
      let db := db.Put traintupleKey (.compositeTraintuple traintuple)
      let db := db.UpdateIndex "compositeTraintuple~worker~status~key"
        ["compositeTraintuple", traintuple.Dataset.Worker, oldStatus, traintupleKey]
        ["compositeTraintuple", traintuple.Dataset.Worker, traintuple.Status, traintupleKey]
      match UpdateComputePlanState db traintuple.ComputePlanKey newStatus traintupleKey
          traintuple.Dataset.Worker with
      | (some err, db) => (some err, traintuple, db)
      | (none, db) => (none, traintuple, db)

/-- Modelled from the spec: `commitStatusUpdate` of an aggregatetuple; the rules
of §4.4 are identical for all three training tuple types. -/
def Aggregatetuple.commitStatusUpdate (tuple : Aggregatetuple) (db : LedgerDB)
    (aggregatetupleKey newStatus : String) : Option Error × Aggregatetuple × LedgerDB :=
  if tuple.Status = newStatus then (none, tuple, db)
  else if StatusAborted = newStatus ∧ tuple.Status ≠ StatusWaiting then (none, tuple, db)
  else
    match checkUpdateTuple db tuple.Worker tuple.Status newStatus with
    | some _ => (some errors.Internal, tuple, db)
    | none =>
      let oldStatus := tuple.Status
      let tuple := { tuple with Status := newStatus }
      let db := db.Put aggregatetupleKey (.aggregatetuple tuple)
      let db := db.UpdateIndex "aggregatetuple~worker~status~key"
        ["aggregatetuple", tuple.Worker, oldStatus, aggregatetupleKey]
        ["aggregatetuple", tuple.Worker, tuple.Status, aggregatetupleKey]
      match UpdateComputePlanState db tuple.ComputePlanKey newStatus aggregatetupleKey
          tuple.Worker with
      | (some err, db) => (some err, tuple, db)
      | (none, db) => (none, tuple, db)

/-- Modelled from the spec: `commitStatusUpdate` of a testtuple; the rules of
§4.4 are identical for testtuples. -/
def Testtuple.commitStatusUpdate (testtuple : Testtuple) (db : LedgerDB)
    (testtupleKey newStatus : String) : Option Error × Testtuple × LedgerDB :=
  if testtuple.Status = newStatus then (none, testtuple, db)
  else if StatusAborted = newStatus ∧ testtuple.Status ≠ StatusWaiting then
    (none, testtuple, db)
  else
    match checkUpdateTuple db testtuple.Dataset.Worker testtuple.Status newStatus with
    | some _ => (some errors.Internal, testtuple, db)
    | none =>
      let oldStatus := testtuple.Status
      let testtuple := { testtuple with Status := newStatus }
      let db := db.Put testtupleKey (.testtuple testtuple)
      let db := db.UpdateIndex "testtuple~worker~status~key"
        ["testtuple", testtuple.Dataset.Worker, oldStatus, testtupleKey]
        ["testtuple", testtuple.Dataset.Worker, testtuple.Status, testtupleKey]
      match UpdateComputePlanState db testtuple.ComputePlanKey newStatus testtupleKey
          testtuple.Dataset.Worker with
      | (some err, db) => (some err, testtuple, db)
      | (none, db) => (none, testtuple, db)

/-! ## Child propagation (`traintuple.go`) -/

/-- UpdateTraintupleChild updates the status of a waiting traintuple, given the
new parent traintuple status. -/
def UpdateTraintupleChild (db : LedgerDB)
    (parentTraintupleKey childTraintupleKey traintupleStatus : String) :
    Except Error String × LedgerDB :=
  -- get and update traintuple
  match db.GetTraintuple childTraintupleKey with
  | .error err => (.error err, db)
  | .ok childTraintuple =>
    -- get traintuple new status
    let newStatus : Except Error String :=
      if traintupleStatus = StatusFailed then .ok StatusFailed
      else if traintupleStatus = StatusDone then
        match childTraintuple.isReady db parentTraintupleKey with
        | .error err => .error err
        | .ok ready => if ready then .ok StatusTodo else .ok ""
      else .ok ""
    match newStatus with
    | .error err => (.error err, db)
    | .ok newStatus =>
      -- commit new status
      if newStatus = "" then (.ok childTraintuple.Status, db)
      else
        match childTraintuple.commitStatusUpdate db childTraintupleKey newStatus with
        | (some err, _, db) => (.error err, db)
        | (none, childTraintuple, db) =>
          -- update return value after status update
          (.ok childTraintuple.Status, db.AddTupleEvent childTraintupleKey)

/-- Method isReady of a composite traintuple: its in-models are its head and its
trunk in-model. -/
def CompositeTraintuple.isReady (traintuple : CompositeTraintuple) (db : LedgerDB)
    (newDoneTraintupleKey : String) : Except Error Bool :=
  IsReady db [traintuple.InHeadModel, traintuple.InTrunkModel] newDoneTraintupleKey

/-- Modelled from the spec: `UpdateCompositeTraintupleChild` (§4.5), the
counterpart of `UpdateTraintupleChild` for a composite child. -/
def UpdateCompositeTraintupleChild (db : LedgerDB)
    (parentTraintupleKey childTraintupleKey traintupleStatus : String) :
    Except Error String × LedgerDB :=
  match db.GetCompositeTraintuple childTraintupleKey with
  | .error err => (.error err, db)
  | .ok childTraintuple =>
    let newStatus : Except Error String :=
      if traintupleStatus = StatusFailed then .ok StatusFailed
      else if traintupleStatus = StatusDone then
        match childTraintuple.isReady db parentTraintupleKey with
        | .error err => .error err
        | .ok ready => if ready then .ok StatusTodo else .ok ""
      else .ok ""
    match newStatus with
    | .error err => (.error err, db)
    | .ok newStatus =>
      if newStatus = "" then (.ok childTraintuple.Status, db)
      else
        match childTraintuple.commitStatusUpdate db childTraintupleKey newStatus with
        | (some err, _, db) => (.error err, db)
        | (none, childTraintuple, db) =>
          (.ok childTraintuple.Status, db.AddTupleEvent childTraintupleKey)

/-- Modelled from the spec: `UpdateAggregatetupleChild` (§4.5), the counterpart
of `UpdateTraintupleChild` for an aggregate child. -/
def UpdateAggregatetupleChild (db : LedgerDB)
    (parentTraintupleKey childAggregatetupleKey traintupleStatus : String) :
    Except Error String × LedgerDB :=
  match db.GetAggregatetuple childAggregatetupleKey with
  | .error err => (.error err, db)
  | .ok childAggregatetuple =>
    let newStatus : Except Error String :=
      if traintupleStatus = StatusFailed then .ok StatusFailed
      else if traintupleStatus = StatusDone then
        match IsReady db childAggregatetuple.InModelKeys parentTraintupleKey with
        | .error err => .error err
        | .ok ready => if ready then .ok StatusTodo else .ok ""
      else .ok ""
    match newStatus with
    | .error err => (.error err, db)
    | .ok newStatus =>
      if newStatus = "" then (.ok childAggregatetuple.Status, db)
      else
        match childAggregatetuple.commitStatusUpdate db childAggregatetupleKey newStatus with
        | (some err, _, db) => (.error err, db)
        | (none, childAggregatetuple, db) =>
          (.ok childAggregatetuple.Status, db.AddTupleEvent childAggregatetupleKey)

/-- The loop of `UpdateTesttupleChildren` over the testtuples of a traintuple. -/
def UpdateTesttupleChildren.loop (traintupleKey newStatus : String) :
    List String → LedgerDB → Option Error × LedgerDB
  | [], db => (none, db)
  | testtupleKey :: rest, db =>
    -- get and update testtuple
    match db.GetTesttuple testtupleKey with
    | .error err => (some err, db)
    | .ok testtuple =>
      if testtuple.Status = StatusAborted then
        UpdateTesttupleChildren.loop traintupleKey newStatus rest db
      else
        let testtuple := { testtuple with TraintupleKey := traintupleKey }
        match testtuple.commitStatusUpdate db testtupleKey newStatus with
        | (some err, _, db) => (some err, db)
        | (none, _, db) =>
          UpdateTesttupleChildren.loop traintupleKey newStatus rest (db.AddTupleEvent testtupleKey)

/-- UpdateTesttupleChildren updates the status of the testtuples associated with
a done or failed traintuple. -/
def UpdateTesttupleChildren (db : LedgerDB) (traintupleKey traintupleStatus : String) :
    Option Error × LedgerDB :=
  let newStatus : Option String :=
    if traintupleStatus = StatusFailed then some StatusFailed
    else if traintupleStatus = StatusDone then some StatusTodo
    else none
  match newStatus with
  | none => (none, db)
  | some newStatus =>
    let indexName := "testtuple~traintuple~certified~key"
    -- get testtuple associated with this traintuple and updates its status
    let testtupleKeys := db.GetIndexKeys indexName ["testtuple", traintupleKey]
    UpdateTesttupleChildren.loop traintupleKey newStatus testtupleKeys db

/-- The `switch child.AssetType` of `UpdateTraintupleChildren`: update the child
with the function of its type; an unknown type is an internal error. -/
def updateChildOfType (db : LedgerDB) (assetType : AssetType)
    (traintupleKey childTraintupleKey traintupleStatus : String) :
    Except Error String × LedgerDB :=
  match assetType with
  | TraintupleType => UpdateTraintupleChild db traintupleKey childTraintupleKey traintupleStatus
  | CompositeTraintupleType =>
      UpdateCompositeTraintupleChild db traintupleKey childTraintupleKey traintupleStatus
  | AggregatetupleType =>
      UpdateAggregatetupleChild db traintupleKey childTraintupleKey traintupleStatus
  | _ => (.error errors.Internal, db)

/-- The loop of `UpdateTraintupleChildren` over the children read from the index;
`recur` is the recursive call on the children of a child. A result `none` means
that the recursion was cut short. -/
def UpdateTraintupleChildren.loop
    (recur : LedgerDB → String → String → List String → Option (Option Error × LedgerDB))
    (traintupleKey traintupleStatus : String) :
    List String → LedgerDB → List String → Option (Option Error × LedgerDB)
  | [], db, _ => some (none, db)
  | childTraintupleKey :: rest, db, alreadyUpdatedKeys =>
    if stringInSlice childTraintupleKey alreadyUpdatedKeys then
      UpdateTraintupleChildren.loop recur traintupleKey traintupleStatus rest db alreadyUpdatedKeys
    else
      match db.GetGenericTuple childTraintupleKey with
      | .error err => some (some err, db)
      | .ok child =>
        if stringInSlice child.Status [StatusFailed, StatusAborted] then
          -- traintuple is already failed, don't update it
          UpdateTraintupleChildren.loop recur traintupleKey traintupleStatus rest db
            alreadyUpdatedKeys
        else if child.Status ≠ StatusWaiting then some (some errors.Internal, db)
        else
          -- Update the child traintuple and get its new status
          match updateChildOfType db child.AssetType traintupleKey childTraintupleKey
              traintupleStatus with
          | (.error err, db) => some (some err, db)
          | (.ok childTraintupleStatus, db) =>
            let alreadyUpdatedKeys := alreadyUpdatedKeys ++ [childTraintupleKey]
            if stringInSlice traintupleStatus [StatusFailed, StatusAborted] then
              -- Recursively call for an update on this child's children
              match UpdateTesttupleChildren db childTraintupleKey childTraintupleStatus with
              | (some err, db) => some (some err, db)
              | (none, db) =>
                match recur db childTraintupleKey childTraintupleStatus alreadyUpdatedKeys with
                | none => none
                | some (some err, db) => some (some err, db)
                | some (none, db) =>
                  UpdateTraintupleChildren.loop recur traintupleKey traintupleStatus rest db
                    alreadyUpdatedKeys
            else
              UpdateTraintupleChildren.loop recur traintupleKey traintupleStatus rest db
                alreadyUpdatedKeys

/-- The recursion of `UpdateTraintupleChildren`, at most `depth` calls deep. -/
def UpdateTraintupleChildren.go :
    Nat → LedgerDB → String → String → List String → Option (Option Error × LedgerDB)
  | 0, _, _, _, _ => none
  | depth + 1, db, traintupleKey, traintupleStatus, alreadyUpdatedKeys =>
    -- get keys from tuple having as inModels the input traintuple
    let allChildKeys := db.GetIndexKeys "tuple~inModel~key" ["tuple", traintupleKey]
    UpdateTraintupleChildren.loop (UpdateTraintupleChildren.go depth) traintupleKey
      traintupleStatus allChildKeys db alreadyUpdatedKeys

/-- A depth the recursion of `UpdateTraintupleChildren` never exceeds: every
call below the first one is on a child key of the in-model index that is not yet
among the already updated keys (`UpdateTraintupleChildren_go_terminates`). -/
def LedgerDB.maxDepth (db : LedgerDB) : Nat := db.indexes.length + 1

/-- UpdateTraintupleChildren updates the status of the waiting traintuples that
have the given traintuple among their inModels, once it has been trained
(successfully or not). The branch `none` is never taken
(`UpdateTraintupleChildren_go_terminates`). -/
def UpdateTraintupleChildren (db : LedgerDB) (traintupleKey traintupleStatus : String)
    (alreadyUpdatedKeys : List String) : Option Error × LedgerDB :=
  match UpdateTraintupleChildren.go db.maxDepth db traintupleKey traintupleStatus
      alreadyUpdatedKeys with
  | some r => r
  | none => (some errors.Internal, db)

/-! ## Inputs and outputs (`input.go`, `output.go`, not among the sources) -/

/-- Modelled from the spec: `inputTraintuple`, the decoded request of
`createTraintuple`, with the fields `traintuple.go` reads (§4.3). -/
structure inputTraintuple where
  Key : String
  AlgoKey : String
  InModels : List String
  DataManagerKey : String
  DataSampleKeys : List String
  ComputePlanKey : String
  Rank : String
  Tag : String
  Metadata : List (String × String)
  deriving DecidableEq, Repr

/-- Modelled from the spec: `inputLogFailTrain`, the request of `logFailTrain`:
the key of the traintuple and the log to append. -/
structure inputLogFailTrain where
  Key : String
  Log : String
  deriving DecidableEq, Repr

/-- Modelled from the spec: `inputLogSuccessTrain`, the request of
`logSuccessTrain`: key, log and out-model. -/
structure inputLogSuccessTrain where
  Key : String
  Log : String
  OutModel : KeyChecksumAddress
  deriving DecidableEq, Repr

/-- Model stores the traintupleKey leading to the model, its checksum and storage
address (`ledger.go`). -/
structure Model where
  Key : String
  TraintupleKey : String
  Checksum : String
  StorageAddress : String
  deriving DecidableEq, Repr

/-- KeyChecksumAddressName (`ledger.go`). -/
structure KeyChecksumAddressName where
  Key : String
  Checksum : String
  StorageAddress : String
  Name : String
  deriving DecidableEq, Repr

/-- Modelled from the spec: `outputTtDataset`, the dataset of a hydrated tuple
with the opener checksum inlined (§4.7). -/
structure outputTtDataset where
  Key : String
  Worker : String
  DataSampleKeys : List String
  OpenerChecksum : String
  Metadata : List (String × String)
  deriving DecidableEq, Repr

/-- Modelled from the spec: `outputTraintuple`, the hydrated projection of a
traintuple (§4.7), after `outputAggregatetuple` and `outputCompositeTraintuple`. -/
structure outputTraintuple where
  Key : String
  Algo : KeyChecksumAddressName
  Creator : String
  Dataset : outputTtDataset
  ComputePlanKey : String
  InModels : List Model
  Log : String
  Metadata : List (String × String)
  OutModel : Option KeyChecksumAddress
  Permissions : Permissions
  Rank : Int
  Status : String
  Tag : String
  deriving DecidableEq, Repr

/-- Modelled from the spec: `db.GetOutModelKeyChecksumAddress`, the out-model of
a parent tuple of one of the allowed types (the trunk out-model for a composite
parent); none while the parent has produced no model. -/
def LedgerDB.GetOutModelKeyChecksumAddress (db : LedgerDB) (tupleKey : String)
    (allowedAssetTypes : List AssetType) : Except Error (Option KeyChecksumAddress) :=
  match db.Get tupleKey with
  | some (.traintuple t) =>
      if typeInSlice t.AssetType allowedAssetTypes then .ok t.OutModel else .error errors.Internal
  | some (.compositeTraintuple t) =>
      if typeInSlice t.AssetType allowedAssetTypes then .ok t.OutTrunkModel.OutModel
      else .error errors.Internal
  | some (.aggregatetuple t) =>
      if typeInSlice t.AssetType allowedAssetTypes then .ok t.OutModel else .error errors.Internal
  | some _ => .error errors.Internal
  | none => .error errors.NotFound

/-- The loop of `Fill` over the in-models, as in `outputAggregatetuple.Fill`. -/
def outputTraintuple.fillInModels (db : LedgerDB) : List String → Except Error (List Model)
  | [] => .ok []
  | inModelKey :: rest =>
    if inModelKey = "" then .ok []
    else
      match db.GetOutModelKeyChecksumAddress inModelKey
          [TraintupleType, CompositeTraintupleType, AggregatetupleType] with
      | .error _ => .error errors.Internal
      | .ok keyChecksumAddress =>
        let inModel : Model :=
          match keyChecksumAddress with
          | some kca => ⟨kca.Key, inModelKey, kca.Checksum, kca.StorageAddress⟩
          | none => ⟨"", inModelKey, "", ""⟩
        match outputTraintuple.fillInModels db rest with
        | .error err => .error err
        | .ok models => .ok (inModel :: models)

/-- Modelled from the spec: `outputTraintuple.Fill`, the hydrated projection of a
traintuple (§4.7): algo inlined, parent out-models inlined, opener checksum
inlined; it follows `outputAggregatetuple.Fill` and
`outputCompositeTraintuple.Fill` of `output_aggregate.go` and
`output_composite.go`. It only reads the ledger. -/
def outputTraintuple.Fill (db : LedgerDB) (traintuple : Traintuple) :
    Except Error outputTraintuple :=
  match db.GetAlgo traintuple.AlgoKey with
  | .error _ => .error errors.Internal
  | .ok algo =>
    match outputTraintuple.fillInModels db traintuple.InModelKeys with
    | .error err => .error err
    | .ok inModels =>
      match db.GetDataManager traintuple.Dataset.DataManagerKey with
      | .error _ => .error errors.Internal
      | .ok dataManager =>
        .ok { Key := traintuple.Key
              Algo := ⟨algo.Key, algo.Checksum, algo.StorageAddress, algo.Name⟩
              Creator := traintuple.Creator
              Dataset := ⟨dataManager.Key, traintuple.Dataset.Worker,
                traintuple.Dataset.DataSampleKeys, dataManager.Opener.Checksum,
                traintuple.Dataset.Metadata⟩
              ComputePlanKey := traintuple.ComputePlanKey
              InModels := inModels
              Log := traintuple.Log
              Metadata := traintuple.Metadata
              OutModel := traintuple.OutModel
              Permissions := traintuple.Permissions
              Rank := traintuple.Rank
              Status := traintuple.Status
              Tag := traintuple.Tag }

/-! ## Smart contracts related to traintuples (`traintuple.go`) -/

/-- logSuccessTrain modifies a traintuple by changing its status from doing to
done, reports logs and associated performances. -/
def logSuccessTrain (db : LedgerDB) (inp : inputLogSuccessTrain) :
    Except Error outputTraintuple × LedgerDB :=
  let status := StatusDone
  let traintupleKey := inp.Key
  -- get, update and commit traintuple
  match db.GetTraintuple traintupleKey with
  | .error err => (.error err, db)
  | .ok traintuple =>
    let traintuple :=
      { traintuple with
        OutModel := some ⟨inp.OutModel.Key, inp.OutModel.Checksum, inp.OutModel.StorageAddress⟩
        Log := traintuple.Log ++ inp.Log }
    let db := createModelIndex db inp.OutModel.Key traintupleKey
    match validateTupleOwner db traintuple.Dataset.Worker with
    | some err => (.error err, db)
    | none =>
      match traintuple.commitStatusUpdate db traintupleKey status with
      | (some err, _, db) => (.error err, db)
      | (none, traintuple, db) =>
        match TryAddIntermediaryModel db traintuple.ComputePlanKey traintuple.Dataset.Worker
            traintupleKey inp.OutModel.Key with
        | (some err, db) => (.error err, db)
        | (none, db) =>
          -- update depending tuples
          match UpdateTraintupleChildren db traintupleKey traintuple.Status [] with
          | (some err, db) => (.error err, db)
          | (none, db) =>
            match UpdateTesttupleChildren db traintupleKey traintuple.Status with
            | (some err, db) => (.error err, db)
            | (none, db) => (outputTraintuple.Fill db traintuple, db)

/-- logFailTrain modifies a traintuple by changing its status to fail and
reports associated logs. -/
def logFailTrain (db : LedgerDB) (inp : inputLogFailTrain) :
    Except Error outputTraintuple × LedgerDB :=
  let status := StatusFailed
  -- get, update and commit traintuple
  match db.GetTraintuple inp.Key with
  | .error err => (.error err, db)
  | .ok traintuple =>
    let traintuple := { traintuple with Log := traintuple.Log ++ inp.Log }
    match validateTupleOwner db traintuple.Dataset.Worker with
    | some err => (.error err, db)
    | none =>
      match traintuple.commitStatusUpdate db inp.Key status with
      | (some err, _, db) => (.error err, db)
      | (none, traintuple, db) =>
        match outputTraintuple.Fill db traintuple with
        | .error err => (.error err, db)
        | .ok o =>
          -- Do not propagate failure if we are in a compute plan
          if traintuple.ComputePlanKey ≠ "" then (.ok o, db)
          else
            -- update depending tuples
            match UpdateTesttupleChildren db inp.Key traintuple.Status with
            | (some err, db) => (.error err, db)
            | (none, db) =>
              match UpdateTraintupleChildren db inp.Key traintuple.Status [] with
              | (some err, db) => (.error err, db)
              | (none, db) => (.ok o, db)

/-! ## Data samples and data managers (`data.go`) -/

/-- checkSameDataManager checks if the data samples of a slice exist and are from
the same dataManager. If yes, returns two booleans indicating if the data samples
are testOnly and trainOnly. -/
def checkSameDataManager (db : LedgerDB) (dataManagerKey : String) :
    List String → Bool → Bool → Except Error (Bool × Bool)
  | [], testOnly, trainOnly => .ok (testOnly, trainOnly)
  | dataSampleKey :: rest, testOnly, trainOnly =>
    match db.GetDataSample dataSampleKey with
    | .error err => .error err
    | .ok dataSample =>
      if !stringInSlice dataManagerKey dataSample.DataManagerKeys then .error errors.BadRequest
      else
        checkSameDataManager db dataManagerKey rest (testOnly && dataSample.TestOnly)
          (trainOnly && !dataSample.TestOnly)

/-- getDataManagerOwner returns the owner of a dataManager given its key. -/
def getDataManagerOwner (db : LedgerDB) (dataManagerKey : String) : Except Error String :=
  match db.GetDataManager dataManagerKey with
  | .error _ => .error errors.BadRequest
  | .ok dataManager => .ok dataManager.Owner

/-! ## Creating a traintuple (`traintuple.go`) -/

/-- SetFromInput uses the inputTraintuple to check and set the parameters of the
traintuple which do not depend on previous traintuples. -/
def Traintuple.SetFromInput (traintuple : Traintuple) (db : LedgerDB) (inp : inputTraintuple) :
    Except Error Traintuple :=
  let creator := GetTxCreator db
  let traintuple :=
    { traintuple with
      Key := inp.Key
      AssetType := TraintupleType
      Creator := creator
      ComputePlanKey := inp.ComputePlanKey
      Metadata := inp.Metadata
      Tag := inp.Tag }
  match db.GetAlgo inp.AlgoKey with
  | .error _ => .error errors.BadRequest
  | .ok algo =>
    if !algo.Permissions.CanProcess algo.Owner creator then .error errors.Forbidden
    else
      let traintuple := { traintuple with AlgoKey := inp.AlgoKey }
      -- check if DataSampleKeys are from the same dataManager and if they are not test only
      match checkSameDataManager db inp.DataManagerKey inp.DataSampleKeys true true with
      | .error err => .error err
      | .ok (_, trainOnly) =>
        if !trainOnly then .error errors.BadRequest
        else
          match db.GetDataManager inp.DataManagerKey with
          | .error _ => .error errors.BadRequest
          | .ok dataManager =>
            if !dataManager.Permissions.CanProcess dataManager.Owner creator then
              .error errors.Forbidden
            else
              let traintuple :=
                { traintuple with
                  Permissions := MergePermissions dataManager.Permissions algo.Permissions
                  Dataset := ⟨inp.DataManagerKey, inp.DataSampleKeys, [], ""⟩ }
              match getDataManagerOwner db traintuple.Dataset.DataManagerKey with
              | .error err => .error err
              | .ok worker =>
                .ok { traintuple with Dataset := { traintuple.Dataset with Worker := worker } }

/-- The digits of a decimal numeral, most significant first; none when the list
is empty or holds another character. -/
def strconv.digits : List Char → Option Nat
  | [] => none
  | cs => cs.foldlM
      (fun acc c => if c.isDigit then some (acc * 10 + (c.toNat - '0'.toNat)) else none) 0

/-- The function `strconv.Atoi` of the Go standard library, which is not code of
the repository, after its documentation: an optional sign followed by decimal
digits, within the range of a 64-bit integer; anything else is an error. -/
def strconv.Atoi (s : String) : Except Error Int :=
  let parsed : Option Int :=
    match s.toList with
    | '-' :: cs => (strconv.digits cs).map (fun n => - (n : Int))
    | '+' :: cs => (strconv.digits cs).map (fun n => (n : Int))
    | cs => (strconv.digits cs).map (fun n => (n : Int))
  match parsed with
  | none => .error errors.E
  | some v => if -(2 : Int) ^ 63 ≤ v ∧ v < (2 : Int) ^ 63 then .ok v else .error errors.E

/-- The integer that `strconv.Atoi` returns next to its result, also next to an
error, after the documentation of `strconv.ParseInt`: 0 with a syntax error, the
nearest integer of the 64-bit range with a range error. -/
def strconv.Atoi.value (s : String) : Int :=
  let parsed : Option Int :=
    match s.toList with
    | '-' :: cs => (strconv.digits cs).map (fun n => - (n : Int))
    | '+' :: cs => (strconv.digits cs).map (fun n => (n : Int))
    | cs => (strconv.digits cs).map (fun n => (n : Int))
  match parsed with
  | none => 0
  | some v =>
    if v < -(2 : Int) ^ 63 then -(2 : Int) ^ 63
    else if (2 : Int) ^ 63 ≤ v then (2 : Int) ^ 63 - 1
    else v

/-- The function `strconv.Itoa` of the Go standard library, which is not code of
the repository: the decimal numeral of an integer. -/
def strconv.Itoa (i : Int) : String := toString i

/-- AddToComputePlan sets the parameters of the traintuple that determine if it
is part of a ComputePlan and how. -/
def Traintuple.AddToComputePlan (traintuple : Traintuple) (db : LedgerDB) (inp : inputTraintuple)
    (traintupleKey : String) (checkComputePlanAvailability : Bool) :
    Option Error × Traintuple × LedgerDB :=
  -- check ComputePlanKey and Rank and set it when required
  if inp.Rank = "" then
    if inp.ComputePlanKey ≠ "" then (some errors.BadRequest, traintuple, db)
    else (none, traintuple, db)
  else
    match strconv.Atoi inp.Rank with
    | .error err => (some err, { traintuple with Rank := strconv.Atoi.value inp.Rank }, db)
    | .ok rank =>
      let traintuple := { traintuple with Rank := rank }
      let traintuple := { traintuple with ComputePlanKey := inp.ComputePlanKey }
      match db.GetComputePlan inp.ComputePlanKey with
      | .error err => (some err, traintuple, db)
      | .ok computePlan =>
        match computePlan.AddTuple db TraintupleType traintupleKey traintuple.Status
            traintuple.Dataset.Worker with
        | (some err, _, db) => (some err, traintuple, db)
        | (none, computePlan, db) =>
          let db := computePlan.Save db traintuple.ComputePlanKey
          if !checkComputePlanAvailability then (none, traintuple, db)
          else
            let ttKeys := db.GetIndexKeys "computePlan~computeplankey~worker~rank~key"
              ["computePlan", inp.ComputePlanKey, traintuple.Dataset.Worker, inp.Rank]
            if ttKeys.length > 0 then (some errors.BadRequest, traintuple, db)
            else (none, traintuple, db)

/-- The loop of `Save` over the in-models: one entry of `tuple~inModel~key` each;
the first refused write ends it with the error. -/
def Traintuple.Save.loop (traintupleKey : String) :
    List String → LedgerDB → Option Error × LedgerDB
  | [], db => (none, db)
  | inModelKey :: rest, db =>
    match db.TryCreateIndex "tuple~inModel~key" ["tuple", inModelKey, traintupleKey] with
    | (some err, db) => (some err, db)
    | (none, db) => Traintuple.Save.loop traintupleKey rest db

/-- Save puts in the ledger both the traintuple with its key and all the
associated composite keys. -/
def Traintuple.Save (traintuple : Traintuple) (db : LedgerDB) (traintupleKey : String) :
    Option Error × LedgerDB :=
  -- store in ledger
  match db.Add traintupleKey (.traintuple traintuple) with
  | (some err, db) => (some err, db)
  | (none, db) =>
    -- create composite keys
    match db.TryCreateIndex "traintuple~algo~key"
        ["traintuple", traintuple.AlgoKey, traintupleKey] with
    | (some err, db) => (some err, db)
    | (none, db) =>
      match db.TryCreateIndex "traintuple~worker~status~key"
          ["traintuple", traintuple.Dataset.Worker, traintuple.Status, traintupleKey] with
      | (some err, db) => (some err, db)
      | (none, db) =>
        match Traintuple.Save.loop traintupleKey traintuple.InModelKeys db with
        | (some err, db) => (some err, db)
        | (none, db) =>
          let plan : Option Error × LedgerDB :=
            if traintuple.ComputePlanKey ≠ "" then
              match db.TryCreateIndex "computePlan~computeplankey~worker~rank~key"
                  ["computePlan", traintuple.ComputePlanKey, traintuple.Dataset.Worker,
                    strconv.Itoa traintuple.Rank, traintupleKey] with
              | (some err, db) => (some err, db)
              | (none, db) =>
                db.TryCreateIndex "algo~computeplankey~key"
                  ["algo", traintuple.ComputePlanKey, traintuple.AlgoKey]
            else (none, db)
          match plan with
          | (some err, db) => (some err, db)
          | (none, db) =>
            if traintuple.Tag ≠ "" then
              db.TryCreateIndex "traintuple~tag~key" ["traintuple", traintuple.Tag, traintupleKey]
            else (none, db)

/-- The composite keys of the in-models that the loop of `Save` writes when the
host refuses none. -/
def Traintuple.Save.loopWritten (traintupleKey : String) : List String → LedgerDB → LedgerDB
  | [], db => db
  | inModelKey :: rest, db =>
    Traintuple.Save.loopWritten traintupleKey rest
      (db.CreateIndex "tuple~inModel~key" ["tuple", inModelKey, traintupleKey])

/-- The ledger `Save` leaves when the key is fresh and the host refuses none of
the writes: the record and every composite key written. -/
def Traintuple.Save.written (traintuple : Traintuple) (db : LedgerDB) (traintupleKey : String) :
    LedgerDB :=
  let db := db.Put traintupleKey (.traintuple traintuple)
  let db := db.CreateIndex "traintuple~algo~key" ["traintuple", traintuple.AlgoKey, traintupleKey]
  let db := db.CreateIndex "traintuple~worker~status~key"
    ["traintuple", traintuple.Dataset.Worker, traintuple.Status, traintupleKey]
  let db := Traintuple.Save.loopWritten traintupleKey traintuple.InModelKeys db
  let db :=
    if traintuple.ComputePlanKey ≠ "" then
      (db.CreateIndex "computePlan~computeplankey~worker~rank~key"
        ["computePlan", traintuple.ComputePlanKey, traintuple.Dataset.Worker,
          strconv.Itoa traintuple.Rank, traintupleKey]).CreateIndex
        "algo~computeplankey~key" ["algo", traintuple.ComputePlanKey, traintuple.AlgoKey]
    else db
  if traintuple.Tag ≠ "" then
    db.CreateIndex "traintuple~tag~key" ["traintuple", traintuple.Tag, traintupleKey]
  else db

/-- The zero value of a traintuple, `Traintuple{}`. -/
def Traintuple.zero : Traintuple :=
  { Key := "", AssetType := ObjectiveType, AlgoKey := "", ComputePlanKey := "", Creator := "",
    Log := "", Metadata := [], Rank := 0, Status := "", Tag := "",
    Dataset := ⟨"", [], [], ""⟩, InModelKeys := [], OutModel := none,
    Permissions := ⟨⟨false, []⟩, ⟨false, []⟩⟩ }

/-- createTraintupleInternal adds a traintuple to the ledger and returns its key. -/
def createTraintupleInternal (db : LedgerDB) (inp : inputTraintuple)
    (checkComputePlanAvailability : Bool) : Except Error String × LedgerDB :=
  let traintuple := Traintuple.zero
  match traintuple.SetFromInput db inp with
  | .error err => (.error err, db)
  | .ok traintuple =>
    match traintuple.SetFromParents db inp.InModels with
    | .error err => (.error err, db)
    | .ok traintuple =>
      -- Test if the key (ergo the traintuple) already exists
      let tupleExists := db.KeyExists traintuple.Key
      if tupleExists then (.error (errors.Conflict.WithKey traintuple.Key), db)
      else
        match traintuple.AddToComputePlan db inp traintuple.Key checkComputePlanAvailability with
        | (some err, _, db) => (.error err, db)
        | (none, traintuple, db) =>
          match traintuple.Save db traintuple.Key with
          | (some err, db) => (.error err, db)
          | (none, db) =>
            match db.TryAddTupleEvent traintuple.Key with
            | (some err, db) => (.error err, db)
            | (none, db) => (.ok traintuple.Key, db)

/-! ## Reading a status -/

/-- The status the generic-tuple read returns for a key (empty when nothing is
stored under the key). -/
def LedgerDB.statusOf (db : LedgerDB) (key : String) : String :=
  match db.GetGenericTuple key with
  | .ok tuple => tuple.Status
  | .error _ => ""

/-! ## Notions used to state the properties -/

/-- The entries of one index. -/
def LedgerDB.indexOf (db : LedgerDB) (index : String) : List IndexEntry :=
  db.indexes.filter (fun e => decide (e.index = index))

/-- The record is a training tuple: a traintuple, a composite traintuple or an
aggregatetuple. -/
def Asset.isTraining : Asset → Bool
  | .traintuple _ => true
  | .compositeTraintuple _ => true
  | .aggregatetuple _ => true
  | _ => false

/-- The record is a testtuple. -/
def Asset.isTest : Asset → Bool
  | .testtuple _ => true
  | _ => false

/-- The status field of a record. -/
def Asset.status (a : Asset) : String := a.toGenericTuple.Status

/-- The record is a tuple: a training tuple or a testtuple. -/
def Asset.isTuple (a : Asset) : Bool := a.isTraining || a.isTest

/-- From `db` to `db'` every tuple record stored under a key other than `key` is
kept as it is, and so are the index of in-models and the index of testtuples. -/
def SameTuplesExcept (key : String) (db db' : LedgerDB) : Prop :=
  db'.indexOf "tuple~inModel~key" = db.indexOf "tuple~inModel~key" ∧
  db'.indexOf "testtuple~traintuple~certified~key"
    = db.indexOf "testtuple~traintuple~certified~key" ∧
  ∀ k a, k ≠ key → db.Get k = some a → a.isTuple = true → db'.Get k = some a

/-- From `db` to `db'` every tuple record is kept as it is, and so are the index
of in-models and the index of testtuples. -/
def KeepsTuples (db db' : LedgerDB) : Prop :=
  db'.indexOf "tuple~inModel~key" = db.indexOf "tuple~inModel~key" ∧
  db'.indexOf "testtuple~traintuple~certified~key"
    = db.indexOf "testtuple~traintuple~certified~key" ∧
  ∀ k a, db.Get k = some a → a.isTuple = true → db'.Get k = some a

/-- From `db` to `db'` every testtuple record is kept as it is, and so are the
index of in-models and the index of testtuples. -/
def KeepsTests (db db' : LedgerDB) : Prop :=
  db'.indexOf "tuple~inModel~key" = db.indexOf "tuple~inModel~key" ∧
  db'.indexOf "testtuple~traintuple~certified~key"
    = db.indexOf "testtuple~traintuple~certified~key" ∧
  ∀ k a, db.Get k = some a → a.isTest = true → db'.Get k = some a

/-- From `db` to `db'` every training tuple record is kept as it is, and so are
the index of in-models and the index of testtuples. -/
def KeepsTraining (db db' : LedgerDB) : Prop :=
  db'.indexOf "tuple~inModel~key" = db.indexOf "tuple~inModel~key" ∧
  db'.indexOf "testtuple~traintuple~certified~key"
    = db.indexOf "testtuple~traintuple~certified~key" ∧
  ∀ k a, db.Get k = some a → a.isTraining = true → db'.Get k = some a

/-- From `db` to `db'` every testtuple record stored under a key outside `keys`
is kept as it is, and so are the index of in-models and the index of
testtuples. -/
def KeepsTestsOutside (keys : List String) (db db' : LedgerDB) : Prop :=
  db'.indexOf "tuple~inModel~key" = db.indexOf "tuple~inModel~key" ∧
  db'.indexOf "testtuple~traintuple~certified~key"
    = db.indexOf "testtuple~traintuple~certified~key" ∧
  ∀ k a, k ∉ keys → db.Get k = some a → a.isTest = true → db'.Get k = some a

/-- A waiting training tuple is stored under the key. -/
def LedgerDB.waitingTraining (db : LedgerDB) (key : String) : Prop :=
  ∃ a, db.Get key = some a ∧ a.isTraining = true ∧ a.status = StatusWaiting

/-- A failed training tuple is stored under the key. -/
def LedgerDB.failedTraining (db : LedgerDB) (key : String) : Prop :=
  ∃ a, db.Get key = some a ∧ a.isTraining = true ∧ a.status = StatusFailed

/-- A testtuple that is not aborted is stored under the key. -/
def LedgerDB.liveTest (db : LedgerDB) (key : String) : Prop :=
  ∃ a, db.Get key = some a ∧ a.isTest = true ∧ a.status ≠ StatusAborted

/-- A failed testtuple is stored under the key. -/
def LedgerDB.failedTest (db : LedgerDB) (key : String) : Prop :=
  ∃ a, db.Get key = some a ∧ a.isTest = true ∧ a.status = StatusFailed

/-- The key `c` is reached from `key` through the index `tuple~inModel~key` along
a chain of waiting training tuples (`c` included, `key` excluded). -/
inductive WaitingReach (db : LedgerDB) (key : String) : String → Prop
  | child (c : String) :
      c ∈ db.GetIndexKeys "tuple~inModel~key" ["tuple", key] → db.waitingTraining c →
      WaitingReach db key c
  | step (x c : String) :
      WaitingReach db key x → c ∈ db.GetIndexKeys "tuple~inModel~key" ["tuple", x] →
      db.waitingTraining c → WaitingReach db key c

/-- The key `c` is reached from `key` through the index `tuple~inModel~key`,
whatever the tuples on the way. -/
inductive Reach (db : LedgerDB) (key : String) : String → Prop
  | child (c : String) :
      c ∈ db.GetIndexKeys "tuple~inModel~key" ["tuple", key] → Reach db key c
  | step (x c : String) :
      Reach db key x → c ∈ db.GetIndexKeys "tuple~inModel~key" ["tuple", x] → Reach db key c

/-- From `db` to `db'` the only changes of tuples are failures: a training tuple
is kept as it is, or was waiting and is now failed; a testtuple is kept as it
is, or was not aborted and is now failed; the index of in-models and the index
of testtuples are kept. -/
def FailsOnly (db db' : LedgerDB) : Prop :=
  db'.indexOf "tuple~inModel~key" = db.indexOf "tuple~inModel~key" ∧
  db'.indexOf "testtuple~traintuple~certified~key"
    = db.indexOf "testtuple~traintuple~certified~key" ∧
  (∀ k a, db.Get k = some a → a.isTraining = true →
    db'.Get k = some a ∨ (a.status = StatusWaiting ∧ db'.failedTraining k)) ∧
  (∀ k a, db.Get k = some a → a.isTest = true →
    db'.Get k = some a ∨ (a.status ≠ StatusAborted ∧ db'.failedTest k))

/-- Every key of the list holds a failed training tuple. -/
def AllFailed (keys : List String) (db : LedgerDB) : Prop :=
  ∀ k ∈ keys, db.failedTraining k

/-- Every waiting training tuple of `db` among `keys` is failed in `db'`. -/
def ChildrenFailed (keys : List String) (db db' : LedgerDB) : Prop :=
  ∀ c ∈ keys, db.waitingTraining c → db'.failedTraining c

/-- Whenever a training tuple waiting in `db` is failed in `db'`, so are its
waiting training children, and the testtuples attached to it that were not
aborted are failed in `db'`. -/
def FailureClosed (db db' : LedgerDB) : Prop :=
  ∀ x, db.waitingTraining x → db'.failedTraining x →
    (∀ c ∈ db.GetIndexKeys "tuple~inModel~key" ["tuple", x],
      db.waitingTraining c → db'.failedTraining c) ∧
    (∀ tk ∈ db.GetIndexKeys "testtuple~traintuple~certified~key" ["testtuple", x],
      db.liveTest tk → db'.failedTest tk)

/-- The keys listed as children in the index `tuple~inModel~key`. -/
def LedgerDB.childKeys (db : LedgerDB) : List String :=
  (db.indexOf "tuple~inModel~key").filterMap (fun e => e.attributes.getLast?)

/-- The number of child keys of the index `tuple~inModel~key` that are not among
the already updated keys: what the recursion of `UpdateTraintupleChildren` can
still visit. -/
def LedgerDB.fresh (db : LedgerDB) (alreadyUpdatedKeys : List String) : Nat :=
  (db.childKeys.toFinset \ alreadyUpdatedKeys.toFinset).card

/-- Modelled from the spec: `inputPermission`, one channel of the permissions a
request asks for (§4.1); `input.go` is not among the sources. -/
structure inputPermission where
  Public : Bool
  AuthorizedIDs : List String
  deriving DecidableEq, Repr

/-- Modelled from the spec: `inputPermissions`, the permissions a request asks
for (§4.1); `input.go` is not among the sources. -/
structure inputPermissions where
  Process : inputPermission
  deriving DecidableEq, Repr

/-- inputCompositeTraintuple is the representation of input args to register a
composite Traintuple. -/
structure inputCompositeTraintuple where
  Key : String
  AlgoKey : String
  InHeadModelKey : String
  InTrunkModelKey : String
  OutTrunkModelPermissions : inputPermissions
  DataManagerKey : String
  DataSampleKeys : List String
  ComputePlanKey : String
  Rank : String
  Tag : String
  Metadata : List (String × String)
  deriving DecidableEq, Repr

namespace validator

/-- The tag `required` of the validation library on a string field: the field is
not empty. -/
def required (field : String) : Bool := decide (field ≠ "")

/-- The tag `len=n` on a string field: the field has n characters. -/
def len (n : Nat) (field : String) : Bool := decide (field.length = n)

/-- The tag `lte=n` on a string field: the field has at most n characters. -/
def lte (n : Nat) (field : String) : Bool := decide (field.length ≤ n)

/-- The tag `required_with=Other`: the field is not empty when the other field
is not empty. -/
def required_with (other field : String) : Bool := decide (other = "") || decide (field ≠ "")

/-- The tag `omitempty`: the tags after it are not checked on an empty field. -/
def omitempty (field : String) (rest : Bool) : Bool := decide (field = "") || rest

end validator

/-- Modelled from the spec: the validation of a decoded `inputCompositeTraintuple`
that `AssetFromJSON` (not among the sources) runs from the `validate` tags of
its fields, one field after the other; a validation failure is a bad request
(§7). The validation of the nested `OutTrunkModelPermissions`, whose tags are
not among the sources, is the parameter `permissionsValid`. -/
def inputCompositeTraintuple.validate (permissionsValid : inputPermissions → Bool)
    (inp : inputCompositeTraintuple) : Option Error :=
  -- Key: required,len=36
  let key := validator.required inp.Key && validator.len 36 inp.Key
  -- AlgoKey: required,len=36
  let algoKey := validator.required inp.AlgoKey && validator.len 36 inp.AlgoKey
  -- InHeadModelKey: required_with=InTrunkModelKey,omitempty,len=36
  let inHeadModelKey := validator.required_with inp.InTrunkModelKey inp.InHeadModelKey &&
    validator.omitempty inp.InHeadModelKey (validator.len 36 inp.InHeadModelKey)
  -- InTrunkModelKey: required_with=InHeadModelKey,omitempty,len=36
  let inTrunkModelKey := validator.required_with inp.InHeadModelKey inp.InTrunkModelKey &&
    validator.omitempty inp.InTrunkModelKey (validator.len 36 inp.InTrunkModelKey)
  -- OutTrunkModelPermissions: required
  let outTrunkModelPermissions := permissionsValid inp.OutTrunkModelPermissions
  -- DataManagerKey: required,len=36
  let dataManagerKey := validator.required inp.DataManagerKey && validator.len 36 inp.DataManagerKey
  -- DataSampleKeys: required,unique,gt=0,dive,len=36
  let dataSampleKeys := decide inp.DataSampleKeys.Nodup && decide (inp.DataSampleKeys.length > 0) &&
    inp.DataSampleKeys.all (validator.len 36)
  -- ComputePlanKey: required_with=Rank
  let computePlanKey := validator.required_with inp.Rank inp.ComputePlanKey
  -- Tag: omitempty,lte=64
  let tag := validator.omitempty inp.Tag (validator.lte 64 inp.Tag)
  -- Metadata: lte=100,dive,keys,lte=50,endkeys,lte=100
  let metadata := decide (inp.Metadata.length ≤ 100) &&
    inp.Metadata.all (fun kv => validator.lte 50 kv.1 && validator.lte 100 kv.2)
  if key && algoKey && inHeadModelKey && inTrunkModelKey && outTrunkModelPermissions &&
      dataManagerKey && dataSampleKeys && computePlanKey && tag && metadata
  then none
  else some errors.BadRequest

/-! ## Compute plans (`compute_plan.go`) -/

/-- Modelled from the spec: `inputComputePlanTraintuple`, one traintuple of a
compute plan payload with its user-chosen id and the ids of its parents (§4.2);
`input.go` is not among the sources. -/
structure inputComputePlanTraintuple where
  DataManagerKey : String
  DataSampleKeys : List String
  AlgoKey : String
  Tag : String
  InModelsIDs : List String
  ID : String
  deriving DecidableEq, Repr

/-- Modelled from the spec: `inputComputePlanTesttuple`, one testtuple of a
compute plan payload, attached to a traintuple by its id (§4.2). -/
structure inputComputePlanTesttuple where
  DataManagerKey : String
  DataSampleKeys : List String
  Tag : String
  TraintupleID : String
  deriving DecidableEq, Repr

/-- Modelled from the spec: `inputTesttuple`, the decoded request of
`createTesttuple`, with the fields `compute_plan.go` sets. -/
structure inputTesttuple where
  TraintupleKey : String
  DataManagerKey : String
  DataSampleKeys : List String
  Tag : String
  deriving DecidableEq, Repr

/-- Modelled from the spec: `inputComputePlan`, the compute plan payload (§4.2),
with the lists `compute_plan.go` reads. -/
structure inputComputePlan where
  ObjectiveKey : String
  Traintuples : List inputComputePlanTraintuple
  Testtuples : List inputComputePlanTesttuple
  deriving DecidableEq, Repr

/-- Modelled from the spec: one task of the ordering the DAG builder returns
(§4.2), with the fields `createComputePlanInternal` reads: the type of the task
and its position in the list of its type in the payload. -/
structure ComputeDAGTask where
  TaskType : AssetType
  InputIndex : Nat
  deriving DecidableEq, Repr

/-- Modelled from the spec: the output of the DAG builder (§4.2), a topological
ordering of the tasks. -/
structure ComputeDAG where
  OrderTasks : List ComputeDAGTask
  deriving DecidableEq, Repr

/-- Modelled from the spec: `outputComputePlan`, the response of the compute plan
functions of `compute_plan.go`. -/
structure outputComputePlan where
  ComputePlanID : String
  ObjectiveKey : String
  TraintupleKeys : List String
  TesttupleKeys : List String
  deriving DecidableEq, Repr

/-- The loop of `inputTraintuple.Fill`: set the inModels by matching the id to
traintuple keys previously encountered in this compute plan. The map from ids to
keys is an association list, the latest entry of an id first. -/
def inputTraintuple.Fill.loop (traintupleKeysByID : List (String × String)) :
    List String → inputTraintuple → Option Error × inputTraintuple
  | [], inpTraintuple => (none, inpTraintuple)
  | InModelID :: rest, inpTraintuple =>
    match traintupleKeysByID.lookup InModelID with
    | none => (some errors.E, inpTraintuple)
    | some inModelKey =>
      inputTraintuple.Fill.loop traintupleKeysByID rest
        { inpTraintuple with InModels := inpTraintuple.InModels ++ [inModelKey] }

/-- Method Fill of `inputTraintuple`: copy the fields of the traintuple of the
compute plan and resolve its in-model ids. -/
def inputTraintuple.Fill (inpTraintuple : inputTraintuple) (inpCP : inputComputePlanTraintuple)
    (traintupleKeysByID : List (String × String)) : Option Error × inputTraintuple :=
  let inpTraintuple :=
    { inpTraintuple with
      DataManagerKey := inpCP.DataManagerKey
      DataSampleKeys := inpCP.DataSampleKeys
      AlgoKey := inpCP.AlgoKey
      Tag := inpCP.Tag }
  inputTraintuple.Fill.loop traintupleKeysByID inpCP.InModelsIDs inpTraintuple

/-- Method Fill of `inputTesttuple`: resolve the traintuple id and copy the
fields of the testtuple of the compute plan. -/
def inputTesttuple.Fill (inpTesttuple : inputTesttuple) (inpCP : inputComputePlanTesttuple)
    (traintupleKeysByID : List (String × String)) : Option Error × inputTesttuple :=
  match traintupleKeysByID.lookup inpCP.TraintupleID with
  | none => (some errors.E, inpTesttuple)
  | some traintupleKey =>
    (none,
      { inpTesttuple with
        TraintupleKey := traintupleKey
        DataManagerKey := inpCP.DataManagerKey
        DataSampleKeys := inpCP.DataSampleKeys
        Tag := inpCP.Tag })

/-- The zero value `inputTraintuple{}`. -/
def inputTraintuple.zero : inputTraintuple :=
  { Key := "", AlgoKey := "", InModels := [], DataManagerKey := "", DataSampleKeys := [],
    ComputePlanKey := "", Rank := "", Tag := "", Metadata := [] }

/-- The zero value `inputTesttuple{}`. -/
def inputTesttuple.zero : inputTesttuple :=
  { TraintupleKey := "", DataManagerKey := "", DataSampleKeys := [], Tag := "" }

/-- The loop of `createComputePlanInternal` over the ordered tasks, `i` being the
position of the task. Only the tasks of type traintuple are handled by the
`switch`. This file names `ComputePlanID` the field of the input that
`traintuple.go` names ComputePlanKey, sets a field `ObjectiveKey` the input of
`traintuple.go` does not have, and calls `createTraintupleInternal` with two
arguments: that function is the parameter `createTraintuple`. An input index
outside the payload, on which the Go code panics, is an internal error here. -/
def createComputePlanInternal.tasks
    (createTraintuple : LedgerDB → inputTraintuple → Except Error String × LedgerDB)
    (inp : inputComputePlan) :
    List ComputeDAGTask → Nat → outputComputePlan → List (String × String) → LedgerDB →
      Option Error × outputComputePlan × List (String × String) × LedgerDB
  | [], _, resp, traintupleKeysByID, db => (none, resp, traintupleKeysByID, db)
  | task :: rest, i, resp, traintupleKeysByID, db =>
    match task.TaskType with
    | TraintupleType =>
      match inp.Traintuples[task.InputIndex]? with
      | none => (some errors.Internal, resp, traintupleKeysByID, db)
      | some computeTraintuple =>
        let inpTraintuple : inputTraintuple :=
          { inputTraintuple.zero with Rank := strconv.Itoa i }
        let inpTraintuple :=
          if i ≠ 0 then { inpTraintuple with ComputePlanKey := resp.ComputePlanID }
          else inpTraintuple
        match inpTraintuple.Fill computeTraintuple traintupleKeysByID with
        | (some _, _) => (some errors.BadRequest, resp, traintupleKeysByID, db)
        | (none, inpTraintuple) =>
          match createTraintuple db inpTraintuple with
          | (.error _, db) => (some errors.BadRequest, resp, traintupleKeysByID, db)
          | (.ok traintupleKey, db) =>
            let resp := if i = 0 then { resp with ComputePlanID := traintupleKey } else resp
            let traintupleKeysByID := (computeTraintuple.ID, traintupleKey) :: traintupleKeysByID
            let resp := { resp with TraintupleKeys := resp.TraintupleKeys ++ [traintupleKey] }
            createComputePlanInternal.tasks createTraintuple inp rest (i + 1) resp
              traintupleKeysByID db
    | _ =>
      createComputePlanInternal.tasks createTraintuple inp rest (i + 1) resp traintupleKeysByID db

/-- The loop of `createComputePlanInternal` over the testtuples of the payload;
`createTesttupleInternal` is not among the sources and is the parameter
`createTesttuple`. -/
def createComputePlanInternal.testtuples
    (createTesttuple : LedgerDB → inputTesttuple → Except Error String × LedgerDB)
    (traintupleKeysByID : List (String × String)) :
    List inputComputePlanTesttuple → outputComputePlan → LedgerDB →
      Option Error × outputComputePlan × LedgerDB
  | [], resp, db => (none, resp, db)
  | computeTesttuple :: rest, resp, db =>
    match inputTesttuple.zero.Fill computeTesttuple traintupleKeysByID with
    | (some _, _) => (some errors.BadRequest, resp, db)
    | (none, inpTesttuple) =>
      match createTesttuple db inpTesttuple with
      | (.error _, db) => (some errors.BadRequest, resp, db)
      | (.ok testtupleKey, db) =>
        createComputePlanInternal.testtuples createTesttuple traintupleKeysByID rest
          { resp with TesttupleKeys := resp.TesttupleKeys ++ [testtupleKey] } db

/-- Function createComputePlanInternal of `compute_plan.go`: create the
traintuples of the payload in the order of the DAG, then its testtuples. The DAG
builder `createComputeDAG` is not among the sources and is a parameter, as are
the two functions that create a tuple. -/
def createComputePlanInternal
    (createComputeDAG : inputComputePlan → Except Error ComputeDAG)
    (createTraintuple : LedgerDB → inputTraintuple → Except Error String × LedgerDB)
    (createTesttuple : LedgerDB → inputTesttuple → Except Error String × LedgerDB)
    (db : LedgerDB) (inp : inputComputePlan) : Option Error × outputComputePlan × LedgerDB :=
  let traintupleKeysByID : List (String × String) := []
  let resp : outputComputePlan :=
    { ComputePlanID := "", ObjectiveKey := inp.ObjectiveKey, TraintupleKeys := [],
      TesttupleKeys := [] }
  match createComputeDAG inp with
  | .error _ => (some errors.BadRequest, resp, db)
  | .ok DAG =>
    match createComputePlanInternal.tasks createTraintuple inp DAG.OrderTasks 0 resp
        traintupleKeysByID db with
    | (some err, resp, _, db) => (some err, resp, db)
    | (none, resp, traintupleKeysByID, db) =>
      let resp := { resp with TesttupleKeys := [] }
      createComputePlanInternal.testtuples createTesttuple traintupleKeysByID inp.Testtuples
        resp db

namespace sort

/-- Modelled after the Go standard library: `sort.SliceStable` sorts the slice
by the given `less`, keeping equal elements in their original order. The Go
function takes a `less` on the positions of the slice, which the callers use to
compare the elements at these positions; here `less` compares the elements. An
element is inserted in the sorted rest before the first element that is not less
than it. -/
def SliceStable {α : Type} (less : α → α → Bool) (s : List α) : List α :=
  s.insertionSort (fun a b => less b a = false)

end sort

/-- The first loop of `getComputePlan`: read every traintuple of the plan, keep
the first one read in `firstTt` and all of them in the map `tts`, an association
list with the latest entry of a key first. -/
def getComputePlan.read (db : LedgerDB) :
    List String → Option Traintuple → List (String × Traintuple) →
      Except Error (Option Traintuple × List (String × Traintuple))
  | [], firstTt, tts => .ok (firstTt, tts)
  | ttKey :: rest, firstTt, tts =>
    match db.GetTraintuple ttKey with
    | .error err => .error err
    | .ok tt =>
      let firstTt := if firstTt.isNone then some tt else firstTt
      getComputePlan.read db rest firstTt ((ttKey, tt) :: tts)

/-- The rank `tts[ttKey].Rank` of a key in the map of `getComputePlan`, 0 (the
rank of the zero value) for a key the map does not have. -/
def getComputePlan.rank (tts : List (String × Traintuple)) (ttKey : String) : Int :=
  match tts.lookup ttKey with
  | some tt => tt.Rank
  | none => 0

/-- The second loop of `getComputePlan`: the testtuples associated with each
traintuple. -/
def getComputePlan.testtuples (db : LedgerDB) : List String → List String → List String
  | [], tstKeys => tstKeys
  | traintupleKey :: rest, tstKeys =>
    getComputePlan.testtuples db rest
      (tstKeys ++ db.GetIndexKeys "testtuple~traintuple~certified~key" ["testtuple", traintupleKey])

/-- Function getComputePlan of `compute_plan.go`: details for a compute plan id,
the traintuples ordered by ascending rank. The function reads the field
`ObjectiveKey` of the first traintuple, which the type Traintuple of `ledger.go`
does not have: it is the parameter `ObjectiveKey`. The dereference of a nil
`firstTt`, which the check of the length excludes, is an internal error. -/
def getComputePlan (ObjectiveKey : Traintuple → String) (db : LedgerDB) (key : String) :
    Except Error outputComputePlan :=
  let ttKeys := db.GetIndexKeys "traintuple~computeplanid~worker~rank~key" ["traintuple", key]
  if ttKeys.length = 0 then .error errors.E
  else
    match getComputePlan.read db ttKeys none [] with
    | .error err => .error err
    | .ok (firstTt, tts) =>
      let ttKeys := sort.SliceStable
        (fun i j => decide (getComputePlan.rank tts i < getComputePlan.rank tts j)) ttKeys
      let tstKeys := getComputePlan.testtuples db ttKeys []
      match firstTt with
      | none => .error errors.Internal
      | some firstTt =>
        .ok
          { ComputePlanID := key
            ObjectiveKey := ObjectiveKey firstTt
            TraintupleKeys := ttKeys
            TesttupleKeys := tstKeys }

/-- The rank of the traintuple stored under a key, 0 when none is. -/
def LedgerDB.rankOf (db : LedgerDB) (key : String) : Int :=
  match db.GetTraintuple key with
  | .ok tt => tt.Rank
  | .error _ => 0

/-! ## Updating data samples (`data.go`) -/

/-- Modelled after the Go standard library: `strconv.FormatBool` returns "true"
or "false" according to the value of `b`. -/
def strconv.FormatBool (b : Bool) : String := if b then "true" else "false"

/-- Modelled after the Go standard library: `strings.TrimSuffix` returns `s`
without the provided trailing suffix string; if `s` does not end with suffix, `s`
is returned unchanged. -/
def strings.TrimSuffix (s suffix : String) : String :=
  if s.endsWith suffix then s.dropRight suffix.length else s

/-- Modelled from the spec: `inputUpdateDataSample`, the decoded request of
`updateDataSample`: the keys of the data samples and the keys of the data
managers to associate them with. -/
structure inputUpdateDataSample where
  Keys : List String
  DataManagerKeys : List String
  deriving DecidableEq, Repr

/-- Modelled from the spec: `outputKey`, a response that carries one key. -/
structure outputKey where
  Key : String
  deriving DecidableEq, Repr

/-- checkDataManagerOwner checks if the transaction requester is the owner of
the dataManagers specified by their keys in a slice. -/
def checkDataManagerOwner (db : LedgerDB) : List String → Option Error
  | [] => none
  | dataManagerKey :: rest =>
    match db.GetDataManager dataManagerKey with
    | .error _ => some errors.BadRequest
    | .ok dataManager =>
      if GetTxCreator db ≠ dataManager.Owner then some errors.Forbidden
      else checkDataManagerOwner db rest

/-- checkDataSampleOwner checks if the transaction requester is the owner of the
dataSample. -/
def checkDataSampleOwner (db : LedgerDB) (dataSample : DataSample) : Option Error :=
  if GetTxCreator db ≠ dataSample.Owner then some errors.Forbidden else none

/-- validateUpdateDataSample checks the validity of the elements sent to update
one or more dataSample: the dataManagers exist and are owned by the transaction
requester. -/
def validateUpdateDataSample (db : LedgerDB) (inp : inputUpdateDataSample) :
    Except Error (List String × List String) :=
  match checkDataManagerOwner db inp.DataManagerKeys with
  | some err => .error err
  | none => .ok (inp.Keys, inp.DataManagerKeys)

/-- The inner loop of `updateDataSample`: associate the data sample with every
data manager it is not already associated with, and index it under each. -/
def updateDataSample.managers (dataSampleKey : String) :
    List String → DataSample → LedgerDB → DataSample × LedgerDB
  | [], dataSample, db => (dataSample, db)
  | dataManagerKey :: rest, dataSample, db =>
    if !stringInSlice dataManagerKey dataSample.DataManagerKeys then
      let dataSample :=
        { dataSample with DataManagerKeys := dataSample.DataManagerKeys ++ [dataManagerKey] }
      let db := db.CreateIndex "dataSample~dataManager~key"
        ["dataSample", dataManagerKey, dataSampleKey]
      let db := db.CreateIndex "dataSample~dataManager~testOnly~key"
        ["dataSample", dataManagerKey, strconv.FormatBool dataSample.TestOnly, dataSampleKey]
      updateDataSample.managers dataSampleKey rest dataSample db
    else updateDataSample.managers dataSampleKey rest dataSample db

/-- The outer loop of `updateDataSample`: read each data sample, check that the
requester owns it, associate it with the data managers and store it. -/
def updateDataSample.samples (dataManagerKeys : List String) :
    List String → String → LedgerDB → Except Error String × LedgerDB
  | [], keysJSON, db => (.ok keysJSON, db)
  | dataSampleKey :: rest, keysJSON, db =>
    let keysJSON := keysJSON ++ "\"" ++ dataSampleKey ++ "\"" ++ ", "
    match db.GetDataSample dataSampleKey with
    | .error err => (.error err, db)
    | .ok dataSample =>
      match checkDataSampleOwner db dataSample with
      | some err => (.error err, db)
      | none =>
        match updateDataSample.managers dataSampleKey dataManagerKeys dataSample db with
        | (dataSample, db) =>
          updateDataSample.samples dataManagerKeys rest keysJSON
            (db.Put dataSampleKey (.dataSample dataSample))

/-- Function updateDataSample of `data.go`: associate one or more dataManagerKeys
to one or more dataSample. The request comes decoded. -/
def updateDataSample (db : LedgerDB) (inp : inputUpdateDataSample) :
    Except Error outputKey × LedgerDB :=
  match validateUpdateDataSample db inp with
  | .error err => (.error err, db)
  | .ok (dataSampleKeys, dataManagerKeys) =>
    match updateDataSample.samples dataManagerKeys dataSampleKeys "" db with
    | (.error err, db) => (.error err, db)
    | (.ok keysJSON, db) =>
      (.ok ⟨"\x7b\"keys\": [" ++ strings.TrimSuffix keysJSON ", " ++ "]\x7d"⟩, db)

/-- The records of the data samples of `db2` extend those of `db` by data
managers of the request: each data sample of `db` is in `db2` with the same
owner and test-only flag, its list of data managers followed by keys of the
request it did not hold, each once. -/
def LedgerDB.Appends (req : List String) (db db2 : LedgerDB) : Prop :=
  ∀ k d, db.GetDataSample k = .ok d →
    ∃ d2 added, db2.GetDataSample k = .ok d2 ∧
      d2.DataManagerKeys = d.DataManagerKeys ++ added ∧ added.Nodup ∧
      (∀ m ∈ added, m ∈ req ∧ m ∉ d.DataManagerKeys) ∧
      d2.Owner = d.Owner ∧ d2.TestOnly = d.TestOnly

/-- The data sample stored under the key holds every data manager of the
request. -/
def LedgerDB.Associated (req : List String) (db : LedgerDB) (k : String) : Prop :=
  ∃ d, db.GetDataSample k = .ok d ∧ ∀ m ∈ req, m ∈ d.DataManagerKeys

/-! ## Algos (`algo.go`, `algo_composite.go`) -/

/-- Modelled from the spec: `inputAlgo`, the decoded request of `registerAlgo`
(§3, Algo), with the fields `Algo.Set` reads; `inputCompositeAlgo` embeds it
(`input_composite.go`). -/
structure inputAlgo where
  Key : String
  Name : String
  Checksum : String
  StorageAddress : String
  DescriptionChecksum : String
  DescriptionStorageAddress : String
  Permissions : inputPermissions
  Metadata : List (String × String)
  deriving DecidableEq, Repr

/-- Modelled from the spec: `db.GetCompositeAlgo`; a CompositeAlgo is an Algo
whose asset type is CompositeAlgoType. -/
def LedgerDB.GetCompositeAlgo (db : LedgerDB) (key : String) : Except Error Algo :=
  match db.Get key with
  | some (.algo a) => if a.AssetType = CompositeAlgoType then .ok a else .error errors.NotFound
  | _ => .error errors.NotFound

/-- The zero value `Algo{}`. -/
def Algo.zero : Algo :=
  { Key := "", Name := "", AssetType := ObjectiveType, Checksum := "", StorageAddress := "",
    Description := ⟨"", ""⟩, Owner := "", Permissions := ⟨⟨false, []⟩, ⟨false, []⟩⟩,
    Metadata := [] }

/-- Set is a method of the receiver Algo. It uses inputAlgo fields to set the
Algo. `NewPermissions` (`permissions.go`) is not among the sources and is a
parameter. -/
def Algo.Set (NewPermissions : LedgerDB → inputPermissions → Except Error Chaincode.Permissions)
    (algo : Algo) (db : LedgerDB) (inp : inputAlgo) : Option Error × Algo :=
  let owner := GetTxCreator db
  match NewPermissions db inp.Permissions with
  | .error err => (some err, algo)
  | .ok permissions =>
    (none,
      { algo with
        Key := inp.Key
        AssetType := AlgoType
        Name := inp.Name
        Checksum := inp.Checksum
        StorageAddress := inp.StorageAddress
        Description := ⟨inp.DescriptionChecksum, inp.DescriptionStorageAddress⟩
        Owner := owner
        Permissions := permissions
        Metadata := inp.Metadata })

/-- Function registerAlgo of `algo.go`: store a new algo in the ledger. The
request comes decoded. -/
def registerAlgo (NewPermissions : LedgerDB → inputPermissions → Except Error Permissions)
    (db : LedgerDB) (inp : inputAlgo) : Except Error outputKey × LedgerDB :=
  match Algo.zero.Set NewPermissions db inp with
  | (some err, _) => (.error err, db)
  | (none, algo) =>
    match db.Add algo.Key (.algo algo) with
    | (some err, db) => (.error err, db)
    | (none, db) =>
      let db := db.CreateIndex "algo~owner~key" ["algo", algo.Owner, algo.Key]
      (.ok ⟨algo.Key⟩, db)

/-- Function queryAlgo of `algo.go`: return an algo of the ledger given its key.
The projection `outputAlgo.Fill` (`output.go`) is not among the sources and is
the parameter `Fill`, applied to the zero value of the output. -/
def queryAlgo {outputAlgo : Type} (Fill : Algo → outputAlgo) (db : LedgerDB) (key : String) :
    Except Error outputAlgo :=
  match db.GetAlgo key with
  | .error err => .error err
  | .ok algo => .ok (Fill algo)

/-- Set is a method of the receiver CompositeAlgo. It uses inputCompositeAlgo
fields to set the CompositeAlgo. -/
def CompositeAlgo.Set (NewPermissions : LedgerDB → inputPermissions → Except Error Permissions)
    (algo : Algo) (db : LedgerDB) (inp : inputAlgo) : Option Error × Algo :=
  let owner := GetTxCreator db
  match NewPermissions db inp.Permissions with
  | .error err => (some err, algo)
  | .ok permissions =>
    (none,
      { algo with
        Key := inp.Key
        AssetType := CompositeAlgoType
        Name := inp.Name
        Checksum := inp.Checksum
        StorageAddress := inp.StorageAddress
        Description := ⟨inp.DescriptionChecksum, inp.DescriptionStorageAddress⟩
        Owner := owner
        Permissions := permissions
        Metadata := inp.Metadata })

/-- Function registerCompositeAlgo of `algo_composite.go`: store a new composite
algo in the ledger. The request comes decoded. -/
def registerCompositeAlgo
    (NewPermissions : LedgerDB → inputPermissions → Except Error Permissions)
    (db : LedgerDB) (inp : inputAlgo) : Except Error outputKey × LedgerDB :=
  match CompositeAlgo.Set NewPermissions Algo.zero db inp with
  | (some err, _) => (.error err, db)
  | (none, algo) =>
    match db.Add algo.Key (.algo algo) with
    | (some err, db) => (.error err, db)
    | (none, db) =>
      let db := db.CreateIndex "compositeAlgo~owner~key" ["compositeAlgo", algo.Owner, algo.Key]
      (.ok ⟨algo.Key⟩, db)

/-- Function queryCompositeAlgo of `algo_composite.go`: return a composite algo
of the ledger given its key; `outputCompositeAlgo.Fill` (`output_composite.go`)
calls the projection of an algo, the parameter `Fill`. -/
def queryCompositeAlgo {outputAlgo : Type} (Fill : Algo → outputAlgo) (db : LedgerDB)
    (key : String) : Except Error outputAlgo :=
  match db.GetCompositeAlgo key with
  | .error err => .error err
  | .ok algo => .ok (Fill algo)

/-- The number of writes of a record under `key` in a log of writes. -/
def putCount (writes : List Write) (key : String) : Nat :=
  writes.countP fun w =>
    match w with
    | .PutState k _ => decide (k = key)
    | _ => false

/-- The number of times the transaction has written a record under `key`. -/
def LedgerDB.puts (db : LedgerDB) (key : String) : Nat := putCount db.writes key

/-- The record is a tuple whose status the propagation to the children of a
tuple can still change: a waiting training tuple, or a testtuple that is waiting
or being run. -/
def Asset.live (a : Asset) : Bool :=
  (a.isTraining && decide (a.status = StatusWaiting)) ||
    (a.isTest && (decide (a.status = StatusWaiting) || decide (a.status = StatusDoing)))

/-- From `db` to `db2` every tuple record is kept as it is and no record has been
written under its key. -/
def Quiet (db db2 : LedgerDB) : Prop :=
  ∀ k a, db.Get k = some a → a.isTuple = true → db2.Get k = some a ∧ db2.puts k = db.puts k

/-- From `db` to `db2` every tuple either is kept as it is, nothing being
written under its key, or has been written once: it was live, and the record
written is a tuple with another status that is not live any more. -/
def WritesOnce (db db2 : LedgerDB) : Prop :=
  ∀ k a, db.Get k = some a → a.isTuple = true →
    (db2.Get k = some a ∧ db2.puts k = db.puts k) ∨
    (a.live = true ∧ db2.puts k = db.puts k + 1 ∧
      ∃ a2, db2.Get k = some a2 ∧ a2.isTuple = true ∧ a2.live = false ∧ a2.status ≠ a.status)

/-- The record belongs to the bookkeeping of a compute plan: the plan, its
status or the state of one of its workers. -/
def Asset.isPlanRecord : Asset → Bool
  | .computePlan _ => true
  | .computePlanState _ => true
  | .computePlanWorkerState _ => true
  | _ => false

/-- The write stores a record of the bookkeeping of a compute plan. -/
def Write.isPlanWrite : Write → Bool
  | .PutState _ value => value.isPlanRecord
  | _ => false

/-- From `db` to `db2` the only writes are records of the bookkeeping of compute
plans: the indexes and the events are the same, the log of writes has grown by
such records only, and every key holds the record it held or such a record. -/
def OnlyPlanWrites (db db2 : LedgerDB) : Prop :=
  db2.indexes = db.indexes ∧ db2.tuplesEvent = db.tuplesEvent ∧
  (∃ ws, db2.writes = db.writes ++ ws ∧ ∀ w ∈ ws, w.isPlanWrite = true) ∧
  ∀ k, db2.Get k = db.Get k ∨ ∃ v, db2.Get k = some v ∧ v.isPlanRecord = true

/-- The write creates a composite key. -/
def Write.isIndexWrite : Write → Bool
  | .PutIndex _ => true
  | _ => false

/-- From `db` to `db2` the only writes are composite keys: every key holds the
record it held, the events are the same, the log of writes has grown by
composite keys only, and the host is the same. -/
def OnlyIndexWrites (db db2 : LedgerDB) : Prop :=
  (∀ k, db2.Get k = db.Get k) ∧ db2.tuplesEvent = db.tuplesEvent ∧
  (∃ ws, db2.writes = db.writes ++ ws ∧ ∀ w ∈ ws, w.isIndexWrite = true) ∧
  db2.refusedIndex = db.refusedIndex ∧ db2.refusedEvent = db.refusedEvent

/-! ## The propagation on a ledger whose reads see committed state only

The spec (§5) has the host serve the committed state to every read of a
transaction: a write made earlier in the transaction is not visible to a later
read. The handle `LedgerDB` above threads the writes instead, as the tests of
the repository need. This section translates the child propagation of
`traintuple.go` a second time, on the ledger of §5: a write is handed to the
host, that is logged in `writes`, and `state` and `indexes` stay the committed
ones. -/

namespace Committed

/-- Modelled from the spec: `db.Put` on the ledger of §5: the write is handed to
the host and no later read of the transaction sees it. -/
def Put (db : LedgerDB) (key : String) (object : Asset) : LedgerDB :=
  { db with writes := db.writes ++ [Write.PutState key object] }

/-- Modelled from the spec: `db.UpdateIndex` on the ledger of §5: the deletion of
the old composite key and the creation of the new one are handed to the host. -/
def UpdateIndex (db : LedgerDB) (index : String) (oldAttributes newAttributes : List String) :
    LedgerDB :=
  { db with
    writes := db.writes ++
      [Write.DelIndex ⟨index, oldAttributes⟩, Write.PutIndex ⟨index, newAttributes⟩] }

/-- Modelled from the spec: `UpdateComputePlanState` (§4.4, §4.6) on the ledger of
§5. -/
def UpdateComputePlanState (db : LedgerDB) (computePlanKey tupleStatus _tupleKey worker : String) :
    Option Error × LedgerDB :=
  if computePlanKey = "" then (none, db)
  else
    match db.GetComputePlan computePlanKey with
    | .error err => (some err, db)
    | .ok cp =>
      match db.GetComputePlanState cp.StateKey with
      | .error err => (some err, db)
      | .ok state =>
        match db.GetComputePlanWorkerState computePlanKey worker with
        | .error err => (some err, db)
        | .ok wState =>
          let db :=
            if tupleStatus = StatusDone then
              Committed.Put db (computePlanWorkerStateKey computePlanKey worker)
                (.computePlanWorkerState { wState with DoneCount := wState.DoneCount + 1 })
            else db
          let status := derivePlanStatus state.Status tupleStatus
            (db.workerStates computePlanKey cp.Workers)
          if status = state.Status then (none, db)
          else
            (none, Committed.Put db cp.StateKey (.computePlanState { state with Status := status }))

/-- The method `commitStatusUpdate` of a traintuple on the ledger of §5. -/
def commitTraintuple (traintuple : Traintuple) (db : LedgerDB)
    (traintupleKey newStatus : String) : Option Error × Traintuple × LedgerDB :=
  if traintuple.Status = newStatus then (none, traintuple, db)
  -- do not update if previous status is already Done, Failed, Todo, Doing
  else if StatusAborted = newStatus ∧ traintuple.Status ≠ StatusWaiting then
    (none, traintuple, db)
  else
    match traintuple.validateNewStatus db newStatus with
    | some _ => (some errors.Internal, traintuple, db)
    | none =>
      let oldStatus := traintuple.Status
      let traintuple := { traintuple with Status := newStatus }
      let db := Committed.Put db traintupleKey (.traintuple traintuple)
      -- update associated composite keys
      let indexName := "traintuple~worker~status~key"
      let oldAttributes := ["traintuple", traintuple.Dataset.Worker, oldStatus, traintupleKey]
      let newAttributes :=
        ["traintuple", traintuple.Dataset.Worker, traintuple.Status, traintupleKey]
      let db := Committed.UpdateIndex db indexName oldAttributes newAttributes
      match Committed.UpdateComputePlanState db traintuple.ComputePlanKey newStatus traintupleKey
          traintuple.Dataset.Worker with
      | (some err, db) => (some err, traintuple, db)
      | (none, db) => (none, traintuple, db)

/-- Modelled from the spec: `commitStatusUpdate` of a composite traintuple on the
ledger of §5. -/
def commitCompositeTraintuple (traintuple : CompositeTraintuple) (db : LedgerDB)
    (traintupleKey newStatus : String) : Option Error × CompositeTraintuple × LedgerDB :=
  if traintuple.Status = newStatus then (none, traintuple, db)
  else if StatusAborted = newStatus ∧ traintuple.Status ≠ StatusWaiting then
    (none, traintuple, db)
  else
    match checkUpdateTuple db traintuple.Dataset.Worker traintuple.Status newStatus with
    | some _ => (some errors.Internal, traintuple, db)
    | none =>
      let oldStatus := traintuple.Status
      let traintuple := { traintuple with Status := newStatus }
      let db := Committed.Put db traintupleKey (.compositeTraintuple traintuple)
      let db := Committed.UpdateIndex db "compositeTraintuple~worker~status~key"
        ["compositeTraintuple", traintuple.Dataset.Worker, oldStatus, traintupleKey]
        ["compositeTraintuple", traintuple.Dataset.Worker, traintuple.Status, traintupleKey]
      match Committed.UpdateComputePlanState db traintuple.ComputePlanKey newStatus traintupleKey
          traintuple.Dataset.Worker with
      | (some err, db) => (some err, traintuple, db)
      | (none, db) => (none, traintuple, db)

/-- Modelled from the spec: `commitStatusUpdate` of an aggregatetuple on the
ledger of §5. -/
def commitAggregatetuple (tuple : Aggregatetuple) (db : LedgerDB)
    (aggregatetupleKey newStatus : String) : Option Error × Aggregatetuple × LedgerDB :=
  if tuple.Status = newStatus then (none, tuple, db)
  else if StatusAborted = newStatus ∧ tuple.Status ≠ StatusWaiting then (none, tuple, db)
  else
    match checkUpdateTuple db tuple.Worker tuple.Status newStatus with
    | some _ => (some errors.Internal, tuple, db)
    | none =>
      let oldStatus := tuple.Status
      let tuple := { tuple with Status := newStatus }
      let db := Committed.Put db aggregatetupleKey (.aggregatetuple tuple)
      let db := Committed.UpdateIndex db "aggregatetuple~worker~status~key"
        ["aggregatetuple", tuple.Worker, oldStatus, aggregatetupleKey]
        ["aggregatetuple", tuple.Worker, tuple.Status, aggregatetupleKey]
      match Committed.UpdateComputePlanState db tuple.ComputePlanKey newStatus
          aggregatetupleKey tuple.Worker with
      | (some err, db) => (some err, tuple, db)
      | (none, db) => (none, tuple, db)

/-- Modelled from the spec: `commitStatusUpdate` of a testtuple on the ledger of
§5. -/
def commitTesttuple (testtuple : Testtuple) (db : LedgerDB)
    (testtupleKey newStatus : String) : Option Error × Testtuple × LedgerDB :=
  if testtuple.Status = newStatus then (none, testtuple, db)
  else if StatusAborted = newStatus ∧ testtuple.Status ≠ StatusWaiting then
    (none, testtuple, db)
  else
    match checkUpdateTuple db testtuple.Dataset.Worker testtuple.Status newStatus with
    | some _ => (some errors.Internal, testtuple, db)
    | none =>
      let oldStatus := testtuple.Status
      let testtuple := { testtuple with Status := newStatus }
      let db := Committed.Put db testtupleKey (.testtuple testtuple)
      let db := Committed.UpdateIndex db "testtuple~worker~status~key"
        ["testtuple", testtuple.Dataset.Worker, oldStatus, testtupleKey]
        ["testtuple", testtuple.Dataset.Worker, testtuple.Status, testtupleKey]
      match Committed.UpdateComputePlanState db testtuple.ComputePlanKey newStatus testtupleKey
          testtuple.Dataset.Worker with
      | (some err, db) => (some err, testtuple, db)
      | (none, db) => (none, testtuple, db)

/-- UpdateTraintupleChild updates the status of a waiting traintuple, given the
new parent traintuple status, on the ledger of §5. -/
def UpdateTraintupleChild (db : LedgerDB)
    (parentTraintupleKey childTraintupleKey traintupleStatus : String) :
    Except Error String × LedgerDB :=
  -- get and update traintuple
  match db.GetTraintuple childTraintupleKey with
  | .error err => (.error err, db)
  | .ok childTraintuple =>
    -- get traintuple new status
    let newStatus : Except Error String :=
      if traintupleStatus = StatusFailed then .ok StatusFailed
      else if traintupleStatus = StatusDone then
        match childTraintuple.isReady db parentTraintupleKey with
        | .error err => .error err
        | .ok ready => if ready then .ok StatusTodo else .ok ""
      else .ok ""
    match newStatus with
    | .error err => (.error err, db)
    | .ok newStatus =>
      -- commit new status
      if newStatus = "" then (.ok childTraintuple.Status, db)
      else
        match Committed.commitTraintuple childTraintuple db childTraintupleKey newStatus with
        | (some err, _, db) => (.error err, db)
        | (none, childTraintuple, db) =>
          -- update return value after status update
          (.ok childTraintuple.Status, db.AddTupleEvent childTraintupleKey)

/-- Modelled from the spec: `UpdateCompositeTraintupleChild` (§4.5) on the ledger
of §5. -/
def UpdateCompositeTraintupleChild (db : LedgerDB)
    (parentTraintupleKey childTraintupleKey traintupleStatus : String) :
    Except Error String × LedgerDB :=
  match db.GetCompositeTraintuple childTraintupleKey with
  | .error err => (.error err, db)
  | .ok childTraintuple =>
    let newStatus : Except Error String :=
      if traintupleStatus = StatusFailed then .ok StatusFailed
      else if traintupleStatus = StatusDone then
        match childTraintuple.isReady db parentTraintupleKey with
        | .error err => .error err
        | .ok ready => if ready then .ok StatusTodo else .ok ""
      else .ok ""
    match newStatus with
    | .error err => (.error err, db)
    | .ok newStatus =>
      if newStatus = "" then (.ok childTraintuple.Status, db)
      else
        match Committed.commitCompositeTraintuple childTraintuple db childTraintupleKey
            newStatus with
        | (some err, _, db) => (.error err, db)
        | (none, childTraintuple, db) =>
          (.ok childTraintuple.Status, db.AddTupleEvent childTraintupleKey)

/-- Modelled from the spec: `UpdateAggregatetupleChild` (§4.5) on the ledger of
§5. -/
def UpdateAggregatetupleChild (db : LedgerDB)
    (parentTraintupleKey childAggregatetupleKey traintupleStatus : String) :
    Except Error String × LedgerDB :=
  match db.GetAggregatetuple childAggregatetupleKey with
  | .error err => (.error err, db)
  | .ok childAggregatetuple =>
    let newStatus : Except Error String :=
      if traintupleStatus = StatusFailed then .ok StatusFailed
      else if traintupleStatus = StatusDone then
        match IsReady db childAggregatetuple.InModelKeys parentTraintupleKey with
        | .error err => .error err
        | .ok ready => if ready then .ok StatusTodo else .ok ""
      else .ok ""
    match newStatus with
    | .error err => (.error err, db)
    | .ok newStatus =>
      if newStatus = "" then (.ok childAggregatetuple.Status, db)
      else
        match Committed.commitAggregatetuple childAggregatetuple db childAggregatetupleKey
            newStatus with
        | (some err, _, db) => (.error err, db)
        | (none, childAggregatetuple, db) =>
          (.ok childAggregatetuple.Status, db.AddTupleEvent childAggregatetupleKey)

/-- The loop of `UpdateTesttupleChildren` over the testtuples of a traintuple, on
the ledger of §5. -/
def UpdateTesttupleChildren.loop (traintupleKey newStatus : String) :
    List String → LedgerDB → Option Error × LedgerDB
  | [], db => (none, db)
  | testtupleKey :: rest, db =>
    -- get and update testtuple
    match db.GetTesttuple testtupleKey with
    | .error err => (some err, db)
    | .ok testtuple =>
      if testtuple.Status = StatusAborted then
        Committed.UpdateTesttupleChildren.loop traintupleKey newStatus rest db
      else
        let testtuple := { testtuple with TraintupleKey := traintupleKey }
        match Committed.commitTesttuple testtuple db testtupleKey newStatus with
        | (some err, _, db) => (some err, db)
        | (none, _, db) =>
          Committed.UpdateTesttupleChildren.loop traintupleKey newStatus rest
            (db.AddTupleEvent testtupleKey)

/-- UpdateTesttupleChildren updates the status of the testtuples associated with
a done or failed traintuple, on the ledger of §5. -/
def UpdateTesttupleChildren (db : LedgerDB) (traintupleKey traintupleStatus : String) :
    Option Error × LedgerDB :=
  let newStatus : Option String :=
    if traintupleStatus = StatusFailed then some StatusFailed
    else if traintupleStatus = StatusDone then some StatusTodo
    else none
  match newStatus with
  | none => (none, db)
  | some newStatus =>
    let indexName := "testtuple~traintuple~certified~key"
    -- get testtuple associated with this traintuple and updates its status
    let testtupleKeys := db.GetIndexKeys indexName ["testtuple", traintupleKey]
    Committed.UpdateTesttupleChildren.loop traintupleKey newStatus testtupleKeys db

/-- The `switch child.AssetType` of `UpdateTraintupleChildren`, on the ledger of
§5. -/
def updateChildOfType (db : LedgerDB) (assetType : AssetType)
    (traintupleKey childTraintupleKey traintupleStatus : String) :
    Except Error String × LedgerDB :=
  match assetType with
  | TraintupleType =>
      Committed.UpdateTraintupleChild db traintupleKey childTraintupleKey traintupleStatus
  | CompositeTraintupleType =>
      Committed.UpdateCompositeTraintupleChild db traintupleKey childTraintupleKey traintupleStatus
  | AggregatetupleType =>
      Committed.UpdateAggregatetupleChild db traintupleKey childTraintupleKey traintupleStatus
  | _ => (.error errors.Internal, db)

/-- The loop of `UpdateTraintupleChildren` over the children read from the index,
on the ledger of §5; `recur` is the recursive call on the children of a child. A
result `none` means that the recursion was cut short. -/
def UpdateTraintupleChildren.loop
    (recur : LedgerDB → String → String → List String → Option (Option Error × LedgerDB))
    (traintupleKey traintupleStatus : String) :
    List String → LedgerDB → List String → Option (Option Error × LedgerDB)
  | [], db, _ => some (none, db)
  | childTraintupleKey :: rest, db, alreadyUpdatedKeys =>
    if stringInSlice childTraintupleKey alreadyUpdatedKeys then
      Committed.UpdateTraintupleChildren.loop recur traintupleKey traintupleStatus rest db
        alreadyUpdatedKeys
    else
      match db.GetGenericTuple childTraintupleKey with
      | .error err => some (some err, db)
      | .ok child =>
        if stringInSlice child.Status [StatusFailed, StatusAborted] then
          -- traintuple is already failed, don't update it
          Committed.UpdateTraintupleChildren.loop recur traintupleKey traintupleStatus rest db
            alreadyUpdatedKeys
        else if child.Status ≠ StatusWaiting then some (some errors.Internal, db)
        else
          -- Update the child traintuple and get its new status
          match Committed.updateChildOfType db child.AssetType traintupleKey childTraintupleKey
              traintupleStatus with
          | (.error err, db) => some (some err, db)
          | (.ok childTraintupleStatus, db) =>
            let alreadyUpdatedKeys := alreadyUpdatedKeys ++ [childTraintupleKey]
            if stringInSlice traintupleStatus [StatusFailed, StatusAborted] then
              -- Recursively call for an update on this child's children
              match Committed.UpdateTesttupleChildren db childTraintupleKey
                  childTraintupleStatus with
              | (some err, db) => some (some err, db)
              | (none, db) =>
                match recur db childTraintupleKey childTraintupleStatus alreadyUpdatedKeys with
                | none => none
                | some (some err, db) => some (some err, db)
                | some (none, db) =>
                  Committed.UpdateTraintupleChildren.loop recur traintupleKey traintupleStatus
                    rest db alreadyUpdatedKeys
            else
              Committed.UpdateTraintupleChildren.loop recur traintupleKey traintupleStatus rest
                db alreadyUpdatedKeys

/-- The recursion of `UpdateTraintupleChildren` on the ledger of §5, at most
`depth` calls deep. -/
def UpdateTraintupleChildren.go :
    Nat → LedgerDB → String → String → List String → Option (Option Error × LedgerDB)
  | 0, _, _, _, _ => none
  | depth + 1, db, traintupleKey, traintupleStatus, alreadyUpdatedKeys =>
    -- get keys from tuple having as inModels the input traintuple
    let allChildKeys := db.GetIndexKeys "tuple~inModel~key" ["tuple", traintupleKey]
    Committed.UpdateTraintupleChildren.loop (Committed.UpdateTraintupleChildren.go depth)
      traintupleKey traintupleStatus allChildKeys db alreadyUpdatedKeys

/-- UpdateTraintupleChildren on the ledger of §5: it updates the status of the
waiting traintuples that have the given traintuple among their inModels, once it
has been trained (successfully or not). The branch `none` is never taken. -/
def UpdateTraintupleChildren (db : LedgerDB) (traintupleKey traintupleStatus : String)
    (alreadyUpdatedKeys : List String) : Option Error × LedgerDB :=
  match Committed.UpdateTraintupleChildren.go db.maxDepth db traintupleKey traintupleStatus
      alreadyUpdatedKeys with
  | some r => r
  | none => (some errors.Internal, db)

end Committed

/-- From `db` to `db'` no waiting training tuple appears: every key holds the
record it held, or a record that is not a waiting training tuple. -/
def NoNewWaiting (db db' : LedgerDB) : Prop :=
  ∀ k, db'.Get k = db.Get k ∨
    ∃ v, db'.Get k = some v ∧ (v.isTraining = false ∨ v.status ≠ StatusWaiting)

/-! ## Concrete ledgers and requests -/

namespace Example

/-- Permissions open to everyone. -/
def openPermissions : Permissions := ⟨⟨true, []⟩, ⟨true, []⟩⟩

/-- An algo owned by worker A. -/
def algo : Algo :=
  { Key := "algo", Name := "algo", AssetType := AlgoType, Checksum := "c", StorageAddress := "a",
    Description := ⟨"c", "a"⟩, Owner := "workerA", Permissions := openPermissions, Metadata := [] }

/-- A data manager owned by worker A. -/
def dataManager : DataManager :=
  { Key := "dm", Name := "dm", AssetType := DataManagerType, Opener := ⟨"c", "a"⟩, Type' := "csv",
    Description := ⟨"c", "a"⟩, Owner := "workerA", ObjectiveKey := "",
    Permissions := openPermissions, Metadata := [] }

/-- A train-only data sample of the data manager. -/
def dataSample : DataSample :=
  { AssetType := DataSampleType, DataManagerKeys := ["dm"], Owner := "workerA", TestOnly := false }

/-- A traintuple of worker A with the given key, status, in-models and plan. -/
def train (key status : String) (inModels : List String) (computePlanKey : String) : Traintuple :=
  { Key := key, AssetType := TraintupleType, AlgoKey := "algo", ComputePlanKey := computePlanKey,
    Creator := "workerA", Log := "", Metadata := [], Rank := 0, Status := status, Tag := "",
    Dataset := ⟨"dm", ["ds"], [], "workerA"⟩, InModelKeys := inModels, OutModel := none,
    Permissions := openPermissions }

/-- A testtuple of worker A attached to the given traintuple. -/
def test (key traintupleKey status : String) : Testtuple :=
  { Key := key, AlgoKey := "algo", AssetType := TesttupleType, Certified := true,
    ComputePlanKey := "", Creator := "workerA", Dataset := ⟨"dm", "workerA", ["ts"], "c"⟩,
    Log := "", Metadata := [], TraintupleKey := traintupleKey, ObjectiveKey := "obj",
    Permissions := openPermissions, Rank := 0, Status := status, Tag := "" }

/-- A ledger at the start of a transaction of worker A. -/
def ledger (assets : List (String × Asset)) (indexes : List IndexEntry) : LedgerDB :=
  { txCreator := "workerA", state := fun k => assets.lookup k, indexes := indexes,
    tuplesEvent := [], writes := [] }

/-- The catalog every example ledger holds. -/
def catalog : List (String × Asset) :=
  [("algo", .algo algo), ("dm", .dataManager dataManager), ("ds", .dataSample dataSample)]

/-- The chain A → B → C outside any compute plan, A being trained, with a
testtuple on each of A, B and C (the setting of `TestRecursiveLogFailed`, with
more testtuples). -/
def chain : LedgerDB :=
  ledger
    (catalog ++
      [("A", .traintuple (train "A" "doing" [] "")),
       ("B", .traintuple (train "B" "waiting" ["A"] "")),
       ("C", .traintuple (train "C" "waiting" ["B"] "")),
       ("tA", .testtuple (test "tA" "A" "waiting")),
       ("tB", .testtuple (test "tB" "B" "waiting")),
       ("tC", .testtuple (test "tC" "C" "waiting"))])
    [⟨"tuple~inModel~key", ["tuple", "A", "B"]⟩,
     ⟨"tuple~inModel~key", ["tuple", "B", "C"]⟩,
     ⟨"testtuple~traintuple~certified~key", ["testtuple", "A", "true", "tA"]⟩,
     ⟨"testtuple~traintuple~certified~key", ["testtuple", "B", "true", "tB"]⟩,
     ⟨"testtuple~traintuple~certified~key", ["testtuple", "C", "true", "tC"]⟩]

/-- The report that A was trained successfully. -/
def successA : inputLogSuccessTrain := ⟨"A", "trained", ⟨"model", "checksum", "address"⟩⟩

/-- A join: J waits for its two in-models A (being trained) and A2 (todo). -/
def join : LedgerDB :=
  ledger
    (catalog ++
      [("A", .traintuple (train "A" "doing" [] "")),
       ("A2", .traintuple (train "A2" "todo" [] "")),
       ("J", .traintuple (train "J" "waiting" ["A", "A2"] ""))])
    [⟨"tuple~inModel~key", ["tuple", "A", "J"]⟩,
     ⟨"tuple~inModel~key", ["tuple", "A2", "J"]⟩]

/-- A request to create a standalone traintuple without in-models under the key
of the traintuple A. -/
def inputA : inputTraintuple :=
  { Key := "A", AlgoKey := "algo", InModels := [], DataManagerKey := "dm",
    DataSampleKeys := ["ds"], ComputePlanKey := "", Rank := "", Tag := "", Metadata := [] }

/-- A compute plan with the traintuples P and Q of worker A. -/
def computePlan : ComputePlan :=
  { Key := "cp", AggregatetupleKeys := [], AssetType := ComputePlanType, CleanModels := false,
    CompositeTraintupleKeys := [], IDToTrainTask := [], Metadata := [], StateKey := "cp~state",
    Tag := "", TesttupleKeys := ["tP"], TraintupleKeys := ["P", "Q"], Workers := ["workerA"] }

/-- Inside the compute plan cp: P is being trained, Q waits for P, and the
testtuple tP is attached to P. -/
def plan : LedgerDB :=
  ledger
    (catalog ++
      [("cp", .computePlan computePlan),
       ("cp~state", .computePlanState ⟨"doing"⟩),
       (computePlanWorkerStateKey "cp" "workerA", .computePlanWorkerState ⟨[], 0, 2⟩),
       ("P", .traintuple (train "P" "doing" [] "cp")),
       ("Q", .traintuple { train "Q" "waiting" ["P"] "cp" with Rank := 1 }),
       ("tP", .testtuple { test "tP" "P" "waiting" with ComputePlanKey := "cp" })])
    [⟨"tuple~inModel~key", ["tuple", "P", "Q"]⟩,
     ⟨"testtuple~traintuple~certified~key", ["testtuple", "P", "true", "tP"]⟩]

/-- A is being trained; its child X was aborted (as when its compute plan is
cancelled) while the child C of X, outside the plan, is still waiting. -/
def skipped : LedgerDB :=
  ledger
    (catalog ++
      [("A", .traintuple (train "A" "doing" [] "")),
       ("X", .traintuple { train "X" "aborted" ["A"] "cp" with Rank := 1 }),
       ("C", .traintuple (train "C" "waiting" ["X"] ""))])
    [⟨"tuple~inModel~key", ["tuple", "A", "X"]⟩,
     ⟨"tuple~inModel~key", ["tuple", "X", "C"]⟩]

/-- The report that the training of A failed. -/
def failA : inputLogFailTrain := ⟨"A", "failure"⟩

/-- The traintuple A, trained: its record is done and the index
`traintuple~worker~status~key` holds its entry. -/
def trained : LedgerDB :=
  ledger (catalog ++ [("A", .traintuple (train "A" "done" [] ""))])
    [⟨"traintuple~worker~status~key", ["traintuple", "workerA", "done", "A"]⟩]

/-- A data manager of worker B that only its owner may process. -/
def privateDataManager : DataManager :=
  { dataManager with Key := "dmB", Owner := "workerB", Permissions := ⟨⟨false, []⟩, ⟨false, []⟩⟩ }

/-- A test-only data sample of the data manager dm. -/
def testSample : DataSample := { dataSample with TestOnly := true }

/-- A train-only data sample of the data manager dmB, foreign to dm. -/
def foreignSample : DataSample :=
  { dataSample with DataManagerKeys := ["dmB"], Owner := "workerB" }

/-- The catalog with the private data manager dmB, the test-only sample ts of dm
and the sample fs of dmB, in a transaction of worker A. -/
def samples : LedgerDB :=
  ledger
    (catalog ++
      [("dmB", .dataManager privateDataManager), ("ts", .dataSample testSample),
       ("fs", .dataSample foreignSample)])
    []

/-- A request of worker A for a traintuple on the data manager dmB, which worker
A may not process, with the sample ds, which does not belong to dmB. -/
def inputPrivate : inputTraintuple :=
  { inputA with Key := "N", DataManagerKey := "dmB" }

/-- A request of worker A for a traintuple on the data manager dmB, which worker
A may not process, with the sample fs of dmB. -/
def inputForbidden : inputTraintuple :=
  { inputA with Key := "N", DataManagerKey := "dmB", DataSampleKeys := ["fs"] }

/-- A request for a traintuple on the data manager dm that lists a sample that
does not exist before the sample fs, which is foreign to dm. -/
def inputMissing : inputTraintuple :=
  { inputA with Key := "N", DataSampleKeys := ["nowhere", "fs"] }

/-- A request to add a traintuple N to the compute plan cp with the rank "-1". -/
def inputNegative : inputTraintuple :=
  { inputA with Key := "N", ComputePlanKey := "cp", Rank := "-1" }

/-- A ledger that holds the catalog only, in a transaction of worker A. -/
def catalogOnly : LedgerDB := ledger catalog []

/-- A request to add a traintuple of worker A to the compute plan cp with the
given key and rank string. -/
def inputRank (key rank : String) : inputTraintuple :=
  { inputA with Key := key, ComputePlanKey := "cp", Rank := rank }

/-- The ledger `plan` after the traintuple N1 was created in the plan cp with the
rank string "2". -/
def afterFirst : LedgerDB := (createTraintupleInternal plan (inputRank "N1" "2") true).2

/-- The ledger `afterFirst` after the traintuple N2 was created in the plan cp
with the rank string "02". -/
def afterSecond : LedgerDB := (createTraintupleInternal afterFirst (inputRank "N2" "02") true).2

/-- A request for a composite traintuple without in-models; the keys are UUIDs
of 36 characters. -/
def compositeInput : inputCompositeTraintuple :=
  { Key := "11111111-1111-1111-1111-111111111111",
    AlgoKey := "22222222-2222-2222-2222-222222222222",
    InHeadModelKey := "", InTrunkModelKey := "",
    OutTrunkModelPermissions := ⟨⟨true, []⟩⟩,
    DataManagerKey := "33333333-3333-3333-3333-333333333333",
    DataSampleKeys := ["44444444-4444-4444-4444-444444444444"],
    ComputePlanKey := "", Rank := "", Tag := "", Metadata := [] }

/-- An ordering of the tasks of a payload: its traintuples, in the order of the
payload. -/
def payloadOrder (inp : inputComputePlan) : Except Error ComputeDAG :=
  .ok ⟨(List.range inp.Traintuples.length).map fun i => ⟨TraintupleType, i⟩⟩

/-- A payload whose second traintuple names a parent id that no traintuple of
the payload carries. -/
def unknownParent : inputComputePlan :=
  { ObjectiveKey := "objective",
    Traintuples :=
      [⟨"dm", ["ds"], "algo", "", [], "first"⟩,
       ⟨"dm", ["ds"], "algo", "", ["zeroth"], "second"⟩],
    Testtuples := [] }

/-- A creation of traintuples that accepts every input and names the tuple after
its rank, without writing it. -/
def accept (db : LedgerDB) (inp : inputTraintuple) : Except Error String × LedgerDB :=
  (.ok ("tuple" ++ inp.Rank), db)

/-- A creation of testtuples that refuses every input. -/
def refuse (db : LedgerDB) (_ : inputTesttuple) : Except Error String × LedgerDB :=
  (.error errors.Internal, db)

/-- A traintuple of worker A in the plan "cp" with the given key and rank. -/
def ranked (key : String) (rank : Int) : Traintuple :=
  { train key "waiting" [] "cp" with Rank := rank }

/-- A ledger whose index of the traintuples of the plan "cp" holds three keys,
of ranks 2, 0 and 1. -/
def ranks : LedgerDB :=
  ledger
    (catalog ++
      [("T2", .traintuple (ranked "T2" 2)),
       ("T0", .traintuple (ranked "T0" 0)),
       ("T1", .traintuple (ranked "T1" 1))])
    [⟨"traintuple~computeplanid~worker~rank~key", ["traintuple", "cp", "workerA", "2", "T2"]⟩,
     ⟨"traintuple~computeplanid~worker~rank~key", ["traintuple", "cp", "workerA", "0", "T0"]⟩,
     ⟨"traintuple~computeplanid~worker~rank~key", ["traintuple", "cp", "workerA", "1", "T1"]⟩]

/-- The catalog with a second data manager dm2 of worker A, the sample fs of
worker B and the data manager dmB, in a transaction of worker A. -/
def managers : LedgerDB :=
  ledger
    (catalog ++
      [("dm2", .dataManager { dataManager with Key := "dm2" }),
       ("dmB", .dataManager privateDataManager),
       ("fs", .dataSample foreignSample)])
    []

/-- A request to associate the sample ds with the data managers dm2, dm and dm2
again. -/
def associate : inputUpdateDataSample := ⟨["ds"], ["dm2", "dm", "dm2"]⟩

/-- A request to associate with dm2 a sample that does not exist and the sample
fs of worker B. -/
def associateForeign : inputUpdateDataSample := ⟨["nowhere", "fs"], ["dm2"]⟩

/-- A request to associate with dm2 the sample ds and the sample fs of worker
B. -/
def associateBoth : inputUpdateDataSample := ⟨["ds", "fs"], ["dm2"]⟩

/-- A request to associate the sample ds with the data manager dmB, which worker
A does not own. -/
def associatePrivate : inputUpdateDataSample := ⟨["ds"], ["dm2", "dmB"]⟩

/-- A reading of the requested permissions: the process channel as requested,
the download channel public. -/
def grant (_ : LedgerDB) (p : inputPermissions) : Except Error Permissions :=
  .ok ⟨⟨p.Process.Public, p.Process.AuthorizedIDs⟩, ⟨true, []⟩⟩

/-- A request to register an algo under a key the catalog does not hold. -/
def newAlgo : inputAlgo :=
  { Key := "algo2", Name := "second", Checksum := "c2", StorageAddress := "a2",
    DescriptionChecksum := "dc2", DescriptionStorageAddress := "da2",
    Permissions := ⟨⟨true, []⟩⟩, Metadata := [("framework", "none")] }

/-- A traintuple A with three testtuples: t1 waiting, t2 aborted, t3 waiting. -/
def tested : LedgerDB :=
  ledger
    (catalog ++
      [("A", .traintuple (train "A" "done" [] "")),
       ("t1", .testtuple (test "t1" "A" "waiting")),
       ("t2", .testtuple (test "t2" "A" "aborted")),
       ("t3", .testtuple (test "t3" "A" "waiting"))])
    [⟨"testtuple~traintuple~certified~key", ["testtuple", "A", "true", "t1"]⟩,
     ⟨"testtuple~traintuple~certified~key", ["testtuple", "A", "true", "t2"]⟩,
     ⟨"testtuple~traintuple~certified~key", ["testtuple", "A", "true", "t3"]⟩]

/-- A diamond: B and C wait for A, which is being trained, and D waits for B and
C; a testtuple tD is attached to D. -/
def diamond : LedgerDB :=
  ledger
    (catalog ++
      [("A", .traintuple (train "A" "doing" [] "")),
       ("B", .traintuple (train "B" "waiting" ["A"] "")),
       ("C", .traintuple (train "C" "waiting" ["A"] "")),
       ("D", .traintuple (train "D" "waiting" ["B", "C"] "")),
       ("tD", .testtuple (test "tD" "D" "waiting"))])
    [⟨"tuple~inModel~key", ["tuple", "A", "B"]⟩,
     ⟨"tuple~inModel~key", ["tuple", "A", "C"]⟩,
     ⟨"tuple~inModel~key", ["tuple", "B", "D"]⟩,
     ⟨"tuple~inModel~key", ["tuple", "C", "D"]⟩,
     ⟨"testtuple~traintuple~certified~key", ["testtuple", "D", "true", "tD"]⟩]

/-- A is done and so is its child B. -/
def doneChild : LedgerDB :=
  ledger
    (catalog ++
      [("A", .traintuple (train "A" "done" [] "")),
       ("B", .traintuple (train "B" "done" ["A"] ""))])
    [⟨"tuple~inModel~key", ["tuple", "A", "B"]⟩]

/-- A ledger whose index of the traintuples of the plan "cp" holds the key T0, of
rank 0, and the key Tm, of rank -1 (a rank string "-1" is accepted at
creation). -/
def belowZero : LedgerDB :=
  ledger
    (catalog ++
      [("T0", .traintuple (ranked "T0" 0)),
       ("Tm", .traintuple (ranked "Tm" (-1)))])
    [⟨"traintuple~computeplanid~worker~rank~key", ["traintuple", "cp", "workerA", "0", "T0"]⟩,
     ⟨"traintuple~computeplanid~worker~rank~key", ["traintuple", "cp", "workerA", "-1", "Tm"]⟩]

/-- The ledger `catalogOnly` on a host that refuses every tuple event with an
internal error. -/
def refusingEvents : LedgerDB :=
  { catalogOnly with refusedEvent := fun _ => some errors.Internal }

/-- The ledger `catalogOnly` on a host that refuses the composite keys of the index
`traintuple~worker~status~key` with an internal error. -/
def refusingStatusKeys : LedgerDB :=
  { catalogOnly with
    refusedIndex := fun e =>
      if e.index = "traintuple~worker~status~key" then some errors.Internal else none }

end Example

/-! # Properties -/

/-! ## Small facts -/

theorem stringInSlice_iff (a : String) (l : List String) : stringInSlice a l = true ↔ a ∈ l := by
  simp [stringInSlice]

theorem typeInSlice_iff (a : AssetType) (l : List AssetType) : typeInSlice a l = true ↔ a ∈ l := by
  simp [typeInSlice]

theorem GetGenericTuple_congr (db db' : LedgerDB) (key : String) (h : db'.Get key = db.Get key) :
    db'.GetGenericTuple key = db.GetGenericTuple key := by
  simp [LedgerDB.GetGenericTuple, h]

/-! ## C1: the status set by `SetFromParents` -/

theorem SetFromParents_loop_ok (db : LedgerDB) (inModels : List String) :
    ∀ (ps ks : List String),
    (∀ k ∈ inModels, ∃ g, db.GetGenericTuple k = .ok g ∧
      g.AssetType ∈ [TraintupleType, CompositeTraintupleType, AggregatetupleType]) →
    SetFromParents.loop db inModels ps ks
      = .ok (ps ++ inModels.map db.statusOf, ks ++ inModels) := by
  induction inModels with
  | nil => intro ps ks _; simp [SetFromParents.loop]
  | cons k rest ih =>
    intro ps ks h
    obtain ⟨g, hg, hty⟩ := h k (List.mem_cons_self _ _)
    have hrest := ih (ps ++ [g.Status]) (ks ++ [k])
      (fun k' hk' => h k' (List.mem_cons_of_mem _ hk'))
    have hs : db.statusOf k = g.Status := by simp [LedgerDB.statusOf, hg]
    have hty' : typeInSlice g.AssetType
        [TraintupleType, CompositeTraintupleType, AggregatetupleType] = true :=
      (typeInSlice_iff _ _).2 hty
    simp [SetFromParents.loop, hg, hty', hrest, hs]

theorem determineStatusFromInModels_spec (statuses : List String) :
    ((∃ s ∈ statuses, s = StatusFailed ∨ s = StatusAborted) →
        determineStatusFromInModels statuses = StatusAborted) ∧
    ((¬ ∃ s ∈ statuses, s = StatusFailed ∨ s = StatusAborted) →
        (∀ s ∈ statuses, s = StatusDone) →
        determineStatusFromInModels statuses = StatusTodo) ∧
    ((¬ ∃ s ∈ statuses, s = StatusFailed ∨ s = StatusAborted) →
        (¬ ∀ s ∈ statuses, s = StatusDone) →
        determineStatusFromInModels statuses = StatusWaiting) := by
  refine ⟨?_, ?_, ?_⟩
  · intro h
    have a : statuses.any (fun s => decide (s = StatusFailed) || decide (s = StatusAborted))
        = true := by
      simpa [List.any_eq_true] using h
    simp [determineStatusFromInModels, a]
  · intro h1 h2
    have a : ¬ statuses.any (fun s => decide (s = StatusFailed) || decide (s = StatusAborted))
        = true := by
      simpa [List.any_eq_true] using h1
    have b : statuses.all (fun s => decide (s = StatusDone)) = true := by
      simpa [List.all_eq_true] using h2
    simp [determineStatusFromInModels, a, b]
  · intro h1 h2
    have a : ¬ statuses.any (fun s => decide (s = StatusFailed) || decide (s = StatusAborted))
        = true := by
      simpa [List.any_eq_true] using h1
    have b : ¬ statuses.all (fun s => decide (s = StatusDone)) = true := by
      simpa [List.all_eq_true] using h2
    simp [determineStatusFromInModels, a, b]

/-- C1: for a traintuple whose in-model keys all resolve to training tuples
(traintuple, composite traintuple or aggregatetuple), `SetFromParents` succeeds,
appends the in-models to `InModelKeys` and sets the status from the statuses of
the parents: aborted if any parent is failed or aborted, otherwise todo if every
parent is done (in particular if there is no parent), otherwise waiting. -/
theorem SetFromParents_status (db : LedgerDB) (traintuple : Traintuple) (inModels : List String)
    (h : ∀ k ∈ inModels, ∃ g, db.GetGenericTuple k = .ok g ∧
      g.AssetType ∈ [TraintupleType, CompositeTraintupleType, AggregatetupleType]) :
    ∃ t, traintuple.SetFromParents db inModels = .ok t ∧
      t.InModelKeys = traintuple.InModelKeys ++ inModels ∧
      ((∃ k ∈ inModels, db.statusOf k = StatusFailed ∨ db.statusOf k = StatusAborted) →
        t.Status = StatusAborted) ∧
      ((¬ ∃ k ∈ inModels, db.statusOf k = StatusFailed ∨ db.statusOf k = StatusAborted) →
        (∀ k ∈ inModels, db.statusOf k = StatusDone) → t.Status = StatusTodo) ∧
      ((¬ ∃ k ∈ inModels, db.statusOf k = StatusFailed ∨ db.statusOf k = StatusAborted) →
        (¬ ∀ k ∈ inModels, db.statusOf k = StatusDone) → t.Status = StatusWaiting) := by
  have hl := SetFromParents_loop_ok db inModels [] traintuple.InModelKeys h
  have hd := determineStatusFromInModels_spec (inModels.map db.statusOf)
  refine ⟨_, by simp [Traintuple.SetFromParents, hl]; rfl, rfl, ?_, ?_, ?_⟩
  · intro hex
    apply hd.1
    obtain ⟨k, hk, hs⟩ := hex
    exact ⟨db.statusOf k, List.mem_map_of_mem _ hk, hs⟩
  · intro hne hall
    apply hd.2.1
    · rintro ⟨s, hs, hs'⟩
      obtain ⟨k, hk, rfl⟩ := List.mem_map.1 hs
      exact hne ⟨k, hk, hs'⟩
    · intro s hs
      obtain ⟨k, hk, rfl⟩ := List.mem_map.1 hs
      exact hall k hk
  · intro hne hnall
    apply hd.2.2
    · rintro ⟨s, hs, hs'⟩
      obtain ⟨k, hk, rfl⟩ := List.mem_map.1 hs
      exact hne ⟨k, hk, hs'⟩
    · intro hall
      exact hnall (fun k hk => hall _ (List.mem_map_of_mem _ hk))

/-- C1 at a concrete input: a new traintuple with in-models A (being trained) and
B (waiting) of the chain ledger; both resolve to traintuples, none is failed or
aborted and not all are done, so the new traintuple is waiting. -/
theorem SetFromParents_status_witness :
    ∃ t, (Example.train "D" "" [] "").SetFromParents Example.chain ["A", "B"] = .ok t ∧
      t.InModelKeys = ["A", "B"] ∧ t.Status = StatusWaiting := by
  obtain ⟨t, h1, h2, _, _, h5⟩ :=
    SetFromParents_status Example.chain (Example.train "D" "" [] "") ["A", "B"] (by
      intro k hk
      simp only [List.mem_cons, List.mem_singleton, List.not_mem_nil, or_false] at hk
      rcases hk with rfl | rfl
      · exact ⟨_, rfl, by decide⟩
      · exact ⟨_, rfl, by decide⟩)
  exact ⟨t, h1, h2, h5 (by decide) (by decide)⟩

/-! ## C2: `IsReady` -/

/-- C2: when every key of `inModelKeys` other than `k` resolves to a tuple,
`IsReady db inModelKeys k` returns a boolean that is true if and only if each of
those other keys has status done; and the key `k` itself is never read: the
result is the same on every ledger that stores the same records under all keys
other than `k`. -/
theorem IsReady_iff (db : LedgerDB) (inModelKeys : List String) (k : String)
    (h : ∀ key ∈ inModelKeys, key ≠ k → ∃ g, db.GetGenericTuple key = .ok g) :
    (∃ ready, IsReady db inModelKeys k = .ok ready ∧
      (ready = true ↔ ∀ key ∈ inModelKeys, key ≠ k → db.statusOf key = StatusDone)) ∧
    ∀ db' : LedgerDB, (∀ key, key ≠ k → db'.Get key = db.Get key) →
      IsReady db' inModelKeys k = IsReady db inModelKeys k := by
  constructor
  · induction inModelKeys with
    | nil => exact ⟨true, rfl, by simp⟩
    | cons key rest ih =>
      obtain ⟨r, hr, hiff⟩ := ih (fun key' hk' => h key' (List.mem_cons_of_mem _ hk'))
      by_cases hk : key = k
      · refine ⟨r, by simp [IsReady, hk, hr], ?_⟩
        rw [hiff]
        constructor
        · intro hall key' hmem hne
          rcases List.mem_cons.1 hmem with rfl | hmem
          · exact absurd hk hne
          · exact hall key' hmem hne
        · intro hall key' hmem hne
          exact hall key' (List.mem_cons_of_mem _ hmem) hne
      · obtain ⟨g, hg⟩ := h key (List.mem_cons_self _ _) hk
        have hs : db.statusOf key = g.Status := by simp [LedgerDB.statusOf, hg]
        by_cases hd : g.Status = StatusDone
        · refine ⟨r, by simp [IsReady, hk, hg, hd, hr], ?_⟩
          rw [hiff]
          constructor
          · intro hall key' hmem hne
            rcases List.mem_cons.1 hmem with rfl | hmem
            · rw [hs]; exact hd
            · exact hall key' hmem hne
          · intro hall key' hmem hne
            exact hall key' (List.mem_cons_of_mem _ hmem) hne
        · refine ⟨false, by simp [IsReady, hk, hg, hd], ?_⟩
          constructor
          · intro hf; exact absurd hf (by decide)
          · intro hall
            exact absurd (hs ▸ hall key (List.mem_cons_self _ _) hk) hd
  · intro db' hagree
    clear h
    induction inModelKeys with
    | nil => rfl
    | cons key rest ih =>
      by_cases hk : key = k
      · simp [IsReady, hk, ih]
      · simp [IsReady, hk, ih, GetGenericTuple_congr db db' key (hagree key hk)]

/-- C2 at a concrete input: the in-models A and B of the chain ledger, A being the
key reported done; B resolves and is waiting, so the answer is false. -/
theorem IsReady_iff_witness : IsReady Example.chain ["A", "B"] "A" = .ok false := by
  obtain ⟨⟨ready, h1, h2⟩, _⟩ := IsReady_iff Example.chain ["A", "B"] "A" (by
    intro key hkey hne
    simp only [List.mem_cons, List.mem_singleton, List.not_mem_nil, or_false] at hkey
    rcases hkey with rfl | rfl
    · exact absurd rfl hne
    · exact ⟨_, rfl⟩)
  cases ready with
  | false => exact h1
  | true => exact absurd (h2.1 rfl "B" (by decide) (by decide)) (by decide)

/-! ## The ledger operations, one projection at a time -/

@[simp] theorem Get_Put (db : LedgerDB) (key : String) (a : Asset) (k : String) :
    (db.Put key a).Get k = if k = key then some a else db.Get k := rfl

@[simp] theorem indexes_Put (db : LedgerDB) (key : String) (a : Asset) :
    (db.Put key a).indexes = db.indexes := rfl

@[simp] theorem tuplesEvent_Put (db : LedgerDB) (key : String) (a : Asset) :
    (db.Put key a).tuplesEvent = db.tuplesEvent := rfl

@[simp] theorem txCreator_Put (db : LedgerDB) (key : String) (a : Asset) :
    (db.Put key a).txCreator = db.txCreator := rfl

@[simp] theorem Get_CreateIndex (db : LedgerDB) (index : String) (attrs : List String)
    (k : String) : (db.CreateIndex index attrs).Get k = db.Get k := rfl

@[simp] theorem tuplesEvent_CreateIndex (db : LedgerDB) (index : String) (attrs : List String) :
    (db.CreateIndex index attrs).tuplesEvent = db.tuplesEvent := rfl

@[simp] theorem txCreator_CreateIndex (db : LedgerDB) (index : String) (attrs : List String) :
    (db.CreateIndex index attrs).txCreator = db.txCreator := rfl

@[simp] theorem Get_DeleteIndex (db : LedgerDB) (index : String) (attrs : List String)
    (k : String) : (db.DeleteIndex index attrs).Get k = db.Get k := rfl

@[simp] theorem tuplesEvent_DeleteIndex (db : LedgerDB) (index : String) (attrs : List String) :
    (db.DeleteIndex index attrs).tuplesEvent = db.tuplesEvent := rfl

@[simp] theorem txCreator_DeleteIndex (db : LedgerDB) (index : String) (attrs : List String) :
    (db.DeleteIndex index attrs).txCreator = db.txCreator := rfl

@[simp] theorem Get_UpdateIndex (db : LedgerDB) (index : String) (old new : List String)
    (k : String) : (db.UpdateIndex index old new).Get k = db.Get k := rfl

@[simp] theorem tuplesEvent_UpdateIndex (db : LedgerDB) (index : String) (old new : List String) :
    (db.UpdateIndex index old new).tuplesEvent = db.tuplesEvent := rfl

@[simp] theorem txCreator_UpdateIndex (db : LedgerDB) (index : String) (old new : List String) :
    (db.UpdateIndex index old new).txCreator = db.txCreator := rfl

@[simp] theorem Get_AddTupleEvent (db : LedgerDB) (key k : String) :
    (db.AddTupleEvent key).Get k = db.Get k := rfl

@[simp] theorem indexes_AddTupleEvent (db : LedgerDB) (key : String) :
    (db.AddTupleEvent key).indexes = db.indexes := rfl

@[simp] theorem txCreator_AddTupleEvent (db : LedgerDB) (key : String) :
    (db.AddTupleEvent key).txCreator = db.txCreator := rfl

@[simp] theorem indexOf_Put (db : LedgerDB) (key : String) (a : Asset) (n : String) :
    (db.Put key a).indexOf n = db.indexOf n := rfl

@[simp] theorem indexOf_AddTupleEvent (db : LedgerDB) (key : String) (n : String) :
    (db.AddTupleEvent key).indexOf n = db.indexOf n := rfl

theorem indexOf_CreateIndex_ne (db : LedgerDB) (index : String) (attrs : List String)
    (n : String) (h : index ≠ n) : (db.CreateIndex index attrs).indexOf n = db.indexOf n := by
  unfold LedgerDB.indexOf LedgerDB.CreateIndex
  by_cases hm : IndexEntry.mk index attrs ∈ db.indexes
  · simp [hm]
  · simp [hm, List.filter_append, h]

theorem indexOf_DeleteIndex_ne (db : LedgerDB) (index : String) (attrs : List String)
    (n : String) (h : index ≠ n) : (db.DeleteIndex index attrs).indexOf n = db.indexOf n := by
  unfold LedgerDB.indexOf LedgerDB.DeleteIndex
  simp only [List.filter_filter]
  apply List.filter_congr
  intro e _
  by_cases he : e.index = n
  · have : e ≠ IndexEntry.mk index attrs := by
      intro heq; apply h; rw [← he, heq]
    simp [he, this]
  · simp [he]

theorem indexOf_UpdateIndex_ne (db : LedgerDB) (index : String) (old new : List String)
    (n : String) (h : index ≠ n) : (db.UpdateIndex index old new).indexOf n = db.indexOf n := by
  unfold LedgerDB.UpdateIndex
  rw [indexOf_CreateIndex_ne _ _ _ _ h, indexOf_DeleteIndex_ne _ _ _ _ h]

theorem GetIndexKeys_eq_indexOf (db : LedgerDB) (index : String) (attrs : List String) :
    db.GetIndexKeys index attrs
      = ((db.indexOf index).filter (fun e => attrs.isPrefixOf e.attributes)).filterMap
          (fun e => e.attributes.getLast?) := by
  unfold LedgerDB.GetIndexKeys LedgerDB.indexOf
  rw [List.filter_filter]
  congr 1
  apply List.filter_congr
  intro e _
  simp [Bool.and_comm]

theorem GetIndexKeys_congr (db db' : LedgerDB) (index : String) (attrs : List String)
    (h : db'.indexOf index = db.indexOf index) :
    db'.GetIndexKeys index attrs = db.GetIndexKeys index attrs := by
  rw [GetIndexKeys_eq_indexOf, GetIndexKeys_eq_indexOf, h]

theorem statusOf_eq (db : LedgerDB) (key : String) (a : Asset) (h : db.Get key = some a) :
    db.statusOf key = a.status := by
  simp [LedgerDB.statusOf, LedgerDB.GetGenericTuple, h, Asset.status]

theorem statusOf_congr (db db' : LedgerDB) (key : String) (h : db'.Get key = db.Get key) :
    db'.statusOf key = db.statusOf key := by
  simp [LedgerDB.statusOf, GetGenericTuple_congr db db' key h]

theorem GetTraintuple_ok (db : LedgerDB) (key : String) (t : Traintuple)
    (h : db.GetTraintuple key = .ok t) :
    db.Get key = some (.traintuple t) ∧ t.AssetType = TraintupleType := by
  unfold LedgerDB.GetTraintuple at h
  split at h
  · split at h
    · simp only [Except.ok.injEq] at h; subst h; exact ⟨by assumption, by assumption⟩
    · simp at h
  · simp at h

theorem GetCompositeTraintuple_ok (db : LedgerDB) (key : String) (t : CompositeTraintuple)
    (h : db.GetCompositeTraintuple key = .ok t) :
    db.Get key = some (.compositeTraintuple t) ∧ t.AssetType = CompositeTraintupleType := by
  unfold LedgerDB.GetCompositeTraintuple at h
  split at h
  · split at h
    · simp only [Except.ok.injEq] at h; subst h; exact ⟨by assumption, by assumption⟩
    · simp at h
  · simp at h

theorem GetAggregatetuple_ok (db : LedgerDB) (key : String) (t : Aggregatetuple)
    (h : db.GetAggregatetuple key = .ok t) :
    db.Get key = some (.aggregatetuple t) ∧ t.AssetType = AggregatetupleType := by
  unfold LedgerDB.GetAggregatetuple at h
  split at h
  · split at h
    · simp only [Except.ok.injEq] at h; subst h; exact ⟨by assumption, by assumption⟩
    · simp at h
  · simp at h

theorem GetTesttuple_ok (db : LedgerDB) (key : String) (t : Testtuple)
    (h : db.GetTesttuple key = .ok t) :
    db.Get key = some (.testtuple t) ∧ t.AssetType = TesttupleType := by
  unfold LedgerDB.GetTesttuple at h
  split at h
  · split at h
    · simp only [Except.ok.injEq] at h; subst h; exact ⟨by assumption, by assumption⟩
    · simp at h
  · simp at h

theorem GetComputePlanState_ok (db : LedgerDB) (key : String) (s : ComputePlanState)
    (h : db.GetComputePlanState key = .ok s) : db.Get key = some (.computePlanState s) := by
  unfold LedgerDB.GetComputePlanState at h
  split at h
  · simp only [Except.ok.injEq] at h; subst h; assumption
  · simp at h

theorem GetComputePlanWorkerState_ok (db : LedgerDB) (cp w : String) (s : ComputePlanWorkerState)
    (h : db.GetComputePlanWorkerState cp w = .ok s) :
    db.Get (computePlanWorkerStateKey cp w) = some (.computePlanWorkerState s) := by
  unfold LedgerDB.GetComputePlanWorkerState at h
  split at h
  · simp only [Except.ok.injEq] at h; subst h; assumption
  · simp at h

/-! ## C9 and C10: requests `commitStatusUpdate` does not act upon -/

/-- C9: when the requested status is the current status of the traintuple,
`commitStatusUpdate` is a no-op: it returns no error and leaves the traintuple
and the whole ledger handle as they are, so nothing is written (the write log is
the same), the worker/status index is unchanged and no record of a compute plan
is touched. -/
theorem commitStatusUpdate_same_status (traintuple : Traintuple) (db : LedgerDB)
    (traintupleKey : String) :
    traintuple.commitStatusUpdate db traintupleKey traintuple.Status = (none, traintuple, db) := by
  simp [Traintuple.commitStatusUpdate]

/-- C10: for a traintuple whose current status is not waiting, a request for
aborted changes nothing: `commitStatusUpdate` returns no error and leaves the
traintuple, the ledger and its indexes as they are; and whatever status is
requested, the traintuple does not come out aborted unless it already was. Hence
`commitStatusUpdate` changes a status to aborted only when the current status is
waiting. -/
theorem commitStatusUpdate_aborted_only_from_waiting (traintuple : Traintuple) (db : LedgerDB)
    (traintupleKey : String) (h : traintuple.Status ≠ StatusWaiting) :
    traintuple.commitStatusUpdate db traintupleKey StatusAborted = (none, traintuple, db) ∧
    ∀ newStatus,
      (traintuple.commitStatusUpdate db traintupleKey newStatus).2.1.Status = StatusAborted →
      traintuple.Status = StatusAborted := by
  constructor
  · unfold Traintuple.commitStatusUpdate
    by_cases hs : traintuple.Status = StatusAborted
    · simp [hs]
    · simp [hs, h]
  · intro newStatus
    unfold Traintuple.commitStatusUpdate
    by_cases h1 : traintuple.Status = newStatus
    · simp [h1]
    · by_cases h2 : StatusAborted = newStatus
      · simp [h1, h2.symm, h]
      · simp only [h1, if_false, h2, false_and]
        split
        · exact fun h3 => h3
        · split
          · intro h3; exact absurd h3.symm h2
          · intro h3; exact absurd h3.symm h2

/-- C10 at a concrete input: the traintuple A of the chain ledger, being trained. -/
theorem commitStatusUpdate_aborted_only_from_waiting_witness :
    (Example.train "A" "doing" [] "").commitStatusUpdate Example.chain "A" StatusAborted
      = (none, Example.train "A" "doing" [] "", Example.chain) ∧
    ∀ newStatus,
      ((Example.train "A" "doing" [] "").commitStatusUpdate Example.chain "A"
        newStatus).2.1.Status = StatusAborted →
      (Example.train "A" "doing" [] "").Status = StatusAborted :=
  commitStatusUpdate_aborted_only_from_waiting (Example.train "A" "doing" [] "") Example.chain
    "A" (by decide)

/-! ## C3: a waiting child of a parent reported done -/

theorem IsReady_true (db : LedgerDB) (k : String) :
    ∀ inModelKeys : List String, IsReady db inModelKeys k = .ok true →
      ∀ key ∈ inModelKeys, key ≠ k → db.statusOf key = StatusDone := by
  intro inModelKeys
  induction inModelKeys with
  | nil => intro _ key hkey; simp at hkey
  | cons key0 rest ih =>
    intro h key hkey hne
    unfold IsReady at h
    by_cases hk : key0 = k
    · simp only [hk, if_true] at h
      rcases List.mem_cons.1 hkey with rfl | hmem
      · exact absurd hk hne
      · exact ih h key hmem hne
    · simp only [hk, if_false] at h
      cases hg : db.GetGenericTuple key0 with
      | error e => simp [hg] at h
      | ok g =>
        simp only [hg] at h
        by_cases hd : g.Status = StatusDone
        · simp only [hd, ne_eq, not_true_eq_false, if_false] at h
          rcases List.mem_cons.1 hkey with rfl | hmem
          · simp [LedgerDB.statusOf, hg, hd]
          · exact ih h key hmem hne
        · simp [hd] at h

/-- C3: for a waiting traintuple child `c` and a parent `p` reported done,
`UpdateTraintupleChild` leaves `c` with status todo only if every in-model of `c`
other than `p` already has status done; otherwise the ledger handle comes back
as it was (`c` stays waiting, nothing is written, no event is emitted) and the
status returned, if any, is waiting. -/
theorem UpdateTraintupleChild_done_only_if_ready (db : LedgerDB) (p c : String)
    (child : Traintuple) (h1 : db.GetTraintuple c = .ok child)
    (h2 : child.Status = StatusWaiting) :
    ((UpdateTraintupleChild db p c StatusDone).2.statusOf c = StatusTodo →
      ∀ key ∈ child.InModelKeys, key ≠ p → db.statusOf key = StatusDone) ∧
    (¬ (∀ key ∈ child.InModelKeys, key ≠ p → db.statusOf key = StatusDone) →
      (UpdateTraintupleChild db p c StatusDone).2 = db ∧
      ∀ s, (UpdateTraintupleChild db p c StatusDone).1 = .ok s → s = StatusWaiting) := by
  have hsecond : ¬ (∀ key ∈ child.InModelKeys, key ≠ p → db.statusOf key = StatusDone) →
      (UpdateTraintupleChild db p c StatusDone).2 = db ∧
      ∀ s, (UpdateTraintupleChild db p c StatusDone).1 = .ok s → s = StatusWaiting := by
    intro hnot
    have hne : IsReady db child.InModelKeys p ≠ .ok true :=
      fun hr => hnot (IsReady_true db p child.InModelKeys hr)
    have hdf : (StatusDone = StatusFailed) = False := by decide
    unfold UpdateTraintupleChild
    simp only [h1, Traintuple.isReady, hdf, if_false, if_true]
    cases hr : IsReady db child.InModelKeys p with
    | error e => simp
    | ok b =>
      cases b with
      | true => exact absurd hr hne
      | false => simp [h2]
  refine ⟨?_, hsecond⟩
  intro htodo
  by_contra hnot
  have hdb := (hsecond hnot).1
  rw [hdb, statusOf_eq db c _ (GetTraintuple_ok db c child h1).1] at htodo
  simp only [Asset.status, Asset.toGenericTuple, h2] at htodo
  exact absurd htodo (by decide)

/-- C3 at a concrete input: the join ledger, where J waits for A and A2; A is
reported done while A2 is still todo, and the ledger comes back untouched. -/
theorem UpdateTraintupleChild_done_only_if_ready_witness :
    (UpdateTraintupleChild Example.join "A" "J" StatusDone).2 = Example.join ∧
      ∀ s, (UpdateTraintupleChild Example.join "A" "J" StatusDone).1 = .ok s →
        s = StatusWaiting :=
  (UpdateTraintupleChild_done_only_if_ready Example.join "A" "J"
    (Example.train "J" "waiting" ["A", "A2"] "") rfl rfl).2 (by decide)

/-! ## C8: creating a traintuple under an existing key -/

theorem SetFromInput_Key (traintuple t : Traintuple) (db : LedgerDB) (inp : inputTraintuple)
    (h : traintuple.SetFromInput db inp = .ok t) : t.Key = inp.Key := by
  unfold Traintuple.SetFromInput at h
  dsimp only at h
  repeat' split at h
  all_goals first
    | (simp only [Except.ok.injEq] at h; subst h; rfl)
    | simp at h

theorem SetFromParents_Key (traintuple t : Traintuple) (db : LedgerDB) (inModels : List String)
    (h : traintuple.SetFromParents db inModels = .ok t) : t.Key = traintuple.Key := by
  unfold Traintuple.SetFromParents at h
  split at h
  · simp at h
  · simp only [Except.ok.injEq] at h; subst h; rfl

/-- C8: when the key of the input already exists in the ledger and `SetFromInput`
and `SetFromParents` succeed, `createTraintupleInternal` returns a conflict error
carrying that key and leaves the ledger handle as it was: no write is made and
no event is emitted. -/
theorem createTraintupleInternal_conflict (db : LedgerDB) (inp : inputTraintuple)
    (checkComputePlanAvailability : Bool) (t1 t2 : Traintuple)
    (hkey : db.KeyExists inp.Key = true)
    (h1 : Traintuple.zero.SetFromInput db inp = .ok t1)
    (h2 : t1.SetFromParents db inp.InModels = .ok t2) :
    createTraintupleInternal db inp checkComputePlanAvailability
      = (.error ⟨ErrorKind.Conflict, some inp.Key⟩, db) := by
  have hk : t2.Key = inp.Key := by
    rw [SetFromParents_Key t1 t2 db inp.InModels h2, SetFromInput_Key _ t1 db inp h1]
  unfold createTraintupleInternal
  simp only [h1, h2, hk, hkey, if_true]
  rfl

/-- C8 at a concrete input: a request under the key of the traintuple A of the
chain ledger. -/
theorem createTraintupleInternal_conflict_witness :
    createTraintupleInternal Example.chain Example.inputA true
      = (.error ⟨ErrorKind.Conflict, some "A"⟩, Example.chain) :=
  createTraintupleInternal_conflict Example.chain Example.inputA true
    (Example.train "A" "" [] "") (Example.train "A" "todo" [] "") rfl rfl rfl

/-! ## What the compute plan aggregate and a status commit leave alone -/

theorem KeepsTuples.reflTuples (db : LedgerDB) : KeepsTuples db db :=
  ⟨rfl, rfl, fun _ _ h _ => h⟩

theorem KeepsTuples.transTuples {db1 db2 db3 : LedgerDB} (h12 : KeepsTuples db1 db2)
    (h23 : KeepsTuples db2 db3) : KeepsTuples db1 db3 :=
  ⟨h23.1.trans h12.1, h23.2.1.trans h12.2.1,
    fun k a hk ha => h23.2.2 k a (h12.2.2 k a hk ha) ha⟩

theorem KeepsTuples.toExcept {db db' : LedgerDB} (h : KeepsTuples db db') (key : String) :
    SameTuplesExcept key db db' :=
  ⟨h.1, h.2.1, fun k a _ hk ha => h.2.2 k a hk ha⟩

theorem SameTuplesExcept.reflExcept (key : String) (db : LedgerDB) : SameTuplesExcept key db db :=
  (KeepsTuples.reflTuples db).toExcept key

theorem SameTuplesExcept.transExcept {key : String} {db1 db2 db3 : LedgerDB}
    (h12 : SameTuplesExcept key db1 db2) (h23 : SameTuplesExcept key db2 db3) :
    SameTuplesExcept key db1 db3 :=
  ⟨h23.1.trans h12.1, h23.2.1.trans h12.2.1,
    fun k a hne hk ha => h23.2.2 k a hne (h12.2.2 k a hne hk ha) ha⟩

theorem KeepsTuples_Put (db : LedgerDB) (key : String) (object : Asset)
    (h : ∀ a, db.Get key = some a → a.isTuple = false) : KeepsTuples db (db.Put key object) := by
  refine ⟨rfl, rfl, ?_⟩
  intro k a hk ha
  by_cases hkk : k = key
  · subst hkk
    have := h a hk
    rw [ha] at this
    exact absurd this (by decide)
  · simp [hkk, hk]

theorem SameTuplesExcept_Put (db : LedgerDB) (key : String) (object : Asset) :
    SameTuplesExcept key db (db.Put key object) := by
  refine ⟨rfl, rfl, ?_⟩
  intro k a hne hk _
  simp [hne, hk]

theorem KeepsTuples_UpdateIndex (db : LedgerDB) (index : String) (old new : List String)
    (h1 : index ≠ "tuple~inModel~key") (h2 : index ≠ "testtuple~traintuple~certified~key") :
    KeepsTuples db (db.UpdateIndex index old new) :=
  ⟨indexOf_UpdateIndex_ne db index old new _ h1, indexOf_UpdateIndex_ne db index old new _ h2,
    fun _ _ hk _ => hk⟩

theorem KeepsTuples_CreateIndex (db : LedgerDB) (index : String) (attrs : List String)
    (h1 : index ≠ "tuple~inModel~key") (h2 : index ≠ "testtuple~traintuple~certified~key") :
    KeepsTuples db (db.CreateIndex index attrs) :=
  ⟨indexOf_CreateIndex_ne db index attrs _ h1, indexOf_CreateIndex_ne db index attrs _ h2,
    fun _ _ hk _ => hk⟩

theorem KeepsTuples_AddTupleEvent (db : LedgerDB) (key : String) :
    KeepsTuples db (db.AddTupleEvent key) :=
  ⟨rfl, rfl, fun _ _ hk _ => hk⟩

theorem UpdateComputePlanState_keeps (db : LedgerDB)
    (computePlanKey tupleStatus tupleKey worker : String) :
    KeepsTuples db (UpdateComputePlanState db computePlanKey tupleStatus tupleKey worker).2 := by
  unfold UpdateComputePlanState
  by_cases hcp : computePlanKey = ""
  · simp only [hcp, if_true]; exact KeepsTuples.reflTuples db
  · simp only [hcp, if_false]
    cases h1 : db.GetComputePlan computePlanKey with
    | error e => exact KeepsTuples.reflTuples db
    | ok cp =>
      dsimp only
      cases h2 : db.GetComputePlanState cp.StateKey with
      | error e => exact KeepsTuples.reflTuples db
      | ok state =>
        dsimp only
        cases h3 : db.GetComputePlanWorkerState computePlanKey worker with
        | error e => exact KeepsTuples.reflTuples db
        | ok wState =>
          have hs := GetComputePlanState_ok db _ _ h2
          have hw := GetComputePlanWorkerState_ok db _ _ _ h3
          have step1 : KeepsTuples db
              (if tupleStatus = StatusDone then
                db.Put (computePlanWorkerStateKey computePlanKey worker)
                  (.computePlanWorkerState { wState with DoneCount := wState.DoneCount + 1 })
              else db) := by
            split
            · apply KeepsTuples_Put
              intro a ha
              rw [hw] at ha
              cases ha
              rfl
            · exact KeepsTuples.reflTuples db
          have hs1 : ∀ a,
              (if tupleStatus = StatusDone then
                db.Put (computePlanWorkerStateKey computePlanKey worker)
                  (.computePlanWorkerState { wState with DoneCount := wState.DoneCount + 1 })
              else db).Get cp.StateKey = some a → a.isTuple = false := by
            intro a ha
            split at ha
            · simp only [Get_Put] at ha
              split at ha
              · cases ha; rfl
              · rw [hs] at ha; cases ha; rfl
            · rw [hs] at ha; cases ha; rfl
          dsimp only
          generalize (if tupleStatus = StatusDone then
                db.Put (computePlanWorkerStateKey computePlanKey worker)
                  (.computePlanWorkerState { wState with DoneCount := wState.DoneCount + 1 })
              else db) = db1 at step1 hs1 ⊢
          split
          · exact step1
          · exact step1.transTuples (KeepsTuples_Put _ _ _ hs1)

theorem commit_tail (db : LedgerDB) (key : String) (a : Asset) (index : String)
    (old new : List String) (cpk st w : String)
    (h1 : index ≠ "tuple~inModel~key") (h2 : index ≠ "testtuple~traintuple~certified~key")
    (ha : a.isTuple = true) :
    SameTuplesExcept key db
      (UpdateComputePlanState ((db.Put key a).UpdateIndex index old new) cpk st key w).2 ∧
    (UpdateComputePlanState ((db.Put key a).UpdateIndex index old new) cpk st key w).2.Get key
      = some a := by
  have hk := UpdateComputePlanState_keeps ((db.Put key a).UpdateIndex index old new) cpk st key w
  have hu := KeepsTuples_UpdateIndex (db.Put key a) index old new h1 h2
  constructor
  · exact (SameTuplesExcept_Put db key a).transExcept ((hu.transTuples hk).toExcept key)
  · apply hk.2.2 key a _ ha
    simp

/-- What `commitStatusUpdate` of a traintuple can do: nothing (the request is for
the current status, or for aborted on a tuple that is not waiting), an error
before any write, or the new status stored under the key. In every case the
other tuples and the two dependency indexes are kept. -/
theorem Traintuple.commitStatusUpdate_cases (t : Traintuple) (db : LedgerDB)
    (key new : String) (e : Option Error) (t' : Traintuple) (db' : LedgerDB)
    (h : t.commitStatusUpdate db key new = (e, t', db')) :
    SameTuplesExcept key db db' ∧
    ((t' = t ∧ db' = db ∧ e = none ∧
        (t.Status = new ∨ (new = StatusAborted ∧ t.Status ≠ StatusWaiting))) ∨
     (t' = t ∧ db' = db ∧ e = some errors.Internal) ∨
     (t' = { t with Status := new } ∧ db'.Get key = some (.traintuple t') ∧ t.Status ≠ new)) := by
  unfold Traintuple.commitStatusUpdate at h
  by_cases hs : t.Status = new
  · rw [if_pos hs] at h
    simp only [Prod.mk.injEq] at h
    obtain ⟨rfl, rfl, rfl⟩ := h
    exact ⟨SameTuplesExcept.reflExcept _ _, Or.inl ⟨rfl, rfl, rfl, Or.inl hs⟩⟩
  · rw [if_neg hs] at h
    by_cases ha : StatusAborted = new ∧ t.Status ≠ StatusWaiting
    · rw [if_pos ha] at h
      simp only [Prod.mk.injEq] at h
      obtain ⟨rfl, rfl, rfl⟩ := h
      exact ⟨SameTuplesExcept.reflExcept _ _, Or.inl ⟨rfl, rfl, rfl, Or.inr ⟨ha.1.symm, ha.2⟩⟩⟩
    · rw [if_neg ha] at h
      cases hv : t.validateNewStatus db new with
      | some err =>
        simp only [hv, Prod.mk.injEq] at h
        obtain ⟨rfl, rfl, rfl⟩ := h
        exact ⟨SameTuplesExcept.reflExcept _ _, Or.inr (Or.inl ⟨rfl, rfl, rfl⟩)⟩
      | none =>
        simp only [hv] at h
        have htail := commit_tail db key (.traintuple { t with Status := new })
          "traintuple~worker~status~key"
          ["traintuple", t.Dataset.Worker, t.Status, key]
          ["traintuple", t.Dataset.Worker, new, key] t.ComputePlanKey new t.Dataset.Worker
          (by decide) (by decide) rfl
        revert h
        cases hU : UpdateComputePlanState
            ((db.Put key (.traintuple { t with Status := new })).UpdateIndex
              "traintuple~worker~status~key"
              ["traintuple", t.Dataset.Worker, t.Status, key]
              ["traintuple", t.Dataset.Worker, new, key])
            t.ComputePlanKey new key t.Dataset.Worker with
        | mk e2 db2 =>
          rw [hU] at htail
          intro h
          cases e2 with
          | some err =>
            simp only [Prod.mk.injEq] at h
            obtain ⟨rfl, rfl, rfl⟩ := h
            exact ⟨htail.1, Or.inr (Or.inr ⟨rfl, htail.2, hs⟩)⟩
          | none =>
            simp only [Prod.mk.injEq] at h
            obtain ⟨rfl, rfl, rfl⟩ := h
            exact ⟨htail.1, Or.inr (Or.inr ⟨rfl, htail.2, hs⟩)⟩

/-- What `commitStatusUpdate` of a composite traintuple can do, as for a traintuple. -/
theorem CompositeTraintuple.commitStatusUpdate_cases_composite (t : CompositeTraintuple) (db : LedgerDB)
    (key new : String) (e : Option Error) (t' : CompositeTraintuple) (db' : LedgerDB)
    (h : t.commitStatusUpdate db key new = (e, t', db')) :
    SameTuplesExcept key db db' ∧
    ((t' = t ∧ db' = db ∧ e = none ∧
        (t.Status = new ∨ (new = StatusAborted ∧ t.Status ≠ StatusWaiting))) ∨
     (t' = t ∧ db' = db ∧ e = some errors.Internal) ∨
     (t' = { t with Status := new } ∧ db'.Get key = some (.compositeTraintuple t') ∧ t.Status ≠ new)) := by
  unfold CompositeTraintuple.commitStatusUpdate at h
  by_cases hs : t.Status = new
  · rw [if_pos hs] at h
    simp only [Prod.mk.injEq] at h
    obtain ⟨rfl, rfl, rfl⟩ := h
    exact ⟨SameTuplesExcept.reflExcept _ _, Or.inl ⟨rfl, rfl, rfl, Or.inl hs⟩⟩
  · rw [if_neg hs] at h
    by_cases ha : StatusAborted = new ∧ t.Status ≠ StatusWaiting
    · rw [if_pos ha] at h
      simp only [Prod.mk.injEq] at h
      obtain ⟨rfl, rfl, rfl⟩ := h
      exact ⟨SameTuplesExcept.reflExcept _ _, Or.inl ⟨rfl, rfl, rfl, Or.inr ⟨ha.1.symm, ha.2⟩⟩⟩
    · rw [if_neg ha] at h
      cases hv : checkUpdateTuple db t.Dataset.Worker t.Status new with
      | some err =>
        simp only [hv, Prod.mk.injEq] at h
        obtain ⟨rfl, rfl, rfl⟩ := h
        exact ⟨SameTuplesExcept.reflExcept _ _, Or.inr (Or.inl ⟨rfl, rfl, rfl⟩)⟩
      | none =>
        simp only [hv] at h
        have htail := commit_tail db key (.compositeTraintuple { t with Status := new })
          "compositeTraintuple~worker~status~key"
          ["compositeTraintuple", t.Dataset.Worker, t.Status, key]
          ["compositeTraintuple", t.Dataset.Worker, new, key] t.ComputePlanKey new t.Dataset.Worker
          (by decide) (by decide) rfl
        revert h
        cases hU : UpdateComputePlanState
            ((db.Put key (.compositeTraintuple { t with Status := new })).UpdateIndex
              "compositeTraintuple~worker~status~key"
              ["compositeTraintuple", t.Dataset.Worker, t.Status, key]
              ["compositeTraintuple", t.Dataset.Worker, new, key])
            t.ComputePlanKey new key t.Dataset.Worker with
        | mk e2 db2 =>
          rw [hU] at htail
          intro h
          cases e2 with
          | some err =>
            simp only [Prod.mk.injEq] at h
            obtain ⟨rfl, rfl, rfl⟩ := h
            exact ⟨htail.1, Or.inr (Or.inr ⟨rfl, htail.2, hs⟩)⟩
          | none =>
            simp only [Prod.mk.injEq] at h
            obtain ⟨rfl, rfl, rfl⟩ := h
            exact ⟨htail.1, Or.inr (Or.inr ⟨rfl, htail.2, hs⟩)⟩

/-- What `commitStatusUpdate` of an aggregatetuple can do, as for a traintuple. -/
theorem Aggregatetuple.commitStatusUpdate_cases_aggregate (t : Aggregatetuple) (db : LedgerDB)
    (key new : String) (e : Option Error) (t' : Aggregatetuple) (db' : LedgerDB)
    (h : t.commitStatusUpdate db key new = (e, t', db')) :
    SameTuplesExcept key db db' ∧
    ((t' = t ∧ db' = db ∧ e = none ∧
        (t.Status = new ∨ (new = StatusAborted ∧ t.Status ≠ StatusWaiting))) ∨
     (t' = t ∧ db' = db ∧ e = some errors.Internal) ∨
     (t' = { t with Status := new } ∧ db'.Get key = some (.aggregatetuple t') ∧ t.Status ≠ new)) := by
  unfold Aggregatetuple.commitStatusUpdate at h
  by_cases hs : t.Status = new
  · rw [if_pos hs] at h
    simp only [Prod.mk.injEq] at h
    obtain ⟨rfl, rfl, rfl⟩ := h
    exact ⟨SameTuplesExcept.reflExcept _ _, Or.inl ⟨rfl, rfl, rfl, Or.inl hs⟩⟩
  · rw [if_neg hs] at h
    by_cases ha : StatusAborted = new ∧ t.Status ≠ StatusWaiting
    · rw [if_pos ha] at h
      simp only [Prod.mk.injEq] at h
      obtain ⟨rfl, rfl, rfl⟩ := h
      exact ⟨SameTuplesExcept.reflExcept _ _, Or.inl ⟨rfl, rfl, rfl, Or.inr ⟨ha.1.symm, ha.2⟩⟩⟩
    · rw [if_neg ha] at h
      cases hv : checkUpdateTuple db t.Worker t.Status new with
      | some err =>
        simp only [hv, Prod.mk.injEq] at h
        obtain ⟨rfl, rfl, rfl⟩ := h
        exact ⟨SameTuplesExcept.reflExcept _ _, Or.inr (Or.inl ⟨rfl, rfl, rfl⟩)⟩
      | none =>
        simp only [hv] at h
        have htail := commit_tail db key (.aggregatetuple { t with Status := new })
          "aggregatetuple~worker~status~key"
          ["aggregatetuple", t.Worker, t.Status, key]
          ["aggregatetuple", t.Worker, new, key] t.ComputePlanKey new t.Worker
          (by decide) (by decide) rfl
        revert h
        cases hU : UpdateComputePlanState
            ((db.Put key (.aggregatetuple { t with Status := new })).UpdateIndex
              "aggregatetuple~worker~status~key"
              ["aggregatetuple", t.Worker, t.Status, key]
              ["aggregatetuple", t.Worker, new, key])
            t.ComputePlanKey new key t.Worker with
        | mk e2 db2 =>
          rw [hU] at htail
          intro h
          cases e2 with
          | some err =>
            simp only [Prod.mk.injEq] at h
            obtain ⟨rfl, rfl, rfl⟩ := h
            exact ⟨htail.1, Or.inr (Or.inr ⟨rfl, htail.2, hs⟩)⟩
          | none =>
            simp only [Prod.mk.injEq] at h
            obtain ⟨rfl, rfl, rfl⟩ := h
            exact ⟨htail.1, Or.inr (Or.inr ⟨rfl, htail.2, hs⟩)⟩

/-- What `commitStatusUpdate` of a testtuple can do, as for a traintuple. -/
theorem Testtuple.commitStatusUpdate_cases_test (t : Testtuple) (db : LedgerDB)
    (key new : String) (e : Option Error) (t' : Testtuple) (db' : LedgerDB)
    (h : t.commitStatusUpdate db key new = (e, t', db')) :
    SameTuplesExcept key db db' ∧
    ((t' = t ∧ db' = db ∧ e = none ∧
        (t.Status = new ∨ (new = StatusAborted ∧ t.Status ≠ StatusWaiting))) ∨
     (t' = t ∧ db' = db ∧ e = some errors.Internal) ∨
     (t' = { t with Status := new } ∧ db'.Get key = some (.testtuple t') ∧ t.Status ≠ new)) := by
  unfold Testtuple.commitStatusUpdate at h
  by_cases hs : t.Status = new
  · rw [if_pos hs] at h
    simp only [Prod.mk.injEq] at h
    obtain ⟨rfl, rfl, rfl⟩ := h
    exact ⟨SameTuplesExcept.reflExcept _ _, Or.inl ⟨rfl, rfl, rfl, Or.inl hs⟩⟩
  · rw [if_neg hs] at h
    by_cases ha : StatusAborted = new ∧ t.Status ≠ StatusWaiting
    · rw [if_pos ha] at h
      simp only [Prod.mk.injEq] at h
      obtain ⟨rfl, rfl, rfl⟩ := h
      exact ⟨SameTuplesExcept.reflExcept _ _, Or.inl ⟨rfl, rfl, rfl, Or.inr ⟨ha.1.symm, ha.2⟩⟩⟩
    · rw [if_neg ha] at h
      cases hv : checkUpdateTuple db t.Dataset.Worker t.Status new with
      | some err =>
        simp only [hv, Prod.mk.injEq] at h
        obtain ⟨rfl, rfl, rfl⟩ := h
        exact ⟨SameTuplesExcept.reflExcept _ _, Or.inr (Or.inl ⟨rfl, rfl, rfl⟩)⟩
      | none =>
        simp only [hv] at h
        have htail := commit_tail db key (.testtuple { t with Status := new })
          "testtuple~worker~status~key"
          ["testtuple", t.Dataset.Worker, t.Status, key]
          ["testtuple", t.Dataset.Worker, new, key] t.ComputePlanKey new t.Dataset.Worker
          (by decide) (by decide) rfl
        revert h
        cases hU : UpdateComputePlanState
            ((db.Put key (.testtuple { t with Status := new })).UpdateIndex
              "testtuple~worker~status~key"
              ["testtuple", t.Dataset.Worker, t.Status, key]
              ["testtuple", t.Dataset.Worker, new, key])
            t.ComputePlanKey new key t.Dataset.Worker with
        | mk e2 db2 =>
          rw [hU] at htail
          intro h
          cases e2 with
          | some err =>
            simp only [Prod.mk.injEq] at h
            obtain ⟨rfl, rfl, rfl⟩ := h
            exact ⟨htail.1, Or.inr (Or.inr ⟨rfl, htail.2, hs⟩)⟩
          | none =>
            simp only [Prod.mk.injEq] at h
            obtain ⟨rfl, rfl, rfl⟩ := h
            exact ⟨htail.1, Or.inr (Or.inr ⟨rfl, htail.2, hs⟩)⟩

/-! ## C5 and C6: a traintuple of a compute plan fails -/

theorem logFailTrain_in_plan (db : LedgerDB) (inp : inputLogFailTrain) (t : Traintuple)
    (h : db.GetTraintuple inp.Key = .ok t) (hcp : t.ComputePlanKey ≠ "") :
    SameTuplesExcept inp.Key db (logFailTrain db inp).2 := by
  unfold logFailTrain
  simp only [h]
  cases hv : validateTupleOwner db t.Dataset.Worker with
  | some err => exact SameTuplesExcept.reflExcept _ _
  | none =>
    dsimp only
    cases hc : Traintuple.commitStatusUpdate { t with Log := t.Log ++ inp.Log } db inp.Key
        StatusFailed with
    | mk e r =>
      obtain ⟨t', db'⟩ := r
      have hcases := Traintuple.commitStatusUpdate_cases _ db inp.Key StatusFailed e t' db' hc
      have hcp' : t'.ComputePlanKey ≠ "" := by
        rcases hcases.2 with ⟨rfl, _⟩ | ⟨rfl, _⟩ | ⟨rfl, _⟩ <;> exact hcp
      cases e with
      | some err => exact hcases.1
      | none =>
        dsimp only
        cases hf : outputTraintuple.Fill db' t' with
        | error err => exact hcases.1
        | ok o =>
          dsimp only
          rw [if_pos hcp']
          exact hcases.1

/-- C5: when `logFailTrain` fails a traintuple whose ComputePlanKey is not empty,
no training child is modified: every training tuple listed under it in the index
`tuple~inModel~key` (other than the traintuple itself) keeps its record, hence
the status it had before the call. -/
theorem logFailTrain_in_plan_keeps_children (db : LedgerDB) (inp : inputLogFailTrain)
    (t : Traintuple) (h : db.GetTraintuple inp.Key = .ok t) (hcp : t.ComputePlanKey ≠ "") :
    ∀ c ∈ db.GetIndexKeys "tuple~inModel~key" ["tuple", inp.Key], c ≠ inp.Key →
      ∀ a, db.Get c = some a → a.isTraining = true →
        (logFailTrain db inp).2.Get c = some a ∧
        (logFailTrain db inp).2.statusOf c = db.statusOf c := by
  intro c _ hne a ha htr
  have hsame := logFailTrain_in_plan db inp t h hcp
  have hget := hsame.2.2 c a hne ha (by simp [Asset.isTuple, htr])
  exact ⟨hget, statusOf_congr _ _ _ (hget.trans ha.symm)⟩

/-- C5 at a concrete input: P fails inside the plan cp; its child Q keeps its
record. -/
theorem logFailTrain_in_plan_keeps_children_witness :
    (logFailTrain Example.plan ⟨"P", "failure"⟩).2.Get "Q"
        = some (.traintuple { Example.train "Q" "waiting" ["P"] "cp" with Rank := 1 }) ∧
      (logFailTrain Example.plan ⟨"P", "failure"⟩).2.statusOf "Q"
        = Example.plan.statusOf "Q" :=
  logFailTrain_in_plan_keeps_children Example.plan ⟨"P", "failure"⟩
    (Example.train "P" "doing" [] "cp") rfl (by decide) "Q" (by decide) (by decide) _ rfl rfl

/-- C6, the claim fails: P fails inside the plan cp, the call succeeds and P is
failed, yet the testtuple tP attached to P, which is not aborted, is still
waiting. -/
theorem logFailTrain_in_plan_testtuple_counterexample :
    (∃ t, Example.plan.GetTraintuple "P" = .ok t ∧ t.ComputePlanKey ≠ "") ∧
    (∃ o, (logFailTrain Example.plan ⟨"P", "failure"⟩).1 = .ok o) ∧
    (logFailTrain Example.plan ⟨"P", "failure"⟩).2.statusOf "P" = StatusFailed ∧
    ¬ (∀ tk ∈ Example.plan.GetIndexKeys "testtuple~traintuple~certified~key" ["testtuple", "P"],
        Example.plan.statusOf tk ≠ StatusAborted →
        (logFailTrain Example.plan ⟨"P", "failure"⟩).2.statusOf tk = StatusFailed) := by
  refine ⟨⟨_, rfl, by decide⟩, ⟨_, rfl⟩, by decide, by decide⟩

/-- C6 as amended: when `logFailTrain` fails a traintuple whose ComputePlanKey is
not empty, it returns before any propagation: every testtuple attached to that
traintuple keeps its record, hence its status. -/
theorem logFailTrain_in_plan_keeps_testtuples (db : LedgerDB) (inp : inputLogFailTrain)
    (t : Traintuple) (h : db.GetTraintuple inp.Key = .ok t) (hcp : t.ComputePlanKey ≠ "") :
    ∀ tk ∈ db.GetIndexKeys "testtuple~traintuple~certified~key" ["testtuple", inp.Key],
      ∀ tt, db.GetTesttuple tk = .ok tt →
        (logFailTrain db inp).2.GetTesttuple tk = .ok tt ∧
        (logFailTrain db inp).2.statusOf tk = db.statusOf tk := by
  intro tk _ tt htt
  have hsame := logFailTrain_in_plan db inp t h hcp
  have hrec := (GetTesttuple_ok db tk tt htt).1
  have hne : tk ≠ inp.Key := by
    intro heq
    rw [heq, (GetTraintuple_ok db inp.Key t h).1] at hrec
    cases hrec
  have hget := hsame.2.2 tk _ hne hrec rfl
  refine ⟨?_, statusOf_congr _ _ _ (hget.trans hrec.symm)⟩
  unfold LedgerDB.GetTesttuple at htt ⊢
  rw [hget]
  rw [hrec] at htt
  exact htt

/-- C6 as amended, at a concrete input: P fails inside the plan cp; the testtuple
tP keeps its record. -/
theorem logFailTrain_in_plan_keeps_testtuples_witness :
    (logFailTrain Example.plan ⟨"P", "failure"⟩).2.GetTesttuple "tP"
        = .ok { Example.test "tP" "P" "waiting" with ComputePlanKey := "cp" } ∧
      (logFailTrain Example.plan ⟨"P", "failure"⟩).2.statusOf "tP"
        = Example.plan.statusOf "tP" :=
  logFailTrain_in_plan_keeps_testtuples Example.plan ⟨"P", "failure"⟩
    (Example.train "P" "doing" [] "cp") rfl (by decide) "tP" (by decide) _ rfl

/-! ## What the update of one child leaves alone -/

theorem KeepsTests.reflTests (db : LedgerDB) : KeepsTests db db :=
  ⟨rfl, rfl, fun _ _ h _ => h⟩

theorem KeepsTests.transTests {db1 db2 db3 : LedgerDB} (h12 : KeepsTests db1 db2)
    (h23 : KeepsTests db2 db3) : KeepsTests db1 db3 :=
  ⟨h23.1.trans h12.1, h23.2.1.trans h12.2.1,
    fun k a hk ha => h23.2.2 k a (h12.2.2 k a hk ha) ha⟩

theorem KeepsTraining.reflTraining (db : LedgerDB) : KeepsTraining db db :=
  ⟨rfl, rfl, fun _ _ h _ => h⟩

theorem KeepsTraining.transTraining {db1 db2 db3 : LedgerDB} (h12 : KeepsTraining db1 db2)
    (h23 : KeepsTraining db2 db3) : KeepsTraining db1 db3 :=
  ⟨h23.1.trans h12.1, h23.2.1.trans h12.2.1,
    fun k a hk ha => h23.2.2 k a (h12.2.2 k a hk ha) ha⟩

theorem KeepsTuples.toTests {db db' : LedgerDB} (h : KeepsTuples db db') : KeepsTests db db' :=
  ⟨h.1, h.2.1, fun k a hk ha => h.2.2 k a hk (by simp [Asset.isTuple, ha])⟩

theorem KeepsTuples.toTraining {db db' : LedgerDB} (h : KeepsTuples db db') :
    KeepsTraining db db' :=
  ⟨h.1, h.2.1, fun k a hk ha => h.2.2 k a hk (by simp [Asset.isTuple, ha])⟩

theorem isTest_of_isTraining {a : Asset} (h : a.isTraining = true) : a.isTest = false := by
  cases a <;> simp_all [Asset.isTraining, Asset.isTest]

theorem SameTuplesExcept.exceptToTests {key : String} {db db' : LedgerDB}
    (h : SameTuplesExcept key db db') (hkey : ∀ a, db.Get key = some a → a.isTest = false) :
    KeepsTests db db' := by
  refine ⟨h.1, h.2.1, ?_⟩
  intro k a hk ha
  apply h.2.2 k a _ hk (by simp [Asset.isTuple, ha])
  intro heq
  subst heq
  have := hkey a hk
  rw [ha] at this
  exact absurd this (by decide)

theorem SameTuplesExcept.exceptToTraining {key : String} {db db' : LedgerDB}
    (h : SameTuplesExcept key db db')
    (hkey : ∀ a, db.Get key = some a → a.isTraining = false) : KeepsTraining db db' := by
  refine ⟨h.1, h.2.1, ?_⟩
  intro k a hk ha
  apply h.2.2 k a _ hk (by simp [Asset.isTuple, ha])
  intro heq
  subst heq
  have := hkey a hk
  rw [ha] at this
  exact absurd this (by decide)

theorem SameTuplesExcept_AddTupleEvent {key : String} {db db' : LedgerDB}
    (h : SameTuplesExcept key db db') (k : String) :
    SameTuplesExcept key db (db'.AddTupleEvent k) :=
  h.transExcept ((KeepsTuples_AddTupleEvent db' k).toExcept key)

theorem createModelIndex_keeps (db : LedgerDB) (modelKey tupleKey : String) :
    KeepsTuples db (createModelIndex db modelKey tupleKey) :=
  KeepsTuples_CreateIndex db _ _ (by decide) (by decide)

theorem TryAddIntermediaryModel_keeps (db : LedgerDB)
    (ComputePlanKey worker tupleKey modelKey : String) :
    KeepsTuples db (TryAddIntermediaryModel db ComputePlanKey worker tupleKey modelKey).2 := by
  unfold TryAddIntermediaryModel
  split
  · exact KeepsTuples.reflTuples db
  · split
    · exact KeepsTuples.reflTuples db
    · cases h1 : db.GetComputePlan ComputePlanKey with
      | error e => exact KeepsTuples.reflTuples db
      | ok cp =>
        dsimp only
        cases h3 : db.GetComputePlanWorkerState ComputePlanKey worker with
        | error e => exact KeepsTuples.reflTuples db
        | ok wState =>
          have hw := GetComputePlanWorkerState_ok db _ _ _ h3
          apply KeepsTuples_Put
          intro a ha
          rw [hw] at ha
          cases ha
          rfl

/-- The update of a traintuple child touches no other tuple, and touches the
child only if it is stored as a traintuple. -/
theorem UpdateTraintupleChild_frame (db : LedgerDB) (p c s : String) :
    SameTuplesExcept c db (UpdateTraintupleChild db p c s).2 ∧
    ((UpdateTraintupleChild db p c s).2 = db ∨
      ∃ a, db.Get c = some a ∧ a.isTraining = true) := by
  unfold UpdateTraintupleChild
  cases hg : db.GetTraintuple c with
  | error e => exact ⟨SameTuplesExcept.reflExcept _ _, Or.inl rfl⟩
  | ok child =>
    have hrec := (GetTraintuple_ok db c child hg).1
    refine ⟨?_, Or.inr ⟨_, hrec, rfl⟩⟩
    dsimp only
    split
    · exact SameTuplesExcept.reflExcept _ _
    · split
      · exact SameTuplesExcept.reflExcept _ _
      · split
        · rename_i hc
          exact (Traintuple.commitStatusUpdate_cases _ _ _ _ _ _ _ hc).1
        · rename_i hc
          exact SameTuplesExcept_AddTupleEvent
            (Traintuple.commitStatusUpdate_cases _ _ _ _ _ _ _ hc).1 _

/-- The update of a composite child touches no other tuple, and touches the
child only if it is stored as a composite traintuple. -/
theorem UpdateCompositeTraintupleChild_frame (db : LedgerDB) (p c s : String) :
    SameTuplesExcept c db (UpdateCompositeTraintupleChild db p c s).2 ∧
    ((UpdateCompositeTraintupleChild db p c s).2 = db ∨
      ∃ a, db.Get c = some a ∧ a.isTraining = true) := by
  unfold UpdateCompositeTraintupleChild
  cases hg : db.GetCompositeTraintuple c with
  | error e => exact ⟨SameTuplesExcept.reflExcept _ _, Or.inl rfl⟩
  | ok child =>
    have hrec := (GetCompositeTraintuple_ok db c child hg).1
    refine ⟨?_, Or.inr ⟨_, hrec, rfl⟩⟩
    dsimp only
    split
    · exact SameTuplesExcept.reflExcept _ _
    · split
      · exact SameTuplesExcept.reflExcept _ _
      · split
        · rename_i hc
          exact (CompositeTraintuple.commitStatusUpdate_cases_composite _ _ _ _ _ _ _ hc).1
        · rename_i hc
          exact SameTuplesExcept_AddTupleEvent
            (CompositeTraintuple.commitStatusUpdate_cases_composite _ _ _ _ _ _ _ hc).1 _

/-- The update of an aggregate child touches no other tuple, and touches the
child only if it is stored as an aggregatetuple. -/
theorem UpdateAggregatetupleChild_frame (db : LedgerDB) (p c s : String) :
    SameTuplesExcept c db (UpdateAggregatetupleChild db p c s).2 ∧
    ((UpdateAggregatetupleChild db p c s).2 = db ∨
      ∃ a, db.Get c = some a ∧ a.isTraining = true) := by
  unfold UpdateAggregatetupleChild
  cases hg : db.GetAggregatetuple c with
  | error e => exact ⟨SameTuplesExcept.reflExcept _ _, Or.inl rfl⟩
  | ok child =>
    have hrec := (GetAggregatetuple_ok db c child hg).1
    refine ⟨?_, Or.inr ⟨_, hrec, rfl⟩⟩
    dsimp only
    split
    · exact SameTuplesExcept.reflExcept _ _
    · split
      · exact SameTuplesExcept.reflExcept _ _
      · split
        · rename_i hc
          exact (Aggregatetuple.commitStatusUpdate_cases_aggregate _ _ _ _ _ _ _ hc).1
        · rename_i hc
          exact SameTuplesExcept_AddTupleEvent
            (Aggregatetuple.commitStatusUpdate_cases_aggregate _ _ _ _ _ _ _ hc).1 _

theorem updateChildOfType_frame (db : LedgerDB) (ty : AssetType) (p c s : String) :
    SameTuplesExcept c db (updateChildOfType db ty p c s).2 ∧
    ((updateChildOfType db ty p c s).2 = db ∨
      ∃ a, db.Get c = some a ∧ a.isTraining = true) := by
  unfold updateChildOfType
  split
  · exact UpdateTraintupleChild_frame db p c s
  · exact UpdateCompositeTraintupleChild_frame db p c s
  · exact UpdateAggregatetupleChild_frame db p c s
  · exact ⟨SameTuplesExcept.reflExcept _ _, Or.inl rfl⟩

theorem updateChildOfType_keepsTests (db : LedgerDB) (ty : AssetType) (p c s : String) :
    KeepsTests db (updateChildOfType db ty p c s).2 := by
  obtain ⟨h1, h2⟩ := updateChildOfType_frame db ty p c s
  rcases h2 with h2 | ⟨a, ha, htr⟩
  · rw [h2]; exact KeepsTests.reflTests db
  · apply h1.exceptToTests
    intro a' ha'
    rw [ha] at ha'
    cases ha'
    exact isTest_of_isTraining htr

/-! ## What the update of the testtuples leaves alone -/

theorem KeepsTestsOutside.reflOutside (keys : List String) (db : LedgerDB) :
    KeepsTestsOutside keys db db :=
  ⟨rfl, rfl, fun _ _ _ h _ => h⟩

theorem KeepsTestsOutside.transOutside {keys : List String} {db1 db2 db3 : LedgerDB}
    (h12 : KeepsTestsOutside keys db1 db2) (h23 : KeepsTestsOutside keys db2 db3) :
    KeepsTestsOutside keys db1 db3 :=
  ⟨h23.1.trans h12.1, h23.2.1.trans h12.2.1,
    fun k a hne hk ha => h23.2.2 k a hne (h12.2.2 k a hne hk ha) ha⟩

theorem KeepsTestsOutside.monoOutside {keys keys' : List String} {db db' : LedgerDB}
    (h : KeepsTestsOutside keys db db') (hsub : ∀ k ∈ keys, k ∈ keys') :
    KeepsTestsOutside keys' db db' :=
  ⟨h.1, h.2.1, fun k a hne hk ha => h.2.2 k a (fun hmem => hne (hsub k hmem)) hk ha⟩

theorem KeepsTests.toOutside {db db' : LedgerDB} (h : KeepsTests db db') (keys : List String) :
    KeepsTestsOutside keys db db' :=
  ⟨h.1, h.2.1, fun k a _ hk ha => h.2.2 k a hk ha⟩

theorem SameTuplesExcept.exceptToOutside {key : String} {db db' : LedgerDB}
    (h : SameTuplesExcept key db db') (keys : List String) (hmem : key ∈ keys) :
    KeepsTestsOutside keys db db' :=
  ⟨h.1, h.2.1, fun k a hne hk ha =>
    h.2.2 k a (fun heq => hne (heq ▸ hmem)) hk (by simp [Asset.isTuple, ha])⟩

theorem UpdateTesttupleChildren_loop_frame (traintupleKey newStatus : String) :
    ∀ (keys : List String) (db : LedgerDB),
      KeepsTraining db (UpdateTesttupleChildren.loop traintupleKey newStatus keys db).2 ∧
      KeepsTestsOutside keys db
        (UpdateTesttupleChildren.loop traintupleKey newStatus keys db).2 := by
  intro keys
  induction keys with
  | nil => intro db; exact ⟨KeepsTraining.reflTraining db, KeepsTestsOutside.reflOutside _ db⟩
  | cons tk rest ih =>
    intro db
    unfold UpdateTesttupleChildren.loop
    cases hg : db.GetTesttuple tk with
    | error e => exact ⟨KeepsTraining.reflTraining db, KeepsTestsOutside.reflOutside _ db⟩
    | ok tt =>
      have hrec := (GetTesttuple_ok db tk tt hg).1
      have hnot : ∀ a, db.Get tk = some a → a.isTraining = false := by
        intro a ha; rw [hrec] at ha; cases ha; rfl
      dsimp only
      split
      · exact ⟨(ih db).1, (ih db).2.monoOutside (fun k hk => List.mem_cons_of_mem _ hk)⟩
      · split
        · rename_i hc
          have hs := (Testtuple.commitStatusUpdate_cases_test _ _ _ _ _ _ _ hc).1
          exact ⟨hs.exceptToTraining hnot, hs.exceptToOutside _ (List.mem_cons_self _ _)⟩
        · rename_i hc
          have hs := SameTuplesExcept_AddTupleEvent
            (Testtuple.commitStatusUpdate_cases_test _ _ _ _ _ _ _ hc).1 tk
          exact ⟨(hs.exceptToTraining hnot).transTraining (ih _).1,
            (hs.exceptToOutside _ (List.mem_cons_self _ _)).transOutside
              ((ih _).2.monoOutside (fun k hk => List.mem_cons_of_mem _ hk))⟩

/-- `UpdateTesttupleChildren` keeps every training tuple, and every testtuple
that the index does not list under the traintuple. -/
theorem UpdateTesttupleChildren_frame (db : LedgerDB) (traintupleKey traintupleStatus : String) :
    KeepsTraining db (UpdateTesttupleChildren db traintupleKey traintupleStatus).2 ∧
    KeepsTestsOutside
      (db.GetIndexKeys "testtuple~traintuple~certified~key" ["testtuple", traintupleKey]) db
      (UpdateTesttupleChildren db traintupleKey traintupleStatus).2 := by
  unfold UpdateTesttupleChildren
  dsimp only
  split
  · exact ⟨KeepsTraining.reflTraining db, KeepsTestsOutside.reflOutside _ db⟩
  · exact UpdateTesttupleChildren_loop_frame _ _ _ _

/-! ## What the update of the children of a tuple reported done leaves alone -/

theorem UpdateTraintupleChildren_loop_not_failed
    (recur : LedgerDB → String → String → List String → Option (Option Error × LedgerDB))
    (traintupleKey traintupleStatus : String)
    (hs : stringInSlice traintupleStatus [StatusFailed, StatusAborted] = false) :
    ∀ (keys : List String) (db : LedgerDB) (already : List String),
      ∃ r, UpdateTraintupleChildren.loop recur traintupleKey traintupleStatus keys db already
          = some r ∧ KeepsTests db r.2 := by
  intro keys
  induction keys with
  | nil => intro db already; exact ⟨_, rfl, KeepsTests.reflTests db⟩
  | cons c rest ih =>
    intro db already
    unfold UpdateTraintupleChildren.loop
    split
    · exact ih db already
    · cases hg : db.GetGenericTuple c with
      | error e => exact ⟨_, rfl, KeepsTests.reflTests db⟩
      | ok child =>
        dsimp only
        split
        · exact ih db already
        · split
          · exact ⟨_, rfl, KeepsTests.reflTests db⟩
          · have hk := updateChildOfType_keepsTests db child.AssetType traintupleKey c
              traintupleStatus
            cases hu : updateChildOfType db child.AssetType traintupleKey c traintupleStatus with
            | mk r db1 =>
              rw [hu] at hk
              cases r with
              | error e => exact ⟨_, rfl, hk⟩
              | ok st =>
                dsimp only
                rw [hs]
                obtain ⟨r2, hr2, hk2⟩ := ih db1 (already ++ [c])
                exact ⟨r2, by simpa using hr2, hk.transTests hk2⟩

theorem UpdateTraintupleChildren_not_failed (db : LedgerDB)
    (traintupleKey traintupleStatus : String) (already : List String)
    (hs : stringInSlice traintupleStatus [StatusFailed, StatusAborted] = false) :
    KeepsTests db (UpdateTraintupleChildren db traintupleKey traintupleStatus already).2 := by
  unfold UpdateTraintupleChildren LedgerDB.maxDepth
  rw [UpdateTraintupleChildren.go]
  obtain ⟨r, hr, hk⟩ := UpdateTraintupleChildren_loop_not_failed
    (UpdateTraintupleChildren.go db.indexes.length) traintupleKey traintupleStatus hs
    (db.GetIndexKeys "tuple~inModel~key" ["tuple", traintupleKey]) db already
  simp only [hr]
  exact hk

/-! ## C7: the testtuples of the child of a traintuple reported done -/

theorem Traintuple.commitStatusUpdate_status (t : Traintuple) (db : LedgerDB)
    (key new : String) (t' : Traintuple) (db' : LedgerDB)
    (h : t.commitStatusUpdate db key new = (none, t', db')) (hnew : new ≠ StatusAborted) :
    t'.Status = new := by
  rcases (Traintuple.commitStatusUpdate_cases t db key new none t' db' h).2 with
    ⟨rfl, _, _, hs | ⟨ha, _⟩⟩ | ⟨_, _, he⟩ | ⟨rfl, _⟩
  · exact hs
  · exact absurd ha hnew
  · cases he
  · rfl

theorem logSuccessTrain_frame (db : LedgerDB) (inp : inputLogSuccessTrain) :
    KeepsTestsOutside
      (db.GetIndexKeys "testtuple~traintuple~certified~key" ["testtuple", inp.Key]) db
      (logSuccessTrain db inp).2 := by
  unfold logSuccessTrain
  dsimp only
  cases hg : db.GetTraintuple inp.Key with
  | error e => exact KeepsTestsOutside.reflOutside _ db
  | ok t =>
    have hrec := (GetTraintuple_ok db inp.Key t hg).1
    dsimp only
    have h0 := createModelIndex_keeps db inp.OutModel.Key inp.Key
    generalize createModelIndex db inp.OutModel.Key inp.Key = db0 at h0 ⊢
    have hrec0 : db0.Get inp.Key = some (.traintuple t) := h0.2.2 _ _ hrec rfl
    split
    · exact h0.toTests.toOutside _
    · split
      · rename_i hc
        have hs := (Traintuple.commitStatusUpdate_cases _ _ _ _ _ _ _ hc).1
        have hs' : KeepsTests db0 _ := hs.exceptToTests (by
          intro a ha; rw [hrec0] at ha; cases ha; rfl)
        exact (h0.toTests.transTests hs').toOutside _
      · rename_i t1 db1 hc
        have hs := (Traintuple.commitStatusUpdate_cases _ _ _ _ _ _ _ hc).1
        have hs' : KeepsTests db0 db1 := hs.exceptToTests (by
          intro a ha; rw [hrec0] at ha; cases ha; rfl)
        have hst : t1.Status = StatusDone :=
          Traintuple.commitStatusUpdate_status _ _ _ _ _ _ hc (by decide)
        have h01 := h0.toTests.transTests hs'
        have h2 := (TryAddIntermediaryModel_keeps db1 t1.ComputePlanKey t1.Dataset.Worker
          inp.Key inp.OutModel.Key).toTests
        split
        · rename_i heq
          rw [heq] at h2
          exact (h01.transTests h2).toOutside _
        · rename_i db2 heq
          rw [heq] at h2
          have h3 := UpdateTraintupleChildren_not_failed db2 inp.Key t1.Status []
            (by rw [hst]; decide)
          have h02 := h01.transTests h2
          split
          · rename_i heq3
            rw [heq3] at h3
            exact (h02.transTests h3).toOutside _
          · rename_i db3 heq3
            rw [heq3] at h3
            have h03 := h02.transTests h3
            have h4 := (UpdateTesttupleChildren_frame db3 inp.Key t1.Status).2
            rw [GetIndexKeys_congr db db3 _ _ h03.2.1] at h4
            split
            · rename_i heq4
              rw [heq4] at h4
              exact (h03.toOutside _).transOutside h4
            · rename_i heq4
              rw [heq4] at h4
              exact (h03.toOutside _).transOutside h4

/-- C7, the claim fails: in the chain ledger A is the only in-model of B, and
`logSuccessTrain` moves A to done and B to todo; yet the testtuple tB attached
to B, which was waiting, is not todo afterwards (it is still waiting). -/
theorem logSuccessTrain_child_testtuple_counterexample :
    (∃ b, Example.chain.GetTraintuple "B" = .ok b ∧ b.InModelKeys = ["A"]) ∧
    (∃ o, (logSuccessTrain Example.chain Example.successA).1 = .ok o) ∧
    (logSuccessTrain Example.chain Example.successA).2.statusOf "A" = StatusDone ∧
    (logSuccessTrain Example.chain Example.successA).2.statusOf "B" = StatusTodo ∧
    ¬ (∀ tk ∈ Example.chain.GetIndexKeys "testtuple~traintuple~certified~key" ["testtuple", "B"],
        Example.chain.statusOf tk = StatusWaiting →
        (logSuccessTrain Example.chain Example.successA).2.statusOf tk = StatusTodo) := by
  refine ⟨⟨_, rfl, rfl⟩, ⟨_, rfl⟩, by decide, by decide, by decide⟩

/-- C7 as amended: when `logSuccessTrain` reports a traintuple A done, the
testtuples attached to a child B (and not to A itself) are not modified in that
transaction: each keeps its record, hence its status. Testtuples become todo
only through the done report of their own traintuple. -/
theorem logSuccessTrain_keeps_child_testtuples (db : LedgerDB) (inp : inputLogSuccessTrain)
    (B : String) :
    ∀ tk ∈ db.GetIndexKeys "testtuple~traintuple~certified~key" ["testtuple", B],
      tk ∉ db.GetIndexKeys "testtuple~traintuple~certified~key" ["testtuple", inp.Key] →
      ∀ tt, db.GetTesttuple tk = .ok tt →
        (logSuccessTrain db inp).2.GetTesttuple tk = .ok tt ∧
        (logSuccessTrain db inp).2.statusOf tk = db.statusOf tk := by
  intro tk _ hnot tt htt
  have hrec := (GetTesttuple_ok db tk tt htt).1
  have hget := (logSuccessTrain_frame db inp).2.2 tk _ hnot hrec rfl
  refine ⟨?_, statusOf_congr _ _ _ (hget.trans hrec.symm)⟩
  unfold LedgerDB.GetTesttuple at htt ⊢
  rw [hget]
  rw [hrec] at htt
  exact htt

/-- C7 as amended, at a concrete input: A is reported done in the chain ledger;
the testtuple tB of its child B keeps its record. -/
theorem logSuccessTrain_keeps_child_testtuples_witness :
    (logSuccessTrain Example.chain Example.successA).2.GetTesttuple "tB"
        = .ok (Example.test "tB" "B" "waiting") ∧
      (logSuccessTrain Example.chain Example.successA).2.statusOf "tB"
        = Example.chain.statusOf "tB" :=
  logSuccessTrain_keeps_child_testtuples Example.chain Example.successA "B" "tB" (by decide)
    (by decide) _ rfl

/-! ## C4: the failure of a traintuple outside any compute plan -/

theorem FailsOnly_refl (db : LedgerDB) : FailsOnly db db :=
  ⟨rfl, rfl, fun _ _ h _ => Or.inl h, fun _ _ h _ => Or.inl h⟩

theorem FailsOnly_trans {db1 db2 db3 : LedgerDB} (h12 : FailsOnly db1 db2)
    (h23 : FailsOnly db2 db3) : FailsOnly db1 db3 := by
  refine ⟨h23.1.trans h12.1, h23.2.1.trans h12.2.1, ?_, ?_⟩
  · intro k a hk ha
    rcases h12.2.2.1 k a hk ha with h2 | ⟨hw, a2, h2, ha2, hs2⟩
    · exact h23.2.2.1 k a h2 ha
    · rcases h23.2.2.1 k a2 h2 ha2 with h3 | ⟨hw3, _⟩
      · exact Or.inr ⟨hw, a2, h3, ha2, hs2⟩
      · rw [hs2] at hw3; exact absurd hw3 (by decide)
  · intro k a hk ha
    rcases h12.2.2.2 k a hk ha with h2 | ⟨hw, a2, h2, ha2, hs2⟩
    · exact h23.2.2.2 k a h2 ha
    · rcases h23.2.2.2 k a2 h2 ha2 with h3 | ⟨_, hf3⟩
      · exact Or.inr ⟨hw, a2, h3, ha2, hs2⟩
      · exact Or.inr ⟨hw, hf3⟩

theorem FailsOnly_of_keepsTuples {db db' : LedgerDB} (h : KeepsTuples db db') :
    FailsOnly db db' :=
  ⟨h.1, h.2.1, fun k a hk ha => Or.inl (h.2.2 k a hk (by simp [Asset.isTuple, ha])),
    fun k a hk ha => Or.inl (h.2.2 k a hk (by simp [Asset.isTuple, ha]))⟩

theorem FailsOnly_of_training_fails {c : String} {db db' : LedgerDB}
    (h : SameTuplesExcept c db db') (hw : db.waitingTraining c) (hf : db'.failedTraining c) :
    FailsOnly db db' := by
  obtain ⟨a0, ha0, htr0, hs0⟩ := hw
  refine ⟨h.1, h.2.1, ?_, ?_⟩
  · intro k a hk ha
    by_cases hkc : k = c
    · subst hkc
      rw [ha0] at hk
      cases hk
      exact Or.inr ⟨hs0, hf⟩
    · exact Or.inl (h.2.2 k a hkc hk (by simp [Asset.isTuple, ha]))
  · intro k a hk ha
    by_cases hkc : k = c
    · subst hkc
      rw [ha0] at hk
      cases hk
      rw [isTest_of_isTraining htr0] at ha
      exact absurd ha (by decide)
    · exact Or.inl (h.2.2 k a hkc hk (by simp [Asset.isTuple, ha]))

theorem isTraining_of_isTest {a : Asset} (h : a.isTest = true) : a.isTraining = false := by
  cases a <;> simp_all [Asset.isTraining, Asset.isTest]

theorem FailsOnly_of_test_fails {c : String} {db db' : LedgerDB}
    (h : SameTuplesExcept c db db') (hw : db.liveTest c) (hf : db'.failedTest c) :
    FailsOnly db db' := by
  obtain ⟨a0, ha0, htr0, hs0⟩ := hw
  refine ⟨h.1, h.2.1, ?_, ?_⟩
  · intro k a hk ha
    by_cases hkc : k = c
    · subst hkc
      rw [ha0] at hk
      cases hk
      rw [isTraining_of_isTest htr0] at ha
      exact absurd ha (by decide)
    · exact Or.inl (h.2.2 k a hkc hk (by simp [Asset.isTuple, ha]))
  · intro k a hk ha
    by_cases hkc : k = c
    · subst hkc
      rw [ha0] at hk
      cases hk
      exact Or.inr ⟨hs0, hf⟩
    · exact Or.inl (h.2.2 k a hkc hk (by simp [Asset.isTuple, ha]))

theorem failedTraining_persists {db db' : LedgerDB} (h : FailsOnly db db') {k : String}
    (hf : db.failedTraining k) : db'.failedTraining k := by
  obtain ⟨a, ha, htr, hs⟩ := hf
  rcases h.2.2.1 k a ha htr with h2 | ⟨hw, _⟩
  · exact ⟨a, h2, htr, hs⟩
  · rw [hs] at hw; exact absurd hw (by decide)

theorem failedTest_persists {db db' : LedgerDB} (h : FailsOnly db db') {k : String}
    (hf : db.failedTest k) : db'.failedTest k := by
  obtain ⟨a, ha, htr, hs⟩ := hf
  rcases h.2.2.2 k a ha htr with h2 | ⟨_, hf2⟩
  · exact ⟨a, h2, htr, hs⟩
  · exact hf2

theorem waitingTraining_step {db db' : LedgerDB} (h : FailsOnly db db') {k : String}
    (hw : db.waitingTraining k) : db'.waitingTraining k ∨ db'.failedTraining k := by
  obtain ⟨a, ha, htr, hs⟩ := hw
  rcases h.2.2.1 k a ha htr with h2 | ⟨_, hf⟩
  · exact Or.inl ⟨a, h2, htr, hs⟩
  · exact Or.inr hf

theorem liveTest_step {db db' : LedgerDB} (h : FailsOnly db db') {k : String}
    (hw : db.liveTest k) : db'.liveTest k ∨ db'.failedTest k := by
  obtain ⟨a, ha, htr, hs⟩ := hw
  rcases h.2.2.2 k a ha htr with h2 | ⟨_, hf⟩
  · exact Or.inl ⟨a, h2, htr, hs⟩
  · exact Or.inr hf

theorem failedTraining_statusOf {db : LedgerDB} {k : String} (h : db.failedTraining k) :
    db.statusOf k = StatusFailed := by
  obtain ⟨a, ha, _, hs⟩ := h
  rw [statusOf_eq db k a ha, hs]

theorem failedTest_statusOf {db : LedgerDB} {k : String} (h : db.failedTest k) :
    db.statusOf k = StatusFailed := by
  obtain ⟨a, ha, _, hs⟩ := h
  rw [statusOf_eq db k a ha, hs]

theorem not_waiting_and_failed {db : LedgerDB} {k : String} (hw : db.waitingTraining k)
    (hf : db.failedTraining k) : False := by
  obtain ⟨a, ha, _, hs⟩ := hw
  obtain ⟨a', ha', _, hs'⟩ := hf
  rw [ha] at ha'
  cases ha'
  rw [hs] at hs'
  exact absurd hs' (by decide)

/-- A waiting child stored as a traintuple, updated for a failed parent, is failed
afterwards; no other tuple is touched. -/
theorem UpdateTraintupleChild_failed (db : LedgerDB) (p c st : String) (db1 : LedgerDB)
    (hw : db.statusOf c = StatusWaiting)
    (h : UpdateTraintupleChild db p c StatusFailed = (.ok st, db1)) :
    st = StatusFailed ∧ SameTuplesExcept c db db1 ∧ db.waitingTraining c ∧
      db1.failedTraining c := by
  unfold UpdateTraintupleChild at h
  cases hg : db.GetTraintuple c with
  | error e => rw [hg] at h; simp at h
  | ok t =>
    have hrec := (GetTraintuple_ok db c t hg).1
    have hts : t.Status = StatusWaiting := by
      rw [statusOf_eq db c _ hrec] at hw; exact hw
    have hne : ¬ (StatusFailed = "") := by decide
    simp only [hg] at h
    rw [if_pos trivial] at h
    dsimp only at h
    rw [if_neg hne] at h
    cases hc : t.commitStatusUpdate db c StatusFailed with
    | mk e r =>
      obtain ⟨t', db'⟩ := r
      rw [hc] at h
      have hcases := Traintuple.commitStatusUpdate_cases t db c StatusFailed e t' db' hc
      cases e with
      | some err => simp at h
      | none =>
        simp only [Prod.mk.injEq, Except.ok.injEq] at h
        obtain ⟨hst, hdb⟩ := h
        rcases hcases.2 with ⟨_, _, _, hs | ⟨ha, _⟩⟩ | ⟨_, _, he⟩ | ⟨ht', hget, _⟩
        · rw [hts] at hs; exact absurd hs (by decide)
        · exact absurd ha (by decide)
        · cases he
        · subst hdb
          refine ⟨?_, SameTuplesExcept_AddTupleEvent hcases.1 c, ⟨_, hrec, rfl, hts⟩,
            ⟨.traintuple t', by simpa using hget, rfl, ?_⟩⟩
          · rw [← hst, ht']
          · rw [ht']; rfl

/-- A waiting child stored as a composite traintuple, updated for a failed parent, is failed
afterwards; no other tuple is touched. -/
theorem UpdateCompositeTraintupleChild_failed (db : LedgerDB) (p c st : String) (db1 : LedgerDB)
    (hw : db.statusOf c = StatusWaiting)
    (h : UpdateCompositeTraintupleChild db p c StatusFailed = (.ok st, db1)) :
    st = StatusFailed ∧ SameTuplesExcept c db db1 ∧ db.waitingTraining c ∧
      db1.failedTraining c := by
  unfold UpdateCompositeTraintupleChild at h
  cases hg : db.GetCompositeTraintuple c with
  | error e => rw [hg] at h; simp at h
  | ok t =>
    have hrec := (GetCompositeTraintuple_ok db c t hg).1
    have hts : t.Status = StatusWaiting := by
      rw [statusOf_eq db c _ hrec] at hw; exact hw
    have hne : ¬ (StatusFailed = "") := by decide
    simp only [hg] at h
    rw [if_pos trivial] at h
    dsimp only at h
    rw [if_neg hne] at h
    cases hc : t.commitStatusUpdate db c StatusFailed with
    | mk e r =>
      obtain ⟨t', db'⟩ := r
      rw [hc] at h
      have hcases := CompositeTraintuple.commitStatusUpdate_cases_composite t db c StatusFailed e t' db' hc
      cases e with
      | some err => simp at h
      | none =>
        simp only [Prod.mk.injEq, Except.ok.injEq] at h
        obtain ⟨hst, hdb⟩ := h
        rcases hcases.2 with ⟨_, _, _, hs | ⟨ha, _⟩⟩ | ⟨_, _, he⟩ | ⟨ht', hget, _⟩
        · rw [hts] at hs; exact absurd hs (by decide)
        · exact absurd ha (by decide)
        · cases he
        · subst hdb
          refine ⟨?_, SameTuplesExcept_AddTupleEvent hcases.1 c, ⟨_, hrec, rfl, hts⟩,
            ⟨.compositeTraintuple t', by simpa using hget, rfl, ?_⟩⟩
          · rw [← hst, ht']
          · rw [ht']; rfl

/-- A waiting child stored as an aggregatetuple, updated for a failed parent, is failed
afterwards; no other tuple is touched. -/
theorem UpdateAggregatetupleChild_failed (db : LedgerDB) (p c st : String) (db1 : LedgerDB)
    (hw : db.statusOf c = StatusWaiting)
    (h : UpdateAggregatetupleChild db p c StatusFailed = (.ok st, db1)) :
    st = StatusFailed ∧ SameTuplesExcept c db db1 ∧ db.waitingTraining c ∧
      db1.failedTraining c := by
  unfold UpdateAggregatetupleChild at h
  cases hg : db.GetAggregatetuple c with
  | error e => rw [hg] at h; simp at h
  | ok t =>
    have hrec := (GetAggregatetuple_ok db c t hg).1
    have hts : t.Status = StatusWaiting := by
      rw [statusOf_eq db c _ hrec] at hw; exact hw
    have hne : ¬ (StatusFailed = "") := by decide
    simp only [hg] at h
    rw [if_pos trivial] at h
    dsimp only at h
    rw [if_neg hne] at h
    cases hc : t.commitStatusUpdate db c StatusFailed with
    | mk e r =>
      obtain ⟨t', db'⟩ := r
      rw [hc] at h
      have hcases := Aggregatetuple.commitStatusUpdate_cases_aggregate t db c StatusFailed e t' db' hc
      cases e with
      | some err => simp at h
      | none =>
        simp only [Prod.mk.injEq, Except.ok.injEq] at h
        obtain ⟨hst, hdb⟩ := h
        rcases hcases.2 with ⟨_, _, _, hs | ⟨ha, _⟩⟩ | ⟨_, _, he⟩ | ⟨ht', hget, _⟩
        · rw [hts] at hs; exact absurd hs (by decide)
        · exact absurd ha (by decide)
        · cases he
        · subst hdb
          refine ⟨?_, SameTuplesExcept_AddTupleEvent hcases.1 c, ⟨_, hrec, rfl, hts⟩,
            ⟨.aggregatetuple t', by simpa using hget, rfl, ?_⟩⟩
          · rw [← hst, ht']
          · rw [ht']; rfl

theorem updateChildOfType_failed (db : LedgerDB) (ty : AssetType) (p c st : String)
    (db1 : LedgerDB) (hw : db.statusOf c = StatusWaiting)
    (h : updateChildOfType db ty p c StatusFailed = (.ok st, db1)) :
    st = StatusFailed ∧ SameTuplesExcept c db db1 ∧ db.waitingTraining c ∧
      db1.failedTraining c := by
  unfold updateChildOfType at h
  split at h
  · exact UpdateTraintupleChild_failed db p c st db1 hw h
  · exact UpdateCompositeTraintupleChild_failed db p c st db1 hw h
  · exact UpdateAggregatetupleChild_failed db p c st db1 hw h
  · simp at h

theorem UpdateTesttupleChildren_loop_failed (x : String) :
    ∀ (keys : List String) (db db1 : LedgerDB),
      UpdateTesttupleChildren.loop x StatusFailed keys db = (none, db1) →
      FailsOnly db db1 ∧ KeepsTraining db db1 ∧
        ∀ tk ∈ keys, db.liveTest tk → db1.failedTest tk := by
  intro keys
  induction keys with
  | nil =>
    intro db db1 h
    simp only [UpdateTesttupleChildren.loop, Prod.mk.injEq, true_and] at h
    subst h
    exact ⟨FailsOnly_refl _, KeepsTraining.reflTraining _, fun _ hk => absurd hk (by simp)⟩
  | cons tk rest ih =>
    intro db db1 h
    unfold UpdateTesttupleChildren.loop at h
    cases hg : db.GetTesttuple tk with
    | error e => rw [hg] at h; simp at h
    | ok tt =>
      have hrec := (GetTesttuple_ok db tk tt hg).1
      have hnot : ∀ a, db.Get tk = some a → a.isTraining = false := by
        intro a ha; rw [hrec] at ha; cases ha; rfl
      simp only [hg] at h
      by_cases hab : tt.Status = StatusAborted
      · rw [if_pos hab] at h
        obtain ⟨h1, h2, h3⟩ := ih db db1 h
        refine ⟨h1, h2, ?_⟩
        intro tk' hmem hlive
        rcases List.mem_cons.1 hmem with rfl | hmem
        · obtain ⟨a, ha, _, hs⟩ := hlive
          rw [hrec] at ha
          cases ha
          exact absurd hab hs
        · exact h3 tk' hmem hlive
      · rw [if_neg hab] at h
        cases hc : Testtuple.commitStatusUpdate { tt with TraintupleKey := x } db tk
            StatusFailed with
        | mk e r =>
          obtain ⟨tt', db'⟩ := r
          rw [hc] at h
          have hcases := Testtuple.commitStatusUpdate_cases_test _ db tk StatusFailed e tt' db' hc
          cases e with
          | some err => simp at h
          | none =>
            dsimp only at h
            have hlive0 : db.liveTest tk := ⟨_, hrec, rfl, hab⟩
            have hstep : FailsOnly db (db'.AddTupleEvent tk) ∧
                (db'.AddTupleEvent tk).failedTest tk := by
              rcases hcases.2 with ⟨_, hdb, _, hs | ⟨ha, _⟩⟩ | ⟨_, _, he⟩ | ⟨ht', hget, _⟩
              · subst hdb
                exact ⟨FailsOnly_of_keepsTuples (KeepsTuples_AddTupleEvent _ _),
                  ⟨.testtuple tt, by simpa using hrec, rfl, hs⟩⟩
              · exact absurd ha (by decide)
              · cases he
              · have hf : (db'.AddTupleEvent tk).failedTest tk :=
                  ⟨.testtuple tt', by simpa using hget, rfl, by rw [ht']; rfl⟩
                exact ⟨FailsOnly_of_test_fails (SameTuplesExcept_AddTupleEvent hcases.1 tk)
                  hlive0 hf, hf⟩
            have htr : KeepsTraining db (db'.AddTupleEvent tk) :=
              (SameTuplesExcept_AddTupleEvent hcases.1 tk).exceptToTraining hnot
            obtain ⟨h1, h2, h3⟩ := ih _ db1 h
            refine ⟨FailsOnly_trans hstep.1 h1, htr.transTraining h2, ?_⟩
            intro tk' hmem hlive
            rcases List.mem_cons.1 hmem with rfl | hmem
            · exact failedTest_persists h1 hstep.2
            · rcases liveTest_step hstep.1 hlive with hl | hf
              · exact h3 tk' hmem hl
              · exact failedTest_persists h1 hf

/-- After `UpdateTesttupleChildren` for a failed traintuple has succeeded, every
testtuple listed under the traintuple that was not aborted is failed; only
testtuples failed. -/
theorem UpdateTesttupleChildren_failed (db db1 : LedgerDB) (x : String)
    (h : UpdateTesttupleChildren db x StatusFailed = (none, db1)) :
    FailsOnly db db1 ∧ KeepsTraining db db1 ∧
      ∀ tk ∈ db.GetIndexKeys "testtuple~traintuple~certified~key" ["testtuple", x],
        db.liveTest tk → db1.failedTest tk := by
  unfold UpdateTesttupleChildren at h
  rw [if_pos rfl] at h
  exact UpdateTesttupleChildren_loop_failed x _ db db1 h

theorem GetGenericTuple_status {db : LedgerDB} {c : String} {child : GenericTuple}
    (hg : db.GetGenericTuple c = .ok child) : db.statusOf c = child.Status := by
  simp [LedgerDB.statusOf, hg]

theorem waitingTraining_statusOf {db : LedgerDB} {k : String} (h : db.waitingTraining k) :
    db.statusOf k = StatusWaiting := by
  obtain ⟨a, ha, _, hs⟩ := h
  rw [statusOf_eq db k a ha, hs]

theorem inModelKeys_of_failsOnly {db db' : LedgerDB} (h : FailsOnly db db') (x : String) :
    db'.GetIndexKeys "tuple~inModel~key" ["tuple", x]
      = db.GetIndexKeys "tuple~inModel~key" ["tuple", x] :=
  GetIndexKeys_congr db db' _ _ h.1

theorem testKeys_of_failsOnly {db db' : LedgerDB} (h : FailsOnly db db') (x : String) :
    db'.GetIndexKeys "testtuple~traintuple~certified~key" ["testtuple", x]
      = db.GetIndexKeys "testtuple~traintuple~certified~key" ["testtuple", x] :=
  GetIndexKeys_congr db db' _ _ h.2.1

/-- Children waiting at the start are failed at the end, when those still
waiting in between are failed at the end. -/
theorem childrenFailed_lift {keys : List String} {db dbm db' : LedgerDB}
    (h1 : FailsOnly db dbm) (h2 : FailsOnly dbm db') (hc : ChildrenFailed keys dbm db') :
    ChildrenFailed keys db db' := by
  intro c hmem hw
  rcases waitingTraining_step h1 hw with hw' | hf
  · exact hc c hmem hw'
  · exact failedTraining_persists h2 hf

theorem testsFailed_lift {keys : List String} {db dbm db' : LedgerDB}
    (h1 : FailsOnly db dbm) (h2 : FailsOnly dbm db')
    (hc : ∀ tk ∈ keys, dbm.liveTest tk → db'.failedTest tk) :
    ∀ tk ∈ keys, db.liveTest tk → db'.failedTest tk := by
  intro tk hmem hl
  rcases liveTest_step h1 hl with hl' | hf
  · exact hc tk hmem hl'
  · exact failedTest_persists h2 hf

theorem UpdateTraintupleChildren_loop_failed
    (recur : LedgerDB → String → String → List String → Option (Option Error × LedgerDB))
    (hrecur : ∀ db key already db', AllFailed already db →
      recur db key StatusFailed already = some (none, db') →
      FailsOnly db db' ∧ FailureClosed db db' ∧
        ChildrenFailed (db.GetIndexKeys "tuple~inModel~key" ["tuple", key]) db db')
    (key : String) :
    ∀ (keys : List String) (db : LedgerDB) (already : List String) (db' : LedgerDB),
      AllFailed already db →
      UpdateTraintupleChildren.loop recur key StatusFailed keys db already = some (none, db') →
      FailsOnly db db' ∧ FailureClosed db db' ∧ ChildrenFailed keys db db' := by
  intro keys
  induction keys with
  | nil =>
    intro db already db' _ h
    simp only [UpdateTraintupleChildren.loop, Option.some.injEq, Prod.mk.injEq, true_and] at h
    subst h
    exact ⟨FailsOnly_refl _, fun x hw hf => (not_waiting_and_failed hw hf).elim,
      fun _ hk => absurd hk (by simp)⟩
  | cons c rest ih =>
    intro db already db' hall h
    unfold UpdateTraintupleChildren.loop at h
    by_cases hin : stringInSlice c already = true
    · rw [if_pos hin] at h
      obtain ⟨h1, h2, h3⟩ := ih db already db' hall h
      refine ⟨h1, h2, ?_⟩
      intro c' hmem hw
      rcases List.mem_cons.1 hmem with rfl | hmem
      · exact (not_waiting_and_failed hw (hall _ ((stringInSlice_iff _ _).1 hin))).elim
      · exact h3 c' hmem hw
    · rw [if_neg hin] at h
      cases hg : db.GetGenericTuple c with
      | error e => rw [hg] at h; simp at h
      | ok child =>
        have hstat := GetGenericTuple_status hg
        simp only [hg] at h
        by_cases hfa : stringInSlice child.Status [StatusFailed, StatusAborted] = true
        · rw [if_pos hfa] at h
          obtain ⟨h1, h2, h3⟩ := ih db already db' hall h
          refine ⟨h1, h2, ?_⟩
          intro c' hmem hw
          rcases List.mem_cons.1 hmem with rfl | hmem
          · have hws := waitingTraining_statusOf hw
            rw [hstat] at hws
            rw [hws] at hfa
            exact absurd hfa (by decide)
          · exact h3 c' hmem hw
        · rw [if_neg hfa] at h
          by_cases hwt : child.Status ≠ StatusWaiting
          · rw [if_pos hwt] at h; simp at h
          · rw [if_neg hwt] at h
            have hcw : child.Status = StatusWaiting := not_not.1 hwt
            rw [hcw] at hstat
            cases hu : updateChildOfType db child.AssetType key c StatusFailed with
            | mk r db1 =>
              rw [hu] at h
              cases r with
              | error e => simp at h
              | ok st =>
                obtain ⟨hst, hex, hwc, hfc⟩ :=
                  updateChildOfType_failed db child.AssetType key c st db1 hstat hu
                subst hst
                have htrue : stringInSlice StatusFailed [StatusFailed, StatusAborted] = true := by
                  decide
                dsimp only at h
                rw [if_pos htrue] at h
                cases ht : UpdateTesttupleChildren db1 c StatusFailed with
                | mk e2 db2 =>
                  rw [ht] at h
                  cases e2 with
                  | some err => simp at h
                  | none =>
                    obtain ⟨hT1, _, hT3⟩ := UpdateTesttupleChildren_failed db1 db2 c ht
                    dsimp only at h
                    cases hr : recur db2 c StatusFailed (already ++ [c]) with
                    | none => rw [hr] at h; simp at h
                    | some r2 =>
                      obtain ⟨e3, db3⟩ := r2
                      rw [hr] at h
                      cases e3 with
                      | some err => simp at h
                      | none =>
                        dsimp only at h
                        have F01 : FailsOnly db db1 := FailsOnly_of_training_fails hex hwc hfc
                        have F02 : FailsOnly db db2 := FailsOnly_trans F01 hT1
                        have hall2 : AllFailed (already ++ [c]) db2 := by
                          intro k hk
                          rcases List.mem_append.1 hk with hk | hk
                          · exact failedTraining_persists F02 (hall k hk)
                          · rw [List.mem_singleton.1 hk]
                            exact failedTraining_persists hT1 hfc
                        obtain ⟨F23, hC23, hK23⟩ := hrecur db2 c (already ++ [c]) db3 hall2 hr
                        have F03 : FailsOnly db db3 := FailsOnly_trans F02 F23
                        have hall3 : AllFailed (already ++ [c]) db3 :=
                          fun k hk => failedTraining_persists F23 (hall2 k hk)
                        obtain ⟨F3', hC3', hK3'⟩ := ih db3 (already ++ [c]) db' hall3 h
                        have F2' : FailsOnly db2 db' := FailsOnly_trans F23 F3'
                        have F1' : FailsOnly db1 db' := FailsOnly_trans hT1 F2'
                        refine ⟨FailsOnly_trans F03 F3', ?_, ?_⟩
                        · intro x hwx hfx
                          by_cases hxc : x = c
                          · subst hxc
                            constructor
                            · have hK : ChildrenFailed
                                  (db.GetIndexKeys "tuple~inModel~key" ["tuple", x]) db2 db' := by
                                intro c' hmem hw'
                                rw [← inModelKeys_of_failsOnly F02 x] at hmem
                                exact failedTraining_persists F3' (hK23 c' hmem hw')
                              exact childrenFailed_lift F02 F2' hK
                            · apply testsFailed_lift F01 F1'
                              intro tk hmem hl
                              rw [← testKeys_of_failsOnly F01 x] at hmem
                              exact failedTest_persists F2' (hT3 tk hmem hl)
                          · rcases waitingTraining_step F02 hwx with hw2 | hf2
                            · rcases waitingTraining_step F23 hw2 with hw3 | hf3
                              · obtain ⟨hA, hB⟩ := hC3' x hw3 hfx
                                constructor
                                · apply childrenFailed_lift F03 F3'
                                  intro c' hmem hw'
                                  rw [← inModelKeys_of_failsOnly F03 x] at hmem
                                  exact hA c' hmem hw'
                                · apply testsFailed_lift F03 F3'
                                  intro tk hmem hl
                                  rw [← testKeys_of_failsOnly F03 x] at hmem
                                  exact hB tk hmem hl
                              · obtain ⟨hA, hB⟩ := hC23 x hw2 hf3
                                constructor
                                · apply childrenFailed_lift F02 F2'
                                  intro c' hmem hw'
                                  rw [← inModelKeys_of_failsOnly F02 x] at hmem
                                  exact failedTraining_persists F3' (hA c' hmem hw')
                                · apply testsFailed_lift F02 F2'
                                  intro tk hmem hl
                                  rw [← testKeys_of_failsOnly F02 x] at hmem
                                  exact failedTest_persists F3' (hB tk hmem hl)
                            · -- only `c` failed between `db` and `db2`
                              exfalso
                              obtain ⟨a, ha, htr, hs⟩ := hwx
                              have h1x := hex.2.2 x a hxc ha (by simp [Asset.isTuple, htr])
                              have hw1 : db1.waitingTraining x := ⟨a, h1x, htr, hs⟩
                              rcases hT1.2.2.1 x a h1x htr with h2x | ⟨_, hf⟩
                              · exact not_waiting_and_failed ⟨a, h2x, htr, hs⟩ hf2
                              · -- a testtuple update does not fail a training tuple
                                have := (UpdateTesttupleChildren_failed db1 db2 c ht).2.1
                                have h2x := this.2.2 x a h1x htr
                                exact not_waiting_and_failed ⟨a, h2x, htr, hs⟩ hf2
                        · intro c' hmem hw
                          rcases List.mem_cons.1 hmem with rfl | hmem
                          · exact failedTraining_persists F1' hfc
                          · exact childrenFailed_lift F03 F3' hK3' c' hmem hw

theorem UpdateTraintupleChildren_go_failed :
    ∀ (n : Nat) (db : LedgerDB) (key : String) (already : List String) (db' : LedgerDB),
      AllFailed already db →
      UpdateTraintupleChildren.go n db key StatusFailed already = some (none, db') →
      FailsOnly db db' ∧ FailureClosed db db' ∧
        ChildrenFailed (db.GetIndexKeys "tuple~inModel~key" ["tuple", key]) db db' := by
  intro n
  induction n with
  | zero => intro db key already db' _ h; simp [UpdateTraintupleChildren.go] at h
  | succ n ih =>
    intro db key already db' hall h
    rw [UpdateTraintupleChildren.go] at h
    exact UpdateTraintupleChildren_loop_failed (UpdateTraintupleChildren.go n) ih key _ db
      already db' hall h

/-! ## What the propagation of a failure leaves alone -/

theorem NoNewWaiting_refl (db : LedgerDB) : NoNewWaiting db db := fun _ => Or.inl rfl

theorem NoNewWaiting_trans {db1 db2 db3 : LedgerDB} (h12 : NoNewWaiting db1 db2)
    (h23 : NoNewWaiting db2 db3) : NoNewWaiting db1 db3 := by
  intro k
  rcases h23 k with h | h
  · rcases h12 k with h1 | ⟨v, hv, hp⟩
    · exact Or.inl (h.trans h1)
    · exact Or.inr ⟨v, h.trans hv, hp⟩
  · exact Or.inr h

theorem NoNewWaiting_of_Get {db db' : LedgerDB} (h : ∀ k, db'.Get k = db.Get k) :
    NoNewWaiting db db' := fun k => Or.inl (h k)

theorem NoNewWaiting_Put (db : LedgerDB) (key : String) (v : Asset)
    (hv : v.isTraining = false ∨ v.status ≠ StatusWaiting) :
    NoNewWaiting db (db.Put key v) := by
  intro k
  by_cases hk : k = key
  · right
    exact ⟨v, by simp [hk], hv⟩
  · left
    simp [hk]

theorem NoNewWaiting_Put_workerState (db : LedgerDB) (key : String)
    (s : ComputePlanWorkerState) :
    NoNewWaiting db (db.Put key (.computePlanWorkerState s)) :=
  NoNewWaiting_Put db key _ (Or.inl rfl)

theorem NoNewWaiting_Put_planState (db : LedgerDB) (key : String) (s : ComputePlanState) :
    NoNewWaiting db (db.Put key (.computePlanState s)) :=
  NoNewWaiting_Put db key _ (Or.inl rfl)

theorem UpdateComputePlanState_noNewWaiting (db : LedgerDB)
    (computePlanKey tupleStatus tupleKey worker : String) :
    NoNewWaiting db
      (UpdateComputePlanState db computePlanKey tupleStatus tupleKey worker).2 := by
  unfold UpdateComputePlanState
  dsimp only
  repeat' split
  all_goals first
    | exact NoNewWaiting_refl db
    | exact NoNewWaiting_Put_workerState _ _ _
    | exact NoNewWaiting_Put_planState _ _ _
    | exact NoNewWaiting_trans (NoNewWaiting_Put_workerState _ _ _)
        (NoNewWaiting_Put_planState _ _ _)

theorem commit_tail_noNewWaiting (db : LedgerDB) (key : String) (a : Asset) (index : String)
    (old new : List String) (cpk st w : String)
    (ha : a.isTraining = false ∨ a.status ≠ StatusWaiting) :
    NoNewWaiting db
      (UpdateComputePlanState ((db.Put key a).UpdateIndex index old new) cpk st key w).2 :=
  NoNewWaiting_trans
    (NoNewWaiting_trans (NoNewWaiting_Put db key a ha) (NoNewWaiting_of_Get (fun _ => rfl)))
    (UpdateComputePlanState_noNewWaiting _ _ _ _ _)

theorem commitTraintuple_noNewWaiting (t : Traintuple) (db : LedgerDB) (key new : String)
    (hn : new ≠ StatusWaiting) :
    NoNewWaiting db (t.commitStatusUpdate db key new).2.2 := by
  unfold Traintuple.commitStatusUpdate
  split
  · exact NoNewWaiting_refl db
  · split
    · exact NoNewWaiting_refl db
    · split
      · exact NoNewWaiting_refl db
      · dsimp only
        have htail := commit_tail_noNewWaiting db key (.traintuple { t with Status := new })
          "traintuple~worker~status~key"
          ["traintuple", t.Dataset.Worker, t.Status, key]
          ["traintuple", t.Dataset.Worker, new, key] t.ComputePlanKey new t.Dataset.Worker
          (Or.inr hn)
        revert htail
        rcases UpdateComputePlanState
            ((db.Put key (.traintuple { t with Status := new })).UpdateIndex
              "traintuple~worker~status~key"
              ["traintuple", t.Dataset.Worker, t.Status, key]
              ["traintuple", t.Dataset.Worker, new, key])
            t.ComputePlanKey new key t.Dataset.Worker with ⟨e, d⟩
        intro htail
        cases e <;> exact htail

theorem commitCompositeTraintuple_noNewWaiting (t : CompositeTraintuple) (db : LedgerDB)
    (key new : String) (hn : new ≠ StatusWaiting) :
    NoNewWaiting db (t.commitStatusUpdate db key new).2.2 := by
  unfold CompositeTraintuple.commitStatusUpdate
  split
  · exact NoNewWaiting_refl db
  · split
    · exact NoNewWaiting_refl db
    · split
      · exact NoNewWaiting_refl db
      · dsimp only
        have htail := commit_tail_noNewWaiting db key
          (.compositeTraintuple { t with Status := new })
          "compositeTraintuple~worker~status~key"
          ["compositeTraintuple", t.Dataset.Worker, t.Status, key]
          ["compositeTraintuple", t.Dataset.Worker, new, key] t.ComputePlanKey new
          t.Dataset.Worker (Or.inr hn)
        revert htail
        rcases UpdateComputePlanState
            ((db.Put key (.compositeTraintuple { t with Status := new })).UpdateIndex
              "compositeTraintuple~worker~status~key"
              ["compositeTraintuple", t.Dataset.Worker, t.Status, key]
              ["compositeTraintuple", t.Dataset.Worker, new, key])
            t.ComputePlanKey new key t.Dataset.Worker with ⟨e, d⟩
        intro htail
        cases e <;> exact htail

theorem commitAggregatetuple_noNewWaiting (t : Aggregatetuple) (db : LedgerDB)
    (key new : String) (hn : new ≠ StatusWaiting) :
    NoNewWaiting db (t.commitStatusUpdate db key new).2.2 := by
  unfold Aggregatetuple.commitStatusUpdate
  split
  · exact NoNewWaiting_refl db
  · split
    · exact NoNewWaiting_refl db
    · split
      · exact NoNewWaiting_refl db
      · dsimp only
        have htail := commit_tail_noNewWaiting db key (.aggregatetuple { t with Status := new })
          "aggregatetuple~worker~status~key"
          ["aggregatetuple", t.Worker, t.Status, key]
          ["aggregatetuple", t.Worker, new, key] t.ComputePlanKey new t.Worker (Or.inr hn)
        revert htail
        rcases UpdateComputePlanState
            ((db.Put key (.aggregatetuple { t with Status := new })).UpdateIndex
              "aggregatetuple~worker~status~key"
              ["aggregatetuple", t.Worker, t.Status, key]
              ["aggregatetuple", t.Worker, new, key])
            t.ComputePlanKey new key t.Worker with ⟨e, d⟩
        intro htail
        cases e <;> exact htail

theorem commitTesttuple_noNewWaiting (t : Testtuple) (db : LedgerDB) (key new : String) :
    NoNewWaiting db (t.commitStatusUpdate db key new).2.2 := by
  unfold Testtuple.commitStatusUpdate
  split
  · exact NoNewWaiting_refl db
  · split
    · exact NoNewWaiting_refl db
    · split
      · exact NoNewWaiting_refl db
      · dsimp only
        have htail := commit_tail_noNewWaiting db key (.testtuple { t with Status := new })
          "testtuple~worker~status~key"
          ["testtuple", t.Dataset.Worker, t.Status, key]
          ["testtuple", t.Dataset.Worker, new, key] t.ComputePlanKey new t.Dataset.Worker
          (Or.inl rfl)
        revert htail
        rcases UpdateComputePlanState
            ((db.Put key (.testtuple { t with Status := new })).UpdateIndex
              "testtuple~worker~status~key"
              ["testtuple", t.Dataset.Worker, t.Status, key]
              ["testtuple", t.Dataset.Worker, new, key])
            t.ComputePlanKey new key t.Dataset.Worker with ⟨e, d⟩
        intro htail
        cases e <;> exact htail

theorem UpdateTraintupleChild_noNewWaiting (db : LedgerDB) (p c : String) :
    NoNewWaiting db (UpdateTraintupleChild db p c StatusFailed).2 := by
  unfold UpdateTraintupleChild
  cases hg : db.GetTraintuple c with
  | error e => exact NoNewWaiting_refl db
  | ok child =>
    dsimp only
    rw [if_pos rfl]
    dsimp only
    rw [if_neg (by decide : ¬ (StatusFailed = ""))]
    have hc := commitTraintuple_noNewWaiting child db c StatusFailed (by decide)
    revert hc
    rcases child.commitStatusUpdate db c StatusFailed with ⟨e, t2, d⟩
    intro hc
    cases e with
    | some err => exact hc
    | none => exact NoNewWaiting_trans hc (NoNewWaiting_of_Get (fun _ => rfl))

theorem UpdateCompositeTraintupleChild_noNewWaiting (db : LedgerDB) (p c : String) :
    NoNewWaiting db (UpdateCompositeTraintupleChild db p c StatusFailed).2 := by
  unfold UpdateCompositeTraintupleChild
  cases hg : db.GetCompositeTraintuple c with
  | error e => exact NoNewWaiting_refl db
  | ok child =>
    dsimp only
    rw [if_pos rfl]
    dsimp only
    rw [if_neg (by decide : ¬ (StatusFailed = ""))]
    have hc := commitCompositeTraintuple_noNewWaiting child db c StatusFailed (by decide)
    revert hc
    rcases child.commitStatusUpdate db c StatusFailed with ⟨e, t2, d⟩
    intro hc
    cases e with
    | some err => exact hc
    | none => exact NoNewWaiting_trans hc (NoNewWaiting_of_Get (fun _ => rfl))

theorem UpdateAggregatetupleChild_noNewWaiting (db : LedgerDB) (p c : String) :
    NoNewWaiting db (UpdateAggregatetupleChild db p c StatusFailed).2 := by
  unfold UpdateAggregatetupleChild
  cases hg : db.GetAggregatetuple c with
  | error e => exact NoNewWaiting_refl db
  | ok child =>
    dsimp only
    rw [if_pos rfl]
    dsimp only
    rw [if_neg (by decide : ¬ (StatusFailed = ""))]
    have hc := commitAggregatetuple_noNewWaiting child db c StatusFailed (by decide)
    revert hc
    rcases child.commitStatusUpdate db c StatusFailed with ⟨e, t2, d⟩
    intro hc
    cases e with
    | some err => exact hc
    | none => exact NoNewWaiting_trans hc (NoNewWaiting_of_Get (fun _ => rfl))

theorem updateChildOfType_noNewWaiting (db : LedgerDB) (ty : AssetType) (p c : String) :
    NoNewWaiting db (updateChildOfType db ty p c StatusFailed).2 := by
  unfold updateChildOfType
  split
  · exact UpdateTraintupleChild_noNewWaiting db p c
  · exact UpdateCompositeTraintupleChild_noNewWaiting db p c
  · exact UpdateAggregatetupleChild_noNewWaiting db p c
  · exact NoNewWaiting_refl db

theorem UpdateTesttupleChildren_loop_noNewWaiting (x status : String) :
    ∀ (keys : List String) (db : LedgerDB),
      NoNewWaiting db (UpdateTesttupleChildren.loop x status keys db).2 := by
  intro keys
  induction keys with
  | nil => intro db; exact NoNewWaiting_refl db
  | cons tk rest ih =>
    intro db
    unfold UpdateTesttupleChildren.loop
    cases hg : db.GetTesttuple tk with
    | error e => exact NoNewWaiting_refl db
    | ok tt =>
      dsimp only
      split
      · exact ih db
      · have hc := commitTesttuple_noNewWaiting { tt with TraintupleKey := x } db tk status
        revert hc
        rcases Testtuple.commitStatusUpdate { tt with TraintupleKey := x } db tk status
          with ⟨e, t2, d⟩
        intro hc
        cases e with
        | some err => exact hc
        | none =>
          exact NoNewWaiting_trans
            (NoNewWaiting_trans hc (NoNewWaiting_of_Get (fun _ => rfl))) (ih _)

theorem UpdateTesttupleChildren_noNewWaiting (db : LedgerDB) (x status : String) :
    NoNewWaiting db (UpdateTesttupleChildren db x status).2 := by
  unfold UpdateTesttupleChildren
  dsimp only
  split
  · exact NoNewWaiting_refl db
  · exact UpdateTesttupleChildren_loop_noNewWaiting _ _ _ _

theorem waitingTraining_back {db db' : LedgerDB} (h : NoNewWaiting db db') {k : String}
    (hw : db'.waitingTraining k) : db.waitingTraining k := by
  obtain ⟨a, ha, htr, hs⟩ := hw
  rcases h k with heq | ⟨v, hv, hp⟩
  · exact ⟨a, heq ▸ ha, htr, hs⟩
  · rw [ha] at hv
    cases hv
    rcases hp with hp | hp
    · rw [htr] at hp
      exact absurd hp (by decide)
    · exact absurd hs hp

theorem WaitingReach_back {db db' : LedgerDB} (h : NoNewWaiting db db')
    (hidx : db'.indexOf "tuple~inModel~key" = db.indexOf "tuple~inModel~key")
    {x k : String} (hr : WaitingReach db' x k) : WaitingReach db x k := by
  induction hr with
  | child c hmem hw =>
    rw [GetIndexKeys_congr db db' _ _ hidx] at hmem
    exact WaitingReach.child c hmem (waitingTraining_back h hw)
  | step y c _ hmem hw ih =>
    rw [GetIndexKeys_congr db db' _ _ hidx] at hmem
    exact WaitingReach.step y c ih hmem (waitingTraining_back h hw)

theorem WaitingReach_through {db : LedgerDB} {key c k : String}
    (h1 : WaitingReach db key c) (h2 : WaitingReach db c k) : WaitingReach db key k := by
  induction h2 with
  | child d hmem hw => exact WaitingReach.step c d h1 hmem hw
  | step y d _ hmem hw ih => exact WaitingReach.step y d ih hmem hw

theorem UpdateTraintupleChildren_loop_touched
    (recur : LedgerDB → String → String → List String → Option (Option Error × LedgerDB))
    (hrecur : ∀ db key already db',
      recur db key StatusFailed already = some (none, db') →
      db'.indexOf "tuple~inModel~key" = db.indexOf "tuple~inModel~key" ∧ NoNewWaiting db db' ∧
        ∀ k a, db.Get k = some a → a.isTraining = true →
          db'.Get k = some a ∨ WaitingReach db key k)
    (key : String) :
    ∀ (keys : List String) (db : LedgerDB) (already : List String) (db' : LedgerDB),
      (∀ k ∈ keys, k ∈ db.GetIndexKeys "tuple~inModel~key" ["tuple", key]) →
      UpdateTraintupleChildren.loop recur key StatusFailed keys db already = some (none, db') →
      db'.indexOf "tuple~inModel~key" = db.indexOf "tuple~inModel~key" ∧ NoNewWaiting db db' ∧
        ∀ k a, db.Get k = some a → a.isTraining = true →
          db'.Get k = some a ∨ WaitingReach db key k := by
  intro keys
  induction keys with
  | nil =>
    intro db already db' _ h
    simp only [UpdateTraintupleChildren.loop, Option.some.injEq, Prod.mk.injEq, true_and] at h
    subst h
    exact ⟨rfl, NoNewWaiting_refl _, fun _ _ hk _ => Or.inl hk⟩
  | cons c rest ih =>
    intro db already db' hsub h
    have hsub' : ∀ k ∈ rest, k ∈ db.GetIndexKeys "tuple~inModel~key" ["tuple", key] :=
      fun k hk => hsub k (List.mem_cons_of_mem _ hk)
    have hcmem : c ∈ db.GetIndexKeys "tuple~inModel~key" ["tuple", key] :=
      hsub c (List.mem_cons_self _ _)
    unfold UpdateTraintupleChildren.loop at h
    by_cases hin : stringInSlice c already = true
    · rw [if_pos hin] at h
      exact ih db already db' hsub' h
    · rw [if_neg hin] at h
      cases hg : db.GetGenericTuple c with
      | error e => rw [hg] at h; simp at h
      | ok child =>
        have hstat := GetGenericTuple_status hg
        simp only [hg] at h
        by_cases hfa : stringInSlice child.Status [StatusFailed, StatusAborted] = true
        · rw [if_pos hfa] at h
          exact ih db already db' hsub' h
        · rw [if_neg hfa] at h
          by_cases hwt : child.Status ≠ StatusWaiting
          · rw [if_pos hwt] at h; simp at h
          · rw [if_neg hwt] at h
            have hcw : child.Status = StatusWaiting := not_not.1 hwt
            rw [hcw] at hstat
            have hN01 := updateChildOfType_noNewWaiting db child.AssetType key c
            cases hu : updateChildOfType db child.AssetType key c StatusFailed with
            | mk r db1 =>
              rw [hu] at h hN01
              cases r with
              | error e => simp at h
              | ok st =>
                obtain ⟨hst, hex, hwc, -⟩ :=
                  updateChildOfType_failed db child.AssetType key c st db1 hstat hu
                subst hst
                have htrue : stringInSlice StatusFailed [StatusFailed, StatusAborted] = true := by
                  decide
                dsimp only at h hN01
                rw [if_pos htrue] at h
                have hN12 := UpdateTesttupleChildren_noNewWaiting db1 c StatusFailed
                cases ht : UpdateTesttupleChildren db1 c StatusFailed with
                | mk e2 db2 =>
                  rw [ht] at h hN12
                  cases e2 with
                  | some err => simp at h
                  | none =>
                    obtain ⟨-, hK12, -⟩ := UpdateTesttupleChildren_failed db1 db2 c ht
                    dsimp only at h hN12
                    cases hr : recur db2 c StatusFailed (already ++ [c]) with
                    | none => rw [hr] at h; simp at h
                    | some r2 =>
                      obtain ⟨e3, db3⟩ := r2
                      rw [hr] at h
                      cases e3 with
                      | some err => simp at h
                      | none =>
                        dsimp only at h
                        obtain ⟨I23, N23, T23⟩ := hrecur db2 c (already ++ [c]) db3 hr
                        have I02 : db2.indexOf "tuple~inModel~key"
                            = db.indexOf "tuple~inModel~key" := hK12.1.trans hex.1
                        have I03 : db3.indexOf "tuple~inModel~key"
                            = db.indexOf "tuple~inModel~key" := I23.trans I02
                        have N02 : NoNewWaiting db db2 := NoNewWaiting_trans hN01 hN12
                        have N03 : NoNewWaiting db db3 := NoNewWaiting_trans N02 N23
                        have hsub3 : ∀ k ∈ rest,
                            k ∈ db3.GetIndexKeys "tuple~inModel~key" ["tuple", key] := by
                          intro k hk
                          rw [GetIndexKeys_congr db db3 _ _ I03]
                          exact hsub' k hk
                        obtain ⟨I3', N3', T3'⟩ := ih db3 (already ++ [c]) db' hsub3 h
                        have hreachc : WaitingReach db key c := WaitingReach.child c hcmem hwc
                        refine ⟨I3'.trans I03, NoNewWaiting_trans N03 N3', ?_⟩
                        intro k a hk htr
                        by_cases hkc : k = c
                        · right
                          rw [hkc]
                          exact hreachc
                        · have h1 := hex.2.2 k a hkc hk (by simp [Asset.isTuple, htr])
                          have h2 := hK12.2.2 k a h1 htr
                          rcases T23 k a h2 htr with h3 | hreach
                          · rcases T3' k a h3 htr with h4 | hreach
                            · exact Or.inl h4
                            · exact Or.inr (WaitingReach_back N03 I03 hreach)
                          · exact Or.inr
                              (WaitingReach_through hreachc (WaitingReach_back N02 I02 hreach))

theorem UpdateTraintupleChildren_go_touched :
    ∀ (n : Nat) (db : LedgerDB) (key : String) (already : List String) (db' : LedgerDB),
      UpdateTraintupleChildren.go n db key StatusFailed already = some (none, db') →
      db'.indexOf "tuple~inModel~key" = db.indexOf "tuple~inModel~key" ∧ NoNewWaiting db db' ∧
        ∀ k a, db.Get k = some a → a.isTraining = true →
          db'.Get k = some a ∨ WaitingReach db key k := by
  intro n
  induction n with
  | zero => intro db key already db' h; simp [UpdateTraintupleChildren.go] at h
  | succ n ih =>
    intro db key already db' h
    rw [UpdateTraintupleChildren.go] at h
    exact UpdateTraintupleChildren_loop_touched (UpdateTraintupleChildren.go n) ih key _ db
      already db' (fun _ hk => hk) h

/-- The steps of a successful `logFailTrain` outside any compute plan: the status
commit, the update of the testtuples, the update of the children. -/
theorem logFailTrain_steps (db : LedgerDB) (inp : inputLogFailTrain) (t : Traintuple)
    (o : outputTraintuple) (db' : LedgerDB)
    (hg : db.GetTraintuple inp.Key = .ok t) (hcp : t.ComputePlanKey = "")
    (h : logFailTrain db inp = (.ok o, db')) :
    ∃ dba dbb, SameTuplesExcept inp.Key db dba ∧ dba.failedTraining inp.Key ∧
      UpdateTesttupleChildren dba inp.Key StatusFailed = (none, dbb) ∧
      UpdateTraintupleChildren.go dbb.maxDepth dbb inp.Key StatusFailed [] = some (none, db') ∧
      NoNewWaiting db dba := by
  have hrec := (GetTraintuple_ok db inp.Key t hg).1
  unfold logFailTrain at h
  simp only [hg] at h
  cases hv : validateTupleOwner db t.Dataset.Worker with
  | some err => rw [hv] at h; simp at h
  | none =>
    rw [hv] at h
    dsimp only at h
    cases hc : Traintuple.commitStatusUpdate { t with Log := t.Log ++ inp.Log } db inp.Key
        StatusFailed with
    | mk e r =>
      obtain ⟨t1, dba⟩ := r
      rw [hc] at h
      have hcases := Traintuple.commitStatusUpdate_cases _ db inp.Key StatusFailed e t1 dba hc
      have hback : NoNewWaiting db dba := by
        have hn := commitTraintuple_noNewWaiting { t with Log := t.Log ++ inp.Log } db inp.Key
          StatusFailed (by decide)
        rw [hc] at hn
        exact hn
      cases e with
      | some err => simp at h
      | none =>
        have hst : t1.Status = StatusFailed :=
          Traintuple.commitStatusUpdate_status _ _ _ _ _ _ hc (by decide)
        have hcp1 : ¬ (t1.ComputePlanKey ≠ "") := by
          rcases hcases.2 with ⟨rfl, _⟩ | ⟨rfl, _⟩ | ⟨rfl, _⟩ <;> simpa using hcp
        have hfa : dba.failedTraining inp.Key := by
          rcases hcases.2 with ⟨ht1, hdb, _, _⟩ | ⟨_, _, he⟩ | ⟨_, hget, _⟩
          · subst hdb
            refine ⟨.traintuple t, hrec, rfl, ?_⟩
            rw [ht1] at hst
            exact hst
          · cases he
          · exact ⟨.traintuple t1, hget, rfl, hst⟩
        dsimp only at h
        cases hf : outputTraintuple.Fill dba t1 with
        | error err => rw [hf] at h; simp at h
        | ok o1 =>
          rw [hf] at h
          dsimp only at h
          rw [if_neg hcp1, hst] at h
          cases ht : UpdateTesttupleChildren dba inp.Key StatusFailed with
          | mk e2 dbb =>
            rw [ht] at h
            cases e2 with
            | some err => simp at h
            | none =>
              dsimp only at h
              refine ⟨dba, dbb, hcases.1, hfa, ht, ?_, hback⟩
              unfold UpdateTraintupleChildren at h
              cases hgo : UpdateTraintupleChildren.go dbb.maxDepth dbb inp.Key StatusFailed [] with
              | none => rw [hgo] at h; simp at h
              | some r3 =>
                obtain ⟨e3, db3⟩ := r3
                rw [hgo] at h
                cases e3 with
                | some err => simp at h
                | none =>
                  simp only [Prod.mk.injEq, Except.ok.injEq] at h
                  rw [h.2]

/-- C4, the claim fails: in the ledger `skipped` the traintuple A is outside any
compute plan and `logFailTrain` succeeds on it; the waiting traintuple C is
reached from A through the index `tuple~inModel~key` (A → X → C), yet C is still
waiting afterwards: the walk does not go below X, which is already aborted. -/
theorem logFailTrain_reach_counterexample :
    (∃ t, Example.skipped.GetTraintuple "A" = .ok t ∧ t.ComputePlanKey = "") ∧
    (∃ o, (logFailTrain Example.skipped Example.failA).1 = .ok o) ∧
    Reach Example.skipped "A" "C" ∧
    (∃ t, Example.skipped.GetTraintuple "C" = .ok t ∧ t.Status = StatusWaiting) ∧
    (logFailTrain Example.skipped Example.failA).2.statusOf "C" = StatusWaiting := by
  refine ⟨⟨_, rfl, rfl⟩, ⟨_, rfl⟩, ?_, ⟨_, rfl, rfl⟩, by decide⟩
  exact Reach.step "X" "C" (Reach.child "X" (by decide)) (by decide)

/-- C4 as amended: when `logFailTrain` succeeds on a traintuple outside any
compute plan, the failure is propagated through the waiting tuples: every
training tuple reached from it through the index `tuple~inModel~key` along a
chain of waiting training tuples ends with status failed, and every testtuple
that was not aborted and is attached to it or to one of those descendants ends
with status failed. The walk does not go below a child that is not waiting:
every other training tuple that is not reached along such a chain keeps its
record, a waiting one its status. -/
theorem logFailTrain_propagates (db : LedgerDB) (inp : inputLogFailTrain) (t : Traintuple)
    (o : outputTraintuple) (db' : LedgerDB)
    (hg : db.GetTraintuple inp.Key = .ok t) (hcp : t.ComputePlanKey = "")
    (h : logFailTrain db inp = (.ok o, db')) :
    (∀ c, WaitingReach db inp.Key c → db'.statusOf c = StatusFailed) ∧
    (∀ x tk, (x = inp.Key ∨ WaitingReach db inp.Key x) →
      tk ∈ db.GetIndexKeys "testtuple~traintuple~certified~key" ["testtuple", x] →
      db.liveTest tk → db'.statusOf tk = StatusFailed) ∧
    (∀ c a, c ≠ inp.Key → db.Get c = some a → a.isTraining = true →
      ¬ WaitingReach db inp.Key c → db'.Get c = some a ∧ db'.statusOf c = db.statusOf c) := by
  obtain ⟨dba, dbb, hS, hroot, hT, hgo, hNa⟩ := logFailTrain_steps db inp t o db' hg hcp h
  have hrec := (GetTraintuple_ok db inp.Key t hg).1
  obtain ⟨Fab, Kab, hTests⟩ := UpdateTesttupleChildren_failed dba dbb inp.Key hT
  obtain ⟨Fb', hClosed, hChildren⟩ :=
    UpdateTraintupleChildren_go_failed dbb.maxDepth dbb inp.Key [] db'
      (fun _ hk => absurd hk (by simp)) hgo
  have Fa' : FailsOnly dba db' := FailsOnly_trans Fab Fb'
  have hroot' : db'.failedTraining inp.Key := failedTraining_persists Fa' hroot
  -- the in-model index and the testtuple index are those of `db` all along
  have hin : ∀ x, dbb.GetIndexKeys "tuple~inModel~key" ["tuple", x]
      = db.GetIndexKeys "tuple~inModel~key" ["tuple", x] := fun x =>
    (inModelKeys_of_failsOnly Fab x).trans (GetIndexKeys_congr db dba _ _ hS.1)
  have htest : ∀ x, dbb.GetIndexKeys "testtuple~traintuple~certified~key" ["testtuple", x]
      = db.GetIndexKeys "testtuple~traintuple~certified~key" ["testtuple", x] := fun x =>
    (testKeys_of_failsOnly Fab x).trans (GetIndexKeys_congr db dba _ _ hS.2.1)
  -- a training tuple waiting in `db`, other than the one reported, still waits in `dbb`
  have hwait : ∀ c, c ≠ inp.Key → db.waitingTraining c → dbb.waitingTraining c := by
    intro c hne hw
    obtain ⟨a, ha, htr, hs⟩ := hw
    have h1 := hS.2.2 c a hne ha (by simp [Asset.isTuple, htr])
    exact ⟨a, Kab.2.2 c a h1 htr, htr, hs⟩
  -- a live testtuple of `db` is live or failed in `dbb`
  have hlive : ∀ tk, db.liveTest tk → dbb.liveTest tk ∨ dbb.failedTest tk := by
    intro tk hl
    obtain ⟨a, ha, hte, hs⟩ := hl
    have hne : tk ≠ inp.Key := by
      intro heq
      rw [heq, hrec] at ha
      cases ha
      simp [Asset.isTest] at hte
    have h1 := hS.2.2 tk a hne ha (by simp [Asset.isTuple, hte])
    exact liveTest_step Fab ⟨a, h1, hte, hs⟩
  have hreach : ∀ c, WaitingReach db inp.Key c →
      db'.failedTraining c ∧ (c = inp.Key ∨ dbb.waitingTraining c) := by
    intro c hc
    induction hc with
    | child c hmem hw =>
      by_cases hck : c = inp.Key
      · rw [hck]; exact ⟨hroot', Or.inl rfl⟩
      · have hwb := hwait c hck hw
        rw [← hin] at hmem
        exact ⟨hChildren c hmem hwb, Or.inr hwb⟩
    | step x c _ hmem hw ih =>
      by_cases hck : c = inp.Key
      · rw [hck]; exact ⟨hroot', Or.inl rfl⟩
      · have hwb := hwait c hck hw
        rw [← hin] at hmem
        refine ⟨?_, Or.inr hwb⟩
        rcases ih.2 with hxk | hxw
        · rw [hxk] at hmem
          exact hChildren c hmem hwb
        · exact (hClosed x hxw ih.1).1 c hmem hwb
  have htestRoot : ∀ tk ∈ db.GetIndexKeys "testtuple~traintuple~certified~key"
      ["testtuple", inp.Key], db.liveTest tk → db'.failedTest tk := by
    intro tk hmem hl
    obtain ⟨a, ha, hte, hs⟩ := hl
    have hne : tk ≠ inp.Key := by
      intro heq
      rw [heq, hrec] at ha
      cases ha
      simp [Asset.isTest] at hte
    have h1 := hS.2.2 tk a hne ha (by simp [Asset.isTuple, hte])
    rw [← GetIndexKeys_congr db dba _ _ hS.2.1] at hmem
    exact failedTest_persists Fb' (hTests tk hmem ⟨a, h1, hte, hs⟩)
  have hframe : ∀ c a, c ≠ inp.Key → db.Get c = some a → a.isTraining = true →
      ¬ WaitingReach db inp.Key c → db'.Get c = some a ∧ db'.statusOf c = db.statusOf c := by
    intro c a hne ha htr hno
    have h1 := hS.2.2 c a hne ha (by simp [Asset.isTuple, htr])
    have h2 := Kab.2.2 c a h1 htr
    obtain ⟨-, -, hTouched⟩ := UpdateTraintupleChildren_go_touched dbb.maxDepth dbb inp.Key []
      db' hgo
    have hNb : NoNewWaiting db dbb := by
      have hn := UpdateTesttupleChildren_noNewWaiting dba inp.Key StatusFailed
      rw [hT] at hn
      exact NoNewWaiting_trans hNa hn
    have hIb : dbb.indexOf "tuple~inModel~key" = db.indexOf "tuple~inModel~key" :=
      Fab.1.trans hS.1
    rcases hTouched c a h2 htr with h3 | hr
    · exact ⟨h3, by rw [statusOf_eq db' c a h3, statusOf_eq db c a ha]⟩
    · exact absurd (WaitingReach_back hNb hIb hr) hno
  refine ⟨fun c hc => failedTraining_statusOf (hreach c hc).1, ?_, hframe⟩
  intro x tk hx hmem hl
  apply failedTest_statusOf
  have hcase : x = inp.Key ∨ (dbb.waitingTraining x ∧ db'.failedTraining x) := by
    rcases hx with hx | hx
    · exact Or.inl hx
    · rcases (hreach x hx).2 with hxk | hxw
      · exact Or.inl hxk
      · exact Or.inr ⟨hxw, (hreach x hx).1⟩
  rcases hcase with hxk | ⟨hxw, hxf⟩
  · rw [hxk] at hmem
    exact htestRoot tk hmem hl
  · rw [← htest] at hmem
    rcases hlive tk hl with hlb | hfb
    · exact (hClosed x hxw hxf).2 tk hmem hlb
    · exact failedTest_persists Fb' hfb

/-- C4 as amended, at concrete inputs: the training of A fails in the chain
ledger A → B → C; the grandchild C and its testtuple tC end failed. In the ledger
`skipped` no tuple is reached from A along waiting tuples (the only child X of A
is aborted), and the waiting tuple C below X keeps its record. -/
theorem logFailTrain_propagates_witness :
    (logFailTrain Example.chain Example.failA).2.statusOf "C" = StatusFailed ∧
    (logFailTrain Example.chain Example.failA).2.statusOf "tC" = StatusFailed ∧
    (¬ WaitingReach Example.skipped "A" "C" ∧
      (logFailTrain Example.skipped Example.failA).2.Get "C"
        = some (.traintuple (Example.train "C" "waiting" ["X"] ""))) := by
  have hreachB : WaitingReach Example.chain "A" "B" :=
    WaitingReach.child "B" (by decide) ⟨_, rfl, rfl, rfl⟩
  have hreachC : WaitingReach Example.chain "A" "C" :=
    WaitingReach.step "B" "C" hreachB (by decide) ⟨_, rfl, rfl, rfl⟩
  obtain ⟨o, ho⟩ : ∃ o, logFailTrain Example.chain Example.failA
      = (.ok o, (logFailTrain Example.chain Example.failA).2) := ⟨_, rfl⟩
  have hmain := logFailTrain_propagates Example.chain Example.failA
    (Example.train "A" "doing" [] "") o _ rfl rfl ho
  have hnone : ∀ x, ¬ WaitingReach Example.skipped "A" x := by
    intro x hx
    induction hx with
    | child c hmem hw =>
      have hk : Example.skipped.GetIndexKeys "tuple~inModel~key" ["tuple", "A"] = ["X"] := by
        decide
      rw [hk] at hmem
      simp only [List.mem_singleton] at hmem
      subst hmem
      obtain ⟨a, ha, _, hs⟩ := hw
      have hX : Example.skipped.Get "X"
          = some (.traintuple { Example.train "X" "aborted" ["A"] "cp" with Rank := 1 }) := rfl
      rw [hX] at ha
      cases ha
      exact absurd hs (by decide)
    | step y c _ _ _ ih => exact ih
  obtain ⟨o2, ho2⟩ : ∃ o, logFailTrain Example.skipped Example.failA
      = (.ok o, (logFailTrain Example.skipped Example.failA).2) := ⟨_, rfl⟩
  have hsk := logFailTrain_propagates Example.skipped Example.failA
    (Example.train "A" "doing" [] "") o2 _ rfl rfl ho2
  exact ⟨hmain.1 "C" hreachC,
    hmain.2.1 "C" "tC" (Or.inr hreachC) (by decide) ⟨_, rfl, rfl, by decide⟩,
    hnone "C", (hsk.2.2 "C" _ (by decide) rfl rfl (hnone "C")).1⟩

/-! ## The recursion of `UpdateTraintupleChildren` is never cut short -/

theorem GetIndexKeys_subset_childKeys (db : LedgerDB) (key : String) :
    ∀ k ∈ db.GetIndexKeys "tuple~inModel~key" ["tuple", key], k ∈ db.childKeys := by
  intro k hk
  rw [GetIndexKeys_eq_indexOf] at hk
  obtain ⟨e, he, hlast⟩ := List.mem_filterMap.1 hk
  exact List.mem_filterMap.2 ⟨e, (List.mem_filter.1 he).1, hlast⟩

theorem fresh_congr (db db' : LedgerDB)
    (h : db'.indexOf "tuple~inModel~key" = db.indexOf "tuple~inModel~key")
    (already : List String) : db'.fresh already = db.fresh already := by
  simp [LedgerDB.fresh, LedgerDB.childKeys, h]

theorem fresh_append_le (db : LedgerDB) (already : List String) (c : String) :
    db.fresh (already ++ [c]) ≤ db.fresh already := by
  unfold LedgerDB.fresh
  apply Finset.card_le_card
  intro k hk
  simp only [Finset.mem_sdiff, List.mem_toFinset, List.mem_append, List.mem_singleton,
    not_or] at hk ⊢
  exact ⟨hk.1, hk.2.1⟩

theorem fresh_append_lt (db : LedgerDB) (already : List String) (c : String)
    (hc : c ∈ db.childKeys) (hn : c ∉ already) :
    db.fresh (already ++ [c]) < db.fresh already := by
  unfold LedgerDB.fresh
  apply Finset.card_lt_card
  rw [Finset.ssubset_iff_of_subset]
  · refine ⟨c, ?_, ?_⟩
    · simp [hc, hn]
    · simp
  · intro k hk
    simp only [Finset.mem_sdiff, List.mem_toFinset, List.mem_append, List.mem_singleton,
      not_or] at hk ⊢
    exact ⟨hk.1, hk.2.1⟩

theorem fresh_lt_maxDepth (db : LedgerDB) (already : List String) :
    db.fresh already < db.maxDepth := by
  unfold LedgerDB.fresh LedgerDB.maxDepth
  have h1 : (db.childKeys.toFinset \ already.toFinset).card ≤ db.childKeys.toFinset.card :=
    Finset.card_le_card Finset.sdiff_subset
  have h2 : db.childKeys.toFinset.card ≤ db.childKeys.length := List.toFinset_card_le _
  have h3 : db.childKeys.length ≤ (db.indexOf "tuple~inModel~key").length :=
    List.length_filterMap_le _ _
  have h4 : (db.indexOf "tuple~inModel~key").length ≤ db.indexes.length :=
    List.length_filter_le _ _
  omega

theorem UpdateTraintupleChildren_loop_total
    (recur : LedgerDB → String → String → List String → Option (Option Error × LedgerDB))
    (n : Nat) (db0 : LedgerDB)
    (hrecur : ∀ db key status already,
      db.indexOf "tuple~inModel~key" = db0.indexOf "tuple~inModel~key" →
      db0.fresh already < n →
      ∃ r, recur db key status already = some r ∧
        r.2.indexOf "tuple~inModel~key" = db0.indexOf "tuple~inModel~key")
    (key status : String) :
    ∀ (keys : List String) (db : LedgerDB) (already : List String),
      (∀ k ∈ keys, k ∈ db0.childKeys) →
      db.indexOf "tuple~inModel~key" = db0.indexOf "tuple~inModel~key" →
      db0.fresh already ≤ n →
      ∃ r, UpdateTraintupleChildren.loop recur key status keys db already = some r ∧
        r.2.indexOf "tuple~inModel~key" = db0.indexOf "tuple~inModel~key" := by
  intro keys
  induction keys with
  | nil => intro db already _ hidx _; exact ⟨_, rfl, hidx⟩
  | cons c rest ih =>
    intro db already hsub hidx hfresh
    have hsub' : ∀ k ∈ rest, k ∈ db0.childKeys := fun k hk => hsub k (List.mem_cons_of_mem _ hk)
    have hc : c ∈ db0.childKeys := hsub c (List.mem_cons_self _ _)
    unfold UpdateTraintupleChildren.loop
    by_cases hin : stringInSlice c already = true
    · rw [if_pos hin]; exact ih db already hsub' hidx hfresh
    · rw [if_neg hin]
      have hnot : c ∉ already := fun hmem => hin ((stringInSlice_iff _ _).2 hmem)
      cases hg : db.GetGenericTuple c with
      | error e => exact ⟨_, rfl, hidx⟩
      | ok child =>
        dsimp only
        split
        · exact ih db already hsub' hidx hfresh
        · split
          · exact ⟨_, rfl, hidx⟩
          · have hf1 := (updateChildOfType_frame db child.AssetType key c status).1.1
            cases hu : updateChildOfType db child.AssetType key c status with
            | mk r db1 =>
              rw [hu] at hf1
              have hidx1 := hf1.trans hidx
              cases r with
              | error e => exact ⟨_, rfl, hidx1⟩
              | ok st =>
                have hle : db0.fresh (already ++ [c]) ≤ n :=
                  Nat.le_trans (fresh_append_le db0 already c) hfresh
                dsimp only
                split
                · have hf2 := (UpdateTesttupleChildren_frame db1 c st).1.1
                  cases ht : UpdateTesttupleChildren db1 c st with
                  | mk e2 db2 =>
                    rw [ht] at hf2
                    have hidx2 := hf2.trans hidx1
                    cases e2 with
                    | some err => exact ⟨_, rfl, hidx2⟩
                    | none =>
                      dsimp only
                      obtain ⟨r3, hr3, hidx3⟩ := hrecur db2 c st (already ++ [c]) hidx2
                        (Nat.lt_of_lt_of_le (fresh_append_lt db0 already c hc hnot) hfresh)
                      obtain ⟨e3, db3⟩ := r3
                      rw [hr3]
                      cases e3 with
                      | some err => exact ⟨_, rfl, hidx3⟩
                      | none => exact ih db3 (already ++ [c]) hsub' hidx3 hle
                · exact ih db1 (already ++ [c]) hsub' hidx1 hle

theorem UpdateTraintupleChildren_go_total :
    ∀ (n : Nat) (db : LedgerDB) (key status : String) (already : List String),
      db.fresh already < n →
      ∃ r, UpdateTraintupleChildren.go n db key status already = some r ∧
        r.2.indexOf "tuple~inModel~key" = db.indexOf "tuple~inModel~key" := by
  intro n
  induction n with
  | zero => intro db key status already h; exact absurd h (Nat.not_lt_zero _)
  | succ n ih =>
    intro db key status already hfresh
    rw [UpdateTraintupleChildren.go]
    apply UpdateTraintupleChildren_loop_total (UpdateTraintupleChildren.go n) n db
    · intro db2 key2 status2 already2 hidx2 hf2
      obtain ⟨r, hr, hidx⟩ := ih db2 key2 status2 already2
        (by rw [fresh_congr db db2 hidx2]; exact hf2)
      exact ⟨r, hr, hidx.trans hidx2⟩
    · exact GetIndexKeys_subset_childKeys db key
    · rfl
    · exact Nat.le_of_lt_succ hfresh

/-- The recursion of `UpdateTraintupleChildren` is never cut short: with the
depth `maxDepth` of the ledger it always comes to an end, whatever the ledger,
the dependency graph (diamonds and cycles included) and the already updated
keys. -/
theorem UpdateTraintupleChildren_go_terminates (db : LedgerDB) (key status : String)
    (already : List String) :
    ∃ r, UpdateTraintupleChildren.go db.maxDepth db key status already = some r ∧
      UpdateTraintupleChildren db key status already = r := by
  obtain ⟨r, hr, _⟩ := UpdateTraintupleChildren_go_total db.maxDepth db key status already
    (fresh_lt_maxDepth db already)
  exact ⟨r, hr, by simp [UpdateTraintupleChildren, hr]⟩

/-! ## C11: a transition requested from a terminal status -/

/-- C11, the claim fails: the traintuple A of the ledger `trained` is done and
the status aborted, which differs from done, is requested; `commitStatusUpdate`
returns no error (the request is ignored: traintuple and ledger come back as
they were). -/
theorem commitStatusUpdate_terminal_counterexample :
    Example.trained.GetTraintuple "A" = .ok (Example.train "A" "done" [] "") ∧
    (Example.train "A" "done" [] "").Status = StatusDone ∧
    StatusAborted ≠ (Example.train "A" "done" [] "").Status ∧
    (Example.train "A" "done" [] "").commitStatusUpdate Example.trained "A" StatusAborted
      = (none, Example.train "A" "done" [] "", Example.trained) := by
  refine ⟨rfl, rfl, by decide, rfl⟩

/-- C11 as amended: for a traintuple whose current status is done, failed or
aborted and a requested status different from the current one,
`commitStatusUpdate` never performs the transition: the traintuple and the
ledger handle come back as they were (stored record, index entries and write log
unchanged). It returns an error unless the requested status is aborted; a
request for aborted is ignored without an error. -/
theorem commitStatusUpdate_terminal (traintuple : Traintuple) (db : LedgerDB)
    (traintupleKey newStatus : String)
    (hterm : traintuple.Status = StatusDone ∨ traintuple.Status = StatusFailed ∨
      traintuple.Status = StatusAborted)
    (hne : newStatus ≠ traintuple.Status) :
    (traintuple.commitStatusUpdate db traintupleKey newStatus).2 = (traintuple, db) ∧
    (newStatus ≠ StatusAborted →
      (traintuple.commitStatusUpdate db traintupleKey newStatus).1 = some errors.Internal) ∧
    (newStatus = StatusAborted →
      (traintuple.commitStatusUpdate db traintupleKey newStatus).1 = none) := by
  have hne' : ¬ traintuple.Status = newStatus := fun h => hne h.symm
  have hw : traintuple.Status ≠ StatusWaiting := by
    rcases hterm with h | h | h <;> rw [h] <;> decide
  have hcheck : traintuple.validateNewStatus db newStatus = some errors.BadRequest := by
    unfold Traintuple.validateNewStatus checkUpdateTuple
    refine if_neg ?_
    rcases hterm with h | h | h <;> rw [h] <;>
      (rintro (⟨h1, _⟩ | ⟨h1, _⟩ | ⟨h1, _⟩) <;> exact absurd h1 (by decide))
  unfold Traintuple.commitStatusUpdate
  rw [if_neg hne']
  by_cases ha : StatusAborted = newStatus
  · rw [if_pos ⟨ha, hw⟩]
    exact ⟨rfl, fun h => absurd ha.symm h, fun _ => rfl⟩
  · have ha' : ¬ (StatusAborted = newStatus ∧ traintuple.Status ≠ StatusWaiting) :=
      fun h => ha h.1
    rw [if_neg ha', hcheck]
    exact ⟨rfl, fun _ => rfl, fun h => absurd h.symm ha⟩

/-- C11 as amended, at a concrete input: the traintuple A of the ledger
`trained`, done, is asked to go back to doing. -/
theorem commitStatusUpdate_terminal_witness :
    ((Example.train "A" "done" [] "").commitStatusUpdate Example.trained "A" StatusDoing).2
      = (Example.train "A" "done" [] "", Example.trained) ∧
    ((Example.train "A" "done" [] "").commitStatusUpdate Example.trained "A" StatusDoing).1
      = some errors.Internal :=
  ⟨(commitStatusUpdate_terminal (Example.train "A" "done" [] "") Example.trained "A" StatusDoing
      (Or.inl rfl) (by decide)).1,
    (commitStatusUpdate_terminal (Example.train "A" "done" [] "") Example.trained "A" StatusDoing
      (Or.inl rfl) (by decide)).2.1 (by decide)⟩

/-! ## C14: an input without a rank -/

/-- C14: for an input with an empty rank, `AddToComputePlan` fails with a bad
request when a compute plan key is given, and otherwise returns no error; in
both cases the traintuple and the ledger handle come back as they were, whatever
the ledger holds: nothing is read from it and nothing is written (the traintuple
stays standalone). -/
theorem AddToComputePlan_empty_rank (traintuple : Traintuple) (db : LedgerDB)
    (inp : inputTraintuple) (traintupleKey : String) (checkComputePlanAvailability : Bool)
    (h : inp.Rank = "") :
    (inp.ComputePlanKey ≠ "" →
      traintuple.AddToComputePlan db inp traintupleKey checkComputePlanAvailability
        = (some ⟨ErrorKind.BadRequest, none⟩, traintuple, db)) ∧
    (inp.ComputePlanKey = "" →
      traintuple.AddToComputePlan db inp traintupleKey checkComputePlanAvailability
        = (none, traintuple, db)) := by
  unfold Traintuple.AddToComputePlan
  rw [if_pos h]
  constructor
  · intro hcp; rw [if_pos hcp]; rfl
  · intro hcp; rw [if_neg (fun hne => hne hcp)]

/-- C14 at a concrete input: the request `inputA`, which has neither a rank nor
a compute plan key. -/
theorem AddToComputePlan_empty_rank_witness :
    (Example.train "A" "todo" [] "").AddToComputePlan Example.chain Example.inputA "A" true
      = (none, Example.train "A" "todo" [] "", Example.chain) :=
  (AddToComputePlan_empty_rank (Example.train "A" "todo" [] "") Example.chain Example.inputA "A"
    true rfl).2 rfl

/-! ## C13: a log issued by another principal -/

theorem createTraintupleInternal_of_SetFromInput_error (db : LedgerDB) (inp : inputTraintuple)
    (check : Bool) (err : Error) (h : Traintuple.zero.SetFromInput db inp = .error err) :
    createTraintupleInternal db inp check = (.error err, db) := by
  unfold createTraintupleInternal
  simp only [h]

theorem SetFromInput_algo_forbidden (traintuple : Traintuple) (db : LedgerDB)
    (inp : inputTraintuple) (algo : Algo) (ha : db.GetAlgo inp.AlgoKey = .ok algo)
    (hp : algo.Permissions.CanProcess algo.Owner (GetTxCreator db) = false) :
    traintuple.SetFromInput db inp = .error errors.Forbidden := by
  unfold Traintuple.SetFromInput
  simp only [ha, hp]
  rfl

/-- What `SetFromInput` returns once the algo may be processed, by the outcome
of the data-sample check. -/
theorem SetFromInput_after_algo (traintuple : Traintuple) (db : LedgerDB)
    (inp : inputTraintuple) (algo : Algo) (ha : db.GetAlgo inp.AlgoKey = .ok algo)
    (hp : algo.Permissions.CanProcess algo.Owner (GetTxCreator db) = true) :
    (∀ err, checkSameDataManager db inp.DataManagerKey inp.DataSampleKeys true true = .error err →
      traintuple.SetFromInput db inp = .error err) ∧
    (∀ testOnly,
      checkSameDataManager db inp.DataManagerKey inp.DataSampleKeys true true
        = .ok (testOnly, false) →
      traintuple.SetFromInput db inp = .error errors.BadRequest) ∧
    (∀ testOnly dataManager,
      checkSameDataManager db inp.DataManagerKey inp.DataSampleKeys true true
        = .ok (testOnly, true) →
      db.GetDataManager inp.DataManagerKey = .ok dataManager →
      dataManager.Permissions.CanProcess dataManager.Owner (GetTxCreator db) = false →
      traintuple.SetFromInput db inp = .error errors.Forbidden) := by
  refine ⟨?_, ?_, ?_⟩
  · intro err hc
    unfold Traintuple.SetFromInput
    simp only [ha, hp, hc]
    rfl
  · intro testOnly hc
    unfold Traintuple.SetFromInput
    simp only [ha, hp, hc]
    rfl
  · intro testOnly dataManager hc hd hdp
    unfold Traintuple.SetFromInput
    simp only [ha, hp, hc, hd, hdp]
    rfl

/-- C18, the claim fails: in the ledger `samples` the algo and the data manager
dmB of the request exist and worker A, who creates the transaction, cannot
process dmB; yet the creation fails with a bad request, not with forbidden: the
sample ds does not belong to dmB, and the data samples are checked before the
permission of the data manager. -/
theorem createTraintupleInternal_forbidden_counterexample :
    (∃ a, Example.samples.GetAlgo Example.inputPrivate.AlgoKey = .ok a) ∧
    (∃ d, Example.samples.GetDataManager Example.inputPrivate.DataManagerKey = .ok d ∧
      d.Permissions.CanProcess d.Owner (GetTxCreator Example.samples) = false) ∧
    createTraintupleInternal Example.samples Example.inputPrivate true
      = (.error ⟨ErrorKind.BadRequest, none⟩, Example.samples) ∧
    ErrorKind.BadRequest ≠ ErrorKind.Forbidden := by
  refine ⟨⟨_, rfl⟩, ⟨_, rfl, rfl⟩, rfl, by decide⟩

/-- C18 as amended: for an input whose algo and data manager exist, the creation
fails with forbidden when the transaction creator cannot process the algo; when
the creator can process the algo but not the data manager, the creation fails,
with forbidden if the data-sample check passes, and otherwise with the error of
the data-sample check, which comes before the permission check of the data
manager. Nothing is written in either case. -/
theorem createTraintupleInternal_forbidden (db : LedgerDB) (inp : inputTraintuple)
    (checkComputePlanAvailability : Bool) (algo : Algo) (dataManager : DataManager)
    (ha : db.GetAlgo inp.AlgoKey = .ok algo)
    (hd : db.GetDataManager inp.DataManagerKey = .ok dataManager) :
    (algo.Permissions.CanProcess algo.Owner (GetTxCreator db) = false →
      createTraintupleInternal db inp checkComputePlanAvailability
        = (.error ⟨ErrorKind.Forbidden, none⟩, db)) ∧
    (algo.Permissions.CanProcess algo.Owner (GetTxCreator db) = true →
      dataManager.Permissions.CanProcess dataManager.Owner (GetTxCreator db) = false →
      (∃ err, createTraintupleInternal db inp checkComputePlanAvailability = (.error err, db)) ∧
      (∀ testOnly,
        checkSameDataManager db inp.DataManagerKey inp.DataSampleKeys true true
          = .ok (testOnly, true) →
        createTraintupleInternal db inp checkComputePlanAvailability
          = (.error ⟨ErrorKind.Forbidden, none⟩, db)) ∧
      (∀ testOnly,
        checkSameDataManager db inp.DataManagerKey inp.DataSampleKeys true true
          = .ok (testOnly, false) →
        createTraintupleInternal db inp checkComputePlanAvailability
          = (.error ⟨ErrorKind.BadRequest, none⟩, db)) ∧
      (∀ err,
        checkSameDataManager db inp.DataManagerKey inp.DataSampleKeys true true = .error err →
        createTraintupleInternal db inp checkComputePlanAvailability = (.error err, db))) := by
  constructor
  · intro hp
    exact createTraintupleInternal_of_SetFromInput_error db inp _ _
      (SetFromInput_algo_forbidden _ db inp algo ha hp)
  · intro hp hdp
    have hs := SetFromInput_after_algo Traintuple.zero db inp algo ha hp
    have h1 : ∀ testOnly,
        checkSameDataManager db inp.DataManagerKey inp.DataSampleKeys true true
          = .ok (testOnly, true) →
        createTraintupleInternal db inp checkComputePlanAvailability
          = (.error ⟨ErrorKind.Forbidden, none⟩, db) := fun testOnly hc =>
      createTraintupleInternal_of_SetFromInput_error db inp _ _
        (hs.2.2 testOnly dataManager hc hd hdp)
    have h2 : ∀ testOnly,
        checkSameDataManager db inp.DataManagerKey inp.DataSampleKeys true true
          = .ok (testOnly, false) →
        createTraintupleInternal db inp checkComputePlanAvailability
          = (.error ⟨ErrorKind.BadRequest, none⟩, db) := fun testOnly hc =>
      createTraintupleInternal_of_SetFromInput_error db inp _ _ (hs.2.1 testOnly hc)
    have h3 : ∀ err,
        checkSameDataManager db inp.DataManagerKey inp.DataSampleKeys true true = .error err →
        createTraintupleInternal db inp checkComputePlanAvailability = (.error err, db) :=
      fun err hc => createTraintupleInternal_of_SetFromInput_error db inp _ _ (hs.1 err hc)
    refine ⟨?_, h1, h2, h3⟩
    cases hc : checkSameDataManager db inp.DataManagerKey inp.DataSampleKeys true true with
    | error err => exact ⟨_, h3 err hc⟩
    | ok r =>
      obtain ⟨testOnly, trainOnly⟩ := r
      cases trainOnly with
      | true => exact ⟨_, h1 testOnly hc⟩
      | false => exact ⟨_, h2 testOnly hc⟩

/-- C18 as amended, at a concrete input: worker A asks for a traintuple on the
data manager dmB, which only worker B may process, with a sample of dmB. -/
theorem createTraintupleInternal_forbidden_witness :
    createTraintupleInternal Example.samples Example.inputForbidden true
      = (.error ⟨ErrorKind.Forbidden, none⟩, Example.samples) :=
  ((createTraintupleInternal_forbidden Example.samples Example.inputForbidden true Example.algo
    Example.privateDataManager rfl rfl).2 rfl rfl).2.1 false rfl

theorem checkSameDataManager_ok_iff (db : LedgerDB) (dataManagerKey : String) :
    ∀ (dataSampleKeys : List String) (testOnly trainOnly : Bool),
      (∃ t, checkSameDataManager db dataManagerKey dataSampleKeys testOnly trainOnly
          = .ok (t, true)) ↔
        trainOnly = true ∧
        ∀ k ∈ dataSampleKeys, ∃ ds, db.GetDataSample k = .ok ds ∧
          dataManagerKey ∈ ds.DataManagerKeys ∧ ds.TestOnly = false := by
  intro dataSampleKeys
  induction dataSampleKeys with
  | nil =>
    intro testOnly trainOnly
    simp [checkSameDataManager]
  | cons key rest ih =>
    intro testOnly trainOnly
    unfold checkSameDataManager
    cases hg : db.GetDataSample key with
    | error e => simp [hg]
    | ok ds =>
      dsimp only
      by_cases hm : dataManagerKey ∈ ds.DataManagerKeys
      · have hs : stringInSlice dataManagerKey ds.DataManagerKeys = true :=
          (stringInSlice_iff _ _).2 hm
        simp only [hs, Bool.not_true, Bool.false_eq_true, if_false]
        rw [ih]
        simp only [List.mem_cons, forall_eq_or_imp, hg, Except.ok.injEq, exists_eq_left', hm,
          true_and, Bool.and_eq_true, Bool.not_eq_true']
        tauto
      · have hs : stringInSlice dataManagerKey ds.DataManagerKeys = false := by
          rw [← Bool.not_eq_true, stringInSlice_iff]; exact hm
        simp only [hs, Bool.not_false, if_true]
        simp [hg, hm]

theorem checkSameDataManager_error (db : LedgerDB) (dataManagerKey : String) :
    ∀ (dataSampleKeys : List String) (testOnly trainOnly : Bool),
      (∀ k ∈ dataSampleKeys, ∃ ds, db.GetDataSample k = .ok ds) →
      ∀ err, checkSameDataManager db dataManagerKey dataSampleKeys testOnly trainOnly
          = .error err → err = errors.BadRequest := by
  intro dataSampleKeys
  induction dataSampleKeys with
  | nil => intro testOnly trainOnly _ err h; simp [checkSameDataManager] at h
  | cons key rest ih =>
    intro testOnly trainOnly hall err h
    obtain ⟨ds, hg⟩ := hall key (List.mem_cons_self _ _)
    unfold checkSameDataManager at h
    simp only [hg] at h
    split at h
    · simp only [Except.error.injEq] at h; exact h.symm
    · exact ih _ _ (fun k hk => hall k (List.mem_cons_of_mem _ hk)) err h

/-- C19, the claim fails: in the ledger `samples` worker A may process the algo
of the request, and the request lists the sample fs, which is foreign to the
data manager dm; yet the creation fails with not found, not with a bad request:
the sample listed before fs does not exist, and the error of that read is
returned as it is. -/
theorem createTraintupleInternal_foreign_sample_counterexample :
    (∃ a, Example.samples.GetAlgo Example.inputMissing.AlgoKey = .ok a ∧
      a.Permissions.CanProcess a.Owner (GetTxCreator Example.samples) = true) ∧
    (∃ k ∈ Example.inputMissing.DataSampleKeys, ∃ ds,
      Example.samples.GetDataSample k = .ok ds ∧
      Example.inputMissing.DataManagerKey ∉ ds.DataManagerKeys) ∧
    createTraintupleInternal Example.samples Example.inputMissing true
      = (.error ⟨ErrorKind.NotFound, none⟩, Example.samples) ∧
    ErrorKind.NotFound ≠ ErrorKind.BadRequest := by
  refine ⟨⟨_, rfl, rfl⟩, ⟨"fs", by decide, _, rfl, by decide⟩, rfl, by decide⟩

/-- C19 as amended: for an input whose algo the caller may process, the
data-sample check of `SetFromInput` passes (`checkSameDataManager` returns no
error and reports train-only samples) if and only if every listed sample exists,
lists the given data manager among its data manager keys and is not test-only;
a listed sample that is missing, foreign to the data manager or test-only makes
the creation fail without a write, and the failure is a bad request when every
listed sample exists. -/
theorem SetFromInput_data_sample_check (db : LedgerDB) (inp : inputTraintuple)
    (checkComputePlanAvailability : Bool) (algo : Algo)
    (ha : db.GetAlgo inp.AlgoKey = .ok algo)
    (hp : algo.Permissions.CanProcess algo.Owner (GetTxCreator db) = true) :
    ((∃ testOnly, checkSameDataManager db inp.DataManagerKey inp.DataSampleKeys true true
        = .ok (testOnly, true)) ↔
      ∀ k ∈ inp.DataSampleKeys, ∃ ds, db.GetDataSample k = .ok ds ∧
        inp.DataManagerKey ∈ ds.DataManagerKeys ∧ ds.TestOnly = false) ∧
    ((∃ k ∈ inp.DataSampleKeys, ∀ ds, db.GetDataSample k = .ok ds →
        inp.DataManagerKey ∉ ds.DataManagerKeys ∨ ds.TestOnly = true) →
      (∃ err, createTraintupleInternal db inp checkComputePlanAvailability = (.error err, db)) ∧
      ((∀ k ∈ inp.DataSampleKeys, ∃ ds, db.GetDataSample k = .ok ds) →
        createTraintupleInternal db inp checkComputePlanAvailability
          = (.error ⟨ErrorKind.BadRequest, none⟩, db))) := by
  have hiff := checkSameDataManager_ok_iff db inp.DataManagerKey inp.DataSampleKeys true true
  have hs := SetFromInput_after_algo Traintuple.zero db inp algo ha hp
  refine ⟨?_, ?_⟩
  · rw [hiff]; simp
  · rintro ⟨k, hk, hbad⟩
    have hnot : ¬ ∃ testOnly,
        checkSameDataManager db inp.DataManagerKey inp.DataSampleKeys true true
          = .ok (testOnly, true) := by
      rw [hiff]
      rintro ⟨-, hall⟩
      obtain ⟨ds, hg, hm, ht⟩ := hall k hk
      rcases hbad ds hg with h | h
      · exact h hm
      · rw [ht] at h; exact absurd h (by decide)
    cases hc : checkSameDataManager db inp.DataManagerKey inp.DataSampleKeys true true with
    | error err =>
      have hcreate := createTraintupleInternal_of_SetFromInput_error db inp
        checkComputePlanAvailability _ (hs.1 err hc)
      refine ⟨⟨_, hcreate⟩, ?_⟩
      intro hall
      rw [hcreate, checkSameDataManager_error db _ _ _ _ hall err hc]
      rfl
    | ok r =>
      obtain ⟨testOnly, trainOnly⟩ := r
      cases trainOnly with
      | true => exact absurd ⟨testOnly, hc⟩ hnot
      | false =>
        have hcreate := createTraintupleInternal_of_SetFromInput_error db inp
          checkComputePlanAvailability _ (hs.2.1 testOnly hc)
        exact ⟨⟨_, hcreate⟩, fun _ => hcreate⟩

/-- C19 as amended, at a concrete input: worker A asks for a traintuple on the
data manager dm with its samples ds and ts, which both exist, ts being
test-only. -/
theorem SetFromInput_data_sample_check_witness :
    createTraintupleInternal Example.samples
        { Example.inputA with Key := "N", DataSampleKeys := ["ds", "ts"] } true
      = (.error ⟨ErrorKind.BadRequest, none⟩, Example.samples) :=
  ((SetFromInput_data_sample_check Example.samples
      { Example.inputA with Key := "N", DataSampleKeys := ["ds", "ts"] } true Example.algo rfl
      rfl).2 ⟨"ts", by decide, fun ds h => Or.inr (by cases h; rfl)⟩).2
    (by
      intro k hk
      simp only [List.mem_cons, List.mem_singleton, List.not_mem_nil, or_false] at hk
      rcases hk with rfl | rfl
      · exact ⟨_, rfl⟩
      · exact ⟨_, rfl⟩)

/-! ## What a successful creation went through -/

theorem TryCreateIndex_none (db db2 : LedgerDB) (index : String) (attributes : List String)
    (h : db.TryCreateIndex index attributes = (none, db2)) :
    db2 = db.CreateIndex index attributes := by
  unfold LedgerDB.TryCreateIndex at h
  split at h
  · simp at h
  · simp only [Prod.mk.injEq, true_and] at h
    exact h.symm

theorem TryCreateIndex_some (db db2 : LedgerDB) (index : String) (attributes : List String)
    (err : Error) (h : db.TryCreateIndex index attributes = (some err, db2)) :
    db2 = db ∧ db.refusedIndex ⟨index, attributes⟩ = some err := by
  unfold LedgerDB.TryCreateIndex at h
  split at h
  · rename_i e he
    simp only [Prod.mk.injEq, Option.some.injEq] at h
    rw [he, h.1]
    exact ⟨h.2.symm, rfl⟩
  · simp at h

theorem TryAddTupleEvent_none (db db2 : LedgerDB) (tupleKey : String)
    (h : db.TryAddTupleEvent tupleKey = (none, db2)) : db2 = db.AddTupleEvent tupleKey := by
  unfold LedgerDB.TryAddTupleEvent at h
  split at h
  · simp at h
  · simp only [Prod.mk.injEq, true_and] at h
    exact h.symm

theorem TryAddTupleEvent_some (db db2 : LedgerDB) (tupleKey : String) (err : Error)
    (h : db.TryAddTupleEvent tupleKey = (some err, db2)) :
    db2 = db ∧ db.refusedEvent tupleKey = some err := by
  unfold LedgerDB.TryAddTupleEvent at h
  split at h
  · rename_i e he
    simp only [Prod.mk.injEq, Option.some.injEq] at h
    rw [he, h.1]
    exact ⟨h.2.symm, rfl⟩
  · simp at h

theorem Save_loop_none (key : String) :
    ∀ (inModelKeys : List String) (db db2 : LedgerDB),
      Traintuple.Save.loop key inModelKeys db = (none, db2) →
      db2 = Traintuple.Save.loopWritten key inModelKeys db := by
  intro inModelKeys
  induction inModelKeys with
  | nil =>
    intro db db2 h
    unfold Traintuple.Save.loop at h
    simp only [Prod.mk.injEq, true_and] at h
    exact h.symm
  | cons x rest ih =>
    intro db db2 h
    unfold Traintuple.Save.loop at h
    rcases h1 : db.TryCreateIndex "tuple~inModel~key" ["tuple", x, key] with ⟨e1, d1⟩
    rw [h1] at h
    cases e1 with
    | some e => simp at h
    | none =>
      dsimp only at h
      rw [TryCreateIndex_none db d1 _ _ h1] at h
      unfold Traintuple.Save.loopWritten
      exact ih _ _ h

theorem Save_none (t : Traintuple) (db db2 : LedgerDB) (key : String)
    (h : t.Save db key = (none, db2)) :
    db.KeyExists key = false ∧ db2 = Traintuple.Save.written t db key := by
  unfold Traintuple.Save LedgerDB.Add at h
  cases hk : db.KeyExists key with
  | true => simp [hk] at h
  | false =>
    simp only [hk, Bool.false_eq_true, if_false] at h
    refine ⟨rfl, ?_⟩
    rcases h1 : (db.Put key (.traintuple t)).TryCreateIndex "traintuple~algo~key"
      ["traintuple", t.AlgoKey, key] with ⟨e1, d1⟩
    rw [h1] at h
    cases e1 with
    | some e => simp at h
    | none =>
      dsimp only at h
      have hd1 := TryCreateIndex_none _ _ _ _ h1
      subst hd1
      rcases h2 : (((db.Put key (.traintuple t)).CreateIndex "traintuple~algo~key"
        ["traintuple", t.AlgoKey, key])).TryCreateIndex "traintuple~worker~status~key"
        ["traintuple", t.Dataset.Worker, t.Status, key] with ⟨e2, d2⟩
      rw [h2] at h
      cases e2 with
      | some e => simp at h
      | none =>
        dsimp only at h
        have hd2 := TryCreateIndex_none _ _ _ _ h2
        subst hd2
        rcases h3 : Traintuple.Save.loop key t.InModelKeys
          (((db.Put key (.traintuple t)).CreateIndex "traintuple~algo~key"
            ["traintuple", t.AlgoKey, key]).CreateIndex "traintuple~worker~status~key"
            ["traintuple", t.Dataset.Worker, t.Status, key]) with ⟨e3, d3⟩
        rw [h3] at h
        cases e3 with
        | some e => simp at h
        | none =>
          dsimp only at h
          have hd3 := Save_loop_none _ _ _ _ h3
          unfold Traintuple.Save.written
          dsimp only
          rw [← hd3]
          by_cases hc : t.ComputePlanKey = ""
          · simp only [hc, ne_eq, not_true_eq_false, if_false] at h ⊢
            by_cases ht : t.Tag = ""
            · simp only [ht, ne_eq, not_true_eq_false, if_false, Prod.mk.injEq, true_and] at h ⊢
              exact h.symm
            · simp only [ht, ne_eq, not_false_eq_true, if_true] at h ⊢
              exact TryCreateIndex_none _ _ _ _ h
          · simp only [hc, ne_eq, not_false_eq_true, if_true] at h ⊢
            rcases h4 : d3.TryCreateIndex "computePlan~computeplankey~worker~rank~key"
              ["computePlan", t.ComputePlanKey, t.Dataset.Worker, strconv.Itoa t.Rank, key]
              with ⟨e4, d4⟩
            rw [h4] at h
            cases e4 with
            | some e => simp at h
            | none =>
              dsimp only at h
              have hd4 := TryCreateIndex_none _ _ _ _ h4
              subst hd4
              rcases h5 : (d3.CreateIndex "computePlan~computeplankey~worker~rank~key"
                ["computePlan", t.ComputePlanKey, t.Dataset.Worker, strconv.Itoa t.Rank,
                  key]).TryCreateIndex "algo~computeplankey~key"
                ["algo", t.ComputePlanKey, t.AlgoKey] with ⟨e5, d5⟩
              rw [h5] at h
              cases e5 with
              | some e => simp at h
              | none =>
                dsimp only at h
                have hd5 := TryCreateIndex_none _ _ _ _ h5
                subst hd5
                by_cases ht : t.Tag = ""
                · simp only [ht, ne_eq, not_true_eq_false, if_false, Prod.mk.injEq,
                    true_and] at h ⊢
                  exact h.symm
                · simp only [ht, ne_eq, not_false_eq_true, if_true] at h ⊢
                  exact TryCreateIndex_none _ _ _ _ h

theorem createTraintupleInternal_ok (db : LedgerDB) (inp : inputTraintuple) (check : Bool)
    (key : String) (db' : LedgerDB)
    (h : createTraintupleInternal db inp check = (.ok key, db')) :
    ∃ t1 t2 t3 db1 db2,
      Traintuple.zero.SetFromInput db inp = .ok t1 ∧
      t1.SetFromParents db inp.InModels = .ok t2 ∧
      db.KeyExists t2.Key = false ∧
      t2.AddToComputePlan db inp t2.Key check = (none, t3, db1) ∧
      t3.Save db1 t3.Key = (none, db2) ∧
      key = t3.Key ∧ db' = db2.AddTupleEvent t3.Key := by
  unfold createTraintupleInternal at h
  cases h1 : Traintuple.zero.SetFromInput db inp with
  | error e => simp [h1] at h
  | ok t1 =>
    simp only [h1] at h
    cases h2 : t1.SetFromParents db inp.InModels with
    | error e => simp [h2] at h
    | ok t2 =>
      simp only [h2] at h
      cases hk : db.KeyExists t2.Key with
      | true => simp [hk] at h
      | false =>
        simp only [hk, Bool.false_eq_true, if_false] at h
        rcases h3 : t2.AddToComputePlan db inp t2.Key check with ⟨e3, t3, db1⟩
        rw [h3] at h
        cases e3 with
        | some e => simp at h
        | none =>
          dsimp only at h
          rcases h4 : t3.Save db1 t3.Key with ⟨e4, db2⟩
          rw [h4] at h
          cases e4 with
          | some e => simp at h
          | none =>
            dsimp only at h
            rcases h5 : db2.TryAddTupleEvent t3.Key with ⟨e5, db3⟩
            rw [h5] at h
            cases e5 with
            | some e => simp at h
            | none =>
              simp only [Prod.mk.injEq, Except.ok.injEq] at h
              rw [TryAddTupleEvent_none db2 db3 t3.Key h5] at h
              exact ⟨t1, t2, t3, db1, db2, rfl, h2, hk, h3, h4, h.1.symm, h.2.symm⟩

theorem SetFromInput_fields (traintuple t : Traintuple) (db : LedgerDB) (inp : inputTraintuple)
    (h : traintuple.SetFromInput db inp = .ok t) :
    t.Rank = traintuple.Rank ∧ t.ComputePlanKey = inp.ComputePlanKey ∧
    t.AssetType = TraintupleType := by
  unfold Traintuple.SetFromInput at h
  dsimp only at h
  repeat' split at h
  all_goals first
    | (simp only [Except.ok.injEq] at h; subst h; exact ⟨rfl, rfl, rfl⟩)
    | simp at h

theorem SetFromParents_fields (traintuple t : Traintuple) (db : LedgerDB)
    (inModels : List String) (h : traintuple.SetFromParents db inModels = .ok t) :
    t.Rank = traintuple.Rank ∧ t.ComputePlanKey = traintuple.ComputePlanKey ∧
    t.AssetType = traintuple.AssetType ∧ t.Dataset = traintuple.Dataset := by
  unfold Traintuple.SetFromParents at h
  split at h
  · simp at h
  · simp only [Except.ok.injEq] at h; subst h; exact ⟨rfl, rfl, rfl, rfl⟩

theorem GetIndexKeys_of_indexes (db db' : LedgerDB) (index : String) (attrs : List String)
    (h : db'.indexes = db.indexes) : db'.GetIndexKeys index attrs = db.GetIndexKeys index attrs := by
  unfold LedgerDB.GetIndexKeys
  rw [h]

theorem AddTuple_indexes (cp : ComputePlan) (db : LedgerDB) (tupleType : AssetType)
    (key status worker : String) :
    (cp.AddTuple db tupleType key status worker).2.2.indexes = db.indexes := by
  unfold ComputePlan.AddTuple
  dsimp only
  repeat' split
  all_goals rfl

theorem AddToComputePlan_ok (t t3 : Traintuple) (db db1 : LedgerDB) (inp : inputTraintuple)
    (key : String) (check : Bool)
    (h : t.AddToComputePlan db inp key check = (none, t3, db1)) :
    t3.Key = t.Key ∧ t3.Status = t.Status ∧ t3.Dataset = t.Dataset ∧
    t3.AssetType = t.AssetType ∧ db1.indexes = db.indexes ∧
    ((inp.Rank = "" ∧ inp.ComputePlanKey = "" ∧ t3 = t ∧ db1 = db) ∨
     (inp.Rank ≠ "" ∧ strconv.Atoi inp.Rank = .ok t3.Rank ∧
       t3.ComputePlanKey = inp.ComputePlanKey ∧
       (∃ cp, db.GetComputePlan inp.ComputePlanKey = .ok cp) ∧
       (check = true →
         db.GetIndexKeys "computePlan~computeplankey~worker~rank~key"
           ["computePlan", inp.ComputePlanKey, t.Dataset.Worker, inp.Rank] = []))) := by
  unfold Traintuple.AddToComputePlan at h
  by_cases hr : inp.Rank = ""
  · rw [if_pos hr] at h
    by_cases hc : inp.ComputePlanKey = ""
    · rw [if_neg (fun hne => hne hc)] at h
      simp only [Prod.mk.injEq, true_and] at h
      obtain ⟨rfl, rfl⟩ := h
      exact ⟨rfl, rfl, rfl, rfl, rfl, Or.inl ⟨hr, hc, rfl, rfl⟩⟩
    · rw [if_pos hc] at h
      simp at h
  · rw [if_neg hr] at h
    cases ha : strconv.Atoi inp.Rank with
    | error e => simp [ha] at h
    | ok rank =>
      simp only [ha] at h
      cases hg : db.GetComputePlan inp.ComputePlanKey with
      | error e => simp [hg] at h
      | ok cp =>
        simp only [hg] at h
        have hidx := AddTuple_indexes cp db TraintupleType key t.Status t.Dataset.Worker
        rcases hadd : cp.AddTuple db TraintupleType key t.Status t.Dataset.Worker with
          ⟨e, cp', db0⟩
        rw [hadd] at h hidx
        dsimp only at hidx
        cases e with
        | some e => simp at h
        | none =>
          dsimp only at h
          have hsave : (cp'.Save db0 inp.ComputePlanKey).indexes = db.indexes := hidx
          cases check with
          | false =>
            simp only [Bool.not_false, if_true, Prod.mk.injEq, true_and] at h
            obtain ⟨rfl, rfl⟩ := h
            exact ⟨rfl, rfl, rfl, rfl, hsave, Or.inr ⟨hr, rfl, rfl, ⟨cp, rfl⟩, fun hf => by cases hf⟩⟩
          | true =>
            simp only [Bool.not_true, Bool.false_eq_true, if_false] at h
            split at h
            · simp at h
            · rename_i hlen
              simp only [Prod.mk.injEq, true_and] at h
              obtain ⟨rfl, rfl⟩ := h
              refine ⟨rfl, rfl, rfl, rfl, hsave, Or.inr ⟨hr, rfl, rfl, ⟨cp, rfl⟩, fun _ => ?_⟩⟩
              rw [GetIndexKeys_of_indexes db _ _ _ hsave] at hlen
              exact List.eq_nil_of_length_eq_zero (Nat.eq_zero_of_not_pos hlen)

theorem Save_loop_Get (key : String) :
    ∀ (inModelKeys : List String) (db : LedgerDB) (k : String),
      (Traintuple.Save.loopWritten key inModelKeys db).Get k = db.Get k := by
  intro inModelKeys
  induction inModelKeys with
  | nil => intro db k; rfl
  | cons x rest ih => intro db k; unfold Traintuple.Save.loopWritten; rw [ih]; rfl

theorem Save_ok (t : Traintuple) (db db2 : LedgerDB) (key : String)
    (h : t.Save db key = (none, db2)) :
    db.KeyExists key = false ∧ db2.Get key = some (.traintuple t) ∧
    ∀ k, k ≠ key → db2.Get k = db.Get k := by
  have hnone := Save_none t db db2 key h
  cases hk : db.KeyExists key with
  | true =>
    rw [hk] at hnone
    exact absurd hnone.1 (by decide)
  | false =>
    have h := hnone.2
    simp only [Traintuple.Save.written] at h
    subst h
    have hget : ∀ k, (if t.Tag ≠ "" then
          (if t.ComputePlanKey ≠ "" then
            (((Traintuple.Save.loopWritten key t.InModelKeys
              (((db.Put key (.traintuple t)).CreateIndex "traintuple~algo~key"
                ["traintuple", t.AlgoKey, key]).CreateIndex "traintuple~worker~status~key"
                ["traintuple", t.Dataset.Worker, t.Status, key])).CreateIndex
              "computePlan~computeplankey~worker~rank~key"
              ["computePlan", t.ComputePlanKey, t.Dataset.Worker, strconv.Itoa t.Rank,
                key]).CreateIndex "algo~computeplankey~key"
              ["algo", t.ComputePlanKey, t.AlgoKey])
          else
            Traintuple.Save.loopWritten key t.InModelKeys
              (((db.Put key (.traintuple t)).CreateIndex "traintuple~algo~key"
                ["traintuple", t.AlgoKey, key]).CreateIndex "traintuple~worker~status~key"
                ["traintuple", t.Dataset.Worker, t.Status, key])).CreateIndex
            "traintuple~tag~key" ["traintuple", t.Tag, key]
        else
          (if t.ComputePlanKey ≠ "" then
            (((Traintuple.Save.loopWritten key t.InModelKeys
              (((db.Put key (.traintuple t)).CreateIndex "traintuple~algo~key"
                ["traintuple", t.AlgoKey, key]).CreateIndex "traintuple~worker~status~key"
                ["traintuple", t.Dataset.Worker, t.Status, key])).CreateIndex
              "computePlan~computeplankey~worker~rank~key"
              ["computePlan", t.ComputePlanKey, t.Dataset.Worker, strconv.Itoa t.Rank,
                key]).CreateIndex "algo~computeplankey~key"
              ["algo", t.ComputePlanKey, t.AlgoKey])
          else
            Traintuple.Save.loopWritten key t.InModelKeys
              (((db.Put key (.traintuple t)).CreateIndex "traintuple~algo~key"
                ["traintuple", t.AlgoKey, key]).CreateIndex "traintuple~worker~status~key"
                ["traintuple", t.Dataset.Worker, t.Status, key]))).Get k
        = (db.Put key (.traintuple t)).Get k := by
      intro k
      split <;> split <;> simp [Save_loop_Get]
    refine ⟨rfl, ?_, ?_⟩
    · rw [hget]; simp
    · intro k hne; rw [hget]; simp [hne]

theorem Atoi_nonneg (s : String) (v : Int) (h : strconv.Atoi s = .ok v)
    (hs : s.toList.head? ≠ some '-') : 0 ≤ v := by
  unfold strconv.Atoi at h
  dsimp only at h
  split at h
  · simp at h
  · rename_i v' hparsed
    split at h
    · simp only [Except.ok.injEq] at h
      subst h
      split at hparsed
      · rename_i cs hl
        rw [hl] at hs
        exact absurd rfl hs
      · rename_i cs hl
        cases hd : strconv.digits cs with
        | none => simp [hd] at hparsed
        | some n =>
          simp [hd] at hparsed
          rw [← hparsed]
          exact Int.ofNat_nonneg n
      · cases hd : strconv.digits s.toList with
        | none => rw [hd] at hparsed; simp at hparsed
        | some n =>
          rw [hd] at hparsed
          simp at hparsed
          rw [← hparsed]
          exact Int.ofNat_nonneg n
    · simp at h

/-- The traintuple a successful creation has stored: it is read back under the
returned key, which is the key of the input, and it carries the fields set on the
way. -/
theorem createTraintupleInternal_stored (db : LedgerDB) (inp : inputTraintuple) (check : Bool)
    (key : String) (db' : LedgerDB)
    (h : createTraintupleInternal db inp check = (.ok key, db')) :
    ∃ (t2 t3 : Traintuple) (db1 db2 : LedgerDB),
      t2.AddToComputePlan db inp inp.Key check = (none, t3, db1) ∧
      t3.Save db1 inp.Key = (none, db2) ∧ db' = db2.AddTupleEvent inp.Key ∧
      key = inp.Key ∧ db.KeyExists inp.Key = false ∧
      t2.Rank = 0 ∧ t2.ComputePlanKey = inp.ComputePlanKey ∧
      db'.Get key = some (.traintuple t3) ∧ db'.GetTraintuple key = .ok t3 := by
  obtain ⟨t1, t2, t3, db1, db2, h1, h2, hk, h3, h4, hkey, hdb⟩ :=
    createTraintupleInternal_ok db inp check key db' h
  have hkey2 : t2.Key = inp.Key := by
    rw [SetFromParents_Key t1 t2 db inp.InModels h2, SetFromInput_Key _ t1 db inp h1]
  have hf1 := SetFromInput_fields _ t1 db inp h1
  have hf2 := SetFromParents_fields t1 t2 db inp.InModels h2
  have hadd := AddToComputePlan_ok t2 t3 db db1 inp t2.Key check h3
  have hkey3 : t3.Key = inp.Key := hadd.1.trans hkey2
  have hty : t3.AssetType = TraintupleType := by
    rw [hadd.2.2.2.1, hf2.2.2.1, hf1.2.2]
  rw [hkey2] at h3 hk
  rw [hkey3] at h4 hdb hkey
  have hsave := Save_ok t3 db1 db2 inp.Key h4
  have hget : db'.Get key = some (.traintuple t3) := by
    rw [hdb, hkey]; exact hsave.2.1
  refine ⟨t2, t3, db1, db2, h3, h4, hdb, hkey, hk, ?_, ?_, hget, ?_⟩
  · rw [hf2.1, hf1.1]; rfl
  · rw [hf2.2.1, hf1.2.1]
  · unfold LedgerDB.GetTraintuple
    rw [hget]
    simp [hty]

/-! ## C16: the rank of a stored traintuple -/

/-- C16, the claim fails: the request `inputNegative` adds the traintuple N to
the compute plan cp with the rank string "-1"; the creation succeeds and the
traintuple is stored with rank -1. -/
theorem createTraintupleInternal_rank_counterexample :
    (createTraintupleInternal Example.plan Example.inputNegative true).1 = .ok "N" ∧
    ∃ t, (createTraintupleInternal Example.plan Example.inputNegative true).2.GetTraintuple "N"
        = .ok t ∧ t.Rank = -1 ∧ ¬ (0 ≤ t.Rank) :=
  ⟨rfl, _, rfl, rfl, by decide⟩

/-- C16 as amended: the traintuple that a successful `createTraintupleInternal`
stores has rank 0 when the rank string of the input is empty, and otherwise the
integer that `strconv.Atoi` reads from the rank string; its rank is at least 0
for every rank string that does not start with a minus sign. -/
theorem createTraintupleInternal_rank (db : LedgerDB) (inp : inputTraintuple) (check : Bool)
    (key : String) (db' : LedgerDB)
    (h : createTraintupleInternal db inp check = (.ok key, db')) :
    ∃ t, db'.GetTraintuple key = .ok t ∧
      (inp.Rank = "" → t.Rank = 0) ∧
      (inp.Rank ≠ "" → strconv.Atoi inp.Rank = .ok t.Rank) ∧
      (inp.Rank.toList.head? ≠ some '-' → 0 ≤ t.Rank) := by
  obtain ⟨t2, t3, db1, db2, h3, -, -, -, -, hr2, -, -, hget⟩ :=
    createTraintupleInternal_stored db inp check key db' h
  have hadd := AddToComputePlan_ok t2 t3 db db1 inp inp.Key check h3
  refine ⟨t3, hget, ?_, ?_, ?_⟩
  · intro hr
    rcases hadd.2.2.2.2.2 with ⟨-, -, h33, -⟩ | ⟨hne, -⟩
    · rw [h33]; exact hr2
    · exact absurd hr hne
  · intro hr
    rcases hadd.2.2.2.2.2 with ⟨he, -⟩ | ⟨-, ha, -⟩
    · exact absurd he hr
    · exact ha
  · intro hs
    rcases hadd.2.2.2.2.2 with ⟨-, -, h33, -⟩ | ⟨-, ha, -⟩
    · rw [h33, hr2]
    · exact Atoi_nonneg _ _ ha hs

/-- C16 as amended, at a concrete input: the request `inputNegative`, whose rank
string is "-1". -/
theorem createTraintupleInternal_rank_witness :
    ∃ t, (createTraintupleInternal Example.plan Example.inputNegative true).2.GetTraintuple "N"
        = .ok t ∧
      (Example.inputNegative.Rank = "" → t.Rank = 0) ∧
      (Example.inputNegative.Rank ≠ "" → strconv.Atoi Example.inputNegative.Rank = .ok t.Rank) ∧
      (Example.inputNegative.Rank.toList.head? ≠ some '-' → 0 ≤ t.Rank) :=
  createTraintupleInternal_rank Example.plan Example.inputNegative true "N" _ rfl

/-! ## C17: rank 0 without a compute plan key -/

/-- C15, the code at the failing input: in the compute plan cp the traintuple N1
of worker A is created with the rank string "2", and then, with the availability
check enabled, the traintuple N2 of worker A with the rank string "02". Both
creations succeed and both traintuples are stored with rank 2 in the plan cp:
the availability check looks the index up under the rank string of the input,
"02", while `Save` has written the entry of N1 under `strconv.Itoa 2`, "2". With
the rank string "2" the second creation is refused with a bad request. -/
theorem createTraintupleInternal_same_rank_twice :
    (createTraintupleInternal Example.plan (Example.inputRank "N1" "2") true).1 = .ok "N1" ∧
    (createTraintupleInternal Example.afterFirst (Example.inputRank "N2" "02") true).1
      = .ok "N2" ∧
    (∃ t1 t2, Example.afterSecond.GetTraintuple "N1" = .ok t1 ∧
      Example.afterSecond.GetTraintuple "N2" = .ok t2 ∧
      t1.ComputePlanKey = "cp" ∧ t2.ComputePlanKey = "cp" ∧
      t1.Dataset.Worker = t2.Dataset.Worker ∧ t1.Rank = 2 ∧ t2.Rank = 2) ∧
    Example.afterFirst.GetIndexKeys "computePlan~computeplankey~worker~rank~key"
      ["computePlan", "cp", "workerA", "2"] = ["N1"] ∧
    Example.afterFirst.GetIndexKeys "computePlan~computeplankey~worker~rank~key"
      ["computePlan", "cp", "workerA", "02"] = [] ∧
    (createTraintupleInternal Example.afterFirst (Example.inputRank "N2" "2") true).1
      = .error ⟨ErrorKind.BadRequest, none⟩ :=
  ⟨rfl, rfl, ⟨_, _, rfl, rfl, rfl, rfl, rfl, rfl, rfl⟩, by decide, by decide, rfl⟩

/-! ## C12: the entry of a traintuple in the index of workers and statuses -/

theorem indexOf_of_indexes (db db' : LedgerDB) (n : String) (h : db'.indexes = db.indexes) :
    db'.indexOf n = db.indexOf n := by
  unfold LedgerDB.indexOf
  rw [h]

theorem validate_none_iff (b : Bool)
    (h : (if b = true then (none : Option Error) else some errors.BadRequest) = none) :
    b = true := by
  cases b with
  | true => rfl
  | false => simp at h

/-- C20: the validation of an `inputCompositeTraintuple` accepts an input only if
InHeadModelKey and InTrunkModelKey are both empty, or both set and each 36
characters long; an input with a head in-model only, or with a trunk in-model
only, is rejected with a bad request. -/
theorem inputCompositeTraintuple_validate_head_trunk
    (permissionsValid : inputPermissions → Bool) (inp : inputCompositeTraintuple) :
    (inp.validate permissionsValid = none →
      (inp.InHeadModelKey = "" ∧ inp.InTrunkModelKey = "") ∨
      (inp.InHeadModelKey.length = 36 ∧ inp.InTrunkModelKey.length = 36)) ∧
    ((inp.InHeadModelKey ≠ "" ∧ inp.InTrunkModelKey = "") ∨
        (inp.InHeadModelKey = "" ∧ inp.InTrunkModelKey ≠ "") →
      inp.validate permissionsValid = some ⟨ErrorKind.BadRequest, none⟩) := by
  constructor
  · intro h
    unfold inputCompositeTraintuple.validate at h
    dsimp only at h
    have hb := validate_none_iff _ h
    simp only [Bool.and_eq_true, validator.required_with, validator.omitempty, validator.len,
      Bool.or_eq_true, decide_eq_true_eq] at hb
    obtain ⟨⟨⟨⟨⟨⟨⟨⟨⟨-, -⟩, hhead⟩, htrunk⟩, -⟩, -⟩, -⟩, -⟩, -⟩, -⟩ := hb
    by_cases hh : inp.InHeadModelKey = ""
    · rcases hhead.1 with h1 | h1
      · exact Or.inl ⟨hh, h1⟩
      · exact absurd hh h1
    · by_cases ht : inp.InTrunkModelKey = ""
      · rcases htrunk.1 with h1 | h1
        · exact absurd h1 hh
        · exact absurd ht h1
      · right
        refine ⟨?_, ?_⟩
        · rcases hhead.2 with h1 | h1
          · exact absurd h1 hh
          · exact h1
        · rcases htrunk.2 with h1 | h1
          · exact absurd h1 ht
          · exact h1
  · intro h
    unfold inputCompositeTraintuple.validate
    dsimp only
    rcases h with ⟨hh, ht⟩ | ⟨hh, ht⟩
    · have : validator.required_with inp.InHeadModelKey inp.InTrunkModelKey = false := by
        simp [validator.required_with, hh, ht]
      simp [this]
      rfl
    · have : validator.required_with inp.InTrunkModelKey inp.InHeadModelKey = false := by
        simp [validator.required_with, hh, ht]
      simp [this]
      rfl

/-- C20 at concrete inputs: the request `compositeInput` with a head in-model
only, and with a trunk in-model only. -/
theorem inputCompositeTraintuple_validate_head_trunk_witness :
    { Example.compositeInput with
        InHeadModelKey := "55555555-5555-5555-5555-555555555555" }.validate (fun _ => true)
      = some ⟨ErrorKind.BadRequest, none⟩ ∧
    { Example.compositeInput with
        InTrunkModelKey := "55555555-5555-5555-5555-555555555555" }.validate (fun _ => true)
      = some ⟨ErrorKind.BadRequest, none⟩ :=
  ⟨(inputCompositeTraintuple_validate_head_trunk (fun _ => true)
      { Example.compositeInput with
        InHeadModelKey := "55555555-5555-5555-5555-555555555555" }).2
      (Or.inl ⟨by decide, rfl⟩),
    (inputCompositeTraintuple_validate_head_trunk (fun _ => true)
      { Example.compositeInput with
        InTrunkModelKey := "55555555-5555-5555-5555-555555555555" }).2
      (Or.inr ⟨rfl, by decide⟩)⟩

/-- The validation accepts the request `compositeInput`, which has neither a head
nor a trunk in-model, and the same request with both. -/
theorem validate_accepts :
    Example.compositeInput.validate (fun _ => true) = none ∧
    { Example.compositeInput with
        InHeadModelKey := "55555555-5555-5555-5555-555555555555"
        InTrunkModelKey := "66666666-6666-6666-6666-666666666666" }.validate (fun _ => true)
      = none := by
  constructor <;> decide

/-! ## Resolving the ids of a compute plan -/

theorem Fill_loop_none_iff (m : List (String × String)) (ids : List String) (t : inputTraintuple) :
    (inputTraintuple.Fill.loop m ids t).1 = none ↔ ∀ id ∈ ids, ∃ k, m.lookup id = some k := by
  induction ids generalizing t with
  | nil => simp [inputTraintuple.Fill.loop]
  | cons id rest ih =>
    unfold inputTraintuple.Fill.loop
    cases h : m.lookup id with
    | none => simp [h]
    | some k => simp [h, ih]

theorem Fill_loop_InModels (m : List (String × String)) (ids : List String) (t : inputTraintuple)
    (h : (inputTraintuple.Fill.loop m ids t).1 = none) :
    (inputTraintuple.Fill.loop m ids t).2.InModels.map some
      = t.InModels.map some ++ ids.map m.lookup := by
  induction ids generalizing t with
  | nil => simp [inputTraintuple.Fill.loop]
  | cons id rest ih =>
    unfold inputTraintuple.Fill.loop at h ⊢
    cases hl : m.lookup id with
    | none => simp [hl] at h
    | some k =>
      simp only [hl] at h ⊢
      rw [ih _ h]
      simp [hl]

theorem Fill_loop_unknown (m : List (String × String)) (ids : List String) (t : inputTraintuple)
    (id : String) (hid : id ∈ ids) (hm : m.lookup id = none) :
    ∃ e t2, inputTraintuple.Fill.loop m ids t = (some e, t2) := by
  have h : (inputTraintuple.Fill.loop m ids t).1 ≠ none := by
    intro h
    obtain ⟨k, hk⟩ := (Fill_loop_none_iff m ids t).1 h id hid
    rw [hm] at hk
    cases hk
  cases hr : inputTraintuple.Fill.loop m ids t with
  | mk a b =>
    cases a with
    | none => rw [hr] at h; exact absurd rfl h
    | some e => exact ⟨e, b, rfl⟩

theorem createComputePlanInternal_tasks_unknown
    (createTraintuple : LedgerDB → inputTraintuple → Except Error String × LedgerDB)
    (inp : inputComputePlan) (id : String) (task : ComputeDAGTask)
    (computeTraintuple : inputComputePlanTraintuple) (post : List ComputeDAGTask)
    (htype : task.TaskType = TraintupleType)
    (hget : inp.Traintuples[task.InputIndex]? = some computeTraintuple)
    (hid : id ∈ computeTraintuple.InModelsIDs) :
    ∀ (pre : List ComputeDAGTask) (i : Nat) (resp : outputComputePlan)
      (m : List (String × String)) (db : LedgerDB),
      m.lookup id = none →
      (∀ t ∈ pre, t.TaskType = TraintupleType →
        ∃ ct, inp.Traintuples[t.InputIndex]? = some ct ∧ ct.ID ≠ id) →
      (createComputePlanInternal.tasks createTraintuple inp (pre ++ task :: post) i resp m db).1
        = some errors.BadRequest := by
  intro pre
  induction pre with
  | nil =>
    intro i resp m db hm _
    simp only [List.nil_append]
    unfold createComputePlanInternal.tasks
    simp only [htype, hget]
    unfold inputTraintuple.Fill
    obtain ⟨e, t2, h⟩ := Fill_loop_unknown m computeTraintuple.InModelsIDs
      { (if i ≠ 0 then
            { ({ inputTraintuple.zero with Rank := strconv.Itoa i } : inputTraintuple) with
              ComputePlanKey := resp.ComputePlanID }
          else { inputTraintuple.zero with Rank := strconv.Itoa i }) with
        DataManagerKey := computeTraintuple.DataManagerKey
        DataSampleKeys := computeTraintuple.DataSampleKeys
        AlgoKey := computeTraintuple.AlgoKey
        Tag := computeTraintuple.Tag } id hid hm
    simp only [h]
  | cons t pre ih =>
    intro i resp m db hm hpre
    simp only [List.cons_append]
    unfold createComputePlanInternal.tasks
    have hrest : ∀ t2 ∈ pre, t2.TaskType = TraintupleType →
        ∃ ct, inp.Traintuples[t2.InputIndex]? = some ct ∧ ct.ID ≠ id :=
      fun t2 ht2 => hpre t2 (List.mem_cons_of_mem _ ht2)
    by_cases ht : t.TaskType = TraintupleType
    · obtain ⟨ct, hct, hne⟩ := hpre t (List.mem_cons_self _ _) ht
      simp only [ht, hct]
      split
      · rfl
      · split
        · rfl
        · apply ih _ _ _ _ _ hrest
          simp only [List.lookup]
          have : (id == ct.ID) = false := by
            simpa using fun h => hne h.symm
          rw [this]
          exact hm
    · cases hty : t.TaskType <;> first
        | exact absurd hty ht
        | exact ih _ _ _ _ hm hrest

/-- C21: `inputTraintuple.Fill` succeeds exactly when every id of `InModelsIDs`
has a key in the map from ids to keys, and then it has appended to the in-models
of the receiver the mapped keys, in the order of the ids (so the in-models are
exactly the mapped keys for the receiver without in-models that
`createComputePlanInternal` builds). When a traintuple task names an id that no
traintuple task before it in the order carries, `createComputePlanInternal`
fails with a bad request. -/
theorem Fill_resolves_ids :
    (∀ (inpTraintuple : inputTraintuple) (inpCP : inputComputePlanTraintuple)
        (traintupleKeysByID : List (String × String)),
      ((inpTraintuple.Fill inpCP traintupleKeysByID).1 = none ↔
        ∀ id ∈ inpCP.InModelsIDs, ∃ key, traintupleKeysByID.lookup id = some key) ∧
      ((inpTraintuple.Fill inpCP traintupleKeysByID).1 = none →
        (inpTraintuple.Fill inpCP traintupleKeysByID).2.InModels.map some
          = inpTraintuple.InModels.map some ++ inpCP.InModelsIDs.map traintupleKeysByID.lookup)) ∧
    (∀ (createComputeDAG : inputComputePlan → Except Error ComputeDAG)
        (createTraintuple : LedgerDB → inputTraintuple → Except Error String × LedgerDB)
        (createTesttuple : LedgerDB → inputTesttuple → Except Error String × LedgerDB)
        (db : LedgerDB) (inp : inputComputePlan) (DAG : ComputeDAG)
        (pre post : List ComputeDAGTask) (task : ComputeDAGTask)
        (computeTraintuple : inputComputePlanTraintuple) (id : String),
      createComputeDAG inp = .ok DAG →
      DAG.OrderTasks = pre ++ task :: post →
      task.TaskType = TraintupleType →
      inp.Traintuples[task.InputIndex]? = some computeTraintuple →
      id ∈ computeTraintuple.InModelsIDs →
      (∀ t ∈ pre, t.TaskType = TraintupleType →
        ∃ ct, inp.Traintuples[t.InputIndex]? = some ct ∧ ct.ID ≠ id) →
      (createComputePlanInternal createComputeDAG createTraintuple createTesttuple db inp).1
        = some errors.BadRequest) := by
  refine ⟨fun inpTraintuple inpCP m => ⟨?_, ?_⟩, ?_⟩
  · unfold inputTraintuple.Fill
    exact Fill_loop_none_iff _ _ _
  · unfold inputTraintuple.Fill
    exact fun h => Fill_loop_InModels _ _ _ h
  · intro createComputeDAG createTraintuple createTesttuple db inp DAG pre post task ct id
      hdag horder htype hget hid hpre
    have h := createComputePlanInternal_tasks_unknown createTraintuple inp id task ct post htype
      hget hid pre 0
      { ComputePlanID := "", ObjectiveKey := inp.ObjectiveKey, TraintupleKeys := [],
        TesttupleKeys := [] } [] db rfl hpre
    unfold createComputePlanInternal
    simp only [hdag, horder]
    revert h
    rcases createComputePlanInternal.tasks createTraintuple inp (pre ++ task :: post) 0
      { ComputePlanID := "", ObjectiveKey := inp.ObjectiveKey, TraintupleKeys := [],
        TesttupleKeys := [] } [] db with ⟨e, resp, m, db2⟩
    intro h
    simp only at h
    subst h
    rfl

/-- The payload `Example.unknownParent`, whose second traintuple names the
parent id "zeroth", is refused with a bad request. -/
theorem Fill_resolves_ids_witness :
    (createComputePlanInternal Example.payloadOrder Example.accept Example.refuse
        Example.catalogOnly Example.unknownParent).1 = some errors.BadRequest :=
  Fill_resolves_ids.2 Example.payloadOrder _ _ Example.catalogOnly Example.unknownParent
    ⟨[⟨TraintupleType, 0⟩, ⟨TraintupleType, 1⟩]⟩ [⟨TraintupleType, 0⟩] [] ⟨TraintupleType, 1⟩
    ⟨"dm", ["ds"], "algo", "", ["zeroth"], "second"⟩ "zeroth"
    rfl rfl rfl rfl (by decide)
    (by
      intro t ht _
      simp only [List.mem_singleton] at ht
      subst ht
      exact ⟨⟨"dm", ["ds"], "algo", "", [], "first"⟩, rfl, by decide⟩)

/-! ## C22: the traintuples of a compute plan, by rank -/

theorem getComputePlan_read_ok (db : LedgerDB) (keys : List String) :
    ∀ (firstTt : Option Traintuple) (tts : List (String × Traintuple)),
      (∀ k ∈ keys, ∃ tt, db.GetTraintuple k = .ok tt) →
      ∃ firstTt2 tts2, getComputePlan.read db keys firstTt tts = .ok (firstTt2, tts2) ∧
        ((firstTt.isSome ∨ keys ≠ []) → firstTt2.isSome) ∧
        (∀ k ∈ keys, getComputePlan.rank tts2 k = db.rankOf k) ∧
        (∀ k, k ∉ keys → getComputePlan.rank tts2 k = getComputePlan.rank tts k) := by
  induction keys with
  | nil =>
    intro firstTt tts _
    exact ⟨firstTt, tts, rfl, by simp, by simp, fun _ _ => rfl⟩
  | cons key rest ih =>
    intro firstTt tts hread
    obtain ⟨tt, htt⟩ := hread key (List.mem_cons_self _ _)
    obtain ⟨f2, tts2, h, hf, hin, hout⟩ :=
      ih (if firstTt.isNone then some tt else firstTt) ((key, tt) :: tts)
        (fun k hk => hread k (List.mem_cons_of_mem _ hk))
    refine ⟨f2, tts2, ?_, ?_, ?_, ?_⟩
    · unfold getComputePlan.read
      simp only [htt]
      exact h
    · intro _
      apply hf
      left
      cases firstTt <;> simp
    · intro k hk
      by_cases hkr : k ∈ rest
      · exact hin k hkr
      · have hk2 : k = key := by
          rcases List.mem_cons.1 hk with h1 | h1
          · exact h1
          · exact absurd h1 hkr
        subst hk2
        rw [hout k hkr]
        simp [getComputePlan.rank, List.lookup, LedgerDB.rankOf, htt]
    · intro k hk
      have hne : k ≠ key := fun h1 => hk (h1 ▸ List.mem_cons_self _ _)
      have hkr : k ∉ rest := fun h1 => hk (List.mem_cons_of_mem _ h1)
      rw [hout k hkr]
      have : (k == key) = false := by simpa using hne
      simp [getComputePlan.rank, List.lookup, this]

theorem SliceStable_perm {α : Type} (less : α → α → Bool) (s : List α) :
    (sort.SliceStable less s).Perm s :=
  List.perm_insertionSort _ s

theorem SliceStable_sorted (rank : String → Int) (s : List String) :
    (sort.SliceStable (fun i j => decide (rank i < rank j)) s).Pairwise
      (fun a b => rank a ≤ rank b) := by
  have hrel : ∀ a b : String,
      ((fun i j => decide (rank i < rank j)) b a = false) ↔ rank a ≤ rank b := by
    intro a b
    simp
  have total : IsTotal String (fun a b => (fun i j => decide (rank i < rank j)) b a = false) :=
    ⟨fun a b => by
      rw [hrel, hrel]
      exact le_total _ _⟩
  have trans : IsTrans String (fun a b => (fun i j => decide (rank i < rank j)) b a = false) :=
    ⟨fun a b c => by
      rw [hrel, hrel, hrel]
      exact le_trans⟩
  have h := @List.sorted_insertionSort String
    (fun a b => (fun i j => decide (rank i < rank j)) b a = false) _ total trans s
  exact List.Pairwise.imp (fun {a b} hab => (hrel a b).1 hab) h

/-- C22, the claim as stated fails: the index of the plan "cp" of the ledger
`belowZero` holds the keys T0, of rank 0, and Tm, of rank -1, both readable;
`getComputePlan` returns Tm before T0, so the rank-0 tuple of the plan does not
come first. -/
theorem getComputePlan_rank_zero_first_counterexample :
    Example.belowZero.GetIndexKeys "traintuple~computeplanid~worker~rank~key" ["traintuple", "cp"]
      = ["T0", "Tm"] ∧
    Example.belowZero.rankOf "T0" = 0 ∧ Example.belowZero.rankOf "Tm" = -1 ∧
    (getComputePlan (fun _ => "objective") Example.belowZero "cp").toOption.map
      (fun resp => resp.TraintupleKeys) = some ["Tm", "T0"] :=
  ⟨by decide, by decide, by decide, by decide⟩

/-- C22, amended: for a compute plan id whose index holds at least one traintuple
key, all of them readable, `getComputePlan` succeeds and its `TraintupleKeys`
are a permutation of the keys of the index, each key followed only by keys whose
traintuple has the same rank or a greater one. The first key is thus of the
smallest rank, which is 0 when the plan holds a traintuple of rank 0 and none of
a negative rank. -/
theorem getComputePlan_orders_by_rank (ObjectiveKey : Traintuple → String) (db : LedgerDB)
    (key : String)
    (hsome : db.GetIndexKeys "traintuple~computeplanid~worker~rank~key" ["traintuple", key] ≠ [])
    (hread : ∀ k ∈ db.GetIndexKeys "traintuple~computeplanid~worker~rank~key" ["traintuple", key],
      ∃ tt, db.GetTraintuple k = .ok tt) :
    ∃ resp, getComputePlan ObjectiveKey db key = .ok resp ∧
      resp.TraintupleKeys.Perm
        (db.GetIndexKeys "traintuple~computeplanid~worker~rank~key" ["traintuple", key]) ∧
      resp.TraintupleKeys.Pairwise (fun a b => db.rankOf a ≤ db.rankOf b) ∧
      (∃ first rest, resp.TraintupleKeys = first :: rest ∧
        (∀ k ∈ db.GetIndexKeys "traintuple~computeplanid~worker~rank~key" ["traintuple", key],
          db.rankOf first ≤ db.rankOf k) ∧
        ((∀ k ∈ db.GetIndexKeys "traintuple~computeplanid~worker~rank~key" ["traintuple", key],
            0 ≤ db.rankOf k) →
          (∃ k ∈ db.GetIndexKeys "traintuple~computeplanid~worker~rank~key" ["traintuple", key],
            db.rankOf k = 0) →
          db.rankOf first = 0)) := by
  generalize hkeys :
    db.GetIndexKeys "traintuple~computeplanid~worker~rank~key" ["traintuple", key] = ttKeys
    at hsome hread
  obtain ⟨f2, tts2, hr, hf, hin, _⟩ := getComputePlan_read_ok db ttKeys none [] hread
  have hf2 := hf (Or.inr hsome)
  obtain ⟨firstTt, hfirst⟩ := Option.isSome_iff_exists.1 hf2
  subst hfirst
  have hlen : ¬ ttKeys.length = 0 := by
    intro h
    exact hsome (List.length_eq_zero.1 h)
  have hperm := SliceStable_perm
    (fun i j => decide (getComputePlan.rank tts2 i < getComputePlan.rank tts2 j)) ttKeys
  have hsorted := SliceStable_sorted (getComputePlan.rank tts2) ttKeys
  have hpair : (sort.SliceStable
      (fun i j => decide (getComputePlan.rank tts2 i < getComputePlan.rank tts2 j)) ttKeys).Pairwise
      (fun a b => db.rankOf a ≤ db.rankOf b) := by
    refine List.Pairwise.imp_of_mem ?_ hsorted
    intro a b ha hb hab
    rw [← hin a (hperm.mem_iff.1 ha), ← hin b (hperm.mem_iff.1 hb)]
    exact hab
  refine ⟨
    { ComputePlanID := key
      ObjectiveKey := ObjectiveKey firstTt
      TraintupleKeys := sort.SliceStable
        (fun i j => decide (getComputePlan.rank tts2 i < getComputePlan.rank tts2 j)) ttKeys
      TesttupleKeys := getComputePlan.testtuples db (sort.SliceStable
        (fun i j => decide (getComputePlan.rank tts2 i < getComputePlan.rank tts2 j)) ttKeys) [] },
    ?_, hperm, hpair, ?_⟩
  · unfold getComputePlan
    simp only [hkeys, hlen, if_false, hr]
  · revert hperm hpair
    generalize sort.SliceStable
      (fun i j => decide (getComputePlan.rank tts2 i < getComputePlan.rank tts2 j)) ttKeys = sorted
    intro hperm hpair
    cases sorted with
    | nil => exact absurd hperm.symm.eq_nil hsome
    | cons first rest =>
      have hmin : ∀ k ∈ ttKeys, db.rankOf first ≤ db.rankOf k := by
        intro k hk
        rcases List.mem_cons.1 (hperm.mem_iff.2 hk) with h1 | h1
        · rw [h1]
        · exact (List.pairwise_cons.1 hpair).1 k h1
      refine ⟨first, rest, rfl, hmin, ?_⟩
      intro hnonneg ⟨k, hk, hzero⟩
      have h1 := hmin k hk
      have h2 := hnonneg first (hperm.mem_iff.1 (List.mem_cons_self _ _))
      omega

/-- On the ledger `Example.ranks`, whose index lists the keys T2, T0 and T1 of
the plan "cp", `getComputePlan` returns them as T0, T1, T2. -/
theorem getComputePlan_orders_by_rank_witness :
    Example.ranks.GetIndexKeys "traintuple~computeplanid~worker~rank~key" ["traintuple", "cp"]
      = ["T2", "T0", "T1"] ∧
    (getComputePlan (fun _ => "objective") Example.ranks "cp").toOption.map
      (fun resp => resp.TraintupleKeys) = some ["T0", "T1", "T2"] ∧
    ∃ resp, getComputePlan (fun _ => "objective") Example.ranks "cp" = .ok resp ∧
      resp.TraintupleKeys.Perm
        (Example.ranks.GetIndexKeys "traintuple~computeplanid~worker~rank~key"
          ["traintuple", "cp"]) ∧
      resp.TraintupleKeys.Pairwise (fun a b => Example.ranks.rankOf a ≤ Example.ranks.rankOf b) ∧
      (∃ first rest, resp.TraintupleKeys = first :: rest ∧
        (∀ k ∈ Example.ranks.GetIndexKeys "traintuple~computeplanid~worker~rank~key"
            ["traintuple", "cp"],
          Example.ranks.rankOf first ≤ Example.ranks.rankOf k) ∧
        ((∀ k ∈ Example.ranks.GetIndexKeys "traintuple~computeplanid~worker~rank~key"
              ["traintuple", "cp"],
            0 ≤ Example.ranks.rankOf k) →
          (∃ k ∈ Example.ranks.GetIndexKeys "traintuple~computeplanid~worker~rank~key"
              ["traintuple", "cp"],
            Example.ranks.rankOf k = 0) →
          Example.ranks.rankOf first = 0)) :=
  ⟨by decide, by decide,
    getComputePlan_orders_by_rank (fun _ => "objective") Example.ranks "cp" (by decide)
      (by
        have hkeys : Example.ranks.GetIndexKeys "traintuple~computeplanid~worker~rank~key"
            ["traintuple", "cp"] = ["T2", "T0", "T1"] := by decide
        rw [hkeys]
        intro k hk
        simp only [List.mem_cons, List.mem_singleton, List.not_mem_nil, or_false] at hk
        rcases hk with h | h | h <;> subst h <;> exact ⟨_, rfl⟩)⟩

/-! ## C23: `updateDataSample` only appends -/

theorem GetDataSample_ok (db : LedgerDB) (key : String) (d : DataSample) :
    db.GetDataSample key = .ok d ↔
      db.Get key = some (.dataSample d) ∧ d.AssetType = DataSampleType := by
  unfold LedgerDB.GetDataSample
  constructor
  · intro h
    split at h
    · split at h
      · simp only [Except.ok.injEq] at h; subst h; exact ⟨by assumption, by assumption⟩
      · simp at h
    · simp at h
  · rintro ⟨h1, h2⟩
    simp [h1, h2]

theorem GetDataSample_congr (db db2 : LedgerDB) (key : String) (h : db2.Get key = db.Get key) :
    db2.GetDataSample key = db.GetDataSample key := by
  unfold LedgerDB.GetDataSample
  rw [h]

theorem Appends_refl (req : List String) (db : LedgerDB) : db.Appends req db := by
  intro k d h
  exact ⟨d, [], h, by simp, List.nodup_nil, by simp, rfl, rfl⟩

theorem Appends_trans (req : List String) (db db2 db3 : LedgerDB)
    (h1 : db.Appends req db2) (h2 : db2.Appends req db3) : db.Appends req db3 := by
  intro k d h
  obtain ⟨d2, a1, hg2, hk2, hn1, hs1, ho2, ht2⟩ := h1 k d h
  obtain ⟨d3, a2, hg3, hk3, hn2, hs2, ho3, ht3⟩ := h2 k d2 hg2
  refine ⟨d3, a1 ++ a2, hg3, ?_, ?_, ?_, ho3.trans ho2, ht3.trans ht2⟩
  · rw [hk3, hk2, List.append_assoc]
  · rw [List.nodup_append]
    refine ⟨hn1, hn2, ?_⟩
    intro m hm1 hm2
    apply (hs2 m hm2).2
    rw [hk2]
    exact List.mem_append_right _ hm1
  · intro m hm
    rcases List.mem_append.1 hm with hm | hm
    · exact hs1 m hm
    · refine ⟨(hs2 m hm).1, ?_⟩
      intro hmem
      apply (hs2 m hm).2
      rw [hk2]
      exact List.mem_append_left _ hmem

theorem Associated_of_Appends (req : List String) (db db2 : LedgerDB) (k : String)
    (h : db.Appends req db2) (ha : db.Associated req k) : db2.Associated req k := by
  obtain ⟨d, hd, hall⟩ := ha
  obtain ⟨d2, added, hg, hk, _⟩ := h k d hd
  refine ⟨d2, hg, fun m hm => ?_⟩
  rw [hk]
  exact List.mem_append_left _ (hall m hm)

theorem updateDataSample_managers_spec (key : String) (req : List String) :
    ∀ (d : DataSample) (db : LedgerDB),
      ∃ added,
        (updateDataSample.managers key req d db).1.DataManagerKeys = d.DataManagerKeys ++ added ∧
        added.Nodup ∧ (∀ m ∈ added, m ∈ req ∧ m ∉ d.DataManagerKeys) ∧
        (∀ m ∈ req, m ∈ (updateDataSample.managers key req d db).1.DataManagerKeys) ∧
        (updateDataSample.managers key req d db).1.Owner = d.Owner ∧
        (updateDataSample.managers key req d db).1.TestOnly = d.TestOnly ∧
        (updateDataSample.managers key req d db).1.AssetType = d.AssetType ∧
        (∀ k, (updateDataSample.managers key req d db).2.Get k = db.Get k) ∧
        (updateDataSample.managers key req d db).2.txCreator = db.txCreator := by
  induction req with
  | nil =>
    intro d db
    exact ⟨[], by simp [updateDataSample.managers], List.nodup_nil, by simp, by simp, rfl, rfl,
      rfl, fun _ => rfl, rfl⟩
  | cons m rest ih =>
    intro d db
    unfold updateDataSample.managers
    by_cases hm : stringInSlice m d.DataManagerKeys = true
    · simp only [hm, Bool.not_true, Bool.false_eq_true, if_false]
      obtain ⟨added, h1, h2, h3, h4, h5, h6, h7, h8, h9⟩ := ih d db
      refine ⟨added, h1, h2, ?_, ?_, h5, h6, h7, h8, h9⟩
      · intro x hx
        exact ⟨List.mem_cons_of_mem _ (h3 x hx).1, (h3 x hx).2⟩
      · intro x hx
        rcases List.mem_cons.1 hx with rfl | hx
        · rw [h1]
          apply List.mem_append_left
          simpa [stringInSlice] using hm
        · exact h4 x hx
    · have hm2 : m ∉ d.DataManagerKeys := by simpa [stringInSlice] using hm
      simp only [hm, Bool.not_false, if_true]
      obtain ⟨added, h1, h2, h3, h4, h5, h6, h7, h8, h9⟩ :=
        ih { d with DataManagerKeys := d.DataManagerKeys ++ [m] }
          ((db.CreateIndex "dataSample~dataManager~key" ["dataSample", m, key]).CreateIndex
            "dataSample~dataManager~testOnly~key"
            ["dataSample", m, strconv.FormatBool d.TestOnly, key])
      refine ⟨m :: added, ?_, ?_, ?_, ?_, h5, h6, h7, ?_, ?_⟩
      · rw [h1]
        simp
      · rw [List.nodup_cons]
        refine ⟨fun hin => (h3 m hin).2 ?_, h2⟩
        simp
      · intro x hx
        rcases List.mem_cons.1 hx with rfl | hx
        · exact ⟨List.mem_cons_self _ _, hm2⟩
        · refine ⟨List.mem_cons_of_mem _ (h3 x hx).1, fun hin => (h3 x hx).2 ?_⟩
          simp [hin]
      · intro x hx
        rcases List.mem_cons.1 hx with rfl | hx
        · rw [h1]
          simp
        · exact h4 x hx
      · intro k
        rw [h8 k]
        simp
      · rw [h9]
        simp

theorem updateDataSample_step (req : List String) (key : String) (d : DataSample)
    (db : LedgerDB) (hd : db.GetDataSample key = .ok d) :
    db.Appends req
      ((updateDataSample.managers key req d db).2.Put key
        (.dataSample (updateDataSample.managers key req d db).1)) ∧
    ((updateDataSample.managers key req d db).2.Put key
        (.dataSample (updateDataSample.managers key req d db).1)).Associated req key ∧
    (∀ k, k ≠ key →
      ((updateDataSample.managers key req d db).2.Put key
        (.dataSample (updateDataSample.managers key req d db).1)).Get k = db.Get k) ∧
    ((updateDataSample.managers key req d db).2.Put key
        (.dataSample (updateDataSample.managers key req d db).1)).txCreator = db.txCreator := by
  obtain ⟨added, h1, h2, h3, h4, h5, h6, h7, h8, h9⟩ := updateDataSample_managers_spec key req d db
  have hty := ((GetDataSample_ok db key d).1 hd).2
  have hget : ((updateDataSample.managers key req d db).2.Put key
        (.dataSample (updateDataSample.managers key req d db).1)).GetDataSample key
      = .ok (updateDataSample.managers key req d db).1 := by
    rw [GetDataSample_ok]
    exact ⟨by simp, h7.trans hty⟩
  refine ⟨?_, ⟨_, hget, h4⟩, ?_, ?_⟩
  · intro k d0 hk
    by_cases hkk : k = key
    · subst hkk
      rw [hd] at hk
      cases hk
      exact ⟨_, added, hget, h1, h2, h3, h5, h6⟩
    · refine ⟨d0, [], ?_, by simp, List.nodup_nil, by simp, rfl, rfl⟩
      rw [← hk]
      apply GetDataSample_congr
      simp [hkk, h8]
  · intro k hk
    simp [hk, h8]
  · simp [h9]

theorem updateDataSample_samples_spec (req : List String) (keys : List String) :
    ∀ (json : String) (db : LedgerDB),
      db.Appends req (updateDataSample.samples req keys json db).2 ∧
      (∀ k, (updateDataSample.samples req keys json db).2.Get k = db.Get k ∨
        (updateDataSample.samples req keys json db).2.Associated req k) ∧
      ((∃ out, (updateDataSample.samples req keys json db).1 = .ok out) →
        ∀ k ∈ keys, (updateDataSample.samples req keys json db).2.Associated req k) ∧
      (updateDataSample.samples req keys json db).2.txCreator = db.txCreator := by
  induction keys with
  | nil =>
    intro json db
    exact ⟨Appends_refl _ _, fun _ => Or.inl rfl, fun _ k hk => absurd hk (List.not_mem_nil _),
      rfl⟩
  | cons key rest ih =>
    intro json db
    unfold updateDataSample.samples
    cases hd : db.GetDataSample key with
    | error e =>
      dsimp only
      exact ⟨Appends_refl _ _, fun _ => Or.inl rfl, fun ⟨out, h⟩ => by simp at h, rfl⟩
    | ok d =>
      dsimp only
      cases ho : checkDataSampleOwner db d with
      | some e =>
        dsimp only
        exact ⟨Appends_refl _ _, fun _ => Or.inl rfl, fun ⟨out, h⟩ => by simp at h, rfl⟩
      | none =>
        dsimp only
        obtain ⟨s1, s2, s3, s4⟩ := updateDataSample_step req key d db hd
        obtain ⟨i1, i2, i3, i4⟩ := ih (json ++ "\"" ++ key ++ "\"" ++ ", ")
          ((updateDataSample.managers key req d db).2.Put key
            (.dataSample (updateDataSample.managers key req d db).1))
        refine ⟨Appends_trans _ _ _ _ s1 i1, ?_, ?_, i4.trans s4⟩
        · intro k
          rcases i2 k with h | h
          · by_cases hk : k = key
            · subst hk
              right
              exact Associated_of_Appends _ _ _ _ i1 s2
            · left
              exact h.trans (s3 k hk)
          · exact Or.inr h
        · intro hok k hk
          rcases List.mem_cons.1 hk with rfl | hk
          · exact Associated_of_Appends _ _ _ _ i1 s2
          · exact i3 hok k hk

/-- C23: `updateDataSample` only appends. Whatever the outcome, every data
sample of the ledger is afterwards stored with the same owner and test-only
flag, and its list of data managers is the previous list followed by keys of the
request that the list did not hold, each of them once. A sample that the call
has rewritten, and every listed sample when the call succeeds, holds all the
data managers of the request, so that each requested key that was not present
has been appended exactly once, also when the request repeats it. -/
theorem updateDataSample_append_only (db : LedgerDB) (inp : inputUpdateDataSample)
    (k : String) (d : DataSample) (hd : db.GetDataSample k = .ok d) :
    ∃ d2 added, (updateDataSample db inp).2.GetDataSample k = .ok d2 ∧
      d2.DataManagerKeys = d.DataManagerKeys ++ added ∧
      d.DataManagerKeys <+: d2.DataManagerKeys ∧
      added.Nodup ∧
      (∀ m ∈ added, m ∈ inp.DataManagerKeys ∧ m ∉ d.DataManagerKeys) ∧
      d2.Owner = d.Owner ∧ d2.TestOnly = d.TestOnly ∧
      ((((∃ out, (updateDataSample db inp).1 = .ok out) ∧ k ∈ inp.Keys) ∨
          (updateDataSample db inp).2.Get k ≠ db.Get k) →
        ∀ m ∈ inp.DataManagerKeys, m ∉ d.DataManagerKeys →
          added.count m = 1 ∧ d2.DataManagerKeys.count m = 1) := by
  have key : db.Appends inp.DataManagerKeys (updateDataSample db inp).2 ∧
      ((((∃ out, (updateDataSample db inp).1 = .ok out) ∧ k ∈ inp.Keys) ∨
          (updateDataSample db inp).2.Get k ≠ db.Get k) →
        (updateDataSample db inp).2.Associated inp.DataManagerKeys k) := by
    unfold updateDataSample validateUpdateDataSample
    cases hc : checkDataManagerOwner db inp.DataManagerKeys with
    | some e =>
      refine ⟨Appends_refl _ _, ?_⟩
      rintro (⟨⟨out, h⟩, _⟩ | h)
      · simp at h
      · exact absurd rfl h
    | none =>
      obtain ⟨i1, i2, i3, _⟩ :=
        updateDataSample_samples_spec inp.DataManagerKeys inp.Keys "" db
      simp only
      revert i1 i2 i3
      rcases updateDataSample.samples inp.DataManagerKeys inp.Keys "" db with ⟨r, db2⟩
      intro i1 i2 i3
      cases r with
      | error e =>
        refine ⟨i1, ?_⟩
        rintro (⟨⟨out, h⟩, _⟩ | h)
        · simp at h
        · rcases i2 k with h2 | h2
          · exact absurd h2 h
          · exact h2
      | ok json =>
        refine ⟨i1, ?_⟩
        rintro (⟨_, hk⟩ | h)
        · exact i3 ⟨json, rfl⟩ k hk
        · rcases i2 k with h2 | h2
          · exact absurd h2 h
          · exact h2
  obtain ⟨happ, hfull⟩ := key
  obtain ⟨d2, added, hg, hk, hn, hs, ho, ht⟩ := happ k d hd
  refine ⟨d2, added, hg, hk, ⟨added, hk.symm⟩, hn, hs, ho, ht, ?_⟩
  intro hcase m hm hnot
  obtain ⟨d3, hg3, hall⟩ := hfull hcase
  rw [hg] at hg3
  cases hg3
  have hmem : m ∈ added := by
    have := hall m hm
    rw [hk] at this
    rcases List.mem_append.1 this with h | h
    · exact absurd h hnot
    · exact h
  have hc : added.count m = 1 := List.count_eq_one_of_mem hn hmem
  refine ⟨hc, ?_⟩
  rw [hk, List.count_append, hc, List.count_eq_zero_of_not_mem hnot]

/-- The request `Example.associate` of worker A associates the sample ds of the
data manager dm with dm2, dm and dm2 again: the call succeeds and ds is stored
with the data managers dm and dm2. -/
theorem updateDataSample_append_only_witness :
    ((updateDataSample Example.managers Example.associate).2.GetDataSample "ds").toOption.map
      (fun d => d.DataManagerKeys) = some ["dm", "dm2"] ∧
    ∃ d2 added,
      (updateDataSample Example.managers Example.associate).2.GetDataSample "ds" = .ok d2 ∧
      d2.DataManagerKeys = Example.dataSample.DataManagerKeys ++ added ∧
      Example.dataSample.DataManagerKeys <+: d2.DataManagerKeys ∧
      added.Nodup ∧
      (∀ m ∈ added, m ∈ Example.associate.DataManagerKeys ∧
        m ∉ Example.dataSample.DataManagerKeys) ∧
      d2.Owner = Example.dataSample.Owner ∧ d2.TestOnly = Example.dataSample.TestOnly ∧
      ((((∃ out, (updateDataSample Example.managers Example.associate).1 = .ok out) ∧
            "ds" ∈ Example.associate.Keys) ∨
          (updateDataSample Example.managers Example.associate).2.Get "ds"
            ≠ Example.managers.Get "ds") →
        ∀ m ∈ Example.associate.DataManagerKeys, m ∉ Example.dataSample.DataManagerKeys →
          added.count m = 1 ∧ d2.DataManagerKeys.count m = 1) :=
  ⟨by decide,
    updateDataSample_append_only Example.managers Example.associate "ds" Example.dataSample rfl⟩

/-! ## C24: `updateDataSample` by a requester who is not the owner -/

theorem updateDataSample_samples_foreign (req : List String) (k : String) (keys : List String) :
    ∀ (json : String) (db : LedgerDB), k ∈ keys →
      (∃ d, db.GetDataSample k = .ok d ∧ GetTxCreator db ≠ d.Owner) →
      ∃ err, (updateDataSample.samples req keys json db).1 = .error err ∧
        (updateDataSample.samples req keys json db).2.Get k = db.Get k := by
  induction keys with
  | nil => intro _ _ hk; exact absurd hk (List.not_mem_nil _)
  | cons key rest ih =>
    intro json db hk hforeign
    obtain ⟨d, hd, hne⟩ := hforeign
    unfold updateDataSample.samples
    cases hd2 : db.GetDataSample key with
    | error e => exact ⟨e, rfl, rfl⟩
    | ok d2 =>
      dsimp only
      cases ho : checkDataSampleOwner db d2 with
      | some e => exact ⟨e, rfl, rfl⟩
      | none =>
        dsimp only
        have hkk : k ≠ key := by
          intro h
          subst h
          rw [hd] at hd2
          cases hd2
          simp [checkDataSampleOwner, hne] at ho
        obtain ⟨s1, _, s3, s4⟩ := updateDataSample_step req key d2 db hd2
        have hrest : k ∈ rest := by
          rcases List.mem_cons.1 hk with h | h
          · exact absurd h hkk
          · exact h
        obtain ⟨d3, _, hg3, _, _, _, ho3, _⟩ := s1 k d hd
        obtain ⟨err, h1, h2⟩ := ih (json ++ "\"" ++ key ++ "\"" ++ ", ")
          ((updateDataSample.managers key req d2 db).2.Put key
            (.dataSample (updateDataSample.managers key req d2 db).1)) hrest
          ⟨d3, hg3, by
            rw [ho3]
            unfold GetTxCreator at hne ⊢
            rw [s4]
            exact hne⟩
        exact ⟨err, h1, h2.trans (s3 k hkk)⟩

theorem updateDataSample_samples_forbidden (req : List String) (k : String)
    (post : List String) (pre : List String) :
    ∀ (json : String) (db : LedgerDB),
      (∃ d, db.GetDataSample k = .ok d ∧ GetTxCreator db ≠ d.Owner) →
      (∀ key ∈ pre, ∃ d, db.GetDataSample key = .ok d) →
      (updateDataSample.samples req (pre ++ k :: post) json db).1 = .error errors.Forbidden := by
  induction pre with
  | nil =>
    intro json db ⟨d, hd, hne⟩ _
    simp only [List.nil_append]
    unfold updateDataSample.samples
    simp [hd, checkDataSampleOwner, hne]
  | cons key pre ih =>
    intro json db ⟨d, hd, hne⟩ hpre
    obtain ⟨d2, hd2⟩ := hpre key (List.mem_cons_self _ _)
    simp only [List.cons_append]
    unfold updateDataSample.samples
    simp only [hd2]
    by_cases ho : GetTxCreator db ≠ d2.Owner
    · simp [checkDataSampleOwner, ho]
    · have hnone : checkDataSampleOwner db d2 = none := by
        simp only [checkDataSampleOwner, ho, if_false]
      simp only [hnone]
      obtain ⟨s1, _, _, s4⟩ := updateDataSample_step req key d2 db hd2
      obtain ⟨d3, _, hg3, _, _, _, ho3, _⟩ := s1 k d hd
      apply ih
      · refine ⟨d3, hg3, ?_⟩
        rw [ho3]
        unfold GetTxCreator at hne ⊢
        rw [s4]
        exact hne
      · intro key2 hk2
        obtain ⟨d4, hd4⟩ := hpre key2 (List.mem_cons_of_mem _ hk2)
        obtain ⟨d5, _, hg5, _⟩ := s1 key2 d4 hd4
        exact ⟨d5, hg5⟩

theorem checkDataManagerOwner_not_owned (db : LedgerDB) (req : List String)
    (h : ∃ m ∈ req, ∀ dm, db.GetDataManager m = .ok dm → dm.Owner ≠ GetTxCreator db) :
    ∃ err, checkDataManagerOwner db req = some err := by
  induction req with
  | nil =>
    obtain ⟨m, hm, _⟩ := h
    exact absurd hm (List.not_mem_nil _)
  | cons key rest ih =>
    unfold checkDataManagerOwner
    cases hg : db.GetDataManager key with
    | error e => exact ⟨_, rfl⟩
    | ok dm =>
      dsimp only
      by_cases ho : GetTxCreator db ≠ dm.Owner
      · exact ⟨errors.Forbidden, by simp [ho]⟩
      · simp only [ho, if_false]
        apply ih
        obtain ⟨m, hm, hnot⟩ := h
        rcases List.mem_cons.1 hm with rfl | hm
        · exact absurd (not_not.1 ho).symm (hnot dm hg)
        · exact ⟨m, hm, hnot⟩

/-- C24, the claim as stated fails: worker A owns the data manager dm2 and lists
a sample that does not exist before the sample fs of worker B; the call fails
with the error of the read, not found, and not with forbidden. -/
theorem updateDataSample_forbidden_counterexample :
    "fs" ∈ Example.associateForeign.Keys ∧
    Example.managers.GetDataSample "fs" = .ok Example.foreignSample ∧
    GetTxCreator Example.managers ≠ Example.foreignSample.Owner ∧
    (updateDataSample Example.managers Example.associateForeign).1 = .error errors.NotFound ∧
    errors.NotFound ≠ errors.Forbidden :=
  ⟨by decide, rfl, by decide, rfl, by decide⟩

/-- C24, amended: when the transaction creator is not the owner of a listed data
sample, `updateDataSample` fails and leaves the stored record of that sample
unchanged; the error is forbidden when the check of the data managers passes and
every sample listed before that one can be read. When a listed data manager is
missing or is not owned by the creator, the call fails with the ledger
untouched. -/
theorem updateDataSample_not_owner (db : LedgerDB) (inp : inputUpdateDataSample) :
    (∀ k d, k ∈ inp.Keys → db.GetDataSample k = .ok d → GetTxCreator db ≠ d.Owner →
      ∃ err, (updateDataSample db inp).1 = .error err ∧
        (updateDataSample db inp).2.Get k = db.Get k ∧
        (checkDataManagerOwner db inp.DataManagerKeys = none →
          ∀ pre post, inp.Keys = pre ++ k :: post →
            (∀ key ∈ pre, ∃ d2, db.GetDataSample key = .ok d2) →
            err = errors.Forbidden)) ∧
    ((∃ m ∈ inp.DataManagerKeys, ∀ dm, db.GetDataManager m = .ok dm → dm.Owner ≠ GetTxCreator db) →
      ∃ err, updateDataSample db inp = (.error err, db)) := by
  constructor
  · intro k d hk hd hne
    cases hc : checkDataManagerOwner db inp.DataManagerKeys with
    | some e =>
      refine ⟨e, ?_, ?_, fun h => by cases h⟩
      · simp [updateDataSample, validateUpdateDataSample, hc]
      · simp [updateDataSample, validateUpdateDataSample, hc]
    | none =>
      obtain ⟨err, h1, h2⟩ :=
        updateDataSample_samples_foreign inp.DataManagerKeys k inp.Keys "" db hk ⟨d, hd, hne⟩
      have hrun : updateDataSample db inp =
          (.error err, (updateDataSample.samples inp.DataManagerKeys inp.Keys "" db).2) := by
        unfold updateDataSample validateUpdateDataSample
        simp only [hc]
        revert h1
        rcases updateDataSample.samples inp.DataManagerKeys inp.Keys "" db with ⟨r, db2⟩
        intro h1
        simp only at h1
        subst h1
        rfl
      refine ⟨err, by rw [hrun], by rw [hrun]; exact h2, ?_⟩
      intro _ pre post hsplit hpre
      have h3 := updateDataSample_samples_forbidden inp.DataManagerKeys k post pre "" db
        ⟨d, hd, hne⟩ hpre
      rw [← hsplit, h1] at h3
      cases h3
      rfl
  · intro h
    obtain ⟨err, herr⟩ := checkDataManagerOwner_not_owned db inp.DataManagerKeys h
    exact ⟨err, by simp [updateDataSample, validateUpdateDataSample, herr]⟩

/-- On the ledger `Example.managers`, worker A lists its sample ds and then the
sample fs of worker B: the call fails with forbidden and fs is stored as before.
When worker A lists the data manager dmB of worker B, the call fails with
forbidden and the ledger is untouched. -/
theorem updateDataSample_not_owner_witness :
    ((updateDataSample Example.managers Example.associateBoth).1 = .error errors.Forbidden ∧
      (updateDataSample Example.managers Example.associateBoth).2.Get "fs"
        = Example.managers.Get "fs") ∧
    ∃ err, updateDataSample Example.managers Example.associatePrivate
      = (.error err, Example.managers) := by
  have h := updateDataSample_not_owner Example.managers Example.associateBoth
  obtain ⟨err, h1, h2, h3⟩ := h.1 "fs" Example.foreignSample (by decide) rfl (by decide)
  have h4 := h3 rfl ["ds"] [] rfl (by
    intro key hkey
    simp only [List.mem_singleton] at hkey
    subst hkey
    exact ⟨_, rfl⟩)
  subst h4
  refine ⟨⟨h1, h2⟩, ?_⟩
  exact (updateDataSample_not_owner Example.managers Example.associatePrivate).2
    ⟨"dmB", by decide, by
      intro dm hdm
      have : dm = Example.privateDataManager := by
        have h5 : Example.managers.GetDataManager "dmB" = .ok Example.privateDataManager := rfl
        rw [h5] at hdm
        cases hdm
        rfl
      subst this
      decide⟩

/-! ## C25: an algo is read back as it was registered -/

/-- C25: when `registerAlgo` succeeds on a ledger that stores nothing under the
key of the input, the algo read back under that key has the key, name, checksum,
storage address, description and metadata of the input, the transaction creator
as owner and the asset type AlgoType, and `queryAlgo` returns its projection;
likewise for `registerCompositeAlgo`, with the asset type CompositeAlgoType. -/
theorem registerAlgo_query (NewPermissions : LedgerDB → inputPermissions → Except Error Permissions)
    (db : LedgerDB) (inp : inputAlgo) (hfresh : db.KeyExists inp.Key = false) :
    (∀ out db2, registerAlgo NewPermissions db inp = (.ok out, db2) →
      out.Key = inp.Key ∧
      ∃ algo, db2.GetAlgo inp.Key = .ok algo ∧
        algo.Key = inp.Key ∧ algo.Name = inp.Name ∧ algo.Checksum = inp.Checksum ∧
        algo.StorageAddress = inp.StorageAddress ∧
        algo.Description = ⟨inp.DescriptionChecksum, inp.DescriptionStorageAddress⟩ ∧
        algo.Metadata = inp.Metadata ∧ algo.Owner = GetTxCreator db ∧
        algo.AssetType = AlgoType ∧
        ∀ (outputAlgo : Type) (Fill : Algo → outputAlgo),
          queryAlgo Fill db2 inp.Key = .ok (Fill algo)) ∧
    (∀ out db2, registerCompositeAlgo NewPermissions db inp = (.ok out, db2) →
      out.Key = inp.Key ∧
      ∃ algo, db2.GetCompositeAlgo inp.Key = .ok algo ∧
        algo.Key = inp.Key ∧ algo.Name = inp.Name ∧ algo.Checksum = inp.Checksum ∧
        algo.StorageAddress = inp.StorageAddress ∧
        algo.Description = ⟨inp.DescriptionChecksum, inp.DescriptionStorageAddress⟩ ∧
        algo.Metadata = inp.Metadata ∧ algo.Owner = GetTxCreator db ∧
        algo.AssetType = CompositeAlgoType ∧
        ∀ (outputAlgo : Type) (Fill : Algo → outputAlgo),
          queryCompositeAlgo Fill db2 inp.Key = .ok (Fill algo)) ∧
    ((∃ permissions, NewPermissions db inp.Permissions = .ok permissions) →
      (∃ db2, registerAlgo NewPermissions db inp = (.ok ⟨inp.Key⟩, db2)) ∧
      (∃ db2, registerCompositeAlgo NewPermissions db inp = (.ok ⟨inp.Key⟩, db2))) := by
  refine ⟨?_, ?_, ?_⟩
  · intro out db2 h
    unfold registerAlgo Algo.Set at h
    cases hp : NewPermissions db inp.Permissions with
    | error e => simp [hp] at h
    | ok permissions =>
      simp only [hp, LedgerDB.Add, hfresh, Bool.false_eq_true, if_false] at h
      simp only [Prod.mk.injEq, Except.ok.injEq] at h
      obtain ⟨h1, h2⟩ := h
      subst h1 h2
      refine ⟨rfl,
        { Key := inp.Key, Name := inp.Name, AssetType := AlgoType, Checksum := inp.Checksum,
          StorageAddress := inp.StorageAddress,
          Description := ⟨inp.DescriptionChecksum, inp.DescriptionStorageAddress⟩,
          Owner := GetTxCreator db, Permissions := permissions, Metadata := inp.Metadata },
        ?_, rfl, rfl, rfl, rfl, rfl, rfl, rfl, rfl, ?_⟩
      · simp [LedgerDB.GetAlgo]
      · intro outputAlgo Fill
        simp [queryAlgo, LedgerDB.GetAlgo]
  · intro out db2 h
    unfold registerCompositeAlgo CompositeAlgo.Set at h
    cases hp : NewPermissions db inp.Permissions with
    | error e => simp [hp] at h
    | ok permissions =>
      simp only [hp, LedgerDB.Add, hfresh, Bool.false_eq_true, if_false] at h
      simp only [Prod.mk.injEq, Except.ok.injEq] at h
      obtain ⟨h1, h2⟩ := h
      subst h1 h2
      refine ⟨rfl,
        { Key := inp.Key, Name := inp.Name, AssetType := CompositeAlgoType, Checksum := inp.Checksum,
          StorageAddress := inp.StorageAddress,
          Description := ⟨inp.DescriptionChecksum, inp.DescriptionStorageAddress⟩,
          Owner := GetTxCreator db, Permissions := permissions, Metadata := inp.Metadata },
        ?_, rfl, rfl, rfl, rfl, rfl, rfl, rfl, rfl, ?_⟩
      · simp [LedgerDB.GetCompositeAlgo]
      · intro outputAlgo Fill
        simp [queryCompositeAlgo, LedgerDB.GetCompositeAlgo]
  · rintro ⟨permissions, hp⟩
    constructor
    · simp [registerAlgo, Algo.Set, hp, LedgerDB.Add, hfresh]
    · simp [registerCompositeAlgo, CompositeAlgo.Set, hp, LedgerDB.Add, hfresh]

/-- Worker A registers `Example.newAlgo` on the catalog, as an algo and as a
composite algo: both calls succeed and the algo read back is named "second", is
owned by worker A and carries the metadata of the request. -/
theorem registerAlgo_query_witness :
    (∃ algo,
      (registerAlgo Example.grant Example.catalogOnly Example.newAlgo).1 = .ok ⟨"algo2"⟩ ∧
      (registerAlgo Example.grant Example.catalogOnly Example.newAlgo).2.GetAlgo "algo2"
        = .ok algo ∧
      algo.Name = "second" ∧ algo.Metadata = [("framework", "none")] ∧
      algo.Owner = "workerA" ∧ algo.AssetType = AlgoType) ∧
    ∃ algo,
      (registerCompositeAlgo Example.grant Example.catalogOnly Example.newAlgo).1
        = .ok ⟨"algo2"⟩ ∧
      (registerCompositeAlgo Example.grant Example.catalogOnly
        Example.newAlgo).2.GetCompositeAlgo "algo2" = .ok algo ∧
      algo.Name = "second" ∧ algo.Metadata = [("framework", "none")] ∧
      algo.Owner = "workerA" ∧ algo.AssetType = CompositeAlgoType := by
  have h := registerAlgo_query Example.grant Example.catalogOnly Example.newAlgo (by decide)
  constructor
  · obtain ⟨_, algo, hg, _, hn, _, _, _, hm, ho, ht, _⟩ :=
      h.1 ⟨"algo2"⟩ (registerAlgo Example.grant Example.catalogOnly Example.newAlgo).2 rfl
    exact ⟨algo, rfl, hg, hn, hm, ho, ht⟩
  · obtain ⟨_, algo, hg, _, hn, _, _, _, hm, ho, ht, _⟩ :=
      h.2.1 ⟨"algo2"⟩
        (registerCompositeAlgo Example.grant Example.catalogOnly Example.newAlgo).2 rfl
    exact ⟨algo, rfl, hg, hn, hm, ho, ht⟩

/-! ## C26: the testtuples of a traintuple reported done or failed -/

theorem GetTesttuple_congr (db db2 : LedgerDB) (key : String) (h : db2.Get key = db.Get key) :
    db2.GetTesttuple key = db.GetTesttuple key := by
  unfold LedgerDB.GetTesttuple
  rw [h]

theorem Testtuple.commitStatusUpdate_step (tt : Testtuple) (db : LedgerDB) (x tk new : String)
    (hg : db.GetTesttuple tk = .ok tt) :
    (∀ k, k ≠ tk → ∀ t, db.GetTesttuple k = .ok t →
      (Testtuple.commitStatusUpdate { tt with TraintupleKey := x } db tk new).2.2.GetTesttuple k
        = .ok t) ∧
    (tt.Status = new →
      (Testtuple.commitStatusUpdate { tt with TraintupleKey := x } db tk new).2.2 = db) ∧
    ((Testtuple.commitStatusUpdate { tt with TraintupleKey := x } db tk new).1 = none →
      new ≠ StatusAborted →
      ∃ tt2,
        (Testtuple.commitStatusUpdate { tt with TraintupleKey := x } db tk new).2.2.GetTesttuple tk
          = .ok tt2 ∧ tt2.Status = new) := by
  obtain ⟨hrec, hty⟩ := GetTesttuple_ok db tk tt hg
  cases hc : Testtuple.commitStatusUpdate { tt with TraintupleKey := x } db tk new with
  | mk e r =>
    obtain ⟨tt2, db2⟩ := r
    obtain ⟨hsame, hcases⟩ := Testtuple.commitStatusUpdate_cases_test _ db tk new e tt2 db2 hc
    refine ⟨?_, ?_, ?_⟩
    · intro k hk t ht
      have hget := (GetTesttuple_ok db k t ht).1
      have := hsame.2.2 k _ hk hget rfl
      rw [← ht]
      exact GetTesttuple_congr db db2 k (this.trans hget.symm)
    · intro hs
      rcases hcases with ⟨_, hdb, _⟩ | ⟨_, hdb, _⟩ | ⟨_, _, hne⟩
      · exact hdb
      · exact hdb
      · exact absurd hs hne
    · intro he hnew
      simp only at he
      subst he
      rcases hcases with ⟨_, hdb, _, hs | ⟨ha, _⟩⟩ | ⟨_, _, he⟩ | ⟨ht2, hget, _⟩
      · subst hdb
        exact ⟨tt, hg, hs⟩
      · exact absurd ha hnew
      · cases he
      · refine ⟨tt2, ?_, by rw [ht2]⟩
        unfold LedgerDB.GetTesttuple
        rw [hget]
        have : tt2.AssetType = TesttupleType := by rw [ht2]; exact hty
        simp [this]

theorem UpdateTesttupleChildren_loop_commits (x new : String) (hnew : new ≠ StatusAborted) :
    ∀ (keys : List String) (db : LedgerDB),
      (∀ tk tt, db.GetTesttuple tk = .ok tt → tt.Status = new →
        ∃ tt2, (UpdateTesttupleChildren.loop x new keys db).2.GetTesttuple tk = .ok tt2 ∧
          tt2.Status = new) ∧
      (∀ tk tt, db.GetTesttuple tk = .ok tt → tt.Status = StatusAborted →
        (UpdateTesttupleChildren.loop x new keys db).2.GetTesttuple tk = .ok tt) ∧
      ((UpdateTesttupleChildren.loop x new keys db).1 = none →
        ∀ tk ∈ keys, ∀ tt, db.GetTesttuple tk = .ok tt → tt.Status ≠ StatusAborted →
          ∃ tt2, (UpdateTesttupleChildren.loop x new keys db).2.GetTesttuple tk = .ok tt2 ∧
            tt2.Status = new) := by
  intro keys
  induction keys with
  | nil =>
    intro db
    exact ⟨fun tk tt h hs => ⟨tt, h, hs⟩, fun tk tt h _ => h,
      fun _ tk hk => absurd hk (List.not_mem_nil _)⟩
  | cons tk0 rest ih =>
    intro db
    unfold UpdateTesttupleChildren.loop
    cases hg : db.GetTesttuple tk0 with
    | error e =>
      exact ⟨fun tk tt h hs => ⟨tt, h, hs⟩, fun tk tt h _ => h, fun h => by simp at h⟩
    | ok tt0 =>
      dsimp only
      by_cases hab : tt0.Status = StatusAborted
      · rw [if_pos hab]
        obtain ⟨p, f, a⟩ := ih db
        refine ⟨p, f, fun he tk hk tt ht hs => ?_⟩
        rcases List.mem_cons.1 hk with rfl | hk
        · rw [hg] at ht
          cases ht
          exact absurd hab hs
        · exact a he tk hk tt ht hs
      · rw [if_neg hab]
        obtain ⟨s1, s2, s3⟩ := Testtuple.commitStatusUpdate_step tt0 db x tk0 new hg
        revert s1 s2 s3
        rcases Testtuple.commitStatusUpdate { tt0 with TraintupleKey := x } db tk0 new
          with ⟨e, tt1, db1⟩
        intro s1 s2 s3
        simp only at s1 s2 s3
        have hp : ∀ tk tt, db.GetTesttuple tk = .ok tt → tt.Status = new →
            ∃ tt2, db1.GetTesttuple tk = .ok tt2 ∧ tt2.Status = new := by
          intro tk tt ht hs
          by_cases hk : tk = tk0
          · subst hk
            rw [hg] at ht
            cases ht
            rw [s2 hs]
            exact ⟨tt0, hg, hs⟩
          · exact ⟨tt, s1 tk hk tt ht, hs⟩
        have hf : ∀ tk tt, db.GetTesttuple tk = .ok tt → tt.Status = StatusAborted →
            db1.GetTesttuple tk = .ok tt := by
          intro tk tt ht hs
          by_cases hk : tk = tk0
          · subst hk
            rw [hg] at ht
            cases ht
            exact absurd hs hab
          · exact s1 tk hk tt ht
        cases e with
        | some err =>
          exact ⟨hp, hf, fun h => by simp at h⟩
        | none =>
          dsimp only
          obtain ⟨p, f, a⟩ := ih (db1.AddTupleEvent tk0)
          have hev : ∀ k, (db1.AddTupleEvent tk0).GetTesttuple k = db1.GetTesttuple k :=
            fun k => GetTesttuple_congr db1 _ k (by simp)
          refine ⟨?_, ?_, ?_⟩
          · intro tk tt ht hs
            obtain ⟨tt2, h2, hs2⟩ := hp tk tt ht hs
            exact p tk tt2 ((hev tk).trans h2) hs2
          · intro tk tt ht hs
            exact f tk tt ((hev tk).trans (hf tk tt ht hs)) hs
          · intro he tk hk tt ht hs
            by_cases hk0 : tk = tk0
            · subst hk0
              obtain ⟨tt2, h2, hs2⟩ := s3 rfl hnew
              exact p tk tt2 ((hev tk).trans h2) hs2
            · have hrest : tk ∈ rest := by
                rcases List.mem_cons.1 hk with h | h
                · exact absurd h hk0
                · exact h
              exact a he tk hrest tt ((hev tk).trans (s1 tk hk0 tt ht)) hs

/-- C26: when the parent status is done (failed), a call of
`UpdateTesttupleChildren` that succeeds leaves every testtuple attached to the
traintuple that was not aborted with the status todo (failed); whatever the
outcome, a testtuple that was aborted is stored as before. For any other parent
status the call returns no error and the ledger it was given, whatever that
ledger holds. -/
theorem UpdateTesttupleChildren_commits (db : LedgerDB) (traintupleKey traintupleStatus : String) :
    (∀ newStatus,
      ((traintupleStatus = StatusDone ∧ newStatus = StatusTodo) ∨
        (traintupleStatus = StatusFailed ∧ newStatus = StatusFailed)) →
      ((UpdateTesttupleChildren db traintupleKey traintupleStatus).1 = none →
        ∀ tk ∈ db.GetIndexKeys "testtuple~traintuple~certified~key" ["testtuple", traintupleKey],
          ∀ tt, db.GetTesttuple tk = .ok tt → tt.Status ≠ StatusAborted →
            ∃ tt2, (UpdateTesttupleChildren db traintupleKey traintupleStatus).2.GetTesttuple tk
                = .ok tt2 ∧ tt2.Status = newStatus) ∧
      (∀ tk tt, db.GetTesttuple tk = .ok tt → tt.Status = StatusAborted →
        (UpdateTesttupleChildren db traintupleKey traintupleStatus).2.GetTesttuple tk = .ok tt)) ∧
    (traintupleStatus ≠ StatusDone → traintupleStatus ≠ StatusFailed →
      UpdateTesttupleChildren db traintupleKey traintupleStatus = (none, db)) := by
  constructor
  · intro newStatus hcase
    have hnew : newStatus ≠ StatusAborted := by
      rcases hcase with ⟨_, h⟩ | ⟨_, h⟩ <;> rw [h] <;> decide
    have hrun : UpdateTesttupleChildren db traintupleKey traintupleStatus =
        UpdateTesttupleChildren.loop traintupleKey newStatus
          (db.GetIndexKeys "testtuple~traintuple~certified~key" ["testtuple", traintupleKey])
          db := by
      unfold UpdateTesttupleChildren
      rcases hcase with ⟨h1, h2⟩ | ⟨h1, h2⟩
      · subst h1 h2
        rfl
      · subst h1 h2
        rfl
    rw [hrun]
    obtain ⟨_, f, a⟩ := UpdateTesttupleChildren_loop_commits traintupleKey newStatus hnew
      (db.GetIndexKeys "testtuple~traintuple~certified~key" ["testtuple", traintupleKey]) db
    exact ⟨a, f⟩
  · intro h1 h2
    unfold UpdateTesttupleChildren
    simp [h1, h2]

/-- On the ledger `Example.tested`, where the traintuple A has the testtuples t1
and t3, waiting, and t2, aborted: with the parent status done the call succeeds,
t1 and t3 are todo and t2 is stored as before; with the parent status failed
they are failed; with the parent status doing nothing happens. -/
theorem UpdateTesttupleChildren_commits_witness :
    (UpdateTesttupleChildren Example.tested "A" StatusDone).1 = none ∧
    (∀ tk ∈ ["t1", "t3"], ∃ tt2,
      (UpdateTesttupleChildren Example.tested "A" StatusDone).2.GetTesttuple tk = .ok tt2 ∧
        tt2.Status = StatusTodo) ∧
    (UpdateTesttupleChildren Example.tested "A" StatusDone).2.GetTesttuple "t2"
      = .ok (Example.test "t2" "A" "aborted") ∧
    (UpdateTesttupleChildren Example.tested "A" StatusFailed).1 = none ∧
    (∀ tk ∈ ["t1", "t3"], ∃ tt2,
      (UpdateTesttupleChildren Example.tested "A" StatusFailed).2.GetTesttuple tk = .ok tt2 ∧
        tt2.Status = StatusFailed) ∧
    UpdateTesttupleChildren Example.tested "A" StatusDoing = (none, Example.tested) := by
  have hkeys : Example.tested.GetIndexKeys "testtuple~traintuple~certified~key"
      ["testtuple", "A"] = ["t1", "t2", "t3"] := by decide
  have hdone := (UpdateTesttupleChildren_commits Example.tested "A" StatusDone).1 StatusTodo
    (Or.inl ⟨rfl, rfl⟩)
  have hfailed := (UpdateTesttupleChildren_commits Example.tested "A" StatusFailed).1 StatusFailed
    (Or.inr ⟨rfl, rfl⟩)
  have hother := (UpdateTesttupleChildren_commits Example.tested "A" StatusDoing).2
    (by decide) (by decide)
  rw [hkeys] at hdone hfailed
  refine ⟨rfl, ?_, hdone.2 "t2" _ rfl rfl, rfl, ?_, hother⟩
  · intro tk hk
    simp only [List.mem_cons, List.mem_singleton, List.not_mem_nil, or_false] at hk
    rcases hk with rfl | rfl
    · exact hdone.1 rfl "t1" (by decide) _ rfl (by decide)
    · exact hdone.1 rfl "t3" (by decide) _ rfl (by decide)
  · intro tk hk
    simp only [List.mem_cons, List.mem_singleton, List.not_mem_nil, or_false] at hk
    rcases hk with rfl | rfl
    · exact hfailed.1 rfl "t1" (by decide) _ rfl (by decide)
    · exact hfailed.1 rfl "t3" (by decide) _ rfl (by decide)

/-! ## C28: a waiting child of a failed or aborted parent -/

theorem putCount_append (ws : List Write) (w : Write) (k : String) :
    putCount (ws ++ [w]) k = putCount ws k + putCount [w] k := by
  simp [putCount, List.countP_append]

@[simp] theorem puts_Put (db : LedgerDB) (key : String) (a : Asset) (k : String) :
    (db.Put key a).puts k = db.puts k + if key = k then 1 else 0 := by
  show putCount (db.writes ++ [Write.PutState key a]) k = _
  rw [putCount_append]
  by_cases h : key = k <;> simp [putCount, LedgerDB.puts, h]

@[simp] theorem puts_CreateIndex (db : LedgerDB) (index : String) (attrs : List String)
    (k : String) : (db.CreateIndex index attrs).puts k = db.puts k := by
  show putCount (db.writes ++ [Write.PutIndex ⟨index, attrs⟩]) k = _
  rw [putCount_append]
  simp [putCount, LedgerDB.puts]

@[simp] theorem puts_DeleteIndex (db : LedgerDB) (index : String) (attrs : List String)
    (k : String) : (db.DeleteIndex index attrs).puts k = db.puts k := by
  show putCount (db.writes ++ [Write.DelIndex ⟨index, attrs⟩]) k = _
  rw [putCount_append]
  simp [putCount, LedgerDB.puts]

@[simp] theorem puts_UpdateIndex (db : LedgerDB) (index : String) (old new : List String)
    (k : String) : (db.UpdateIndex index old new).puts k = db.puts k := by
  unfold LedgerDB.UpdateIndex
  simp

@[simp] theorem puts_AddTupleEvent (db : LedgerDB) (key k : String) :
    (db.AddTupleEvent key).puts k = db.puts k := rfl

theorem Quiet_refl (db : LedgerDB) : Quiet db db := fun _ _ h _ => ⟨h, rfl⟩

theorem Quiet_trans {db1 db2 db3 : LedgerDB} (h12 : Quiet db1 db2) (h23 : Quiet db2 db3) :
    Quiet db1 db3 := by
  intro k a hk ha
  obtain ⟨h1, h2⟩ := h12 k a hk ha
  obtain ⟨h3, h4⟩ := h23 k a h1 ha
  exact ⟨h3, h4.trans h2⟩

theorem Quiet_Put (db : LedgerDB) (key : String) (object : Asset)
    (h : ∀ a, db.Get key = some a → a.isTuple = false) : Quiet db (db.Put key object) := by
  intro k a hk ha
  have hkk : ¬ key = k := by
    intro h1
    subst h1
    have := h a hk
    rw [ha] at this
    exact absurd this (by decide)
  have hkk2 : ¬ k = key := fun h1 => hkk h1.symm
  simp [hkk, hkk2, hk]

theorem Quiet_AddTupleEvent (db : LedgerDB) (key : String) : Quiet db (db.AddTupleEvent key) :=
  fun _ _ hk _ => ⟨hk, rfl⟩

theorem UpdateComputePlanState_quiet (db : LedgerDB)
    (computePlanKey tupleStatus tupleKey worker : String) :
    Quiet db (UpdateComputePlanState db computePlanKey tupleStatus tupleKey worker).2 := by
  unfold UpdateComputePlanState
  by_cases hcp : computePlanKey = ""
  · simp only [hcp, if_true]; exact Quiet_refl db
  · simp only [hcp, if_false]
    cases h1 : db.GetComputePlan computePlanKey with
    | error e => exact Quiet_refl db
    | ok cp =>
      dsimp only
      cases h2 : db.GetComputePlanState cp.StateKey with
      | error e => exact Quiet_refl db
      | ok state =>
        dsimp only
        cases h3 : db.GetComputePlanWorkerState computePlanKey worker with
        | error e => exact Quiet_refl db
        | ok wState =>
          have hs := GetComputePlanState_ok db _ _ h2
          have hw := GetComputePlanWorkerState_ok db _ _ _ h3
          have step1 : Quiet db
              (if tupleStatus = StatusDone then
                db.Put (computePlanWorkerStateKey computePlanKey worker)
                  (.computePlanWorkerState { wState with DoneCount := wState.DoneCount + 1 })
              else db) := by
            split
            · apply Quiet_Put
              intro a ha
              rw [hw] at ha
              cases ha
              rfl
            · exact Quiet_refl db
          have hs1 : ∀ a,
              (if tupleStatus = StatusDone then
                db.Put (computePlanWorkerStateKey computePlanKey worker)
                  (.computePlanWorkerState { wState with DoneCount := wState.DoneCount + 1 })
              else db).Get cp.StateKey = some a → a.isTuple = false := by
            intro a ha
            split at ha
            · simp only [Get_Put] at ha
              split at ha
              · cases ha; rfl
              · rw [hs] at ha; cases ha; rfl
            · rw [hs] at ha; cases ha; rfl
          dsimp only
          generalize (if tupleStatus = StatusDone then
                db.Put (computePlanWorkerStateKey computePlanKey worker)
                  (.computePlanWorkerState { wState with DoneCount := wState.DoneCount + 1 })
              else db) = db1 at step1 hs1 ⊢
          split
          · exact step1
          · exact Quiet_trans step1 (Quiet_Put _ _ _ hs1)

theorem WritesOnce_of_quiet {db db2 : LedgerDB} (h : Quiet db db2) : WritesOnce db db2 :=
  fun k a hk ha => Or.inl (h k a hk ha)

theorem WritesOnce_refl (db : LedgerDB) : WritesOnce db db := WritesOnce_of_quiet (Quiet_refl db)

theorem WritesOnce_trans {db1 db2 db3 : LedgerDB} (h12 : WritesOnce db1 db2)
    (h23 : WritesOnce db2 db3) : WritesOnce db1 db3 := by
  intro k a hk ha
  rcases h12 k a hk ha with ⟨h1, h2⟩ | ⟨hl, hp, a2, hg2, ht2, hl2, hs2⟩
  · rcases h23 k a h1 ha with ⟨h3, h4⟩ | ⟨hl, hp, a3, hg3, ht3, hl3, hs3⟩
    · exact Or.inl ⟨h3, h4.trans h2⟩
    · exact Or.inr ⟨hl, by rw [hp, h2], a3, hg3, ht3, hl3, hs3⟩
  · rcases h23 k a2 hg2 ht2 with ⟨h3, h4⟩ | ⟨hl3, _⟩
    · exact Or.inr ⟨hl, by rw [h4, hp], a2, h3, ht2, hl2, hs2⟩
    · rw [hl2] at hl3
      exact absurd hl3 (by decide)

/-- The writes of an accepted commit: the record of the tuple under its key, the
index entry, and the state of the compute plan. Every other tuple is kept and
nothing is written under its key; the key of the tuple is written once. -/
theorem commit_tail_puts (db : LedgerDB) (key : String) (a : Asset) (index : String)
    (old new : List String) (cpk st w : String) (ha : a.isTuple = true) :
    (∀ k b, k ≠ key → db.Get k = some b → b.isTuple = true →
      (UpdateComputePlanState ((db.Put key a).UpdateIndex index old new) cpk st key w).2.Get k
          = some b ∧
        (UpdateComputePlanState ((db.Put key a).UpdateIndex index old new) cpk st key w).2.puts k
          = db.puts k) ∧
    (UpdateComputePlanState ((db.Put key a).UpdateIndex index old new) cpk st key w).2.Get key
      = some a ∧
    (UpdateComputePlanState ((db.Put key a).UpdateIndex index old new) cpk st key w).2.puts key
      = db.puts key + 1 := by
  have hq := UpdateComputePlanState_quiet ((db.Put key a).UpdateIndex index old new) cpk st key w
  refine ⟨?_, ?_, ?_⟩
  · intro k b hk hb hbt
    have hk2 : ¬ key = k := fun h => hk h.symm
    have := hq k b (by simp [hk, hb]) hbt
    simpa [hk2] using this
  · exact (hq key a (by simp) ha).1
  · have := (hq key a (by simp) ha).2
    simpa using this

theorem commit_once (db : LedgerDB) (key : String) (a a2 : Asset) (index : String)
    (old new : List String) (cpk st w : String) (hrec : db.Get key = some a)
    (ha2 : a2.isTuple = true) (hl : a.live = true) (hl2 : a2.live = false)
    (hs : a2.status ≠ a.status) :
    WritesOnce db
      (UpdateComputePlanState ((db.Put key a2).UpdateIndex index old new) cpk st key w).2 := by
  obtain ⟨h1, h2, h3⟩ := commit_tail_puts db key a2 index old new cpk st w ha2
  intro k b hb hbt
  by_cases hk : k = key
  · subst hk
    rw [hrec] at hb
    cases hb
    exact Or.inr ⟨hl, h3, a2, h2, ha2, hl2, hs⟩
  · exact Or.inl (h1 k b hk hb hbt)

theorem Traintuple.commitStatusUpdate_once (t : Traintuple) (db : LedgerDB) (key new : String)
    (hrec : db.Get key = some (.traintuple t)) (hw : t.Status = StatusWaiting)
    (hnew : new ≠ StatusWaiting) :
    WritesOnce db (t.commitStatusUpdate db key new).2.2 := by
  unfold Traintuple.commitStatusUpdate
  split
  · exact WritesOnce_refl db
  · split
    · exact WritesOnce_refl db
    · have hone := commit_once db key (.traintuple t) (.traintuple { t with Status := new })
        "traintuple~worker~status~key"
        ["traintuple", t.Dataset.Worker, t.Status, key]
        ["traintuple", t.Dataset.Worker, new, key] t.ComputePlanKey new t.Dataset.Worker
        hrec rfl (by simp [Asset.live, Asset.isTraining, Asset.status, Asset.toGenericTuple, hw])
        (by simp [Asset.live, Asset.isTraining, Asset.isTest, Asset.status,
          Asset.toGenericTuple, hnew])
        (by
          simp only [Asset.status, Asset.toGenericTuple, hw]
          exact hnew)
      split
      · exact WritesOnce_refl db
      · dsimp only
        revert hone
        rcases UpdateComputePlanState
          ((db.Put key (.traintuple { t with Status := new })).UpdateIndex
            "traintuple~worker~status~key"
            ["traintuple", t.Dataset.Worker, t.Status, key]
            ["traintuple", t.Dataset.Worker, new, key])
          t.ComputePlanKey new key t.Dataset.Worker with ⟨e2, db2⟩
        intro hone
        cases e2 <;> exact hone

theorem CompositeTraintuple.commitStatusUpdate_once_composite (t : CompositeTraintuple) (db : LedgerDB)
    (key new : String) (hrec : db.Get key = some (.compositeTraintuple t))
    (hw : t.Status = StatusWaiting) (hnew : new ≠ StatusWaiting) :
    WritesOnce db (t.commitStatusUpdate db key new).2.2 := by
  unfold CompositeTraintuple.commitStatusUpdate
  split
  · exact WritesOnce_refl db
  · split
    · exact WritesOnce_refl db
    · have hone := commit_once db key (.compositeTraintuple t)
        (.compositeTraintuple { t with Status := new })
        "compositeTraintuple~worker~status~key"
        ["compositeTraintuple", t.Dataset.Worker, t.Status, key]
        ["compositeTraintuple", t.Dataset.Worker, new, key] t.ComputePlanKey new t.Dataset.Worker
        hrec rfl (by simp [Asset.live, Asset.isTraining, Asset.status, Asset.toGenericTuple, hw])
        (by simp [Asset.live, Asset.isTraining, Asset.isTest, Asset.status,
          Asset.toGenericTuple, hnew])
        (by
          simp only [Asset.status, Asset.toGenericTuple, hw]
          exact hnew)
      split
      · exact WritesOnce_refl db
      · dsimp only
        revert hone
        rcases UpdateComputePlanState
          ((db.Put key (.compositeTraintuple { t with Status := new })).UpdateIndex
            "compositeTraintuple~worker~status~key"
            ["compositeTraintuple", t.Dataset.Worker, t.Status, key]
            ["compositeTraintuple", t.Dataset.Worker, new, key])
          t.ComputePlanKey new key t.Dataset.Worker with ⟨e2, db2⟩
        intro hone
        cases e2 <;> exact hone

theorem Aggregatetuple.commitStatusUpdate_once_aggregate (t : Aggregatetuple) (db : LedgerDB)
    (key new : String) (hrec : db.Get key = some (.aggregatetuple t))
    (hw : t.Status = StatusWaiting) (hnew : new ≠ StatusWaiting) :
    WritesOnce db (t.commitStatusUpdate db key new).2.2 := by
  unfold Aggregatetuple.commitStatusUpdate
  split
  · exact WritesOnce_refl db
  · split
    · exact WritesOnce_refl db
    · have hone := commit_once db key (.aggregatetuple t)
        (.aggregatetuple { t with Status := new })
        "aggregatetuple~worker~status~key"
        ["aggregatetuple", t.Worker, t.Status, key]
        ["aggregatetuple", t.Worker, new, key] t.ComputePlanKey new t.Worker
        hrec rfl (by simp [Asset.live, Asset.isTraining, Asset.status, Asset.toGenericTuple, hw])
        (by simp [Asset.live, Asset.isTraining, Asset.isTest, Asset.status,
          Asset.toGenericTuple, hnew])
        (by
          simp only [Asset.status, Asset.toGenericTuple, hw]
          exact hnew)
      split
      · exact WritesOnce_refl db
      · dsimp only
        revert hone
        rcases UpdateComputePlanState
          ((db.Put key (.aggregatetuple { t with Status := new })).UpdateIndex
            "aggregatetuple~worker~status~key"
            ["aggregatetuple", t.Worker, t.Status, key]
            ["aggregatetuple", t.Worker, new, key])
          t.ComputePlanKey new key t.Worker with ⟨e2, db2⟩
        intro hone
        cases e2 <;> exact hone

theorem Testtuple.commitStatusUpdate_once_test (t : Testtuple) (db : LedgerDB) (x key new : String)
    (hrec : db.Get key = some (.testtuple t))
    (hnew : new = StatusTodo ∨ new = StatusFailed) :
    WritesOnce db
      (Testtuple.commitStatusUpdate { t with TraintupleKey := x } db key new).2.2 := by
  unfold Testtuple.commitStatusUpdate
  split
  · exact WritesOnce_refl db
  · split
    · exact WritesOnce_refl db
    · split
      · exact WritesOnce_refl db
      · rename_i hne _ _ hv
        have hold : t.Status = StatusWaiting ∨ t.Status = StatusDoing := by
          simp only [checkUpdateTuple] at hv
          split at hv
          · rename_i hc
            rcases hc with ⟨h, _⟩ | ⟨h, h2⟩ | ⟨h, _⟩
            · exact Or.inl h
            · rcases hnew with h3 | h3 <;> rw [h3] at h2 <;>
                exact absurd h2 (by decide)
            · exact Or.inr h
          · cases hv
        have hone := commit_once db key (.testtuple t)
          (.testtuple { t with TraintupleKey := x, Status := new })
          "testtuple~worker~status~key"
          ["testtuple", t.Dataset.Worker, t.Status, key]
          ["testtuple", t.Dataset.Worker, new, key] t.ComputePlanKey new t.Dataset.Worker
          hrec rfl
          (by
            rcases hold with h | h <;>
              simp [Asset.live, Asset.isTraining, Asset.isTest, Asset.status,
                Asset.toGenericTuple, h])
          (by
            rcases hnew with h | h <;> subst h <;>
              simp [Asset.live, Asset.isTraining, Asset.isTest, Asset.status,
                Asset.toGenericTuple] <;> decide)
          (by
            simp only [Asset.status, Asset.toGenericTuple]
            exact fun h => hne h.symm)
        dsimp only
        revert hone
        rcases UpdateComputePlanState
          ((db.Put key (.testtuple { t with TraintupleKey := x, Status := new })).UpdateIndex
            "testtuple~worker~status~key"
            ["testtuple", t.Dataset.Worker, t.Status, key]
            ["testtuple", t.Dataset.Worker, new, key])
          t.ComputePlanKey new key t.Dataset.Worker with ⟨e2, db2⟩
        intro hone
        cases e2 <;> exact hone

theorem newStatus_not_waiting (s : String) (r : Except Error Bool) (n : String)
    (h : (if s = StatusFailed then (Except.ok StatusFailed : Except Error String)
      else if s = StatusDone then
        match r with
        | .error err => .error err
        | .ok ready => if ready then .ok StatusTodo else .ok ""
      else .ok "") = .ok n) :
    n = StatusFailed ∨ n = StatusTodo ∨ n = "" := by
  split at h
  · simp only [Except.ok.injEq] at h
    exact Or.inl h.symm
  · split at h
    · split at h
      · cases h
      · split at h
        · simp only [Except.ok.injEq] at h
          exact Or.inr (Or.inl h.symm)
        · simp only [Except.ok.injEq] at h
          exact Or.inr (Or.inr h.symm)
    · simp only [Except.ok.injEq] at h
      exact Or.inr (Or.inr h.symm)

theorem UpdateTraintupleChild_once (db : LedgerDB) (p c s : String)
    (hw : db.statusOf c = StatusWaiting) :
    WritesOnce db (UpdateTraintupleChild db p c s).2 := by
  unfold UpdateTraintupleChild
  cases hg : db.GetTraintuple c with
  | error e => exact WritesOnce_refl db
  | ok child =>
    have hrec := (GetTraintuple_ok db c child hg).1
    have hts : child.Status = StatusWaiting := by
      rw [statusOf_eq db c _ hrec] at hw; exact hw
    dsimp only
    split
    · exact WritesOnce_refl db
    · rename_i n hn
      have hnw : n ≠ StatusWaiting := by
        rcases newStatus_not_waiting s _ n hn with h | h | h <;> rw [h] <;> decide
      have hone := Traintuple.commitStatusUpdate_once child db c n hrec hts hnw
      split
      · exact WritesOnce_refl db
      · split
        · rename_i hc
          rw [hc] at hone
          exact hone
        · rename_i hc
          rw [hc] at hone
          exact WritesOnce_trans hone (WritesOnce_of_quiet (Quiet_AddTupleEvent _ _))

theorem UpdateCompositeTraintupleChild_once (db : LedgerDB) (p c s : String)
    (hw : db.statusOf c = StatusWaiting) :
    WritesOnce db (UpdateCompositeTraintupleChild db p c s).2 := by
  unfold UpdateCompositeTraintupleChild
  cases hg : db.GetCompositeTraintuple c with
  | error e => exact WritesOnce_refl db
  | ok child =>
    have hrec := (GetCompositeTraintuple_ok db c child hg).1
    have hts : child.Status = StatusWaiting := by
      rw [statusOf_eq db c _ hrec] at hw; exact hw
    dsimp only
    split
    · exact WritesOnce_refl db
    · rename_i n hn
      have hnw : n ≠ StatusWaiting := by
        rcases newStatus_not_waiting s _ n hn with h | h | h <;> rw [h] <;> decide
      have hone := CompositeTraintuple.commitStatusUpdate_once_composite child db c n hrec hts hnw
      split
      · exact WritesOnce_refl db
      · split
        · rename_i hc
          rw [hc] at hone
          exact hone
        · rename_i hc
          rw [hc] at hone
          exact WritesOnce_trans hone (WritesOnce_of_quiet (Quiet_AddTupleEvent _ _))

theorem UpdateAggregatetupleChild_once (db : LedgerDB) (p c s : String)
    (hw : db.statusOf c = StatusWaiting) :
    WritesOnce db (UpdateAggregatetupleChild db p c s).2 := by
  unfold UpdateAggregatetupleChild
  cases hg : db.GetAggregatetuple c with
  | error e => exact WritesOnce_refl db
  | ok child =>
    have hrec := (GetAggregatetuple_ok db c child hg).1
    have hts : child.Status = StatusWaiting := by
      rw [statusOf_eq db c _ hrec] at hw; exact hw
    dsimp only
    split
    · exact WritesOnce_refl db
    · rename_i n hn
      have hnw : n ≠ StatusWaiting := by
        rcases newStatus_not_waiting s _ n hn with h | h | h <;> rw [h] <;> decide
      have hone := Aggregatetuple.commitStatusUpdate_once_aggregate child db c n hrec hts hnw
      split
      · exact WritesOnce_refl db
      · split
        · rename_i hc
          rw [hc] at hone
          exact hone
        · rename_i hc
          rw [hc] at hone
          exact WritesOnce_trans hone (WritesOnce_of_quiet (Quiet_AddTupleEvent _ _))

theorem updateChildOfType_once (db : LedgerDB) (ty : AssetType) (p c s : String)
    (hw : db.statusOf c = StatusWaiting) :
    WritesOnce db (updateChildOfType db ty p c s).2 := by
  unfold updateChildOfType
  split
  · exact UpdateTraintupleChild_once db p c s hw
  · exact UpdateCompositeTraintupleChild_once db p c s hw
  · exact UpdateAggregatetupleChild_once db p c s hw
  · exact WritesOnce_refl db

theorem UpdateTesttupleChildren_loop_once (x new : String)
    (hnew : new = StatusTodo ∨ new = StatusFailed) :
    ∀ (keys : List String) (db : LedgerDB),
      WritesOnce db (UpdateTesttupleChildren.loop x new keys db).2 := by
  intro keys
  induction keys with
  | nil => intro db; exact WritesOnce_refl db
  | cons tk rest ih =>
    intro db
    unfold UpdateTesttupleChildren.loop
    cases hg : db.GetTesttuple tk with
    | error e => exact WritesOnce_refl db
    | ok tt =>
      have hrec := (GetTesttuple_ok db tk tt hg).1
      dsimp only
      split
      · exact ih db
      · have hone := Testtuple.commitStatusUpdate_once_test tt db x tk new hrec hnew
        split
        · rename_i hc
          rw [hc] at hone
          exact hone
        · rename_i hc
          rw [hc] at hone
          exact WritesOnce_trans
            (WritesOnce_trans hone (WritesOnce_of_quiet (Quiet_AddTupleEvent _ _))) (ih _)

theorem UpdateTesttupleChildren_once (db : LedgerDB) (x s : String) :
    WritesOnce db (UpdateTesttupleChildren db x s).2 := by
  unfold UpdateTesttupleChildren
  dsimp only
  split
  · exact WritesOnce_refl db
  · rename_i new hn
    apply UpdateTesttupleChildren_loop_once
    split at hn
    · simp only [Option.some.injEq] at hn
      exact Or.inr hn.symm
    · split at hn
      · simp only [Option.some.injEq] at hn
        exact Or.inl hn.symm
      · cases hn

theorem UpdateTraintupleChildren_loop_once
    (recur : LedgerDB → String → String → List String → Option (Option Error × LedgerDB))
    (hrecur : ∀ db key status already r, recur db key status already = some r →
      WritesOnce db r.2)
    (key status : String) :
    ∀ (keys : List String) (db : LedgerDB) (already : List String) (r : Option Error × LedgerDB),
      UpdateTraintupleChildren.loop recur key status keys db already = some r →
      WritesOnce db r.2 := by
  intro keys
  induction keys with
  | nil =>
    intro db already r h
    simp only [UpdateTraintupleChildren.loop, Option.some.injEq] at h
    subst h
    exact WritesOnce_refl db
  | cons c rest ih =>
    intro db already r h
    unfold UpdateTraintupleChildren.loop at h
    split at h
    · exact ih db already r h
    · split at h
      · simp only [Option.some.injEq] at h
        subst h
        exact WritesOnce_refl db
      · rename_i child hg
        split at h
        · exact ih db already r h
        · split at h
          · simp only [Option.some.injEq] at h
            subst h
            exact WritesOnce_refl db
          · rename_i hst
            have hw : db.statusOf c = StatusWaiting := by
              rw [GetGenericTuple_status hg]
              exact not_not.1 hst
            have hone := updateChildOfType_once db child.AssetType key c status hw
            split at h
            · rename_i hu
              rw [hu] at hone
              simp only [Option.some.injEq] at h
              subst h
              exact hone
            · rename_i st db1 hu
              rw [hu] at hone
              dsimp only at h hone
              split at h
              · have htest := UpdateTesttupleChildren_once db1 c st
                split at h
                · rename_i ht
                  rw [ht] at htest
                  simp only [Option.some.injEq] at h
                  subst h
                  exact WritesOnce_trans hone htest
                · rename_i db2 ht
                  rw [ht] at htest
                  split at h
                  · cases h
                  · rename_i hr
                    have := hrecur _ _ _ _ _ hr
                    simp only [Option.some.injEq] at h
                    subst h
                    exact WritesOnce_trans hone (WritesOnce_trans htest this)
                  · rename_i hr
                    have := hrecur _ _ _ _ _ hr
                    exact WritesOnce_trans hone
                      (WritesOnce_trans htest (WritesOnce_trans this (ih _ _ r h)))
              · exact WritesOnce_trans hone (ih _ _ r h)

theorem UpdateTraintupleChildren_go_once :
    ∀ (n : Nat) (db : LedgerDB) (key status : String) (already : List String)
      (r : Option Error × LedgerDB),
      UpdateTraintupleChildren.go n db key status already = some r → WritesOnce db r.2 := by
  intro n
  induction n with
  | zero =>
    intro db key status already r h
    simp [UpdateTraintupleChildren.go] at h
  | succ n ih =>
    intro db key status already r h
    rw [UpdateTraintupleChildren.go] at h
    exact UpdateTraintupleChildren_loop_once (UpdateTraintupleChildren.go n) ih key status _ db
      already r h

theorem UpdateTraintupleChildren_writes_once (db : LedgerDB) (key status : String)
    (already : List String) :
    WritesOnce db (UpdateTraintupleChildren db key status already).2 := by
  obtain ⟨r, hr, hrun⟩ := UpdateTraintupleChildren_go_terminates db key status already
  rw [hrun]
  exact UpdateTraintupleChildren_go_once db.maxDepth db key status already r hr

/-! ## C29: the propagation when reads see committed state only -/

theorem Committed_UpdateComputePlanState_indexes (db : LedgerDB)
    (computePlanKey tupleStatus tupleKey worker : String) :
    (Committed.UpdateComputePlanState db computePlanKey tupleStatus tupleKey worker).2.indexes
      = db.indexes := by
  unfold Committed.UpdateComputePlanState
  dsimp only
  repeat' split
  all_goals rfl

theorem Committed_commitTraintuple_indexes (t : Traintuple) (db : LedgerDB) (k s : String) :
    (Committed.commitTraintuple t db k s).2.2.indexes = db.indexes := by
  unfold Committed.commitTraintuple
  dsimp only
  repeat' split
  all_goals first
    | rfl
    | (rename_i heq
       have h := congrArg (fun r => r.2.indexes) heq
       dsimp only at h
       rw [Committed_UpdateComputePlanState_indexes] at h
       exact h.symm)

theorem Committed_commitCompositeTraintuple_indexes (t : CompositeTraintuple) (db : LedgerDB)
    (k s : String) :
    (Committed.commitCompositeTraintuple t db k s).2.2.indexes = db.indexes := by
  unfold Committed.commitCompositeTraintuple
  dsimp only
  repeat' split
  all_goals first
    | rfl
    | (rename_i heq
       have h := congrArg (fun r => r.2.indexes) heq
       dsimp only at h
       rw [Committed_UpdateComputePlanState_indexes] at h
       exact h.symm)

theorem Committed_commitAggregatetuple_indexes (t : Aggregatetuple) (db : LedgerDB)
    (k s : String) :
    (Committed.commitAggregatetuple t db k s).2.2.indexes = db.indexes := by
  unfold Committed.commitAggregatetuple
  dsimp only
  repeat' split
  all_goals first
    | rfl
    | (rename_i heq
       have h := congrArg (fun r => r.2.indexes) heq
       dsimp only at h
       rw [Committed_UpdateComputePlanState_indexes] at h
       exact h.symm)

theorem Committed_commitTesttuple_indexes (t : Testtuple) (db : LedgerDB) (k s : String) :
    (Committed.commitTesttuple t db k s).2.2.indexes = db.indexes := by
  unfold Committed.commitTesttuple
  dsimp only
  repeat' split
  all_goals first
    | rfl
    | (rename_i heq
       have h := congrArg (fun r => r.2.indexes) heq
       dsimp only at h
       rw [Committed_UpdateComputePlanState_indexes] at h
       exact h.symm)

theorem Committed_UpdateTraintupleChild_indexes (db : LedgerDB) (p c s : String) :
    (Committed.UpdateTraintupleChild db p c s).2.indexes = db.indexes := by
  unfold Committed.UpdateTraintupleChild
  dsimp only
  repeat' split
  all_goals first
    | rfl
    | (rename_i heq
       have h := congrArg (fun r => r.2.2.indexes) heq
       dsimp only at h
       rw [Committed_commitTraintuple_indexes] at h
       exact h.symm)

theorem Committed_UpdateCompositeTraintupleChild_indexes (db : LedgerDB) (p c s : String) :
    (Committed.UpdateCompositeTraintupleChild db p c s).2.indexes = db.indexes := by
  unfold Committed.UpdateCompositeTraintupleChild
  dsimp only
  repeat' split
  all_goals first
    | rfl
    | (rename_i heq
       have h := congrArg (fun r => r.2.2.indexes) heq
       dsimp only at h
       rw [Committed_commitCompositeTraintuple_indexes] at h
       exact h.symm)

theorem Committed_UpdateAggregatetupleChild_indexes (db : LedgerDB) (p c s : String) :
    (Committed.UpdateAggregatetupleChild db p c s).2.indexes = db.indexes := by
  unfold Committed.UpdateAggregatetupleChild
  dsimp only
  repeat' split
  all_goals first
    | rfl
    | (rename_i heq
       have h := congrArg (fun r => r.2.2.indexes) heq
       dsimp only at h
       rw [Committed_commitAggregatetuple_indexes] at h
       exact h.symm)

theorem Committed_updateChildOfType_indexes (db : LedgerDB) (ty : AssetType) (p c s : String) :
    (Committed.updateChildOfType db ty p c s).2.indexes = db.indexes := by
  unfold Committed.updateChildOfType
  split
  · exact Committed_UpdateTraintupleChild_indexes db p c s
  · exact Committed_UpdateCompositeTraintupleChild_indexes db p c s
  · exact Committed_UpdateAggregatetupleChild_indexes db p c s
  · rfl

theorem Committed_UpdateTesttupleChildren_loop_indexes (key status : String) :
    ∀ (keys : List String) (db : LedgerDB),
      (Committed.UpdateTesttupleChildren.loop key status keys db).2.indexes = db.indexes := by
  intro keys
  induction keys with
  | nil => intro db; rfl
  | cons k rest ih =>
    intro db
    unfold Committed.UpdateTesttupleChildren.loop
    cases hg : db.GetTesttuple k with
    | error e => rfl
    | ok t =>
      dsimp only
      split
      · exact ih db
      · have hc := Committed_commitTesttuple_indexes { t with TraintupleKey := key } db k status
        revert hc
        rcases Committed.commitTesttuple { t with TraintupleKey := key } db k status
          with ⟨e, t2, d⟩
        intro hc
        cases e with
        | some err => exact hc
        | none =>
          dsimp only
          rw [ih]
          exact hc

theorem Committed_UpdateTesttupleChildren_indexes (db : LedgerDB) (key status : String) :
    (Committed.UpdateTesttupleChildren db key status).2.indexes = db.indexes := by
  unfold Committed.UpdateTesttupleChildren
  dsimp only
  split
  · rfl
  · exact Committed_UpdateTesttupleChildren_loop_indexes _ _ _ _

theorem Committed_UpdateComputePlanState_state (db : LedgerDB)
    (computePlanKey tupleStatus tupleKey worker : String) :
    (Committed.UpdateComputePlanState db computePlanKey tupleStatus tupleKey worker).2.state
      = db.state := by
  unfold Committed.UpdateComputePlanState
  dsimp only
  repeat' split
  all_goals rfl

theorem Committed_commitTraintuple_state (t : Traintuple) (db : LedgerDB) (k s : String) :
    (Committed.commitTraintuple t db k s).2.2.state = db.state := by
  unfold Committed.commitTraintuple
  dsimp only
  repeat' split
  all_goals first
    | rfl
    | (rename_i heq
       have h := congrArg (fun r => r.2.state) heq
       dsimp only at h
       rw [Committed_UpdateComputePlanState_state] at h
       exact h.symm)

theorem Committed_commitCompositeTraintuple_state (t : CompositeTraintuple) (db : LedgerDB)
    (k s : String) :
    (Committed.commitCompositeTraintuple t db k s).2.2.state = db.state := by
  unfold Committed.commitCompositeTraintuple
  dsimp only
  repeat' split
  all_goals first
    | rfl
    | (rename_i heq
       have h := congrArg (fun r => r.2.state) heq
       dsimp only at h
       rw [Committed_UpdateComputePlanState_state] at h
       exact h.symm)

theorem Committed_commitAggregatetuple_state (t : Aggregatetuple) (db : LedgerDB)
    (k s : String) :
    (Committed.commitAggregatetuple t db k s).2.2.state = db.state := by
  unfold Committed.commitAggregatetuple
  dsimp only
  repeat' split
  all_goals first
    | rfl
    | (rename_i heq
       have h := congrArg (fun r => r.2.state) heq
       dsimp only at h
       rw [Committed_UpdateComputePlanState_state] at h
       exact h.symm)

theorem Committed_commitTesttuple_state (t : Testtuple) (db : LedgerDB) (k s : String) :
    (Committed.commitTesttuple t db k s).2.2.state = db.state := by
  unfold Committed.commitTesttuple
  dsimp only
  repeat' split
  all_goals first
    | rfl
    | (rename_i heq
       have h := congrArg (fun r => r.2.state) heq
       dsimp only at h
       rw [Committed_UpdateComputePlanState_state] at h
       exact h.symm)

theorem Committed_UpdateTraintupleChild_state (db : LedgerDB) (p c s : String) :
    (Committed.UpdateTraintupleChild db p c s).2.state = db.state := by
  unfold Committed.UpdateTraintupleChild
  dsimp only
  repeat' split
  all_goals first
    | rfl
    | (rename_i heq
       have h := congrArg (fun r => r.2.2.state) heq
       dsimp only at h
       rw [Committed_commitTraintuple_state] at h
       exact h.symm)

theorem Committed_UpdateCompositeTraintupleChild_state (db : LedgerDB) (p c s : String) :
    (Committed.UpdateCompositeTraintupleChild db p c s).2.state = db.state := by
  unfold Committed.UpdateCompositeTraintupleChild
  dsimp only
  repeat' split
  all_goals first
    | rfl
    | (rename_i heq
       have h := congrArg (fun r => r.2.2.state) heq
       dsimp only at h
       rw [Committed_commitCompositeTraintuple_state] at h
       exact h.symm)

theorem Committed_UpdateAggregatetupleChild_state (db : LedgerDB) (p c s : String) :
    (Committed.UpdateAggregatetupleChild db p c s).2.state = db.state := by
  unfold Committed.UpdateAggregatetupleChild
  dsimp only
  repeat' split
  all_goals first
    | rfl
    | (rename_i heq
       have h := congrArg (fun r => r.2.2.state) heq
       dsimp only at h
       rw [Committed_commitAggregatetuple_state] at h
       exact h.symm)

theorem Committed_updateChildOfType_state (db : LedgerDB) (ty : AssetType) (p c s : String) :
    (Committed.updateChildOfType db ty p c s).2.state = db.state := by
  unfold Committed.updateChildOfType
  split
  · exact Committed_UpdateTraintupleChild_state db p c s
  · exact Committed_UpdateCompositeTraintupleChild_state db p c s
  · exact Committed_UpdateAggregatetupleChild_state db p c s
  · rfl

theorem Committed_UpdateTesttupleChildren_loop_state (key status : String) :
    ∀ (keys : List String) (db : LedgerDB),
      (Committed.UpdateTesttupleChildren.loop key status keys db).2.state = db.state := by
  intro keys
  induction keys with
  | nil => intro db; rfl
  | cons k rest ih =>
    intro db
    unfold Committed.UpdateTesttupleChildren.loop
    cases hg : db.GetTesttuple k with
    | error e => rfl
    | ok t =>
      dsimp only
      split
      · exact ih db
      · have hc := Committed_commitTesttuple_state { t with TraintupleKey := key } db k status
        revert hc
        rcases Committed.commitTesttuple { t with TraintupleKey := key } db k status
          with ⟨e, t2, d⟩
        intro hc
        cases e with
        | some err => exact hc
        | none =>
          dsimp only
          rw [ih]
          exact hc

theorem Committed_UpdateTesttupleChildren_state (db : LedgerDB) (key status : String) :
    (Committed.UpdateTesttupleChildren db key status).2.state = db.state := by
  unfold Committed.UpdateTesttupleChildren
  dsimp only
  split
  · rfl
  · exact Committed_UpdateTesttupleChildren_loop_state _ _ _ _

theorem Committed_loop_state
    (recur : LedgerDB → String → String → List String → Option (Option Error × LedgerDB))
    (hrecur : ∀ db key status already r,
      recur db key status already = some r → r.2.state = db.state)
    (key status : String) :
    ∀ (keys : List String) (db : LedgerDB) (already : List String)
      (r : Option Error × LedgerDB),
      Committed.UpdateTraintupleChildren.loop recur key status keys db already = some r →
      r.2.state = db.state := by
  intro keys
  induction keys with
  | nil =>
    intro db already r h
    simp only [Committed.UpdateTraintupleChildren.loop, Option.some.injEq] at h
    rw [← h]
  | cons c rest ih =>
    intro db already r h
    unfold Committed.UpdateTraintupleChildren.loop at h
    by_cases hin : stringInSlice c already = true
    · rw [if_pos hin] at h
      exact ih db already r h
    · rw [if_neg hin] at h
      cases hg : db.GetGenericTuple c with
      | error e =>
        simp only [hg, Option.some.injEq] at h
        rw [← h]
      | ok child =>
        simp only [hg] at h
        split at h
        · exact ih db already r h
        · split at h
          · simp only [Option.some.injEq] at h
            rw [← h]
          · have hf1 := Committed_updateChildOfType_state db child.AssetType key c status
            cases hu : Committed.updateChildOfType db child.AssetType key c status with
            | mk r1 db1 =>
              rw [hu] at h hf1
              dsimp only at hf1
              cases r1 with
              | error e =>
                simp only [Option.some.injEq] at h
                rw [← h]
                exact hf1
              | ok st =>
                dsimp only at h
                split at h
                · have hf2 := Committed_UpdateTesttupleChildren_state db1 c st
                  cases ht : Committed.UpdateTesttupleChildren db1 c st with
                  | mk e2 db2 =>
                    rw [ht] at h hf2
                    dsimp only at hf2
                    cases e2 with
                    | some err =>
                      simp only [Option.some.injEq] at h
                      rw [← h]
                      exact hf2.trans hf1
                    | none =>
                      dsimp only at h
                      cases hr : recur db2 c st (already ++ [c]) with
                      | none => rw [hr] at h; simp at h
                      | some r3 =>
                        have hf3 := hrecur db2 c st (already ++ [c]) r3 hr
                        obtain ⟨e3, db3⟩ := r3
                        rw [hr] at h
                        cases e3 with
                        | some err =>
                          simp only [Option.some.injEq] at h
                          rw [← h]
                          exact hf3.trans (hf2.trans hf1)
                        | none =>
                          dsimp only at h
                          exact (ih db3 (already ++ [c]) r h).trans
                            (hf3.trans (hf2.trans hf1))
                · exact (ih db1 (already ++ [c]) r h).trans hf1

theorem Committed_go_state :
    ∀ (n : Nat) (db : LedgerDB) (key status : String) (already : List String)
      (r : Option Error × LedgerDB),
      Committed.UpdateTraintupleChildren.go n db key status already = some r →
      r.2.state = db.state := by
  intro n
  induction n with
  | zero => intro db key status already r h; simp [Committed.UpdateTraintupleChildren.go] at h
  | succ n ih =>
    intro db key status already r h
    rw [Committed.UpdateTraintupleChildren.go] at h
    exact Committed_loop_state (Committed.UpdateTraintupleChildren.go n) ih key status _ db
      already r h

/-- On the ledger of §5 the call changes nothing that a read of the transaction
returns: every key holds the record it held. -/
theorem Committed_reads (db : LedgerDB) (key status : String) (already : List String) :
    ∀ k, (Committed.UpdateTraintupleChildren db key status already).2.Get k = db.Get k := by
  intro k
  unfold Committed.UpdateTraintupleChildren
  cases hgo : Committed.UpdateTraintupleChildren.go db.maxDepth db key status already with
  | none => rfl
  | some r =>
    dsimp only
    unfold LedgerDB.Get
    rw [Committed_go_state db.maxDepth db key status already r hgo]

theorem Committed_loop_total
    (recur : LedgerDB → String → String → List String → Option (Option Error × LedgerDB))
    (n : Nat) (db0 : LedgerDB)
    (hrecur : ∀ db key status already,
      db.indexOf "tuple~inModel~key" = db0.indexOf "tuple~inModel~key" →
      db0.fresh already < n →
      ∃ r, recur db key status already = some r ∧
        r.2.indexOf "tuple~inModel~key" = db0.indexOf "tuple~inModel~key")
    (key status : String) :
    ∀ (keys : List String) (db : LedgerDB) (already : List String),
      (∀ k ∈ keys, k ∈ db0.childKeys) →
      db.indexOf "tuple~inModel~key" = db0.indexOf "tuple~inModel~key" →
      db0.fresh already ≤ n →
      ∃ r, Committed.UpdateTraintupleChildren.loop recur key status keys db already = some r ∧
        r.2.indexOf "tuple~inModel~key" = db0.indexOf "tuple~inModel~key" := by
  intro keys
  induction keys with
  | nil => intro db already _ hidx _; exact ⟨_, rfl, hidx⟩
  | cons c rest ih =>
    intro db already hsub hidx hfresh
    have hsub' : ∀ k ∈ rest, k ∈ db0.childKeys := fun k hk => hsub k (List.mem_cons_of_mem _ hk)
    have hc : c ∈ db0.childKeys := hsub c (List.mem_cons_self _ _)
    unfold Committed.UpdateTraintupleChildren.loop
    by_cases hin : stringInSlice c already = true
    · rw [if_pos hin]; exact ih db already hsub' hidx hfresh
    · rw [if_neg hin]
      have hnot : c ∉ already := fun hmem => hin ((stringInSlice_iff _ _).2 hmem)
      cases hg : db.GetGenericTuple c with
      | error e => exact ⟨_, rfl, hidx⟩
      | ok child =>
        dsimp only
        split
        · exact ih db already hsub' hidx hfresh
        · split
          · exact ⟨_, rfl, hidx⟩
          · have hf1 := indexOf_of_indexes db _ "tuple~inModel~key"
              (Committed_updateChildOfType_indexes db child.AssetType key c status)
            cases hu : Committed.updateChildOfType db child.AssetType key c status with
            | mk r db1 =>
              rw [hu] at hf1
              have hidx1 := hf1.trans hidx
              cases r with
              | error e => exact ⟨_, rfl, hidx1⟩
              | ok st =>
                have hle : db0.fresh (already ++ [c]) ≤ n :=
                  Nat.le_trans (fresh_append_le db0 already c) hfresh
                dsimp only
                split
                · have hf2 := indexOf_of_indexes db1 _ "tuple~inModel~key"
                    (Committed_UpdateTesttupleChildren_indexes db1 c st)
                  cases ht : Committed.UpdateTesttupleChildren db1 c st with
                  | mk e2 db2 =>
                    rw [ht] at hf2
                    have hidx2 := hf2.trans hidx1
                    cases e2 with
                    | some err => exact ⟨_, rfl, hidx2⟩
                    | none =>
                      dsimp only
                      obtain ⟨r3, hr3, hidx3⟩ := hrecur db2 c st (already ++ [c]) hidx2
                        (Nat.lt_of_lt_of_le (fresh_append_lt db0 already c hc hnot) hfresh)
                      obtain ⟨e3, db3⟩ := r3
                      rw [hr3]
                      cases e3 with
                      | some err => exact ⟨_, rfl, hidx3⟩
                      | none => exact ih db3 (already ++ [c]) hsub' hidx3 hle
                · exact ih db1 (already ++ [c]) hsub' hidx1 hle

theorem Committed_go_total :
    ∀ (n : Nat) (db : LedgerDB) (key status : String) (already : List String),
      db.fresh already < n →
      ∃ r, Committed.UpdateTraintupleChildren.go n db key status already = some r ∧
        r.2.indexOf "tuple~inModel~key" = db.indexOf "tuple~inModel~key" := by
  intro n
  induction n with
  | zero => intro db key status already h; exact absurd h (Nat.not_lt_zero _)
  | succ n ih =>
    intro db key status already hfresh
    rw [Committed.UpdateTraintupleChildren.go]
    apply Committed_loop_total (Committed.UpdateTraintupleChildren.go n) n db
    · intro db2 key2 status2 already2 hidx2 hf2
      obtain ⟨r, hr, hidx⟩ := ih db2 key2 status2 already2
        (by rw [fresh_congr db db2 hidx2]; exact hf2)
      exact ⟨r, hr, hidx.trans hidx2⟩
    · exact GetIndexKeys_subset_childKeys db key
    · rfl
    · exact Nat.le_of_lt_succ hfresh

theorem Committed_go_terminates (db : LedgerDB) (key status : String)
    (already : List String) :
    ∃ r, Committed.UpdateTraintupleChildren.go db.maxDepth db key status already = some r ∧
      Committed.UpdateTraintupleChildren db key status already = r := by
  obtain ⟨r, hr, _⟩ := Committed_go_total db.maxDepth db key status already
    (fresh_lt_maxDepth db already)
  exact ⟨r, hr, by simp [Committed.UpdateTraintupleChildren, hr]⟩

/-- C29, the claim as stated fails on the ledger of §5, whose reads see the
committed state only: on the diamond A → B, A → C, B → D, C → D with A reported
failed the call succeeds, the committed ledger holds no write under D, and D is
committed twice, once below B and once below C, and so is its testtuple tD;
the event of D is emitted twice. The keys already updated below B are not
among those the loop of A hands down to C, and the second read of D sees it
waiting, as a read after the call still does. -/
theorem UpdateTraintupleChildren_committed_reads_counterexample :
    (Committed.UpdateTraintupleChildren Example.diamond "A" StatusFailed []).1 = none ∧
    Example.diamond.statusOf "D" = StatusWaiting ∧ Example.diamond.puts "D" = 0 ∧
    (Committed.UpdateTraintupleChildren Example.diamond "A" StatusFailed []).2.puts "D" = 2 ∧
    (Committed.UpdateTraintupleChildren Example.diamond "A" StatusFailed []).2.puts "tD" = 2 ∧
    (Committed.UpdateTraintupleChildren Example.diamond "A" StatusFailed []).2.tuplesEvent
      = ["B", "D", "tD", "C", "D", "tD"] ∧
    (Committed.UpdateTraintupleChildren Example.diamond "A" StatusFailed []).2.statusOf "D"
      = StatusWaiting :=
  ⟨by decide, by decide, by decide, by decide, by decide, by decide, by decide⟩

/-- C29, amended: one call of `UpdateTraintupleChildren` comes to an end within
the depth `maxDepth` of the ledger, whatever the dependency graph, both when a
read sees the earlier writes of the call and on the ledger of §5, whose reads
see the committed state only: there every key still reads as before the call.
When a read sees the earlier writes of the call, the call writes each tuple at
most once: every tuple record either is kept, nothing being written under its
key, or was live and is written exactly once, with another status from which
the call changes it no more. -/
theorem UpdateTraintupleChildren_once (db : LedgerDB) (key status : String)
    (already : List String) :
    (∃ r, UpdateTraintupleChildren.go db.maxDepth db key status already = some r ∧
      UpdateTraintupleChildren db key status already = r) ∧
    ((∃ r, Committed.UpdateTraintupleChildren.go db.maxDepth db key status already = some r ∧
        Committed.UpdateTraintupleChildren db key status already = r) ∧
      ∀ k, (Committed.UpdateTraintupleChildren db key status already).2.Get k = db.Get k) ∧
    WritesOnce db (UpdateTraintupleChildren db key status already).2 ∧
    ∀ k a, db.Get k = some a → a.isTuple = true →
      (UpdateTraintupleChildren db key status already).2.puts k ≤ db.puts k + 1 ∧
      ((UpdateTraintupleChildren db key status already).2.puts k = db.puts k →
        (UpdateTraintupleChildren db key status already).2.Get k = some a) := by
  have hone := UpdateTraintupleChildren_writes_once db key status already
  refine ⟨UpdateTraintupleChildren_go_terminates db key status already,
    ⟨Committed_go_terminates db key status already, Committed_reads db key status already⟩,
    hone, ?_⟩
  intro k a hk ha
  rcases hone k a hk ha with ⟨h1, h2⟩ | ⟨_, h2, _⟩
  · exact ⟨by omega, fun _ => h1⟩
  · exact ⟨by omega, fun h => by omega⟩

/-- On the diamond A → B, A → C, B → D, C → D with A reported failed, when a read
sees the earlier writes of the call, the call succeeds, B, C and D and the
testtuple of D are failed, and each of them has been written once. -/
theorem UpdateTraintupleChildren_once_witness :
    (UpdateTraintupleChildren Example.diamond "A" StatusFailed []).1 = none ∧
    (∀ k ∈ ["B", "C", "D", "tD"],
      (UpdateTraintupleChildren Example.diamond "A" StatusFailed []).2.statusOf k
        = StatusFailed ∧
      (UpdateTraintupleChildren Example.diamond "A" StatusFailed []).2.puts k = 1) ∧
    WritesOnce Example.diamond (UpdateTraintupleChildren Example.diamond "A" StatusFailed []).2 :=
  ⟨by decide, by decide,
    (UpdateTraintupleChildren_once Example.diamond "A" StatusFailed []).2.2.1⟩

/-! ## C27: the children that are not waiting -/

theorem UpdateTraintupleChildren_loop_skip
    (recur : LedgerDB → String → String → List String → Option (Option Error × LedgerDB))
    (key status c : String) (rest : List String) (db : LedgerDB) (already : List String)
    (child : GenericTuple) (hg : db.GetGenericTuple c = .ok child)
    (hs : child.Status = StatusFailed ∨ child.Status = StatusAborted) :
    UpdateTraintupleChildren.loop recur key status (c :: rest) db already
      = UpdateTraintupleChildren.loop recur key status rest db already := by
  have hin : stringInSlice child.Status [StatusFailed, StatusAborted] = true := by
    rcases hs with h | h <;> rw [h] <;> decide
  rw [UpdateTraintupleChildren.loop]
  split
  · rfl
  · simp only [hg, hin, if_true]

theorem UpdateTraintupleChildren_loop_refused
    (recur : LedgerDB → String → String → List String → Option (Option Error × LedgerDB))
    (key status c : String) (post : List String) (db : LedgerDB) (already : List String)
    (child : GenericTuple) (hc : c ∉ already) (hg : db.GetGenericTuple c = .ok child)
    (h1 : child.Status ≠ StatusWaiting) (h2 : child.Status ≠ StatusFailed)
    (h3 : child.Status ≠ StatusAborted) :
    ∀ pre : List String,
      (∀ k ∈ pre, k ∈ already ∨ ∃ ch, db.GetGenericTuple k = .ok ch ∧
        (ch.Status = StatusFailed ∨ ch.Status = StatusAborted)) →
      UpdateTraintupleChildren.loop recur key status (pre ++ c :: post) db already
        = some (some errors.Internal, db) := by
  intro pre
  induction pre with
  | nil =>
    intro _
    have hnot : stringInSlice c already = false := by simpa [stringInSlice] using hc
    have hin : stringInSlice child.Status [StatusFailed, StatusAborted] = false := by
      simp [stringInSlice, h2, h3]
    simp only [List.nil_append]
    rw [UpdateTraintupleChildren.loop]
    simp [hnot, hg, hin, h1]
  | cons k pre ih =>
    intro hpre
    have hrest := ih (fun k2 hk2 => hpre k2 (List.mem_cons_of_mem _ hk2))
    simp only [List.cons_append]
    rcases hpre k (List.mem_cons_self _ _) with hk | ⟨ch, hch, hs⟩
    · have hyes : stringInSlice k already = true := by simpa [stringInSlice] using hk
      rw [UpdateTraintupleChildren.loop]
      simp only [hyes, if_true]
      exact hrest
    · rw [UpdateTraintupleChildren_loop_skip recur key status k _ db already ch hch hs]
      exact hrest

/-- C27, the claim as stated fails: A is done and so is its child B; the call for
the parent A reported done does not skip B but fails with an internal error. -/
theorem UpdateTraintupleChildren_done_child_counterexample :
    Example.doneChild.GetIndexKeys "tuple~inModel~key" ["tuple", "A"] = ["B"] ∧
    Example.doneChild.statusOf "B" = StatusDone ∧
    UpdateTraintupleChildren Example.doneChild "A" StatusDone []
      = (some errors.Internal, Example.doneChild) :=
  ⟨by decide, by decide, rfl⟩

/-- C27, amended: `UpdateTraintupleChildren` acts only on waiting children. A
training tuple that is not waiting is stored as before after the call and
nothing is written under its key; a child that is failed or aborted is skipped,
the loop going on with the next child; a child in any other status than
waiting, done included, ends the call with an internal error when the loop
reaches it, the ledger being as the call received it when the children before
it were skipped. -/
theorem UpdateTraintupleChildren_not_waiting (db : LedgerDB) (key status : String)
    (already : List String) :
    (∀ k a, db.Get k = some a → a.isTraining = true → a.status ≠ StatusWaiting →
      (UpdateTraintupleChildren db key status already).2.Get k = some a ∧
      (UpdateTraintupleChildren db key status already).2.puts k = db.puts k) ∧
    (∀ (recur : LedgerDB → String → String → List String → Option (Option Error × LedgerDB))
        (c : String) (rest : List String) (db1 : LedgerDB) (already1 : List String)
        (child : GenericTuple),
      db1.GetGenericTuple c = .ok child →
      (child.Status = StatusFailed ∨ child.Status = StatusAborted) →
      UpdateTraintupleChildren.loop recur key status (c :: rest) db1 already1
        = UpdateTraintupleChildren.loop recur key status rest db1 already1) ∧
    (∀ (pre post : List String) (c : String) (child : GenericTuple),
      db.GetIndexKeys "tuple~inModel~key" ["tuple", key] = pre ++ c :: post →
      (∀ k ∈ pre, k ∈ already ∨ ∃ ch, db.GetGenericTuple k = .ok ch ∧
        (ch.Status = StatusFailed ∨ ch.Status = StatusAborted)) →
      c ∉ already → db.GetGenericTuple c = .ok child →
      child.Status ≠ StatusWaiting → child.Status ≠ StatusFailed →
      child.Status ≠ StatusAborted →
      UpdateTraintupleChildren db key status already = (some errors.Internal, db)) := by
  refine ⟨?_, ?_, ?_⟩
  · intro k a hk htr hs
    have hone := UpdateTraintupleChildren_writes_once db key status already
    rcases hone k a hk (by simp [Asset.isTuple, htr]) with h | ⟨hl, _⟩
    · exact h
    · have : a.live = false := by
        simp [Asset.live, htr, isTest_of_isTraining htr, hs]
      rw [this] at hl
      exact absurd hl (by decide)
  · intro recur c rest db1 already1 child hg hs
    exact UpdateTraintupleChildren_loop_skip recur key status c rest db1 already1 child hg hs
  · intro pre post c child hkeys hpre hc hg h1 h2 h3
    unfold UpdateTraintupleChildren LedgerDB.maxDepth
    rw [UpdateTraintupleChildren.go]
    rw [hkeys, UpdateTraintupleChildren_loop_refused _ key status c post db already child hc hg
      h1 h2 h3 pre hpre]

/-- On the ledger `Example.skipped`, where the only child X of A is aborted, the
call for A reported failed skips X: it returns no error and the ledger as it
was. On the ledger `Example.doneChild` the done child B ends the call with an
internal error. -/
theorem UpdateTraintupleChildren_not_waiting_witness :
    UpdateTraintupleChildren Example.skipped "A" StatusFailed [] = (none, Example.skipped) ∧
    ((UpdateTraintupleChildren Example.skipped "A" StatusFailed []).2.Get "X"
        = some (.traintuple { Example.train "X" "aborted" ["A"] "cp" with Rank := 1 }) ∧
      (UpdateTraintupleChildren Example.skipped "A" StatusFailed []).2.puts "X"
        = Example.skipped.puts "X") ∧
    UpdateTraintupleChildren Example.doneChild "A" StatusDone []
      = (some errors.Internal, Example.doneChild) :=
  ⟨rfl,
    (UpdateTraintupleChildren_not_waiting Example.skipped "A" StatusFailed []).1 "X" _ rfl rfl
      (by decide),
    (UpdateTraintupleChildren_not_waiting Example.doneChild "A" StatusDone []).2.2 [] [] "B"
      (Asset.traintuple (Example.train "B" "done" ["A"] "")).toGenericTuple (by decide)
      (fun k hk => absurd hk (List.not_mem_nil _)) (by decide) rfl (by decide) (by decide)
      (by decide)⟩

/-! ## C30: what a creation that fails has written -/

theorem OnlyPlanWrites_refl (db : LedgerDB) : OnlyPlanWrites db db :=
  ⟨rfl, rfl, ⟨[], by simp, fun _ h => absurd h (List.not_mem_nil _)⟩, fun _ => Or.inl rfl⟩

theorem OnlyPlanWrites_trans {db1 db2 db3 : LedgerDB} (h12 : OnlyPlanWrites db1 db2)
    (h23 : OnlyPlanWrites db2 db3) : OnlyPlanWrites db1 db3 := by
  obtain ⟨i1, e1, ⟨ws1, hw1, hp1⟩, g1⟩ := h12
  obtain ⟨i2, e2, ⟨ws2, hw2, hp2⟩, g2⟩ := h23
  refine ⟨i2.trans i1, e2.trans e1, ⟨ws1 ++ ws2, ?_, ?_⟩, ?_⟩
  · rw [hw2, hw1, List.append_assoc]
  · intro w hw
    rcases List.mem_append.1 hw with h | h
    · exact hp1 w h
    · exact hp2 w h
  · intro k
    rcases g2 k with h | h
    · rcases g1 k with h1 | h1
      · exact Or.inl (h.trans h1)
      · right
        rw [h]
        exact h1
    · exact Or.inr h

theorem OnlyPlanWrites_Put (db : LedgerDB) (key : String) (a : Asset)
    (ha : a.isPlanRecord = true) : OnlyPlanWrites db (db.Put key a) := by
  refine ⟨rfl, rfl, ⟨[Write.PutState key a], rfl, ?_⟩, ?_⟩
  · intro w hw
    simp only [List.mem_singleton] at hw
    subst hw
    exact ha
  · intro k
    by_cases hk : k = key
    · right
      exact ⟨a, by simp [hk], ha⟩
    · left
      simp [hk]

theorem OnlyPlanWrites_Put_workerState (db : LedgerDB) (key : String)
    (s : ComputePlanWorkerState) :
    OnlyPlanWrites db (db.Put key (.computePlanWorkerState s)) :=
  OnlyPlanWrites_Put db key _ rfl

theorem OnlyPlanWrites_Put_planState (db : LedgerDB) (key : String) (s : ComputePlanState) :
    OnlyPlanWrites db (db.Put key (.computePlanState s)) :=
  OnlyPlanWrites_Put db key _ rfl

theorem AddTuple_onlyPlanWrites (cp : ComputePlan) (db : LedgerDB) (tupleType : AssetType)
    (key status worker : String) :
    OnlyPlanWrites db (cp.AddTuple db tupleType key status worker).2.2 := by
  unfold ComputePlan.AddTuple
  dsimp only
  repeat' split
  all_goals first
    | exact OnlyPlanWrites_refl db
    | exact OnlyPlanWrites_Put_workerState _ _ _
    | exact OnlyPlanWrites_trans (OnlyPlanWrites_Put_workerState _ _ _)
        (OnlyPlanWrites_Put_planState _ _ _)

theorem AddToComputePlan_onlyPlanWrites (t : Traintuple) (db : LedgerDB) (inp : inputTraintuple)
    (key : String) (check : Bool) :
    OnlyPlanWrites db (t.AddToComputePlan db inp key check).2.2 ∧
    (inp.Rank = "" → (t.AddToComputePlan db inp key check).2.2 = db) ∧
    ((∀ cp, db.GetComputePlan inp.ComputePlanKey ≠ .ok cp) →
      (t.AddToComputePlan db inp key check).2.2 = db) := by
  unfold Traintuple.AddToComputePlan
  by_cases hr : inp.Rank = ""
  · rw [if_pos hr]
    split <;> exact ⟨OnlyPlanWrites_refl db, fun _ => rfl, fun _ => rfl⟩
  · rw [if_neg hr]
    cases ha : strconv.Atoi inp.Rank with
    | error err => exact ⟨OnlyPlanWrites_refl db, fun _ => rfl, fun _ => rfl⟩
    | ok rank =>
      dsimp only
      cases hg : db.GetComputePlan inp.ComputePlanKey with
      | error err => exact ⟨OnlyPlanWrites_refl db, fun _ => rfl, fun _ => rfl⟩
      | ok computePlan =>
        dsimp only
        have hadd := AddTuple_onlyPlanWrites computePlan db TraintupleType key t.Status
          t.Dataset.Worker
        refine ⟨?_, fun h => absurd h hr, fun h => absurd rfl (h computePlan)⟩
        revert hadd
        rcases computePlan.AddTuple db TraintupleType key t.Status t.Dataset.Worker
          with ⟨e, cp2, db2⟩
        intro hadd
        cases e with
        | some err => exact hadd
        | none =>
          dsimp only
          have hsave : OnlyPlanWrites db (cp2.Save db2 inp.ComputePlanKey) := by
            refine OnlyPlanWrites_trans hadd ?_
            apply OnlyPlanWrites_Put
            rfl
          split
          · exact hsave
          · split <;> exact hsave

theorem OnlyIndexWrites_refl (db : LedgerDB) : OnlyIndexWrites db db :=
  ⟨fun _ => rfl, rfl, ⟨[], by simp, fun _ h => absurd h (List.not_mem_nil _)⟩, rfl, rfl⟩

theorem OnlyIndexWrites_trans {db1 db2 db3 : LedgerDB} (h12 : OnlyIndexWrites db1 db2)
    (h23 : OnlyIndexWrites db2 db3) : OnlyIndexWrites db1 db3 := by
  obtain ⟨g1, e1, ⟨ws1, hw1, hp1⟩, i1, r1⟩ := h12
  obtain ⟨g2, e2, ⟨ws2, hw2, hp2⟩, i2, r2⟩ := h23
  refine ⟨fun k => (g2 k).trans (g1 k), e2.trans e1, ⟨ws1 ++ ws2, ?_, ?_⟩, i2.trans i1,
    r2.trans r1⟩
  · rw [hw2, hw1, List.append_assoc]
  · intro w hw
    rcases List.mem_append.1 hw with h | h
    · exact hp1 w h
    · exact hp2 w h

theorem OnlyIndexWrites_CreateIndex (db : LedgerDB) (index : String) (attributes : List String) :
    OnlyIndexWrites db (db.CreateIndex index attributes) := by
  refine ⟨fun _ => rfl, rfl, ⟨[Write.PutIndex ⟨index, attributes⟩], rfl, ?_⟩, rfl, rfl⟩
  intro w hw
  simp only [List.mem_singleton] at hw
  subst hw
  rfl

theorem TryCreateIndex_step (db db2 : LedgerDB) (index : String) (attributes : List String)
    (e : Option Error) (h : db.TryCreateIndex index attributes = (e, db2)) :
    OnlyIndexWrites db db2 ∧ ∀ err, e = some err → ∃ x, db.refusedIndex x = some err := by
  cases e with
  | none =>
    rw [TryCreateIndex_none db db2 index attributes h]
    exact ⟨OnlyIndexWrites_CreateIndex db index attributes, fun err he => by cases he⟩
  | some err0 =>
    obtain ⟨hd, hr⟩ := TryCreateIndex_some db db2 index attributes err0 h
    rw [hd]
    refine ⟨OnlyIndexWrites_refl db, ?_⟩
    intro err he
    cases he
    exact ⟨_, hr⟩

theorem Save_loop_step (key : String) :
    ∀ (inModelKeys : List String) (db db2 : LedgerDB) (e : Option Error),
      Traintuple.Save.loop key inModelKeys db = (e, db2) →
      OnlyIndexWrites db db2 ∧ ∀ err, e = some err → ∃ x, db.refusedIndex x = some err := by
  intro inModelKeys
  induction inModelKeys with
  | nil =>
    intro db db2 e h
    unfold Traintuple.Save.loop at h
    simp only [Prod.mk.injEq] at h
    rw [← h.1, ← h.2]
    exact ⟨OnlyIndexWrites_refl db, fun err he => by cases he⟩
  | cons x rest ih =>
    intro db db2 e h
    unfold Traintuple.Save.loop at h
    rcases h1 : db.TryCreateIndex "tuple~inModel~key" ["tuple", x, key] with ⟨e1, d1⟩
    rw [h1] at h
    obtain ⟨hw1, hr1⟩ := TryCreateIndex_step db d1 _ _ e1 h1
    cases e1 with
    | some err1 =>
      simp only [Prod.mk.injEq] at h
      rw [← h.1, ← h.2]
      exact ⟨hw1, hr1⟩
    | none =>
      dsimp only at h
      obtain ⟨hw2, hr2⟩ := ih d1 db2 e h
      refine ⟨OnlyIndexWrites_trans hw1 hw2, ?_⟩
      intro err he
      obtain ⟨y, hy⟩ := hr2 err he
      rw [hw1.2.2.2.1] at hy
      exact ⟨y, hy⟩

/-- Whatever `Save` returns after the record was stored, only composite keys were
written after it; an error is then the refusal of the host. -/
theorem Save_step (t : Traintuple) (db db2 : LedgerDB) (key : String) (e : Option Error)
    (h : t.Save db key = (e, db2)) (hk : db.KeyExists key = false) :
    OnlyIndexWrites (db.Put key (.traintuple t)) db2 ∧
    ∀ err, e = some err → ∃ x, db.refusedIndex x = some err := by
  unfold Traintuple.Save LedgerDB.Add at h
  simp only [hk, Bool.false_eq_true, if_false] at h
  have close : ∀ (d : LedgerDB) (e0 : Option Error) (d2 : LedgerDB),
      OnlyIndexWrites (db.Put key (.traintuple t)) d →
      OnlyIndexWrites d d2 ∧ (∀ err, e0 = some err → ∃ x, d.refusedIndex x = some err) →
      OnlyIndexWrites (db.Put key (.traintuple t)) d2 ∧
      ∀ err, e0 = some err → ∃ x, db.refusedIndex x = some err := by
    intro d e0 d2 hd hstep
    refine ⟨OnlyIndexWrites_trans hd hstep.1, ?_⟩
    intro err he
    obtain ⟨y, hy⟩ := hstep.2 err he
    rw [hd.2.2.2.1] at hy
    exact ⟨y, hy⟩
  have h0 : OnlyIndexWrites (db.Put key (.traintuple t)) (db.Put key (.traintuple t)) :=
    OnlyIndexWrites_refl _
  rcases h1 : (db.Put key (.traintuple t)).TryCreateIndex "traintuple~algo~key"
    ["traintuple", t.AlgoKey, key] with ⟨e1, d1⟩
  rw [h1] at h
  have s1 := close _ e1 d1 h0 (TryCreateIndex_step _ _ _ _ _ h1)
  cases e1 with
  | some err1 =>
    simp only [Prod.mk.injEq] at h
    rw [← h.1, ← h.2]
    exact s1
  | none =>
    dsimp only at h
    rcases h2 : d1.TryCreateIndex "traintuple~worker~status~key"
      ["traintuple", t.Dataset.Worker, t.Status, key] with ⟨e2, d2⟩
    rw [h2] at h
    have s2 := close _ e2 d2 s1.1 (TryCreateIndex_step _ _ _ _ _ h2)
    cases e2 with
    | some err2 =>
      simp only [Prod.mk.injEq] at h
      rw [← h.1, ← h.2]
      exact s2
    | none =>
      dsimp only at h
      rcases h3 : Traintuple.Save.loop key t.InModelKeys d2 with ⟨e3, d3⟩
      rw [h3] at h
      have s3 := close _ e3 d3 s2.1 (Save_loop_step key _ _ _ _ h3)
      cases e3 with
      | some err3 =>
        simp only [Prod.mk.injEq] at h
        rw [← h.1, ← h.2]
        exact s3
      | none =>
        dsimp only at h
        have tag : ∀ (d : LedgerDB), OnlyIndexWrites (db.Put key (.traintuple t)) d →
            (if t.Tag ≠ "" then
                d.TryCreateIndex "traintuple~tag~key" ["traintuple", t.Tag, key]
              else (none, d)) = (e, db2) →
            OnlyIndexWrites (db.Put key (.traintuple t)) db2 ∧
            ∀ err, e = some err → ∃ x, db.refusedIndex x = some err := by
          intro d hd ht
          by_cases htag : t.Tag = ""
          · simp only [htag, ne_eq, not_true_eq_false, if_false, Prod.mk.injEq] at ht
            rw [← ht.1, ← ht.2]
            exact ⟨hd, fun err he => by cases he⟩
          · simp only [htag, ne_eq, not_false_eq_true, if_true] at ht
            exact close _ e db2 hd (TryCreateIndex_step _ _ _ _ _ ht)
        by_cases hc : t.ComputePlanKey = ""
        · simp only [hc, ne_eq, not_true_eq_false, if_false] at h
          exact tag d3 s3.1 (by simpa [hc] using h)
        · simp only [hc, ne_eq, not_false_eq_true, if_true] at h
          rcases h4 : d3.TryCreateIndex "computePlan~computeplankey~worker~rank~key"
            ["computePlan", t.ComputePlanKey, t.Dataset.Worker, strconv.Itoa t.Rank, key]
            with ⟨e4, d4⟩
          rw [h4] at h
          have s4 := close _ e4 d4 s3.1 (TryCreateIndex_step _ _ _ _ _ h4)
          cases e4 with
          | some err4 =>
            simp only [Prod.mk.injEq] at h
            rw [← h.1, ← h.2]
            exact s4
          | none =>
            dsimp only at h
            rcases h5 : d4.TryCreateIndex "algo~computeplankey~key"
              ["algo", t.ComputePlanKey, t.AlgoKey] with ⟨e5, d5⟩
            rw [h5] at h
            have s5 := close _ e5 d5 s4.1 (TryCreateIndex_step _ _ _ _ _ h5)
            cases e5 with
            | some err5 =>
              simp only [Prod.mk.injEq] at h
              rw [← h.1, ← h.2]
              exact s5
            | none =>
              dsimp only at h
              exact tag d5 s5.1 h

theorem Save_conflict (t : Traintuple) (db : LedgerDB) (key : String)
    (hk : db.KeyExists key = true) :
    t.Save db key = (some (errors.Conflict.WithKey key), db) := by
  unfold Traintuple.Save LedgerDB.Add
  simp [hk]

theorem AddTuple_host (cp : ComputePlan) (db : LedgerDB) (tupleType : AssetType)
    (key status worker : String) :
    (cp.AddTuple db tupleType key status worker).2.2.refusedIndex = db.refusedIndex ∧
    (cp.AddTuple db tupleType key status worker).2.2.refusedEvent = db.refusedEvent := by
  unfold ComputePlan.AddTuple
  dsimp only
  repeat' split
  all_goals exact ⟨rfl, rfl⟩

theorem AddToComputePlan_host (t : Traintuple) (db : LedgerDB) (inp : inputTraintuple)
    (key : String) (check : Bool) :
    (t.AddToComputePlan db inp key check).2.2.refusedIndex = db.refusedIndex ∧
    (t.AddToComputePlan db inp key check).2.2.refusedEvent = db.refusedEvent := by
  unfold Traintuple.AddToComputePlan
  by_cases hr : inp.Rank = ""
  · rw [if_pos hr]
    split <;> exact ⟨rfl, rfl⟩
  · rw [if_neg hr]
    cases ha : strconv.Atoi inp.Rank with
    | error err => exact ⟨rfl, rfl⟩
    | ok rank =>
      dsimp only
      cases hg : db.GetComputePlan inp.ComputePlanKey with
      | error err => exact ⟨rfl, rfl⟩
      | ok computePlan =>
        dsimp only
        have hadd := AddTuple_host computePlan db TraintupleType key t.Status t.Dataset.Worker
        revert hadd
        rcases computePlan.AddTuple db TraintupleType key t.Status t.Dataset.Worker
          with ⟨e, cp2, db2⟩
        intro hadd
        cases e with
        | some err => exact hadd
        | none =>
          dsimp only
          have hsave : (cp2.Save db2 inp.ComputePlanKey).refusedIndex = db.refusedIndex ∧
              (cp2.Save db2 inp.ComputePlanKey).refusedEvent = db.refusedEvent := hadd
          split
          · exact hsave
          · split <;> exact hsave

/-- C30, the claim as stated fails, on two kinds of error. The plan cp of the
ledger `afterFirst` holds a traintuple of worker A at rank "2"; the creation of
N2 at the same rank is rejected by the availability check with a bad request,
after two writes, one of them the plan record under cp, which now lists N2. On
the ledger `refusingEvents` the host refuses the tuple event: the creation of A
returns the internal error of the host after the record A and its composite
keys were written. -/
theorem createTraintupleInternal_atomic_counterexample :
    ((createTraintupleInternal Example.afterFirst (Example.inputRank "N2" "2") true).1
        = .error errors.BadRequest ∧
      (createTraintupleInternal Example.afterFirst (Example.inputRank "N2" "2")
          true).2.writes.length = Example.afterFirst.writes.length + 2 ∧
      (createTraintupleInternal Example.afterFirst (Example.inputRank "N2" "2") true).2.puts "cp"
        = Example.afterFirst.puts "cp" + 1 ∧
      (Example.afterFirst.GetComputePlan "cp").toOption.map (fun cp => cp.TraintupleKeys)
        = some ["P", "Q", "N1"] ∧
      ((createTraintupleInternal Example.afterFirst (Example.inputRank "N2" "2")
          true).2.GetComputePlan "cp").toOption.map (fun cp => cp.TraintupleKeys)
        = some ["P", "Q", "N1", "N2"]) ∧
    ((createTraintupleInternal Example.refusingEvents Example.inputA true).1
        = .error errors.Internal ∧
      Example.refusingEvents.KeyExists "A" = false ∧
      (createTraintupleInternal Example.refusingEvents Example.inputA true).2.KeyExists "A"
        = true ∧
      (createTraintupleInternal Example.refusingEvents Example.inputA true).2.writes.length
        = Example.refusingEvents.writes.length + 3) :=
  ⟨⟨rfl, by decide, by decide, by decide, by decide⟩, rfl, by decide, by decide, by decide⟩

/-- C30, amended: when `createTraintupleInternal` returns an error, no event has
been emitted, and one of two holds. Either the only writes are records of the
bookkeeping of the compute plan, which `AddToComputePlan` writes before the
availability check: no traintuple is stored, no index entry is written, and the
ledger is as the call received it when the input has no rank or names no
compute plan that can be read. Or the error is the one with which the host
refuses a composite key of `Save` or the tuple event: then the key of the input
was fresh, and after the records of the compute plan the traintuple record was
written under it, followed by composite keys only. With a host that refuses
nothing it is the first. -/
theorem createTraintupleInternal_error_writes (db : LedgerDB) (inp : inputTraintuple)
    (check : Bool) (err : Error) (db1 : LedgerDB)
    (h : createTraintupleInternal db inp check = (.error err, db1)) :
    db1.tuplesEvent = db.tuplesEvent ∧
    ((OnlyPlanWrites db db1 ∧
        (∀ k t, db1.Get k = some (.traintuple t) → db.Get k = some (.traintuple t)) ∧
        (inp.Rank = "" → db1 = db) ∧
        ((∀ cp, db.GetComputePlan inp.ComputePlanKey ≠ .ok cp) → db1 = db)) ∨
      (((∃ e, db.refusedIndex e = some err) ∨ db.refusedEvent inp.Key = some err) ∧
        db.KeyExists inp.Key = false ∧
        ∃ t dbs, OnlyPlanWrites db dbs ∧ dbs.KeyExists inp.Key = false ∧
          OnlyIndexWrites (dbs.Put inp.Key (.traintuple t)) db1)) ∧
    ((∀ e, db.refusedIndex e = none) → (∀ k, db.refusedEvent k = none) →
      OnlyPlanWrites db db1 ∧
      (∀ k t, db1.Get k = some (.traintuple t) → db.Get k = some (.traintuple t)) ∧
      (inp.Rank = "" → db1 = db) ∧
      ((∀ cp, db.GetComputePlan inp.ComputePlanKey ≠ .ok cp) → db1 = db)) := by
  have first : ∀ d : LedgerDB, OnlyPlanWrites db d → (inp.Rank = "" → d = db) →
      ((∀ cp, db.GetComputePlan inp.ComputePlanKey ≠ .ok cp) → d = db) →
      OnlyPlanWrites db d ∧
      (∀ k t, d.Get k = some (.traintuple t) → db.Get k = some (.traintuple t)) ∧
      (inp.Rank = "" → d = db) ∧
      ((∀ cp, db.GetComputePlan inp.ComputePlanKey ≠ .ok cp) → d = db) := by
    intro d hp hr hc
    refine ⟨hp, ?_, hr, hc⟩
    intro k t hget
    rcases hp.2.2.2 k with h1 | ⟨v, hv, hpl⟩
    · rw [← h1]
      exact hget
    · rw [hget] at hv
      cases hv
      exact absurd hpl (by simp [Asset.isPlanRecord])
  have key : db1.tuplesEvent = db.tuplesEvent ∧
      ((OnlyPlanWrites db db1 ∧
          (∀ k t, db1.Get k = some (.traintuple t) → db.Get k = some (.traintuple t)) ∧
          (inp.Rank = "" → db1 = db) ∧
          ((∀ cp, db.GetComputePlan inp.ComputePlanKey ≠ .ok cp) → db1 = db)) ∨
        (((∃ e, db.refusedIndex e = some err) ∨ db.refusedEvent inp.Key = some err) ∧
          db.KeyExists inp.Key = false ∧
          ∃ t dbs, OnlyPlanWrites db dbs ∧ dbs.KeyExists inp.Key = false ∧
            OnlyIndexWrites (dbs.Put inp.Key (.traintuple t)) db1)) := by
    unfold createTraintupleInternal at h
    dsimp only at h
    cases h1 : Traintuple.zero.SetFromInput db inp with
    | error e =>
      simp only [h1, Prod.mk.injEq] at h
      rw [← h.2]
      exact ⟨rfl, Or.inl (first db (OnlyPlanWrites_refl db) (fun _ => rfl) (fun _ => rfl))⟩
    | ok t1 =>
      simp only [h1] at h
      cases h2 : t1.SetFromParents db inp.InModels with
      | error e =>
        simp only [h2, Prod.mk.injEq] at h
        rw [← h.2]
        exact ⟨rfl, Or.inl (first db (OnlyPlanWrites_refl db) (fun _ => rfl) (fun _ => rfl))⟩
      | ok t2 =>
        simp only [h2] at h
        have hkey2 : t2.Key = inp.Key := by
          rw [SetFromParents_Key t1 t2 db inp.InModels h2, SetFromInput_Key _ t1 db inp h1]
        cases hk : db.KeyExists t2.Key with
        | true =>
          simp only [hk, if_true, Prod.mk.injEq] at h
          rw [← h.2]
          exact ⟨rfl, Or.inl (first db (OnlyPlanWrites_refl db) (fun _ => rfl) (fun _ => rfl))⟩
        | false =>
          simp only [hk, Bool.false_eq_true, if_false] at h
          have hadd := AddToComputePlan_onlyPlanWrites t2 db inp t2.Key check
          have hhost := AddToComputePlan_host t2 db inp t2.Key check
          rcases h3 : t2.AddToComputePlan db inp t2.Key check with ⟨e, t3, db2⟩
          rw [h3] at h hadd hhost
          dsimp only at hadd hhost
          cases e with
          | some e2 =>
            simp only [Prod.mk.injEq] at h
            rw [← h.2]
            exact ⟨hadd.1.2.1, Or.inl (first db2 hadd.1 hadd.2.1 hadd.2.2)⟩
          | none =>
            dsimp only at h
            have hkey3 : t3.Key = inp.Key :=
              (AddToComputePlan_ok t2 t3 db db2 inp t2.Key check h3).1.trans hkey2
            rw [hkey3] at h
            rw [hkey2] at hk
            rcases hs : t3.Save db2 inp.Key with ⟨e3, db3⟩
            rw [hs] at h
            cases hk2 : db2.KeyExists inp.Key with
            | true =>
              rw [Save_conflict t3 db2 inp.Key hk2] at hs
              simp only [Prod.mk.injEq] at hs
              rw [← hs.1, ← hs.2] at h
              simp only [Prod.mk.injEq] at h
              rw [← h.2]
              exact ⟨hadd.1.2.1, Or.inl (first db2 hadd.1 hadd.2.1 hadd.2.2)⟩
            | false =>
              obtain ⟨hw, hr⟩ := Save_step t3 db2 db3 inp.Key e3 hs hk2
              cases e3 with
              | some e4 =>
                simp only [Prod.mk.injEq, Except.error.injEq] at h
                rw [← h.2, ← h.1]
                refine ⟨hw.2.1.trans hadd.1.2.1, Or.inr ⟨Or.inl ?_, hk, t3, db2, hadd.1, hk2, hw⟩⟩
                obtain ⟨x, hx⟩ := hr e4 rfl
                rw [hhost.1] at hx
                exact ⟨x, hx⟩
              | none =>
                dsimp only at h
                rcases h5 : db3.TryAddTupleEvent inp.Key with ⟨e5, db4⟩
                rw [h5] at h
                cases e5 with
                | none => simp at h
                | some e6 =>
                  obtain ⟨hd, hre⟩ := TryAddTupleEvent_some db3 db4 inp.Key e6 h5
                  simp only [Prod.mk.injEq, Except.error.injEq] at h
                  rw [← h.2, ← h.1, hd]
                  refine ⟨hw.2.1.trans hadd.1.2.1,
                    Or.inr ⟨Or.inr ?_, hk, t3, db2, hadd.1, hk2, hw⟩⟩
                  rw [← hhost.2]
                  rw [hw.2.2.2.2] at hre
                  exact hre
  refine ⟨key.1, key.2, ?_⟩
  intro hi he
  rcases key.2 with ha | ⟨hb, _⟩
  · exact ha
  · rcases hb with ⟨x, hx⟩ | hx
    · rw [hi x] at hx
      cases hx
    · rw [he inp.Key] at hx
      cases hx

/-- The rejected creation of N2 on the ledger `afterFirst`, whose host refuses
nothing, has written records of the compute plan only and has stored no
traintuple under N2; the creation of a traintuple under the existing key A,
without a rank, leaves the ledger as it was; the creation of A refused on
`refusingStatusKeys` has emitted no event. -/
theorem createTraintupleInternal_error_writes_witness :
    (OnlyPlanWrites Example.afterFirst
        (createTraintupleInternal Example.afterFirst (Example.inputRank "N2" "2") true).2 ∧
      (createTraintupleInternal Example.afterFirst (Example.inputRank "N2" "2") true).2.Get "N2"
        = none) ∧
    (createTraintupleInternal Example.chain Example.inputA true).2 = Example.chain ∧
    ((createTraintupleInternal Example.refusingStatusKeys Example.inputA true).1
        = .error errors.Internal ∧
      (createTraintupleInternal Example.refusingStatusKeys Example.inputA true).2.tuplesEvent
        = Example.refusingStatusKeys.tuplesEvent) :=
  ⟨⟨((createTraintupleInternal_error_writes Example.afterFirst (Example.inputRank "N2" "2") true
      errors.BadRequest _ rfl).2.2 (fun _ => rfl) (fun _ => rfl)).1, by decide⟩,
    ((createTraintupleInternal_error_writes Example.chain Example.inputA true
      (errors.Conflict.WithKey "A") _ rfl).2.2 (fun _ => rfl) (fun _ => rfl)).2.2.1 rfl,
    rfl,
    (createTraintupleInternal_error_writes Example.refusingStatusKeys Example.inputA true
      errors.Internal _ rfl).1⟩

end Chaincode
